import Mathlib

/-!
Wukong query engine: shallow embedding of `core/engine.hpp`.

The embedding follows the C++ source function by function.  Vertex IDs (`sid_t`) are
natural numbers, signed IDs (`ssid_t`, negative for pattern variables) are integers.
A function that can hit an assertion or read outside a vector returns `Option`,
with `none` standing for the aborted run.  Loops are folds over the index range they
walk, or recursions with the loop variable as argument.

`query.hpp`, `gstore.hpp`, `mymath.hpp` and `config.hpp` are used by the engine but are
not part of the sources at hand: the graph store and the configuration are taken as
parameters (`GStore`, `Global`), the small accessors of `SPARQLQuery::Result` are
modelled from the specification and marked as such.  The same holds for
`str_server.hpp`, `type.hpp` and the regular expression library: the filter pass and
ORDER BY take the string dictionary, the matcher and `BLANK_ID` as parameters
(`FilterEnv`).
-/

namespace Wukong

/-! ## Data model -/

/-- Vertex / predicate identifier (`sid_t`, unsigned). -/
abbrev sid_t := Nat

/-- Signed identifier (`ssid_t`): constants are non-negative, variables negative. -/
abbrev ssid_t := Int

/-- Edge direction (`dir_t`). -/
inductive dir_t where
  | IN
  | OUT
  deriving DecidableEq, Repr

/-- Typed attribute value (`attr_t`, a variant of int, float and double); floating
point payloads are kept as their bit patterns since the engine only copies them. -/
inductive attr_t where
  | int (v : Int)
  | float (bits : Nat)
  | double (bits : Nat)
  deriving DecidableEq, Repr

/-- Modelled from the spec: one triple pattern of a query (`SPARQLQuery::Pattern` of
`query.hpp`), with the fields the engine reads. -/
structure Pattern where
  subject : ssid_t
  predicate : ssid_t
  direction : dir_t
  object : ssid_t
  pred_type : Int := 0
  deriving DecidableEq, Repr

/-- Modelled from the spec: kind tag of a filter node (`SPARQLQuery::Filter::Type` of
`query.hpp`), with the kinds the engine names.  The engine relies on `And`, `Or`
being the codes 0 and 1 and the six comparators being 2 to 7. -/
inductive FilterType where
  | And
  | Or
  | Equal
  | NotEqual
  | Less
  | LessOrEqual
  | Greater
  | GreaterOrEqual
  | Builtin_bound
  | Builtin_isiri
  | Builtin_isliteral
  | Builtin_regex
  | Variable
  | Literal
  deriving DecidableEq, Repr

/-- Modelled from the spec: filter expression tree (`SPARQLQuery::Filter` of
`query.hpp`); `arg1`, `arg2`, `arg3` are the possibly null child pointers. -/
inductive Filter where
  | mk (type : FilterType) (arg1 arg2 arg3 : Option Filter) (value : String)
      (valueArg : ssid_t)

/-- Modelled from the spec: pattern group (`SPARQLQuery::PatternGroup` of `query.hpp`),
the basic patterns, the filters and the nested OPTIONAL and UNION groups. -/
inductive PatternGroup where
  | mk (patterns : List Pattern) (filters : List Filter)
      (optional : List PatternGroup) (unions : List PatternGroup)

/-- Field `patterns` of a pattern group. -/
def PatternGroup.patterns : PatternGroup → List Pattern
  | .mk p _ _ _ => p

/-- Field `filters` of a pattern group. -/
def PatternGroup.filters : PatternGroup → List Filter
  | .mk _ f _ _ => f

/-- Field `optional` of a pattern group. -/
def PatternGroup.optional : PatternGroup → List PatternGroup
  | .mk _ _ o _ => o

/-- Field `unions` of a pattern group. -/
def PatternGroup.unions : PatternGroup → List PatternGroup
  | .mk _ _ _ u => u

/-- Modelled from the spec: one ORDER BY entry (`SPARQLQuery::Order` of `query.hpp`). -/
structure Order where
  id : ssid_t
  descending : Bool
  deriving DecidableEq, Repr

/-- Modelled from the spec: result of a query (`SPARQLQuery::Result` of `query.hpp`), a
flat row-major table of vertex IDs, a parallel attribute table, the column
counts, the row count, the variable-to-column map, the blind flag and the
projection list.  A freshly constructed result is empty. -/
structure Result where
  col_num : Nat := 0
  row_num : Nat := 0
  attr_col_num : Nat := 0
  blind : Bool := false
  nvars : Nat := 0
  required_vars : List ssid_t := []
  v2c_map : List (ssid_t × Int) := []
  result_table : List sid_t := []
  attr_res_table : List attr_t := []
  deriving DecidableEq, Repr

/-- Modelled from the spec: the query object passed through the engine (`SPARQLQuery`
of `query.hpp`) with the control fields the engine reads and writes.  The field
defaults stand for a freshly constructed query. -/
structure SPARQLQuery where
  id : Int := -1
  pid : Int := -1
  tid : Int := 0
  step : Nat := 0
  corun_step : Nat := 0
  fetch_step : Nat := 0
  local_var : ssid_t := 0
  priority : Int := 0
  force_dispatch : Bool := false
  optional_dispatched : Bool := false
  pattern_group : PatternGroup := .mk [] [] [] []
  result : Result := {}
  orders : List Order := []
  distinct : Bool := false
  offset : Int := 0
  limit : Int := -1

/-- The graph store as the engine sees it (`DGraph` lookups, declared in `gstore.hpp`):
every lookup returns the adjacency list it finds, empty when the key is absent. -/
structure GStore where
  get_edges_global : Int → sid_t → dir_t → ssid_t → List sid_t
  get_index_edges_local : Int → ssid_t → dir_t → List sid_t
  get_vertex_attr_global : Int → sid_t → dir_t → ssid_t → Option attr_t

/-- Global configuration (`config.hpp`), immutable after start-up, together with the
two reserved predicate IDs of `type.hpp` and the partition hash of `mymath.hpp`. -/
structure Global where
  global_num_servers : Nat
  global_num_proxies : Nat
  global_num_engines : Nat
  global_mt_threshold : Nat
  global_use_rdma : Bool
  global_rdma_threshold : Nat
  global_enable_vattr : Bool
  global_enable_workstealing : Bool
  PREDICATE_ID : ssid_t
  TYPE_ID : ssid_t
  hash : sid_t → Nat

/-- The immutable part of an `Engine`: server id, thread id, graph and configuration. -/
structure Engine where
  sid : Int
  tid : Int
  graph : GStore
  cfg : Global

/-- The two merge operators of `SPARQLQuery::Result` that the reply map calls for
UNION and OPTIONAL parents (`merge_union`, `merge_optional`, declared in `query.hpp`). -/
structure MergeOps where
  merge_union : Result → Result → Result
  merge_optional : Result → Result → Result

/-! ## Accessors of `SPARQLQuery` and `SPARQLQuery::Result` -/

/-- Modelled from the spec: `hash_mod(id, S)` of `mymath.hpp`, a deterministic hash of
the ID taken modulo the number of servers. -/
def hash_mod (g : Global) (n : sid_t) (m : Nat) : Nat :=
  g.hash n % m

/-- Modelled from the spec: the value `var2col` gives for a variable without a column
(`NO_RESULT` of `query.hpp`). -/
def NO_RESULT : Int := -1

/-- Modelled from the spec: `Result::get_col_num` of `query.hpp`, the column count. -/
def Result.get_col_num (r : Result) : Nat := r.col_num

/-- Modelled from the spec: `Result::set_col_num` of `query.hpp`. -/
def Result.set_col_num (r : Result) (n : Nat) : Result := { r with col_num := n }

/-- Modelled from the spec: `Result::get_attr_col_num` of `query.hpp`. -/
def Result.get_attr_col_num (r : Result) : Nat := r.attr_col_num

/-- Modelled from the spec: `Result::set_attr_col_num` of `query.hpp`. -/
def Result.set_attr_col_num (r : Result) (n : Nat) : Result := { r with attr_col_num := n }

/-- Modelled from the spec: `Result::get_row_num` of `query.hpp`; the table is flat and
row-major, so the number of rows is its size divided by the column count, and a
table without columns has no rows. -/
def Result.get_row_num (r : Result) : Nat :=
  if r.col_num = 0 then 0 else r.result_table.length / r.col_num

/-- Modelled from the spec: `Result::get_row_col` of `query.hpp`, the cell of row `row`
and column `c` of the row-major table; a negative column or a cell outside the
table aborts. -/
def Result.get_row_col (r : Result) (row : Nat) (c : Int) : Option sid_t :=
  if c < 0 then none else r.result_table[r.col_num * row + c.toNat]?

/-- Modelled from the spec: `Result::get_attr_row_col` of `query.hpp`, the cell of the
parallel attribute table. -/
def Result.get_attr_row_col (r : Result) (row : Nat) (c : Nat) : Option attr_t :=
  r.attr_res_table[r.attr_col_num * row + c]?

/-- Modelled from the spec: `Result::append_row_to` of `query.hpp`; pushes the cells of
row `row`, column by column, onto `update`. -/
def Result.append_row_to (r : Result) (row : Nat) (update : List sid_t) :
    Option (List sid_t) :=
  (List.range r.col_num).foldlM
    (fun upd (c : Nat) => (r.get_row_col row (c : Int)).map (fun v => upd ++ [v])) update

/-- Modelled from the spec: `Result::append_attr_row_to` of `query.hpp`; pushes the
attribute cells of row `row` onto `update`. -/
def Result.append_attr_row_to (r : Result) (row : Nat) (update : List attr_t) :
    Option (List attr_t) :=
  (List.range r.attr_col_num).foldlM
    (fun upd c => (r.get_attr_row_col row c).map (fun v => upd ++ [v])) update

/-- Modelled from the spec: `Result::var2col` of `query.hpp`, the column the
variable-to-column map gives for `vid`, or `NO_RESULT` for a variable that has none. -/
def Result.var2col (r : Result) (vid : ssid_t) : Int :=
  match r.v2c_map.lookup vid with
  | some c => c
  | none => NO_RESULT

/-- Modelled from the spec: `Result::add_var2col` of `query.hpp`, which records that
variable `vid` lives in column `col`. -/
def Result.add_var2col (r : Result) (vid : ssid_t) (col : Int) : Result :=
  { r with v2c_map := (vid, col) :: r.v2c_map }

/-- Modelled from the spec: `Result::append_result` of `query.hpp`, the merge of an
ordinary fork-join reply: the reply's shape (column counts, blind flag,
variable map) is taken over, the row count is added up, and the rows are
appended unless the result is blind (a blind result discards rows on merge). -/
def Result.append_result (r : Result) (reply : Result) : Result :=
  let r1 : Result :=
    { r with col_num := reply.col_num, blind := reply.blind,
             row_num := r.row_num + reply.row_num,
             attr_col_num := reply.attr_col_num, v2c_map := reply.v2c_map }
  if r1.blind then r1
  else { r1 with result_table := r1.result_table ++ reply.result_table,
                 attr_res_table := r1.attr_res_table ++ reply.attr_res_table }

/-- Modelled from the spec: `SPARQLQuery::get_pattern` of `query.hpp`; reading past the
last pattern aborts. -/
def SPARQLQuery.get_pattern (q : SPARQLQuery) (step : Nat) : Option Pattern :=
  q.pattern_group.patterns[step]?

/-- Modelled from the spec: `SPARQLQuery::get_current_pattern` of `query.hpp`, the
pattern at the current step. -/
def SPARQLQuery.get_current_pattern (q : SPARQLQuery) : Option Pattern :=
  q.get_pattern q.step

/-- Modelled from the spec: `SPARQLQuery::is_finished` of `query.hpp`; a query is
finished when its step has passed the last pattern. -/
def SPARQLQuery.is_finished (q : SPARQLQuery) : Bool :=
  decide (q.pattern_group.patterns.length ≤ q.step)

/-- Modelled from the spec: `SPARQLQuery::is_union` of `query.hpp`; the pattern group has
UNION alternatives. -/
def SPARQLQuery.is_union (q : SPARQLQuery) : Bool :=
  !q.pattern_group.unions.isEmpty

/-- Modelled from the spec: `SPARQLQuery::is_optional` of `query.hpp`; the pattern group
has OPTIONAL groups. -/
def SPARQLQuery.is_optional (q : SPARQLQuery) : Bool :=
  !q.pattern_group.optional.isEmpty

/-- Row `i` of the vertex table as the accessors read it: the `col_num` cells
starting at `col_num * i`. -/
def Result.row (r : Result) (i : Nat) : List sid_t :=
  (r.result_table.drop (r.col_num * i)).take r.col_num

/-- The rows of the vertex table, for the row indices below `get_row_num`. -/
def Result.rows (r : Result) : List (List sid_t) :=
  (List.range r.get_row_num).map r.row

/-- Row `i` of the attribute table: the `attr_col_num` cells starting at
`attr_col_num * i`. -/
def Result.attr_row (r : Result) (i : Nat) : List attr_t :=
  (r.attr_res_table.drop (r.attr_col_num * i)).take r.attr_col_num

/-- The rows of the attribute table that run parallel to the vertex rows. -/
def Result.attr_rows (r : Result) : List (List attr_t) :=
  (List.range r.get_row_num).map r.attr_row

/-- The attribute table holds an attribute row for every vertex row. -/
def Result.attr_parallel (r : Result) : Prop :=
  r.attr_col_num * r.get_row_num ≤ r.attr_res_table.length

/-! ## Join kernels (`Engine::const_to_unknown` ... `Engine::index_to_unknown`) -/

/-- The copy loop `for (k = 0; k < sz; k++) updated.push_back(res[k].val)`. -/
def push_all (res : List sid_t) (updated : List sid_t) : List sid_t :=
  res.foldl (fun upd v => upd ++ [v]) updated

/-- Kernel `Engine::const_to_unknown` (engine.hpp 170-191). -/
def const_to_unknown (e : Engine) (req : SPARQLQuery) : Option SPARQLQuery := do
  let pattern ← req.get_current_pattern
  let start := pattern.subject
  let pid := pattern.predicate
  let d := pattern.direction
  let end_ := pattern.object
  let result := req.result
  -- assert(result.get_col_num() == 0)
  if result.get_col_num ≠ 0 then none
  let res := e.graph.get_edges_global e.tid start.toNat d pid
  let updated_result_table := push_all res []
  let result := { result with result_table := updated_result_table }
  let result := result.add_var2col end_ 0
  let result := result.set_col_num 1
  pure { req with result := result, step := req.step + 1 }

/-- Kernel `Engine::known_to_unknown` (engine.hpp 217-244). -/
def known_to_unknown (e : Engine) (req : SPARQLQuery) : Option SPARQLQuery := do
  let pattern ← req.get_current_pattern
  let start := pattern.subject
  let pid := pattern.predicate
  let d := pattern.direction
  let end_ := pattern.object
  let result := req.result
  let updated_result_table ← (List.range result.get_row_num).foldlM
    (fun upd i => do
      let prev_id ← result.get_row_col i (result.var2col start)
      let res := e.graph.get_edges_global e.tid prev_id d pid
      res.foldlM
        (fun upd2 v => do
          let upd3 ← result.append_row_to i upd2
          pure (upd3 ++ [v]))
        upd)
    []
  let result := { result with result_table := updated_result_table }
  let result := result.add_var2col end_ (result.get_col_num : Int)
  let result := result.set_col_num (result.get_col_num + 1)
  pure { req with result := result, step := req.step + 1 }

/-- The search loop shared by `known_to_known` and `known_to_const`:
`for (k = 0; k < sz; k++) if (res[k].val == target) { body; break; }`. -/
def scan_first {σ : Type} (target : Int) (body : σ → Option σ) :
    List sid_t → σ → Option σ
  | [], st => some st
  | v :: rest, st =>
    if (v : Int) = target then body st else scan_first target body rest st

/-- The body run at the first hit: the row is appended to the new vertex table and,
when vertex attributes are enabled, its attribute row to the new attribute table. -/
def keep_row (e : Engine) (result : Result) (i : Nat)
    (st : List sid_t × List attr_t) : Option (List sid_t × List attr_t) := do
  let upd ← result.append_row_to i st.1
  let aupd ← if e.cfg.global_enable_vattr then result.append_attr_row_to i st.2
             else pure st.2
  pure (upd, aupd)

/-- Kernel `Engine::known_to_known` (engine.hpp 280-309). -/
def known_to_known (e : Engine) (req : SPARQLQuery) : Option SPARQLQuery := do
  let pattern ← req.get_current_pattern
  let start := pattern.subject
  let pid := pattern.predicate
  let d := pattern.direction
  let end_ := pattern.object
  let result := req.result
  let updated ← (List.range result.get_row_num).foldlM
    (fun st i => do
      let prev_id ← result.get_row_col i (result.var2col start)
      let res := e.graph.get_edges_global e.tid prev_id d pid
      let end2 ← result.get_row_col i (result.var2col end_)
      scan_first (end2 : Int) (keep_row e result i) res st)
    (([], []) : List sid_t × List attr_t)
  let result := { result with result_table := updated.1 }
  let result := if e.cfg.global_enable_vattr
                then { result with attr_res_table := updated.2 } else result
  pure { req with result := result, step := req.step + 1 }

/-- Kernel `Engine::known_to_const` (engine.hpp 311-339). -/
def known_to_const (e : Engine) (req : SPARQLQuery) : Option SPARQLQuery := do
  let pattern ← req.get_current_pattern
  let start := pattern.subject
  let pid := pattern.predicate
  let d := pattern.direction
  let end_ := pattern.object
  let result := req.result
  let updated ← (List.range result.get_row_num).foldlM
    (fun st i => do
      let prev_id ← result.get_row_col i (result.var2col start)
      let res := e.graph.get_edges_global e.tid prev_id d pid
      scan_first end_ (keep_row e result i) res st)
    (([], []) : List sid_t × List attr_t)
  let result := { result with result_table := updated.1 }
  let result := if e.cfg.global_enable_vattr
                then { result with attr_res_table := updated.2 } else result
  pure { req with result := result, step := req.step + 1 }

/-- The stride loop of `index_to_unknown`,
`for (k = start; k < sz; k += stride) updated.push_back(res[k].val)`,
with `fuel` bounding the number of loop tests; `none` when the fuel runs out. -/
def index_loop (res : List sid_t) (stride : Nat) :
    Nat → Nat → List sid_t → Option (List sid_t)
  | 0, _, _ => none
  | fuel + 1, k, upd =>
    match res[k]? with
    | some v => index_loop res stride fuel (k + stride) (upd ++ [v])
    | none => some upd

/-- Kernel `Engine::index_to_unknown` (engine.hpp 341-371).  A negative `tid` marks a
request from the same server: it starts at `-tid - 1` and strides by
`global_mt_threshold - 1` (the threshold is at least 1 wherever this is used, so
the difference is taken in the naturals); other requests start at `tid` and
stride by `global_mt_threshold`. -/
def index_to_unknown (e : Engine) (fuel : Nat) (req : SPARQLQuery) :
    Option SPARQLQuery := do
  let pattern ← req.get_current_pattern
  let tpid := pattern.subject
  let id01 := pattern.predicate
  let d := pattern.direction
  let var := pattern.object
  let result := req.result
  -- assert(id01 == PREDICATE_ID || id01 == TYPE_ID)
  if ¬ (id01 = e.cfg.PREDICATE_ID ∨ id01 = e.cfg.TYPE_ID) then none
  -- assert(result.get_col_num() == 0)
  if result.get_col_num ≠ 0 then none
  let res := e.graph.get_index_edges_local e.tid tpid d
  let start := req.tid
  let updated_result_table ←
    if start < 0 then
      -- request from the same server
      index_loop res (e.cfg.global_mt_threshold - 1) fuel (-start - 1).toNat []
    else
      index_loop res e.cfg.global_mt_threshold fuel start.toNat []
  let result := { result with result_table := updated_result_table }
  let result := result.set_col_num 1
  let result := result.add_var2col var 0
  pure { req with result := result, step := req.step + 1, local_var := -1 }

/-! ## Fork-join: `Engine::generate_sub_query` and the reply map -/

/-- The sub-request `generate_sub_query` prepares for every server before it
distributes the rows (engine.hpp 527-540). -/
def sub_query_init (req : SPARQLQuery) (start : ssid_t) : SPARQLQuery :=
  { ({} : SPARQLQuery) with
    pid := req.id
    pattern_group := req.pattern_group
    step := req.step
    corun_step := req.corun_step
    fetch_step := req.fetch_step
    local_var := start
    priority := req.priority + 1
    result := { ({} : Result) with
                col_num := req.result.col_num
                blind := req.result.blind
                v2c_map := req.result.v2c_map
                nvars := req.result.nvars } }

/-- Engine function `Engine::generate_sub_query` (engine.hpp 521-550). -/
def generate_sub_query (e : Engine) (req : SPARQLQuery) : Option (List SPARQLQuery) := do
  let pattern ← req.get_current_pattern
  let start := pattern.subject
  let sub_reqs := List.replicate e.cfg.global_num_servers (sub_query_init req start)
  (List.range req.result.get_row_num).foldlM
    (fun subs i => do
      let v ← req.result.get_row_col i (req.result.var2col start)
      let dst_sid := hash_mod e.cfg v e.cfg.global_num_servers
      let sub ← subs[dst_sid]?
      let tbl ← req.result.append_row_to i sub.result.result_table
      pure (subs.set dst_sid { sub with result := { sub.result with result_table := tbl } }))
    sub_reqs

/-- One entry of the reply map (`Reply_Map::Item`). -/
structure Item where
  count : Int := 0
  parent_request : SPARQLQuery := {}
  merged_reply : SPARQLQuery := {}

/-- The reply map (`Reply_Map`): the entries of `internal_item_map`, at most one per key. -/
structure Reply_Map where
  internal_item_map : List (Int × Item) := []

/-- Lookup of a key without inserting (`internal_item_map.find`). -/
def Reply_Map.find (m : Reply_Map) (pid : Int) : Option Item :=
  m.internal_item_map.lookup pid

/-- Removal of a key (`internal_item_map.erase`). -/
def Reply_Map.erase (m : Reply_Map) (pid : Int) : Reply_Map :=
  { internal_item_map := m.internal_item_map.filter (fun kv => kv.1 ≠ pid) }

/-- Assignment `internal_item_map[pid] = data`. -/
def Reply_Map.store (m : Reply_Map) (pid : Int) (data : Item) : Reply_Map :=
  { internal_item_map := (pid, data) :: (m.erase pid).internal_item_map }

/-- Read access `internal_item_map[pid]`: a missing key is inserted with a
value-initialised entry first. -/
def Reply_Map.item_at (m : Reply_Map) (pid : Int) : Item × Reply_Map :=
  match m.find pid with
  | some data => (data, m)
  | none => ({}, m.store pid {})

/-- Method `Reply_Map::put_parent_request` (engine.hpp 59-67). -/
def Reply_Map.put_parent_request (m : Reply_Map) (r : SPARQLQuery) (cnt : Int) :
    Reply_Map :=
  let data : Item := { count := cnt, parent_request := r }
  let data : Item :=
    if r.is_optional && r.optional_dispatched
    then { data with merged_reply := { data.merged_reply with result := r.result } }
    else data
  m.store r.id data

/-- Method `Reply_Map::put_reply` (engine.hpp 69-84). -/
def Reply_Map.put_reply (ops : MergeOps) (m : Reply_Map) (r : SPARQLQuery) : Reply_Map :=
  let pid := r.pid
  let (data, m1) := m.item_at pid
  let data_result := data.merged_reply.result
  let r_result := r.result
  let count := data.count - 1
  let data_result :=
    if data.parent_request.is_union then ops.merge_union data_result r_result
    else if data.parent_request.is_optional && data.parent_request.optional_dispatched
    then ops.merge_optional data_result r_result
    else data_result.append_result r_result
  m1.store pid
    { data with count := count
                merged_reply := { data.merged_reply with result := data_result } }

/-- Method `Reply_Map::is_ready` (engine.hpp 86-88); the map is returned too since the
lookup inserts a missing key. -/
def Reply_Map.is_ready (m : Reply_Map) (pid : Int) : Bool × Reply_Map :=
  let (data, m1) := m.item_at pid
  (decide (data.count = 0), m1)

/-- Method `Reply_Map::get_merged_reply` (engine.hpp 90-104).  The vertex table is
swapped in from the merged reply; the attribute table is swapped with itself. -/
def Reply_Map.get_merged_reply (m : Reply_Map) (pid : Int) : SPARQLQuery × Reply_Map :=
  let (data, m1) := m.item_at pid
  let r := data.parent_request
  let merged_reply := data.merged_reply
  let result : Result :=
    { r.result with
      col_num := merged_reply.result.col_num
      blind := merged_reply.result.blind
      row_num := merged_reply.result.row_num
      attr_col_num := merged_reply.result.attr_col_num
      v2c_map := merged_reply.result.v2c_map
      result_table := merged_reply.result.result_table
      attr_res_table := r.result.attr_res_table }
  ({ r with result := result }, m1.erase pid)

/-! ## Force dispatch (`Engine::execute_sparql_request`, engine.hpp 1179-1210) -/

/-- A bundle handed to `send_request` with its destination (`Engine::Message`). -/
structure Message where
  sid : Int
  tid : Int
  bundle : SPARQLQuery

/-- The value of `sub_query.tid` after the three-way case distinction in the inner
loop, for destination server `i` and engine slot `j`; `none` is the `continue`
of the dispatching engine itself. -/
def dispatch_tid (e : Engine) (i j : Nat) : Option Int :=
  if (i : Int) = e.sid ∧ (j : Int) + e.cfg.global_num_proxies = e.tid then
    none
  else if (i : Int) = e.sid ∧ (j : Int) + e.cfg.global_num_proxies > e.tid then
    some (-((j : Int) - 1) - 1)
  else if (i : Int) = e.sid then
    some (-(j : Int) - 1)
  else
    some (j : Int)

/-- The force-dispatch branch of `execute_sparql_request`: `r` already carries its
fresh id; the result is the reply map after `put_parent_request` and the
sequence of `send_request` calls, in program order. -/
def force_dispatch_branch (e : Engine) (rmap : Reply_Map) (r : SPARQLQuery) :
    Reply_Map × List Message :=
  let sub_reqs_size : Int :=
    (e.cfg.global_num_servers : Int) * e.cfg.global_mt_threshold - 1
  let rmap := rmap.put_parent_request r sub_reqs_size
  let sub_query := { r with force_dispatch := false }
  let sent := (List.range e.cfg.global_num_servers).foldl
    (fun out i => (List.range e.cfg.global_mt_threshold).foldl
      (fun out2 j =>
        match dispatch_tid e i j with
        | none => out2
        | some t =>
          out2 ++ [{ sid := i, tid := (e.cfg.global_num_proxies : Int) + j,
                     bundle := { sub_query with id := -1, pid := r.id, tid := t } }])
      out)
    []
  (rmap, sent)

/-! ## Row-wise descriptions of the kernels and sample data -/

/-- The rows `known_to_unknown` emits for one input row. -/
def k2u_rows (e : Engine) (pat : Pattern) (k : Nat) (row : List sid_t) : List (List sid_t) :=
  (e.graph.get_edges_global e.tid (row.getD k 0) pat.direction pat.predicate).map
    (fun n => row ++ [n])

/-- The test `known_to_known` applies to an input row: the value in the object
column occurs among the neighbours of the value in the subject column. -/
def k2k_keep (e : Engine) (pat : Pattern) (k k2 : Nat) (row : List sid_t) : Bool :=
  decide (row.getD k2 0 ∈
    e.graph.get_edges_global e.tid (row.getD k 0) pat.direction pat.predicate)

/-- The test `known_to_const` applies to an input row: the constant object occurs
among the neighbours of the value in the subject column. -/
def k2c_keep (e : Engine) (pat : Pattern) (k : Nat) (row : List sid_t) : Bool :=
  decide (pat.object.toNat ∈
    e.graph.get_edges_global e.tid (row.getD k 0) pat.direction pat.predicate)

/-- The query `known_to_unknown` returns when the subject sits in column `k`. -/
def k2u_out (e : Engine) (req : SPARQLQuery) (pat : Pattern) (k : Nat) : SPARQLQuery :=
  { req with
    result := { req.result with
      result_table := (req.result.rows.flatMap (k2u_rows e pat k)).flatten
      v2c_map := (pat.object, (req.result.col_num : Int)) :: req.result.v2c_map
      col_num := req.result.col_num + 1 }
    step := req.step + 1 }

/-- The query a filtering kernel (`known_to_known`, `known_to_const`) returns when
it keeps the rows that pass `keep`. -/
def filter_out (e : Engine) (req : SPARQLQuery) (keep : List sid_t → Bool) : SPARQLQuery :=
  { req with
    result := { req.result with
      result_table := (req.result.rows.filter keep).flatten
      attr_res_table :=
        if e.cfg.global_enable_vattr
        then (((List.range req.result.get_row_num).filter
                (fun i => keep (req.result.row i))).map req.result.attr_row).flatten
        else req.result.attr_res_table }
    step := req.step + 1 }

/-- Sample graph of the end-to-end scenarios: the triples (10,100,11), (10,100,12)
and (11,100,12), seen from the OUT side. -/
def demo_graph : GStore where
  get_edges_global := fun _ v d p =>
    if v = 10 ∧ d = dir_t.OUT ∧ p = 100 then [11, 12]
    else if v = 11 ∧ d = dir_t.OUT ∧ p = 100 then [12]
    else []
  get_index_edges_local := fun _ _ _ => []
  get_vertex_attr_global := fun _ _ _ _ => none

/-- Sample configuration: two servers, one proxy, two engines per server, the
identity as partition hash. -/
def demo_cfg : Global where
  global_num_servers := 2
  global_num_proxies := 1
  global_num_engines := 2
  global_mt_threshold := 2
  global_use_rdma := true
  global_rdma_threshold := 300
  global_enable_vattr := false
  global_enable_workstealing := false
  PREDICATE_ID := 0
  TYPE_ID := 1
  hash := fun n => n

/-- Sample engine: thread 1 of server 0. -/
def demo_engine : Engine where
  sid := 0
  tid := 1
  graph := demo_graph
  cfg := demo_cfg

/-- First pattern of the sample query, `(10, 100, OUT, ?x)`. -/
def demo_pat1 : Pattern :=
  { subject := 10, predicate := 100, direction := dir_t.OUT, object := -1 }

/-- Second pattern of the sample query, `(?x, 100, OUT, ?y)`. -/
def demo_pat2 : Pattern :=
  { subject := -1, predicate := 100, direction := dir_t.OUT, object := -2 }

/-- The sample query `?x,?y :- (10,100,OUT,?x),(?x,100,OUT,?y)` before its first step. -/
def demo_req0 : SPARQLQuery :=
  { id := 7, pattern_group := .mk [demo_pat1, demo_pat2] [] [] [], result := { nvars := 2 } }

/-- The sample query after its first step: the rows 11 and 12 bound to `?x`. -/
def demo_req1 : SPARQLQuery :=
  { demo_req0 with
    step := 1
    result := { nvars := 2, col_num := 1, v2c_map := [(-1, 0)], result_table := [11, 12] } }

/-- The sample query at its second pattern with both variables bound: the rows
(11,12), (12,11) and (10,12). -/
def demo_req2 : SPARQLQuery :=
  { demo_req0 with
    step := 1
    result := { nvars := 2, col_num := 2, v2c_map := [(-2, 1), (-1, 0)],
                result_table := [11, 12, 12, 11, 10, 12] } }

/-- A pattern with bound subject and constant object, `(?x, 100, OUT, 12)`. -/
def demo_pat3 : Pattern :=
  { subject := -1, predicate := 100, direction := dir_t.OUT, object := 12 }

/-- A query whose current pattern is `(?x, 100, OUT, 12)`, over the rows 10, 11, 12. -/
def demo_req3 : SPARQLQuery :=
  { id := 9, pattern_group := .mk [demo_pat3] [] [] []
    result := { nvars := 1, col_num := 1, v2c_map := [(-1, 0)], result_table := [10, 11, 12] } }

/-- Sample engine with vertex attributes enabled. -/
def demo_engine_vattr : Engine :=
  { demo_engine with cfg := { demo_cfg with global_enable_vattr := true } }

/-- The rows (11,12), (12,11), (10,12) with one attribute column running parallel. -/
def demo_req2a : SPARQLQuery :=
  { demo_req2 with
    result := { demo_req2.result with
      attr_col_num := 1
      attr_res_table := [attr_t.int 25, attr_t.int 26, attr_t.int 27] } }

/-- The rows 10, 11, 12 with one attribute column running parallel. -/
def demo_req3a : SPARQLQuery :=
  { demo_req3 with
    result := { demo_req3.result with
      attr_col_num := 1
      attr_res_table := [attr_t.int 25, attr_t.int 26, attr_t.int 27] } }

/-- The sub-request of `generate_sub_query` holding the table `tbl`. -/
def sub_query_with (req : SPARQLQuery) (start : ssid_t) (tbl : List sid_t) : SPARQLQuery :=
  { sub_query_init req start with
    result := { (sub_query_init req start).result with result_table := tbl } }

/-- The server a row is sent to by `generate_sub_query` when the subject variable
sits in column `k`. -/
def fork_dst (e : Engine) (k : Nat) (row : List sid_t) : Nat :=
  hash_mod e.cfg (row.getD k 0) e.cfg.global_num_servers

/-- The rows of a result that `generate_sub_query` sends to server `j`. -/
def fork_rows (e : Engine) (k : Nat) (r : Result) (j : Nat) : List (List sid_t) :=
  r.rows.filter (fun row => decide (fork_dst e k row = j))

/-- The pending count stored for `pid`, if the map has an entry for it. -/
def Reply_Map.count_of (m : Reply_Map) (pid : Int) : Option Int :=
  (m.find pid).map (fun data => data.count)

/-- The number of replies in a sequence that are addressed to parent `pid`. -/
def replies_for (pid : Int) (rs : List SPARQLQuery) : Nat :=
  (rs.filter (fun q => decide (q.pid = pid))).length

/-- Sample merge operators: both fall back to appending. -/
def demo_ops : MergeOps where
  merge_union := fun a b => a.append_result b
  merge_optional := fun a b => a.append_result b

/-- A sub-reply to the sample query that brings one vertex row and one attribute
value, as a sub-query ending in an attribute step does. -/
def demo_attr_reply : SPARQLQuery :=
  { pid := 7, step := 2, pattern_group := .mk [demo_pat1, demo_pat2] [] [] []
    result := { nvars := 2, col_num := 1, row_num := 1, attr_col_num := 1
                v2c_map := [(-1, 0)], result_table := [11]
                attr_res_table := [attr_t.int 25] } }

/-- The reply map after the sample query was registered with one pending reply and
that reply arrived. -/
def demo_rmap : Reply_Map :=
  (({} : Reply_Map).put_parent_request demo_req1 1).put_reply demo_ops demo_attr_reply

/-- A query that starts from the type index: `(300, TYPE_ID, IN, ?x)`. -/
def demo_index_req : SPARQLQuery :=
  { id := 7, pid := 0
    pattern_group := .mk
      [{ subject := 300, predicate := 1, direction := dir_t.IN, object := -1 }] [] [] []
    result := { nvars := 1 } }

/-- Configuration with one server, three engines and index parallelism 2. -/
def demo_cfg_mt2 : Global :=
  { demo_cfg with global_num_servers := 1, global_num_engines := 3, global_mt_threshold := 2 }

/-- Configuration with two servers, one engine each, and index parallelism 1. -/
def demo_cfg_mt1 : Global :=
  { demo_cfg with global_num_servers := 2, global_num_engines := 1, global_mt_threshold := 1 }

/-- The third engine (thread 3, engine index 2) of the single server of `demo_cfg_mt2`. -/
def demo_engine_mt2 : Engine :=
  { sid := 0, tid := 3, graph := demo_graph, cfg := demo_cfg_mt2 }

/-- The only engine (thread 1, engine index 0) of server 0 of `demo_cfg_mt1`. -/
def demo_engine_mt1 : Engine :=
  { sid := 0, tid := 1, graph := demo_graph, cfg := demo_cfg_mt1 }

/-- The engine that receives a dispatched sub-query, on a server whose local index
list is `L`. -/
def receive_engine (e : Engine) (L : List sid_t) (msg : Message) : Engine :=
  { sid := msg.sid, tid := msg.tid, cfg := e.cfg
    graph := { e.graph with get_index_edges_local := fun _ _ _ => L } }

/-- The index slices enumerated on server `i`: every sub-query that the force-dispatch
branch addresses to server `i` is run through `index_to_unknown` by the engine it
was sent to, and its result table is collected. -/
def index_slices (e : Engine) (L : List sid_t) (fuel : Nat) (r : SPARQLQuery) (i : Int) :
    List (Option (List sid_t)) :=
  ((force_dispatch_branch e {} r).2.filter (fun msg => decide (msg.sid = i))).map
    (fun msg => (index_to_unknown (receive_engine e L msg) fuel msg.bundle).map
      (fun q => q.result.result_table))

/-- The three join kernels that can follow a fork: the subject of their pattern is a
bound variable. -/
inductive JoinKernel where
  | known_to_unknown
  | known_to_known
  | known_to_const
  deriving DecidableEq, Repr

/-- Runs the chosen join kernel. -/
def run_kernel (K : JoinKernel) (e : Engine) (req : SPARQLQuery) : Option SPARQLQuery :=
  match K with
  | .known_to_unknown => known_to_unknown e req
  | .known_to_known => known_to_known e req
  | .known_to_const => known_to_const e req

/-- The rows a join kernel emits for one input row (subject in column `k`, and for
`known_to_known` the object in column `k2`). -/
def kernel_rows (K : JoinKernel) (e : Engine) (pat : Pattern) (k k2 : Nat)
    (row : List sid_t) : List (List sid_t) :=
  match K with
  | .known_to_unknown => k2u_rows e pat k row
  | .known_to_known => if k2k_keep e pat k k2 row then [row] else []
  | .known_to_const => if k2c_keep e pat k row then [row] else []

/-- What the chosen kernel needs of the object of the pattern: nothing for
`known_to_unknown`, a bound column `k2` for `known_to_known`, a constant for
`known_to_const`. -/
def kernel_ready (K : JoinKernel) (r : Result) (pat : Pattern) (k2 : Nat) : Prop :=
  match K with
  | .known_to_unknown => True
  | .known_to_known => r.var2col pat.object = (k2 : Int) ∧ k2 < r.col_num
  | .known_to_const => 0 ≤ pat.object

/-- The column count after the chosen kernel. -/
def kernel_cols (K : JoinKernel) (c : Nat) : Nat :=
  match K with
  | .known_to_unknown => c + 1
  | .known_to_known => c
  | .known_to_const => c

/-- The parent handed back by the reply map after it was registered with one
pending reply per arrived sub-reply and the replies were delivered in the order
of `arrived`. -/
def merge_replies (ops : MergeOps) (rmap : Reply_Map) (req : SPARQLQuery)
    (arrived : List SPARQLQuery) : SPARQLQuery :=
  ((arrived.foldl (Reply_Map.put_reply ops)
      (rmap.put_parent_request req arrived.length)).get_merged_reply req.id).1

/-- The sample query after its first step, marked blind. -/
def demo_req1_blind : SPARQLQuery :=
  { demo_req1 with result := { demo_req1.result with blind := true } }

/-- The messages the inner loop of the force-dispatch branch sends for destination
server `i` and engine slot `j`: none for the dispatching engine itself, one
otherwise. -/
def dispatch_cell (e : Engine) (r : SPARQLQuery) (i j : Nat) : List Message :=
  match dispatch_tid e i j with
  | none => []
  | some t =>
    [{ sid := i, tid := (e.cfg.global_num_proxies : Int) + j,
       bundle := { r with force_dispatch := false, id := -1, pid := r.id, tid := t } }]

/-! ## FILTER: the row flags and the leaf predicates (engine.hpp 791-953) -/

/-- Field `type` of a filter node. -/
def Filter.type : Filter → FilterType
  | .mk t _ _ _ _ _ => t

/-- Field `arg1` of a filter node. -/
def Filter.arg1 : Filter → Option Filter
  | .mk _ a _ _ _ _ => a

/-- Field `arg2` of a filter node. -/
def Filter.arg2 : Filter → Option Filter
  | .mk _ _ a _ _ _ => a

/-- Field `arg3` of a filter node. -/
def Filter.arg3 : Filter → Option Filter
  | .mk _ _ _ a _ _ => a

/-- Field `value` of a filter node. -/
def Filter.value : Filter → String
  | .mk _ _ _ _ v _ => v

/-- Field `valueArg` of a filter node. -/
def Filter.valueArg : Filter → ssid_t
  | .mk _ _ _ _ _ v => v

/-- What the filter pass and ORDER BY use from outside the engine: the string
dictionary (`String_Server`, an ID without an entry has no string), the regular
expression library (`regex_match str pattern icase` stands for `std::regex_match`
of `str` against `std::regex(pattern)`, built with `std::regex::icase` when
`icase` is set), and the reserved ID `BLANK_ID` of `type.hpp`. -/
structure FilterEnv where
  id2str : sid_t → Option String
  regex_match : String → String → Bool → Bool
  BLANK_ID : sid_t

/-- The dictionary read `str_server->exist(id) ? str_server->id2str[id] : ""`. -/
def id_str (env : FilterEnv) (id : sid_t) : String :=
  match env.id2str id with
  | some s => s
  | none => ""

/-- The comparison `a < b` of two `std::string`s: lexicographic on the characters. -/
def str_lt (a b : String) : Bool :=
  decide (a.toList < b.toList)

/-- The loop shared by the leaf filters,
`for (row = 0; row < n; row++) if (is_satisfy[row] && fails(row)) is_satisfy[row] = false`;
the test is only evaluated for a row whose flag is still set. -/
def flag_loop (n : Nat) (fails : Nat → Option Bool) (is_satisfy : List Bool) :
    Option (List Bool) :=
  (List.range n).foldlM
    (fun flags row => do
      let flag ← flags[row]?
      if flag then do
        let bad ← fails row
        pure (if bad then flags.set row false else flags)
      else pure flags)
    is_satisfy

/-- The lambda `get_str` of `relational_filter`: the string a filter argument
stands for in a row. -/
def get_str (env : FilterEnv) (result : Result) (filter : Filter) (row : Nat) (col : Int) :
    Option String :=
  match filter.type with
  | .Variable => do
    let id ← result.get_row_col row col
    pure (id_str env id)
  | .Literal => some ("\"" ++ filter.value ++ "\"")
  | _ => none

/-- The condition under which `relational_filter` clears the flag of a row, for the
comparator `t` and the strings of the two arguments. -/
def relational_fails (t : FilterType) (s1 s2 : String) : Bool :=
  match t with
  | .Equal => s1 != s2
  | .NotEqual => s1 == s2
  | .Less => !str_lt s1 s2
  | .LessOrEqual => str_lt s2 s1
  | .Greater => !str_lt s2 s1
  | .GreaterOrEqual => str_lt s1 s2
  | _ => false

/-- Leaf filter `Engine::relational_filter` (engine.hpp 792-859). -/
def relational_filter (env : FilterEnv) (filter : Filter) (result : Result)
    (is_satisfy : List Bool) : Option (List Bool) := do
  let arg1 ← filter.arg1
  let arg2 ← filter.arg2
  let col1 := if arg1.type = FilterType.Variable then result.var2col arg1.valueArg else -1
  let col2 := if arg2.type = FilterType.Variable then result.var2col arg2.valueArg else -1
  match filter.type with
  | .Equal | .NotEqual | .Less | .LessOrEqual | .Greater | .GreaterOrEqual =>
    flag_loop result.get_row_num
      (fun row => do
        let s1 ← get_str env result arg1 row col1
        let s2 ← get_str env result arg2 row col2
        pure (relational_fails filter.type s1 s2))
      is_satisfy
  | _ => pure is_satisfy

/-- Leaf filter `Engine::bound_filter` (engine.hpp 861-873). -/
def bound_filter (env : FilterEnv) (filter : Filter) (result : Result)
    (is_satisfy : List Bool) : Option (List Bool) := do
  let arg1 ← filter.arg1
  let col := result.var2col arg1.valueArg
  flag_loop is_satisfy.length
    (fun row => do
      let id ← result.get_row_col row col
      pure (decide (id = env.BLANK_ID)))
    is_satisfy

/-- The pattern `IRIref_str` built in `is_IRI_filter` and `is_literal_filter`. -/
def IRIref_str : String :=
  "(" ++ "<([^<>\\\\\x22\x7b\x7d|^`\\\\])*>" ++ "|" ++ ".*:.*" ++ ")"

/-- The pattern `RDFLiteral_pattern` built in `is_literal_filter`. -/
def RDFLiteral_str : String :=
  let langtag_pattern_str := "@[a-zA-Z]+(-[a-zA-Z0-9]+)*"
  let literal1_str := "\x27([^\\x27\\x5C\\x0A\\x0D]|\\\\[tbnrf\\\x22\x27])*\x27"
  let literal2_str := "\x22([^\\x22\\x5C\\x0A\\x0D]|\\\\[tbnrf\\\x22\x27])*\x22"
  let literal_long1_str :=
    "\x27\x27\x27((\x27|\x27\x27)?([^\x27\\\\]|\\\\[tbnrf\\\x22\x27]))*\x27\x27\x27"
  let literal_long2_str :=
    "\x22\x22\x22((\x22|\x22\x22)?([^\x22\\\\]|\\\\[tbnrf\\\x22\x27]))*\x22\x22\x22"
  let literal := "(" ++ literal1_str ++ "|" ++ literal2_str ++ "|"
    ++ literal_long1_str ++ "|" ++ literal_long2_str ++ ")"
  literal ++ "(" ++ langtag_pattern_str ++ "|(\\^\\^" ++ IRIref_str ++ "))?"

/-- Leaf filter `Engine::is_IRI_filter` (engine.hpp 876-895). -/
def is_IRI_filter (env : FilterEnv) (filter : Filter) (result : Result)
    (is_satisfy : List Bool) : Option (List Bool) := do
  let arg1 ← filter.arg1
  let col := result.var2col arg1.valueArg
  flag_loop is_satisfy.length
    (fun row => do
      let id ← result.get_row_col row col
      let str := id_str env id
      pure (!env.regex_match str IRIref_str false))
    is_satisfy

/-- Leaf filter `Engine::is_literal_filter` (engine.hpp 897-926). -/
def is_literal_filter (env : FilterEnv) (filter : Filter) (result : Result)
    (is_satisfy : List Bool) : Option (List Bool) := do
  let arg1 ← filter.arg1
  let col := result.var2col arg1.valueArg
  flag_loop is_satisfy.length
    (fun row => do
      let id ← result.get_row_col row col
      let str := id_str env id
      pure (!env.regex_match str RDFLiteral_str false))
    is_satisfy

/-- The quote handling of `regex_filter`: a string that starts and ends with a
double quote loses both (`str.substr(1, str.length() - 2)`); any other string,
the empty one included, is left as it is (the source only prints a note). -/
def strip_quotes (str : String) : String :=
  let cs := str.toList
  if cs.head? = some '"' ∧ cs.getLast? = some '"'
  then String.mk ((cs.drop 1).take (cs.length - 2))
  else str

/-- The flag of `regex_filter`: case is ignored exactly when a third argument is
present and its value is `i`. -/
def regex_icase (filter : Filter) : Bool :=
  match filter.arg3 with
  | some a3 => decide (a3.value = "i")
  | none => false

/-- Leaf filter `Engine::regex_filter` (engine.hpp 929-953). -/
def regex_filter (env : FilterEnv) (filter : Filter) (result : Result)
    (is_satisfy : List Bool) : Option (List Bool) := do
  let arg2 ← filter.arg2
  let icase := regex_icase filter
  let pattern := arg2.value
  let arg1 ← filter.arg1
  let col := result.var2col arg1.valueArg
  flag_loop is_satisfy.length
    (fun row => do
      let id ← result.get_row_col row col
      let str := id_str env id
      let str := strip_quotes str
      pure (!env.regex_match str pattern icase))
    is_satisfy

/-- The merge loop of the OR case,
`for (i = 0; i < is_satisfy.size(); i++) is_satisfy[i] = is_satisfy[i] && (s1[i] || s2[i])`. -/
def or_merge (is_satisfy is_satisfy1 is_satisfy2 : List Bool) : Option (List Bool) :=
  (List.range is_satisfy.length).foldlM
    (fun flags i => do
      let f ← flags[i]?
      let f1 ← is_satisfy1[i]?
      let f2 ← is_satisfy2[i]?
      pure (flags.set i (f && (f1 || f2))))
    is_satisfy

/-- Filter dispatch `Engine::general_filter` (engine.hpp 955-984): AND runs both
arguments on the same flags, OR runs them on two fresh all-true vectors and merges,
a leaf goes to its leaf filter, any other node leaves the flags alone.  A missing
argument of AND or OR is a null pointer that the source dereferences. -/
def general_filter (env : FilterEnv) : Filter → Result → List Bool → Option (List Bool)
  | .mk .And (some a1) (some a2) _ _ _, result, is_satisfy => do
    let s ← general_filter env a1 result is_satisfy
    general_filter env a2 result s
  | .mk .And _ _ _ _ _, _, _ => none
  | .mk .Or (some a1) (some a2) _ _ _, result, is_satisfy => do
    let is_satisfy1 := List.replicate result.get_row_num true
    let is_satisfy2 := List.replicate result.get_row_num true
    let s1 ← general_filter env a1 result is_satisfy1
    let s2 ← general_filter env a2 result is_satisfy2
    or_merge is_satisfy s1 s2
  | .mk .Or _ _ _ _ _, _, _ => none
  | .mk t a1 a2 a3 v va, result, is_satisfy =>
    match t with
    | .Equal | .NotEqual | .Less | .LessOrEqual | .Greater | .GreaterOrEqual =>
      relational_filter env (.mk t a1 a2 a3 v va) result is_satisfy
    | .Builtin_bound => bound_filter env (.mk t a1 a2 a3 v va) result is_satisfy
    | .Builtin_isiri => is_IRI_filter env (.mk t a1 a2 a3 v va) result is_satisfy
    | .Builtin_isliteral => is_literal_filter env (.mk t a1 a2 a3 v va) result is_satisfy
    | .Builtin_regex => regex_filter env (.mk t a1 a2 a3 v va) result is_satisfy
    | _ => some is_satisfy

/-- The copy loop at the end of `filter`: the rows whose flag is set are appended
to the new table. -/
def keep_flagged (result : Result) (is_satisfy : List Bool) : Option (List sid_t) :=
  (List.range result.get_row_num).foldlM
    (fun tbl row => do
      let flag ← is_satisfy[row]?
      if flag then result.append_row_to row tbl else pure tbl)
    []

/-- Engine function `Engine::filter` (engine.hpp 986-1005). -/
def filter (env : FilterEnv) (r : SPARQLQuery) : Option SPARQLQuery :=
  if r.pattern_group.filters.length = 0 then some r
  else do
    let is_satisfy := List.replicate r.result.get_row_num true
    let is_satisfy ← r.pattern_group.filters.foldlM
      (fun flags f => general_filter env f r.result flags) is_satisfy
    let new_table ← keep_flagged r.result is_satisfy
    let result := { r.result with result_table := new_table }
    pure { r with result := { result with row_num := result.get_row_num } }

/-! ## FILTER: what it means for a row to satisfy a filter -/

/-- The variable `vid` is bound to a column that exists in the result. -/
def valid_col (r : Result) (vid : ssid_t) : Bool :=
  decide (0 ≤ r.var2col vid ∧ r.var2col vid < (r.col_num : Int))

/-- The value a row holds for the variable `vid`. -/
def cell (r : Result) (vid : ssid_t) (row : List sid_t) : sid_t :=
  row.getD (r.var2col vid).toNat 0

/-- An argument of a comparison is usable: a literal, or a variable bound to a column. -/
def arg_wf (r : Result) (arg : Filter) : Bool :=
  match arg.type with
  | .Variable => valid_col r arg.valueArg
  | .Literal => true
  | _ => false

/-- A filter tree is well formed for a result: AND and OR have both arguments, a
comparison has two usable arguments, `bound`, `isIRI`, `isLiteral` and `regex` have
a first argument whose variable is bound to a column, and `regex` has a pattern. -/
def filter_wf (r : Result) : Filter → Bool
  | .mk .And (some a1) (some a2) _ _ _ => filter_wf r a1 && filter_wf r a2
  | .mk .And _ _ _ _ _ => false
  | .mk .Or (some a1) (some a2) _ _ _ => filter_wf r a1 && filter_wf r a2
  | .mk .Or _ _ _ _ _ => false
  | .mk t a1 a2 _ _ _ =>
    match t with
    | .Equal | .NotEqual | .Less | .LessOrEqual | .Greater | .GreaterOrEqual =>
      match a1, a2 with
      | some x, some y => arg_wf r x && arg_wf r y
      | _, _ => false
    | .Builtin_bound | .Builtin_isiri | .Builtin_isliteral =>
      match a1 with
      | some x => valid_col r x.valueArg
      | none => false
    | .Builtin_regex =>
      match a1, a2 with
      | some x, some _ => valid_col r x.valueArg
      | _, _ => false
    | _ => true

/-- The string an argument of a comparison reads in a row: for a variable the
dictionary string of the ID in its column (the empty string when the dictionary
has none), for a literal its text wrapped in double quotes. -/
def arg_text (env : FilterEnv) (r : Result) (arg : Filter) (row : List sid_t) : String :=
  match arg.type with
  | .Variable => id_str env (cell r arg.valueArg row)
  | .Literal => "\"" ++ arg.value ++ "\""
  | _ => ""

/-- The six comparisons on strings, in lexicographic order. -/
def rel_holds (t : FilterType) (s1 s2 : String) : Bool :=
  match t with
  | .Equal => decide (s1 = s2)
  | .NotEqual => decide (s1 ≠ s2)
  | .Less => str_lt s1 s2
  | .LessOrEqual => str_lt s1 s2 || decide (s1 = s2)
  | .Greater => str_lt s2 s1
  | .GreaterOrEqual => str_lt s2 s1 || decide (s1 = s2)
  | _ => true

/-- Whether a leaf predicate holds in a row. -/
def leaf_sat (env : FilterEnv) (r : Result) (f : Filter) (row : List sid_t) : Bool :=
  match f.type with
  | .Equal | .NotEqual | .Less | .LessOrEqual | .Greater | .GreaterOrEqual =>
    match f.arg1, f.arg2 with
    | some x, some y => rel_holds f.type (arg_text env r x row) (arg_text env r y row)
    | _, _ => true
  | .Builtin_bound =>
    match f.arg1 with
    | some x => decide (cell r x.valueArg row ≠ env.BLANK_ID)
    | none => true
  | .Builtin_isiri =>
    match f.arg1 with
    | some x => env.regex_match (id_str env (cell r x.valueArg row)) IRIref_str false
    | none => true
  | .Builtin_isliteral =>
    match f.arg1 with
    | some x => env.regex_match (id_str env (cell r x.valueArg row)) RDFLiteral_str false
    | none => true
  | .Builtin_regex =>
    match f.arg1, f.arg2 with
    | some x, some p =>
      env.regex_match (strip_quotes (id_str env (cell r x.valueArg row))) p.value
        (regex_icase f)
    | _, _ => true
  | _ => true

/-- Whether a row satisfies a filter tree: an AND when it satisfies both arguments,
an OR when it satisfies the first or the second, a leaf when its predicate holds. -/
def sat (env : FilterEnv) (r : Result) : Filter → List sid_t → Bool
  | .mk .And (some a1) (some a2) _ _ _, row => sat env r a1 row && sat env r a2 row
  | .mk .Or (some a1) (some a2) _ _ _, row => sat env r a1 row || sat env r a2 row
  | f, row => leaf_sat env r f row

/-- The flags `v` with the rows that fail the test `q` (given by row index) cleared. -/
def and_flags (v : List Bool) (q : Nat → Bool) : List Bool :=
  (List.range v.length).map (fun i => v.getD i false && q i)

/-! ## A model of the regular expression library, for the worked examples -/

/-- One element of a pattern in the fragment of ECMAScript modelled here: a single
atom (`some c` is the literal character `c`, `none` is `.`), an atom followed by
`*`, the assertion `^` and the assertion `$`. -/
inductive RegexItem where
  | one (a : Option Char)
  | star (a : Option Char)
  | bol
  | eol
  deriving DecidableEq, Repr

/-- The atom a pattern character stands for. -/
def regex_atom (c : Char) : Option Char :=
  if c = '.' then none else some c

/-- Reads a pattern of the fragment: `^`, `$`, `.`, a postfix `*`, and literal
characters.  The other metacharacters of ECMAScript are outside the fragment. -/
def parse_regex : List Char → List RegexItem
  | [] => []
  | '^' :: rest => RegexItem.bol :: parse_regex rest
  | '$' :: rest => RegexItem.eol :: parse_regex rest
  | c :: '*' :: rest => RegexItem.star (regex_atom c) :: parse_regex rest
  | c :: rest => RegexItem.one (regex_atom c) :: parse_regex rest

/-- Whether an atom accepts a character; with `icase` the two are compared after
lowering case, and `.` accepts every character but a line break. -/
def atom_ok (icase : Bool) (a : Option Char) (x : Char) : Bool :=
  match a with
  | none => decide (x ≠ '\n' ∧ x ≠ '\r')
  | some c => if icase then c.toLower == x.toLower else c == x

/-- The repetition `a*` followed by the rest `k` of the pattern: the rest matches
here, or the atom accepts one character and the repetition goes on. -/
def star_match (ok : Char → Bool) (k : Bool → List Char → Bool) : Bool → List Char → Bool
  | st, [] => k st []
  | st, c :: s => k st (c :: s) || (ok c && star_match ok k false s)

/-- Whether the pattern matches the WHOLE of the remaining input (`st` tells that
no character has been consumed yet, which is what `^` asserts). -/
def match_items (icase : Bool) : List RegexItem → Bool → List Char → Bool
  | [], _, s => s.isEmpty
  | RegexItem.bol :: is, st, s => st && match_items icase is st s
  | RegexItem.eol :: is, st, s => s.isEmpty && match_items icase is st s
  | RegexItem.one a :: is, _, s =>
    match s with
    | [] => false
    | c :: s1 => atom_ok icase a c && match_items icase is false s1
  | RegexItem.star a :: is, st, s => star_match (atom_ok icase a) (match_items icase is) st s

/-- The library call `std::regex_match(str, std::regex(pattern[, icase]))` on the
fragment above: true when the pattern matches the entire string `str`. -/
def std_regex_match (str pattern : String) (icase : Bool) : Bool :=
  match_items icase (parse_regex pattern.toList) true str.toList

/-! ## Sample data for the FILTER pass -/

/-- A sample dictionary: 10 is `Alice`, 11 is `Bob`, 20 to 22 are the literals
`"foo"`, `"FOO"`, `"Foo"`, 23 is the literal `"food"`, 30 and 31 are the literals
`"Alice"` and `"Bob"`; no other ID has a string. -/
def demo_id2str (id : sid_t) : Option String :=
  if id = 10 then some "Alice"
  else if id = 11 then some "Bob"
  else if id = 20 then some "\"foo\""
  else if id = 21 then some "\"FOO\""
  else if id = 22 then some "\"Foo\""
  else if id = 23 then some "\"food\""
  else if id = 30 then some "\"Alice\""
  else if id = 31 then some "\"Bob\""
  else none

/-- A sample environment of the filter pass: the sample dictionary and the model
of the regular expression library. -/
def demo_fenv : FilterEnv :=
  { id2str := demo_id2str, regex_match := std_regex_match, BLANK_ID := 4294967295 }

/-- The filter argument that stands for the variable `vid`. -/
def var_arg (vid : ssid_t) : Filter :=
  .mk .Variable none none none "" vid

/-- The filter argument that stands for the literal `text`. -/
def lit_arg (text : String) : Filter :=
  .mk .Literal none none none text 0

/-- The filter `regex(?x, pattern, "i")` on the variable -1. -/
def demo_regex_i (pattern : String) : Filter :=
  .mk .Builtin_regex (some (var_arg (-1))) (some (lit_arg pattern)) (some (lit_arg "i")) "" 0

/-- The filter `regex(?x, pattern)` on the variable -1, without a flag. -/
def demo_regex_plain (pattern : String) : Filter :=
  .mk .Builtin_regex (some (var_arg (-1))) (some (lit_arg pattern)) none "" 0

/-- A one-column result binding `?x` (variable -1) to the given IDs. -/
def demo_column (ids : List sid_t) : Result :=
  { nvars := 1, col_num := 1, row_num := ids.length, v2c_map := [(-1, 0)],
    result_table := ids }

/-- A finished query over the one-column result `ids` with the filters `fs`. -/
def demo_filter_req (fs : List Filter) (ids : List sid_t) : SPARQLQuery :=
  { id := 11, step := 1, pattern_group := .mk [demo_pat1] fs [] [],
    result := demo_column ids }

/-! ## Sample data for a parent with UNION and OPTIONAL groups -/

/-- A parent query that has both a UNION group and an OPTIONAL group, after its
UNION branches were merged and its OPTIONAL groups were dispatched
(`execute_optional` sets `optional_dispatched`); its seed rows are 11 and 12. -/
def demo_uo_parent : SPARQLQuery :=
  { id := 21, step := 1, optional_dispatched := true
    pattern_group := .mk [demo_pat1] [] [.mk [demo_pat2] [] [] []] [.mk [demo_pat3] [] [] []]
    result := { nvars := 2, col_num := 1, row_num := 2, v2c_map := [(-1, 0)],
                result_table := [11, 12] } }

/-- The reply of the OPTIONAL sub-query of `demo_uo_parent`: the row (11, 25). -/
def demo_uo_reply : SPARQLQuery :=
  { id := 22, pid := 21, step := 1, pattern_group := .mk [demo_pat2] [] [] []
    result := { nvars := 2, col_num := 2, row_num := 1, v2c_map := [(-2, 1), (-1, 0)],
                result_table := [11, 25] } }

/-! ## The final pass: DISTINCT, ORDER BY, OFFSET, LIMIT, projection (engine.hpp 1007-1173) -/

/-- The conversion of an ID to `int`, the cell type of `int **table` and of the
rows the comparators see: the low 32 bits of the ID, read as a signed number.
An ID from 2^31 on becomes a negative `int`. -/
def to_int (x : sid_t) : Int :=
  if x % 2 ^ 32 < 2 ^ 31 then ((x % 2 ^ 32 : Nat) : Int)
  else ((x % 2 ^ 32 : Nat) : Int) - 2 ^ 32

/-- The conversion of an `int` to an ID, as it happens when a cell of the table is
stored in `result_table` or handed to the dictionary; `sid_t` is declared in
`type.hpp` and is taken as an unsigned type of 32 bits. -/
def of_int (v : Int) : sid_t := (v % 2 ^ 32).toNat

/-- The sign of `str_a.compare(str_b)`: negative, zero or positive as `a` is below,
equal to or above `b` in lexicographic order (only the sign is used). -/
def str_compare (a b : String) : Int :=
  if str_lt a b then -1 else if str_lt b a then 1 else 0

/-- The loop of `Compare::operator()` (engine.hpp 1016-1026) over the order
entries, returning the final value of `cmp`.  `str_b` is read as the source
writes it: the existence test looks at `a[col]`, the string at `b[col]`
(`id2str[...]` of an ID without an entry is the empty string).  A row is an
`int*`, its cells are converted to IDs where the dictionary is asked; a column
outside the row aborts. -/
def Compare_loop (env : FilterEnv) (query : SPARQLQuery) (a b : List Int) :
    List Order → Option Int
  | [] => some 0
  | o :: rest =>
    let col := query.result.var2col o.id
    if col < 0 then none
    else do
      let ida ← a[col.toNat]?
      let str_a := id_str env (of_int ida)
      let str_b ←
        if (env.id2str (of_int ida)).isSome
        then (b[col.toNat]?).map (fun idb => id_str env (of_int idb)) else some ""
      let cmp := str_compare str_a str_b
      if cmp ≠ 0 then pure (if o.descending then -cmp else cmp)
      else Compare_loop env query a b rest

/-- The comparator `Compare::operator()` (engine.hpp 1015-1028): `cmp < 0`. -/
def Compare (env : FilterEnv) (query : SPARQLQuery) (a b : List Int) : Option Bool :=
  (Compare_loop env query a b query.orders).map (fun cmp => decide (cmp < 0))

/-- The loop of `ReduceCmp::operator()` (engine.hpp 1038-1043) over the column
indices still to be looked at; the cells are `int`s and are compared as such. -/
def ReduceCmp_from (a b : List Int) : List Nat → Option Bool
  | [] => some false
  | i :: rest => do
    let x ← a[i]?
    let y ← b[i]?
    if x = y then ReduceCmp_from a b rest else pure (decide (x < y))

/-- The comparator `ReduceCmp::operator()` (engine.hpp 1031-1045): the rows are
compared cell by cell over the first `col_num` columns. -/
def ReduceCmp (col_num : Nat) (a b : List Int) : Option Bool :=
  ReduceCmp_from a b (List.range col_num)

/-- Insertion of a row into a sorted list of rows, behind the rows that the
comparator puts before it. -/
def sort_insert (cmp : List Int → List Int → Option Bool) (x : List Int) :
    List (List Int) → Option (List (List Int))
  | [] => some [x]
  | y :: ys => do
    let lt ← cmp y x
    if lt then do
      let rest ← sort_insert cmp x ys
      pure (y :: rest)
    else pure (x :: y :: ys)

/-- The library call `std::sort(first, last, cmp)` on an array of row pointers,
as an insertion sort.  The standard leaves the order of equivalent rows open;
for a comparator under which no two different rows are equivalent, such as
`ReduceCmp` over all columns, every sorting algorithm returns the same array. -/
def std_sort (cmp : List Int → List Int → Option Bool) :
    List (List Int) → Option (List (List Int))
  | [] => some []
  | x :: xs => do
    let s ← std_sort cmp xs
    sort_insert cmp x s

/-- The copy of the result into `int **table` (engine.hpp 1091-1097),
`table[i][j] = r.result.get_row_col(i, j)`: every ID is converted to `int`. -/
def copy_table (r : Result) : Option (List (List Int)) :=
  (List.range r.get_row_num).mapM
    (fun i => (List.range r.col_num).mapM
      (fun (j : Nat) => (r.get_row_col i (j : Int)).map to_int))

/-- The lambda `equal` of the DISTINCT step (engine.hpp 1104-1110) over the
projection variables still to be looked at: the rows agree on the columns of
`required_vars`. -/
def distinct_equal (r : Result) (a b : List Int) : List ssid_t → Option Bool
  | [] => some true
  | v :: rest =>
    let col := r.var2col v
    if col < 0 then none
    else do
      let x ← a[col.toNat]?
      let y ← b[col.toNat]?
      if x ≠ y then pure false else distinct_equal r a b rest

/-- The two nested loops of the DISTINCT step (engine.hpp 1116-1124) from the state
`(table, p, q)`, ending in the final `(table, p)`.  Every pass tests
`equal(table[p], table[q])` for one more `q`: when the rows agree `q` moves on
(the inner loop, which jumps to `out` once `q` reaches `size`), otherwise `p`
moves on and `table[p]`, `table[q]` are swapped.  The first argument bounds the
number of passes. -/
def distinct_loop (r : Result) (size : Nat) :
    Nat → List (List Int) → Nat → Nat → Option (List (List Int) × Nat)
  | 0, _, _, _ => none
  | fuel + 1, table, p, q =>
    if q < size then do
      let a ← table[p]?
      let b ← table[q]?
      let eq ← distinct_equal r a b r.required_vars
      if eq then distinct_loop r size fuel table p (q + 1)
      else do
        let p := p + 1
        let tp ← table[p]?
        let tq ← table[q]?
        distinct_loop r size fuel ((table.set p tq).set q tp) p (q + 1)
    else some (table, p)

/-- The write-back loop (engine.hpp 1133-1135):
`result_table[col_num * i + j] = table[i][j]` for the first `new_size` rows;
every `int` is converted to an ID. -/
def write_back (r : Result) (table : List (List Int)) (new_size : Nat) :
    Option (List sid_t) :=
  (List.range new_size).foldlM
    (fun t i => (List.range r.col_num).foldlM
      (fun t j => do
        let row ← table[i]?
        let x ← row[j]?
        if r.col_num * i + j < t.length then pure (t.set (r.col_num * i + j) (of_int x))
        else none)
      t)
    r.result_table

/-- The block `DISTINCT` of `final_process` (engine.hpp 1099-1127) on the array
`table` of row pointers: the array after the sort and the collapse, with
`new_size`; without DISTINCT the array is untouched and `new_size` is `size`. -/
def distinct_block (r : SPARQLQuery) (table : List (List Int)) :
    Option (List (List Int) × Nat) :=
  let size := r.result.get_row_num
  if r.distinct then do
    let table ← std_sort (ReduceCmp r.result.col_num) table
    let (table, p) ← distinct_loop r.result size (size + 1) table 0 1
    pure (table, p + 1)
  else pure (table, size)

/-- The block `ORDER BY` of `final_process` (engine.hpp 1128-1131): the first
`new_size` entries of the array are sorted with `Compare`. -/
def order_block (env : FilterEnv) (r : SPARQLQuery) (table : List (List Int))
    (new_size : Nat) : Option (List (List Int)) :=
  if r.orders.length > 0 then do
    let s ← std_sort (Compare env r) (table.take new_size)
    pure (s ++ table.drop new_size)
  else pure table

/-- The block `DISTINCT and ORDER BY` of `final_process` (engine.hpp 1086-1143),
as the new `result_table`: the copy into `table`, the two blocks, the write-back
and the erasure of the cells behind the rows kept. -/
def distinct_order_table (env : FilterEnv) (r : SPARQLQuery) : Option (List sid_t) := do
  let size := r.result.get_row_num
  let table ← copy_table r.result
  let (table, new_size) ← distinct_block r table
  let table ← order_block env r table new_size
  let t ← write_back r.result table new_size
  pure (if new_size < size
        then t.take (new_size * r.result.col_num) ++ t.drop (size * r.result.col_num)
        else t)

/-- The block `DISTINCT and ORDER BY` of `final_process` (engine.hpp 1084-1144). -/
def distinct_order_by (env : FilterEnv) (r : SPARQLQuery) : Option SPARQLQuery :=
  if r.distinct ∨ r.orders.length > 0 then
    (distinct_order_table env r).map
      (fun t => { r with result := { r.result with result_table := t } })
  else some r

/-- The block `OFFSET` of `final_process` (engine.hpp 1146-1151): the cells from the
start up to `min(begin + offset * col_num, end)` are erased. -/
def offset_step (r : SPARQLQuery) : SPARQLQuery :=
  if r.offset > 0 then
    { r with result := { r.result with
        result_table := r.result.result_table.drop
          (min (r.offset.toNat * r.result.col_num) r.result.result_table.length) } }
  else r

/-- The block `LIMIT` of `final_process` (engine.hpp 1153-1158): the cells from
`min(begin + limit * col_num, end)` to the end are erased. -/
def limit_step (r : SPARQLQuery) : SPARQLQuery :=
  if r.limit ≥ 0 then
    { r with result := { r.result with
        result_table := r.result.result_table.take
          (min (r.limit.toNat * r.result.col_num) r.result.result_table.length) } }
  else r

/-- The block `remove unrequested variables` of `final_process` (engine.hpp
1160-1172): a zero-filled table of `new_row_num * new_col_num` cells receives
the cell of every row in the column of every projection variable. -/
def project (r : Result) : Option Result := do
  let new_col_num := r.required_vars.length
  let new_row_num := r.get_row_num
  let new_result_table ← (List.range new_row_num).foldlM
    (fun t i => (List.range new_col_num).foldlM
      (fun t j => do
        let v ← r.required_vars[j]?
        let col := r.var2col v
        let x ← r.get_row_col i col
        if i * new_col_num + j < t.length then pure (t.set (i * new_col_num + j) x) else none)
      t)
    (List.replicate (new_row_num * new_col_num) 0)
  pure { r with result_table := new_result_table, col_num := new_col_num }

/-- Engine function `Engine::final_process` (engine.hpp 1080-1173). -/
def final_process (env : FilterEnv) (r : SPARQLQuery) : Option SPARQLQuery :=
  if r.result.blind ∨ r.result.result_table.length = 0 then some r
  else do
    let r ← distinct_order_by env r
    let r := offset_step r
    let r := limit_step r
    let result ← project r.result
    pure { r with result := result }

/-! ## Sample data for the final pass -/

/-- A finished query over the columns `?x` (variable -1) and `?y` (variable -2)
with the given cells, projected to `required`. -/
def demo_final_req (cells : List sid_t) (required : List ssid_t) : SPARQLQuery :=
  { id := 31, pid := 0, step := 1, pattern_group := .mk [demo_pat1] [] [] []
    result := { nvars := 2, col_num := 2, row_num := cells.length / 2, required_vars := required
                v2c_map := [(-2, 1), (-1, 0)], result_table := cells } }

/-- A finished query over the single column `?x` (variable -1), projected to `?x`. -/
def demo_final_column (cells : List sid_t) : SPARQLQuery :=
  { id := 32, pid := 0, step := 1, pattern_group := .mk [demo_pat1] [] [] []
    result := { nvars := 1, col_num := 1, row_num := cells.length, required_vars := [-1]
                v2c_map := [(-1, 0)], result_table := cells } }

/-- The rows of the table as `final_process` holds them in `int **table`: every
cell converted to `int`. -/
def int_rows (r : Result) : List (List Int) :=
  r.rows.map (fun row => row.map to_int)

/-- The cell a row of `int`s holds for the variable `vid`. -/
def int_cell (r : Result) (vid : ssid_t) (row : List Int) : Int :=
  row.getD (r.var2col vid).toNat 0

/-- Two rows of `int`s agree on the columns of the projection variables. -/
def proj_eq (r : Result) (a b : List Int) : Bool :=
  r.required_vars.all (fun v => decide (int_cell r v a = int_cell r v b))

/-- The rows kept behind a kept row `a`: a row that agrees with the last kept row
is dropped, any other row is kept and becomes the last kept row. -/
def collapse_from (eq : List Int → List Int → Bool) :
    List Int → List (List Int) → List (List Int)
  | _, [] => []
  | a, b :: rest =>
    if eq a b then collapse_from eq a rest else b :: collapse_from eq b rest

/-- Collapsing adjacent rows that agree: the first row is kept, then
`collapse_from`. -/
def collapse (eq : List Int → List Int → Bool) : List (List Int) → List (List Int)
  | [] => []
  | a :: rest => a :: collapse_from eq a rest

/-- The sample query of the DISTINCT examples: columns `?x`, `?y` with the rows
(1,5), (2,6), (3,5), projected to `?y`, with DISTINCT. -/
def demo_distinct_req : SPARQLQuery :=
  { demo_final_req [1, 5, 2, 6, 3, 5] [-2] with distinct := true }

/-- A sample query on which DISTINCT has work to do: columns `?x`, `?y` with the rows
(3,5), (1,5), (4294967295,6), (1,5), projected to `?y`, `?x`, with DISTINCT. -/
def demo_distinct_dup : SPARQLQuery :=
  { demo_final_req [3, 5, 1, 5, 4294967295, 6, 1, 5] [-2, -1] with distinct := true }

/-- The sample query of the OFFSET and LIMIT examples: columns `?x`, `?y` with the
rows (3,5), (1,5), (2,6), (1,5), projected to `?y`, `?x`, with DISTINCT,
`OFFSET 1` and `LIMIT 1`. -/
def demo_slice_req : SPARQLQuery :=
  { demo_final_req [3, 5, 1, 5, 2, 6, 1, 5] [-2, -1] with
    distinct := true, offset := 1, limit := 1 }

/-- The sample query of the ORDER BY examples: the single column `?x`, ordered by
`?x` ascending. -/
def demo_order_req : SPARQLQuery :=
  { demo_final_column [12, 11, 10] with orders := [{ id := -1, descending := false }] }

/-- The query as it stands when the projection block of `final_process` starts
(engine.hpp 1084-1158): after DISTINCT, ORDER BY, OFFSET and LIMIT. -/
def before_projection (env : FilterEnv) (r : SPARQLQuery) : Option SPARQLQuery :=
  (distinct_order_by env r).map (fun r => limit_step (offset_step r))

/-! ## The fork-join decision and the attribute kernels (engine.hpp 194-278, 553-561) -/

/-- Engine function `Engine::need_fork_join` (engine.hpp 553-561); the current
pattern is only read when RDMA is in use. -/
def need_fork_join (e : Engine) (req : SPARQLQuery) : Option Bool :=
  if !e.cfg.global_use_rdma then some true
  else do
    let pattern ← req.get_current_pattern
    let start := pattern.subject
    pure (decide (req.local_var ≠ start)
      && decide (req.result.get_row_num ≥ e.cfg.global_rdma_threshold))

/-- Modelled from the spec: a default-constructed `attr_t` (`type.hpp`), the tagged
union holding the integer 0; it is what `attr_t v;` holds when the lookup finds
no value. -/
def attr_default : attr_t := attr_t.int 0

/-- Modelled from the spec: the type code the visitor `get_type` gives for an
attribute value (1 = int, 2 = float, 3 = double; 0 is `SID_t`). -/
def attr_type_code : attr_t → Int
  | .int _ => 1
  | .float _ => 2
  | .double _ => 3

/-- Modelled from the spec: `Result::add_var2col(vid, col, type)` of `query.hpp`, the
form the attribute kernels use.  The column is recorded as by `add_var2col`; the
type tag of the column is not part of this model. -/
def Result.add_var2col_typed (r : Result) (vid : ssid_t) (col : Int) (_type : Int) : Result :=
  r.add_var2col vid col

/-- Kernel `Engine::const_to_unknown_attr` (engine.hpp 194-215).  The value the
lookup reports through `has_value` is not looked at: `v` is pushed as it is. -/
def const_to_unknown_attr (e : Engine) (req : SPARQLQuery) : Option SPARQLQuery := do
  let pattern ← req.get_current_pattern
  let start := pattern.subject
  let aid := pattern.predicate
  let d := pattern.direction
  let end_ := pattern.object
  let result := req.result
  -- assert(d == OUT)
  if d ≠ dir_t.OUT then none
  let v := (e.graph.get_vertex_attr_global e.tid start.toNat d aid).getD attr_default
  let updated_result_table : List attr_t := [v]
  let type := attr_type_code v
  let result := { result with attr_res_table := updated_result_table }
  let result := result.add_var2col_typed end_ 0 type
  let result := result.set_attr_col_num 1
  pure { req with result := result, step := req.step + 1 }

/-- The body of the row loop of `known_to_unknown_attr` for row `i`, on the state
(new vertex table, new attribute table, `type`). -/
def k2u_attr_step (e : Engine) (result : Result) (start pid : ssid_t) (d : dir_t)
    (st : List sid_t × List attr_t × Int) (i : Nat) :
    Option (List sid_t × List attr_t × Int) := do
  let prev_id ← result.get_row_col i (result.var2col start)
  match e.graph.get_vertex_attr_global e.tid prev_id d pid with
  | some v => do
    let tbl ← result.append_row_to i st.1
    let atbl ← result.append_attr_row_to i st.2.1
    pure (tbl, atbl ++ [v], attr_type_code v)
  | none => pure st

/-- Kernel `Engine::known_to_unknown_attr` (engine.hpp 246-278). -/
def known_to_unknown_attr (e : Engine) (req : SPARQLQuery) : Option SPARQLQuery := do
  let pattern ← req.get_current_pattern
  let start := pattern.subject
  let pid := pattern.predicate
  let d := pattern.direction
  let end_ := pattern.object
  let result := req.result
  -- assert(d == OUT)
  if d ≠ dir_t.OUT then none
  let updated ← (List.range result.get_row_num).foldlM
    (k2u_attr_step e result start pid d) (([], [], 0) : List sid_t × List attr_t × Int)
  let result := { result with attr_res_table := updated.2.1 }
  let result := { result with result_table := updated.1 }
  let result := result.add_var2col_typed end_ (result.get_attr_col_num : Int) updated.2.2
  let result := result.set_attr_col_num (result.get_attr_col_num + 1)
  pure { req with result := result, step := req.step + 1 }

/-- A sample graph with one attribute: vertex 11 has the value 25 for attribute
200, no other vertex has a value. -/
def demo_graph_attr : GStore :=
  { demo_graph with
    get_vertex_attr_global := fun _ v d a =>
      if v = 11 ∧ d = dir_t.OUT ∧ a = 200 then some (attr_t.int 25) else none }

/-- The engine of the attribute examples: thread 1 of server 0 with vertex
attributes enabled, RDMA in use and a fork-join threshold of 2 rows. -/
def demo_engine_attr : Engine :=
  { demo_engine with
    graph := demo_graph_attr
    cfg := { demo_cfg with global_enable_vattr := true, global_rdma_threshold := 2 } }

/-- The attribute pattern `(?x, 200, OUT, ?a)`. -/
def demo_pat_attr : Pattern :=
  { subject := -1, predicate := 200, direction := dir_t.OUT, object := -2, pred_type := 1 }

/-- A query at the attribute pattern `(?x, 200, OUT, ?a)` over the rows 11 and 12
bound to `?x`, anchored at the variable -3. -/
def demo_req_attr : SPARQLQuery :=
  { id := 41, step := 0, local_var := -3, pattern_group := .mk [demo_pat_attr] [] [] []
    result := { nvars := 2, col_num := 1, v2c_map := [(-1, 0)], result_table := [11, 12] } }

/-- A query at the attribute pattern `(s, 200, OUT, ?a)` with the constant subject
`s`, before its first step. -/
def demo_req_cattr (s : ssid_t) : SPARQLQuery :=
  { id := 42, step := 0
    pattern_group := .mk [{ subject := s, predicate := 200, direction := dir_t.OUT,
                            object := -2, pred_type := 1 }] [] [] []
    result := { nvars := 1 } }

/-- The attribute a row has for the pattern, read from the subject column `k`. -/
def row_attr (e : Engine) (pat : Pattern) (k : Nat) (row : List sid_t) : Option attr_t :=
  e.graph.get_vertex_attr_global e.tid (row.getD k 0) pat.direction pat.predicate

/-! ## The step executor (`Engine::execute_one_step`, engine.hpp 686-789) -/

/-- Modelled from the spec: the variable types of `query.hpp`: `known` (bound earlier in
this query, present as a column), `unknown` (free), `const` (bound literal ID). -/
inductive var_type where
  | known_var
  | unknown_var
  | const_var
  deriving DecidableEq, Repr

/-- Modelled from the spec: `Result::variable_type` of `query.hpp`; a non-negative ID is
a constant, a variable without a column is unknown, any other variable is known. -/
def Result.variable_type (r : Result) (vid : ssid_t) : var_type :=
  if vid ≥ 0 then var_type.const_var
  else if r.var2col vid = NO_RESULT then var_type.unknown_var
  else var_type.known_var

/-- Kernel `Engine::const_unknown_unknown` (engine.hpp 373-409). -/
def const_unknown_unknown (e : Engine) (req : SPARQLQuery) : Option SPARQLQuery := do
  let pattern ← req.get_current_pattern
  let start := pattern.subject
  let pid := pattern.predicate
  let d := pattern.direction
  let end_ := pattern.object
  let result := req.result
  -- assert(result.get_col_num() == 0)
  if result.get_col_num ≠ 0 then none
  let tpids := e.graph.get_edges_global e.tid start.toNat d e.cfg.PREDICATE_ID
  let updated_result_table := tpids.foldl
    (fun upd (p : sid_t) =>
      (e.graph.get_edges_global e.tid start.toNat d (p : Int)).foldl
        (fun upd2 v => (upd2 ++ [p]) ++ [v]) upd)
    []
  let result := { result with result_table := updated_result_table }
  let result := result.set_col_num 2
  let result := result.add_var2col pid 0
  let result := result.add_var2col end_ 1
  pure { req with result := result, step := req.step + 1 }

/-- Kernel `Engine::known_unknown_unknown` (engine.hpp 411-449).  The column count
is raised before the two new variables are given their columns. -/
def known_unknown_unknown (e : Engine) (req : SPARQLQuery) : Option SPARQLQuery := do
  let pattern ← req.get_current_pattern
  let start := pattern.subject
  let pid := pattern.predicate
  let d := pattern.direction
  let end_ := pattern.object
  let result := req.result
  let updated_result_table ← (List.range result.get_row_num).foldlM
    (fun upd i => do
      let prev_id ← result.get_row_col i (result.var2col start)
      let tpids := e.graph.get_edges_global e.tid prev_id d e.cfg.PREDICATE_ID
      tpids.foldlM
        (fun upd2 (p : sid_t) =>
          (e.graph.get_edges_global e.tid prev_id d (p : Int)).foldlM
            (fun upd3 v => do
              let upd4 ← result.append_row_to i upd3
              pure ((upd4 ++ [p]) ++ [v]))
            upd2)
        upd)
    []
  let result := { result with result_table := updated_result_table }
  let result := result.set_col_num (result.get_col_num + 2)
  let result := result.add_var2col pid (result.get_col_num : Int)
  let result := result.add_var2col end_ ((result.get_col_num : Int) + 1)
  pure { req with result := result, step := req.step + 1 }

/-- Engine function `Engine::execute_one_step` (engine.hpp 686-789).  `VERSATILE` is
the compile-time switch, `start_from_index` the test of `query.hpp`, `fuel` the
bound of the index loop; `none` is a failed assertion, in a kernel or in the
dispatch itself.  The result pairs the returned flag with the query. -/
def execute_one_step (e : Engine) (VERSATILE : Bool) (start_from_index : SPARQLQuery → Bool)
    (fuel : Nat) (req : SPARQLQuery) : Option (Bool × SPARQLQuery) :=
  if req.is_finished then some (false, req)
  else if req.step = 0 ∧ start_from_index req = true then
    (index_to_unknown e fuel req).map (fun q => (true, q))
  else do
    let pattern ← req.get_current_pattern
    let start := pattern.subject
    let predicate := pattern.predicate
    let end_ := pattern.object
    -- triple pattern with unknown predicate/attribute
    if predicate < 0 then
      if VERSATILE then
        match req.result.variable_type start, req.result.variable_type end_ with
        | .const_var, .unknown_var => (const_unknown_unknown e req).map (fun q => (true, q))
        | .known_var, .unknown_var => (known_unknown_unknown e req).map (fun q => (true, q))
        | _, _ => none
      else none
    else
      let pattern2 ← req.get_pattern req.step
      -- triple pattern with attribute
      if e.cfg.global_enable_vattr = true ∧ pattern2.pred_type > 0 then
        match req.result.variable_type start, req.result.variable_type end_ with
        | .const_var, .unknown_var => (const_to_unknown_attr e req).map (fun q => (true, q))
        | .known_var, .unknown_var => (known_to_unknown_attr e req).map (fun q => (true, q))
        | _, _ => none
      else
        -- triple pattern with known predicate
        match req.result.variable_type start, req.result.variable_type end_ with
        | .const_var, .const_var => none
        | .const_var, .known_var => none
        | .const_var, .unknown_var => (const_to_unknown e req).map (fun q => (true, q))
        | .known_var, .const_var => (known_to_const e req).map (fun q => (true, q))
        | .known_var, .known_var => (known_to_known e req).map (fun q => (true, q))
        | .known_var, .unknown_var => (known_to_unknown e req).map (fun q => (true, q))
        | .unknown_var, _ => none

/-- A query at its second step: the table has the column `?x` with the rows 11 and
12, and the current pattern `(10, 100, OUT, ?y)` has a constant subject and a
free object. -/
def demo_req_late_const : SPARQLQuery :=
  { id := 43, step := 1
    pattern_group := .mk [demo_pat_attr,
      { subject := 10, predicate := 100, direction := dir_t.OUT, object := -5 }] [] [] []
    result := { nvars := 2, col_num := 1, v2c_map := [(-1, 0)], result_table := [11, 12] } }

/-- The same table at the pattern `(?x, 100, OUT, ?y)`: a known subject and a free
object. -/
def demo_req_late_known : SPARQLQuery :=
  { demo_req_late_const with
    pattern_group := .mk [demo_pat_attr,
      { subject := -1, predicate := 100, direction := dir_t.OUT, object := -5 }] [] [] [] }

/-! ## UNION dispatch (`Engine::generate_union_query`, engine.hpp 504-519, and the
UNION branch of `Engine::execute_sparql_request`, engine.hpp 1221-1239) -/

/-- Engine function `Engine::generate_union_query` (engine.hpp 504-519): one
value-initialised sub-query per UNION alternative, filled in field by field.
`start_from_index` is the test of `query.hpp`. -/
def generate_union_query (e : Engine) (start_from_index : SPARQLQuery → Bool)
    (req : SPARQLQuery) : List SPARQLQuery :=
  req.pattern_group.unions.map (fun u =>
    let q : SPARQLQuery := {}
    let q := { q with pid := req.id }
    let q := { q with pattern_group := u }
    let q := { q with
      force_dispatch :=
        if start_from_index q = true
            ∧ e.cfg.global_mt_threshold * e.cfg.global_num_servers > 1
        then true else q.force_dispatch }
    let q := { q with step := 0 }
    let q := { q with result := req.result }
    { q with result := { q.result with blind := false } })

/-- The UNION branch of `execute_sparql_request` for the finished query `r`: the
reply map after `put_parent_request`, the `send_request` calls in program order
(each with the destination it is given) and the sub-queries pushed on the
local fast-path queue.  IDs are non-negative, so the subject converts to the
unsigned argument of `hash_mod` by `toNat`; an alternative without a first
pattern aborts. -/
def union_branch (e : Engine) (start_from_index : SPARQLQuery → Bool) (rmap : Reply_Map)
    (r : SPARQLQuery) : Option (Reply_Map × List Message × List SPARQLQuery) := do
  let union_reqs := generate_union_query e start_from_index r
  let rmap := rmap.put_parent_request r union_reqs.length
  let out ← (List.range union_reqs.length).foldlM
    (fun (st : List Message × List SPARQLQuery) i => do
      let q ← union_reqs[i]?
      let p0 ← q.pattern_group.patterns[0]?
      let dst_sid := hash_mod e.cfg p0.subject.toNat e.cfg.global_num_servers
      if (dst_sid : Int) ≠ e.sid then
        -- send_request(bundle, i, tid)
        pure (st.1 ++ [{ sid := (i : Int), tid := e.tid, bundle := q }], st.2)
      else
        pure (st.1, st.2 ++ [q]))
    (([], []) : List Message × List SPARQLQuery)
  pure (rmap, out.1, out.2)

/-- A finished query with two UNION alternatives on the sample cluster of two
servers (`hash` is the identity, the local server is 0): the first pattern of
alternative 0 has the subject 11, which belongs to server 1, that of
alternative 1 the subject 10, which is local. -/
def demo_union_req : SPARQLQuery :=
  { id := 50, step := 0
    pattern_group := .mk [] [] []
      [.mk [{ subject := 11, predicate := 100, direction := dir_t.OUT, object := -1 }] [] [] [],
       .mk [{ subject := 10, predicate := 100, direction := dir_t.OUT, object := -1 }] [] [] []]
    result := { nvars := 1 } }

/-! ## The loader (`DGraph`, dgraph.hpp): input files and attribute files -/

/-- Modelled from the spec: a triple `(s, p, o)` of vertex IDs (`triple_t` of `type.hpp`). -/
structure triple_t where
  s : sid_t
  p : sid_t
  o : sid_t
  deriving DecidableEq, Repr

/-- Modelled from the spec: an attribute triple `(s, a, v)` with a typed value
(`triple_attr_t` of `type.hpp`). -/
structure triple_attr_t where
  s : sid_t
  a : sid_t
  v : attr_t
  deriving DecidableEq, Repr

/-- A whitespace-separated token of an input file, given by what the formatted
extractions of the stream library read from it: the text `file >> str` reads,
and the value `file >> x` reads for `x` of type `sid_t`, `int`, `float` and
`double` (floating values as bit patterns); `none` is a failed extraction.  An
extraction takes a whole token or fails. -/
structure Token where
  text : String
  as_sid : Option sid_t := none
  as_int : Option Int := none
  as_float : Option Nat := none
  as_double : Option Nat := none
  deriving DecidableEq, Repr

/-- The part of a `DGraph` object and of the configuration the loader reads: the
server ID `sid`, the configuration, the sizes `mem->buffer_size()` and
`mem->kvstore_size()` in bytes, and `sizeof(sid_t)`. -/
structure DGraph where
  sid : Int
  cfg : Global
  buffer_size : Nat := 0
  kvstore_size : Nat := 0
  sizeof_sid : Nat := 8

/-- The `switch (type)` of the attribute loaders on the rest of the stream: the new
value of `v`, the rest of the stream and whether the stream is still good.  A
failed extraction leaves the zero of its type in the variable and the stream
failed; any type other than 1, 2 and 3 is only logged, `v` keeps the value it
has and nothing is read. -/
def read_attr_value (type : Int) (v : attr_t) (file : List Token) :
    attr_t × List Token × Bool :=
  if type = 1 then
    match file with
    | t :: rest =>
      match t.as_int with
      | some i => (attr_t.int i, rest, true)
      | none => (attr_t.int 0, file, false)
    | [] => (attr_t.int 0, [], false)
  else if type = 2 then
    match file with
    | t :: rest =>
      match t.as_float with
      | some f => (attr_t.float f, rest, true)
      | none => (attr_t.float 0, file, false)
    | [] => (attr_t.float 0, [], false)
  else if type = 3 then
    match file with
    | t :: rest =>
      match t.as_double with
      | some d => (attr_t.double d, rest, true)
      | none => (attr_t.double 0, file, false)
    | [] => (attr_t.double 0, [], false)
  else
    -- default: "Unsupported value type"
    (v, file, true)

/-- The loop `while (file >> s >> a >> type)` of the lambda `load_attr`
(dgraph.hpp 331-357) from the state (rest of the stream, `v`, `triple_sav[localtid]`).
The first argument bounds the number of passes; `none` when it runs out. -/
def load_attr_loop (g : DGraph) :
    Nat → List Token → attr_t → List triple_attr_t → Option (List triple_attr_t)
  | 0, _, _, _ => none
  | fuel + 1, file, v, sav =>
    match file with
    | ts :: ta :: tt :: rest =>
      match ts.as_sid, ta.as_sid, tt.as_int with
      | some s, some a, some type =>
        let r := read_attr_value type v rest
        let v := r.1
        let sav :=
          if g.sid = (hash_mod g.cfg s g.cfg.global_num_servers : Int)
          then sav ++ [{ s := s, a := a, v := v }] else sav
        if r.2.2 then load_attr_loop g fuel r.2.1 v sav else some sav
      | _, _, _ => some sav
    | _ => some sav

/-- The lambda `load_attr` on one file: `v` starts as a default `attr_t`, and a pass
takes at least three tokens, so the length of the file bounds the passes. -/
def load_attr (g : DGraph) (file : List Token) (sav : List triple_attr_t) :
    Option (List triple_attr_t) :=
  load_attr_loop g (file.length + 1) file attr_default sav

/-- Loader function `DGraph::load_attr_from_allfiles` (dgraph.hpp 319-373) on the
files in sorted order, each given by its tokens; `thread_of i` is the thread
that takes file `i`, and the result is `triple_sav`. -/
def load_attr_from_allfiles (g : DGraph) (thread_of : Nat → Nat)
    (files : List (List Token)) (triple_sav : Nat → List triple_attr_t) :
    Option (Nat → List triple_attr_t) :=
  if files.length = 0 then some triple_sav
  else
    (List.range files.length).foldlM
      (fun (sav : Nat → List triple_attr_t) i => do
        let localtid := thread_of i
        let file ← files[i]?
        let l ← load_attr g file (sav localtid)
        pure (fun t => if t = localtid then l else sav t))
      triple_sav

/-- The token of an integer literal: its text, its value, and the bit patterns of
the value as `float` and as `double`. -/
def num_token (text : String) (n : Nat) (fbits dbits : Nat) : Token :=
  { text := text, as_sid := some n, as_int := some (n : Int), as_float := some fbits,
    as_double := some dbits }

/-- The loader of server 0 on the sample cluster (two servers, `hash` the identity). -/
def demo_dgraph : DGraph :=
  { sid := 0, cfg := demo_cfg, buffer_size := 128, kvstore_size := 256, sizeof_sid := 8 }

/-- The tokens `8 20 1 3`: vertex 8 has the integer value 3 for attribute 20. -/
def demo_attr_good : List Token :=
  [num_token "8" 8 1090519040 4620693217682128896,
   num_token "20" 20 1101004800 4626322717216342016,
   num_token "1" 1 1065353216 4607182418800017408,
   num_token "3" 3 1077936128 4613937818241073152]

/-- The tokens `6 20 5`: a record for vertex 6 whose type field is 5. -/
def demo_attr_bad : List Token :=
  [num_token "6" 6 1086324736 4618441417868443648,
   num_token "20" 20 1101004800 4626322717216342016,
   num_token "5" 5 1084227584 4617315517961601024]

/-! ## Incremental load (`DGraph::dynamic_load_data`, dgraph.hpp 68-120 and 655-759) -/

/-- Modelled from the spec: the string dictionary (`String_Server` of `str_server.hpp`)
with the members the loader touches: the two maps and the next free IDs for
index and for normal vertices. -/
structure String_Server where
  str2id : List (String × sid_t) := []
  id2str : List (sid_t × String) := []
  next_index_id : sid_t := 0
  next_normal_id : sid_t := 0
  deriving DecidableEq, Repr

/-- Modelled from the spec: `String_Server::exist(string)`, the string has an ID. -/
def String_Server.exist (ss : String_Server) (str : String) : Bool :=
  (ss.str2id.lookup str).isSome

/-- Assignment `m[k] = v` on a map kept as an association list. -/
def map_assign {α β : Type} [BEq α] (m : List (α × β)) (k : α) (v : β) : List (α × β) :=
  (k, v) :: m.filter (fun kv => !(kv.1 == k))

/-- The library call `boost::ends_with`. -/
def ends_with (s suffix : String) : Bool :=
  suffix.toList.isSuffixOf s.toList

/-- The library call `boost::starts_with`. -/
def starts_with (s pre : String) : Bool :=
  pre.toList.isPrefixOf s.toList

/-- A directory entry as `readdir` returns it: the name and the tokens of the file. -/
structure DirEntry where
  d_name : String
  content : List Token
  deriving DecidableEq, Repr

/-- The state the incremental load works on: the dictionary, the remap table
`id2id`, and the triples handed to `gstore.insert_triple_out` and
`gstore.insert_triple_in`, in call order. -/
structure DynState where
  str_server : String_Server := {}
  id2id : List (sid_t × sid_t) := []
  inserted_out : List triple_t := []
  inserted_in : List triple_t := []
  deriving DecidableEq, Repr

/-- The loop `while (file >> str >> id)` of `dynamic_load_mappings`
(dgraph.hpp 103-114) on the tokens of one mapping file; `is_index` tells a file
`/str_index` from a file `/str_normal`. -/
def mapping_loop (is_index : Bool) : List Token → DynState → DynState
  | tstr :: tid :: rest, st =>
    match tid.as_sid with
    | some id =>
      let str := tstr.text
      let ss := st.str_server
      if ss.exist str then
        mapping_loop is_index rest
          { st with id2id := map_assign st.id2id id ((ss.str2id.lookup str).getD 0) }
      else
        let fresh := if is_index then ss.next_index_id else ss.next_normal_id
        let ss := if is_index then { ss with next_index_id := ss.next_index_id + 1 }
                  else { ss with next_normal_id := ss.next_normal_id + 1 }
        let id2id := map_assign st.id2id id fresh
        let ss := { ss with str2id := map_assign ss.str2id str fresh }
        let ss := { ss with id2str := map_assign ss.id2str fresh str }
        mapping_loop is_index rest { st with id2id := id2id, str_server := ss }
    | none => st
  | _, st => st

/-- Loader function `DGraph::dynamic_load_mappings` (dgraph.hpp 85-120); `dir` is what
`opendir` finds, `none` for a directory that cannot be opened (`exit(-1)`). -/
def dynamic_load_mappings (dname : String) (dir : Option (List DirEntry)) (st : DynState) :
    Option DynState := do
  let entries ← dir
  pure (entries.foldl
    (fun st ent =>
      if ent.d_name.toList.head? = some '.' then st
      else
        let fname := dname ++ ent.d_name
        if ends_with fname "/str_index" || ends_with fname "/str_normal" then
          mapping_loop (ends_with fname "/str_index") ent.content st
        else st)
    st)

/-- Loader function `DGraph::list_files` (dgraph.hpp 442-476) for a directory on a
shared file system: the names with the prefix, each with the entry it names.
A directory on HDFS is outside this model and stops the run, as does a
directory that cannot be opened. -/
def list_files (dname : String) (dir : Option (List DirEntry)) (pre : String) :
    Option (List (String × DirEntry)) :=
  if starts_with dname "hdfs:" then none
  else do
    let entries ← dir
    pure (entries.foldl
      (fun files ent =>
        if ent.d_name.toList.head? = some '.' then files
        else
          let fname := dname ++ ent.d_name
          if starts_with fname (dname ++ pre) then files ++ [(fname, ent)] else files)
      [])

/-- Method `DGraph::convert_sid` (dgraph.hpp 72-75). -/
def convert_sid (id2id : List (sid_t × sid_t)) (sid : sid_t) : sid_t :=
  match id2id.lookup sid with
  | some v => v
  | none => sid

/-- The loop `while (file >> s >> p >> o)` of `dynamic_load_data`
(dgraph.hpp 684-699); `check_sid` only logs. -/
def dynamic_triples_loop (g : DGraph) : List Token → DynState → DynState
  | ts :: tp :: tobj :: rest, st =>
    match ts.as_sid, tp.as_sid, tobj.as_sid with
    | some s, some p, some o =>
      let s := convert_sid st.id2id s
      let p := convert_sid st.id2id p
      let o := convert_sid st.id2id o
      let st :=
        if g.sid = (hash_mod g.cfg s g.cfg.global_num_servers : Int)
        then { st with inserted_out := st.inserted_out ++ [{ s := s, p := p, o := o }] }
        else st
      let st :=
        if g.sid = (hash_mod g.cfg o g.cfg.global_num_servers : Int)
        then { st with inserted_in := st.inserted_in ++ [{ s := s, p := p, o := o }] }
        else st
      dynamic_triples_loop g rest st
    | _, _, _ => st
  | _, st => st

/-- Loader function `DGraph::dynamic_load_data` (dgraph.hpp 655-759): the returned
value and the state it leaves.  The data files are taken in the order in which
they are listed (the source sorts the names first); the loop over the
attribute files reads them and changes nothing, its insertion being commented
out. -/
def dynamic_load_data (g : DGraph) (dname : String) (dir : Option (List DirEntry))
    (st : DynState) : Option (Int × DynState) := do
  -- load ID-mapping files and construct id2id mapping
  let st ← dynamic_load_mappings dname dir st
  let dfiles ← list_files dname dir "id_"
  let afiles ← list_files dname dir "attr_"
  if dfiles.length = 0 ∧ afiles.length = 0 then
    pure (0, st)
  else
    let st := dfiles.foldl (fun st f => dynamic_triples_loop g f.2.content st) st
    -- flush_convertmap(): clean the id2id mapping
    let st := { st with id2id := [] }
    pure (0, st)

/-- A directory that holds one dictionary-extension file, `str_normal` with the
line `<a> 5`, and no data or attribute file. -/
def demo_dir_mappings : List DirEntry :=
  [{ d_name := "str_normal",
     content := [{ text := "<a>" }, num_token "5" 5 1084227584 4617315517961601024] }]

/-- The same directory with the data file `id_0` holding the triple `5 20 6`. -/
def demo_dir_data : List DirEntry :=
  demo_dir_mappings ++
  [{ d_name := "id_0",
     content := [num_token "5" 5 1084227584 4617315517961601024,
                 num_token "20" 20 1101004800 4626322717216342016,
                 num_token "6" 6 1086324736 4618441417868443648] }]

/-- The state before the incremental load: an empty remap table and a dictionary
whose next free normal ID is 100. -/
def demo_dyn_state : DynState :=
  { str_server := { next_index_id := 30, next_normal_id := 100 } }

/-! ## Exchange-load and aggregation (`DGraph::load_data`, `DGraph::aggregate_data`,
dgraph.hpp 123-264 and 375-440) -/

/-- Loader function `DGraph::floor` (dgraph.hpp 493-496); `none` is the failed
`ASSERT(n != 0)`. -/
def floor (original n : Nat) : Option Nat :=
  if n = 0 then none else some (original - original % n)

/-- Subtraction of `uint64_t` values. -/
def sub_u64 (a b : Nat) : Nat := (a + 2 ^ 64 - b) % 2 ^ 64

/-- The size in bytes of one piece of a thread's buffer,
`floor(mem->buffer_size() / global_num_servers - sizeof(uint64_t), sizeof(sid_t))`. -/
def buf_sz (g : DGraph) : Option Nat :=
  floor (sub_u64 (g.buffer_size / g.cfg.global_num_servers) 8) g.sizeof_sid

/-- The size in bytes of one slot of the kvstore when it is split into `parts`
pieces, `floor(mem->kvstore_size() / parts - sizeof(uint64_t), sizeof(sid_t))`. -/
def kvs_sz (g : DGraph) (parts : Nat) : Option Nat :=
  floor (sub_u64 (g.kvstore_size / parts) 8) g.sizeof_sid

/-- The staging memory the exchange-load of one server writes.  `buf tid dst` holds
the triples in the piece for server `dst` of the buffer of thread `tid`, its
counter `*pn` being their number.  `kvs dst` holds the triples this server has
written into its slot of the kvstore of server `dst`; they are written one
behind the other, `num_triples[dst]` being their number. -/
structure Staging where
  buf : Nat → Nat → List triple_t
  kvs : Nat → List triple_t

/-- The staging memory before the load: nothing buffered, nothing written. -/
def Staging.empty : Staging :=
  { buf := fun _ _ => [], kvs := fun _ => [] }

/-- Loader function `DGraph::flush_triples` (dgraph.hpp 139-176); `none` is the failed
`ASSERT` on the space left in the slot. -/
def flush_triples (g : DGraph) (st : Staging) (tid dst_sid : Nat) : Option Staging := do
  let _buf_sz ← buf_sz g
  -- the 1st uint64_t of buffer records #new-triples
  let n := (st.buf tid dst_sid).length
  let kvs_sz ← kvs_sz g g.cfg.global_num_servers
  -- exist = __sync_fetch_and_add(&num_triples[dst_sid], n)
  let exist := (st.kvs dst_sid).length
  if (exist * 3 + n * 3) * g.sizeof_sid > kvs_sz then none
  else
    -- send triples and clear the buffer
    pure { buf := fun t d => if t = tid ∧ d = dst_sid then [] else st.buf t d
           kvs := fun d => if d = dst_sid then st.kvs d ++ st.buf tid dst_sid else st.kvs d }

/-- Loader function `DGraph::send_triple` (dgraph.hpp 180-203).  The piece is taken
to hold `buf_sz` bytes: a triple written behind its end stops the run. -/
def send_triple (g : DGraph) (st : Staging) (tid dst_sid : Nat) (s p o : sid_t) :
    Option Staging := do
  let buf_sz ← buf_sz g
  let n := (st.buf tid dst_sid).length
  -- flush buffer if there is no enough space to buffer a new triple
  let st ←
    if (n * 3 + 3) * g.sizeof_sid > buf_sz then do
      let st ← flush_triples g st tid dst_sid
      -- ASSERT(n == 0)
      if (st.buf tid dst_sid).length ≠ 0 then none
      pure st
    else pure st
  let n := (st.buf tid dst_sid).length
  if (n * 3 + 3) * g.sizeof_sid > buf_sz then none
  -- buffer the triple and update the counter
  pure { st with
    buf := fun t d =>
      if t = tid ∧ d = dst_sid then st.buf t d ++ [{ s := s, p := p, o := o }]
      else st.buf t d }

/-- The lambda of `load_data` (dgraph.hpp 218-230) on the triples one file holds,
run by the thread `localtid`. -/
def load_data_file (g : DGraph) (localtid : Nat) (file : List triple_t) (st : Staging) :
    Option Staging :=
  file.foldlM
    (fun st t => do
      let s_sid := hash_mod g.cfg t.s g.cfg.global_num_servers
      let o_sid := hash_mod g.cfg t.o g.cfg.global_num_servers
      if s_sid = o_sid then
        send_triple g st localtid s_sid t.s t.p t.o
      else do
        let st ← send_triple g st localtid s_sid t.s t.p t.o
        send_triple g st localtid o_sid t.s t.p t.o)
    st

/-- Loader function `DGraph::load_data` (dgraph.hpp 205-268) on the files in sorted
order, each given by the triples it holds: the returned number of partitions
and the staging memory.  The files are taken one after the other, file `i` by
the thread `thread_of i`; the counters sent in the last loop are the lengths
of the lists in `kvs`. -/
def load_data (g : DGraph) (thread_of : Nat → Nat) (files : List (List triple_t))
    (st : Staging) : Option (Nat × Staging) := do
  let st ← (List.range files.length).foldlM
    (fun st i =>
      -- each server only load a part of files
      if ((i % g.cfg.global_num_servers : Nat) : Int) ≠ g.sid then pure st
      else do
        let file ← files[i]?
        load_data_file g (thread_of i) file st)
    st
  -- flush the rest triples within each RDMA buffer
  let st ← (List.range g.cfg.global_num_servers).foldlM
    (fun st s => (List.range g.cfg.global_num_engines).foldlM
      (fun st t => flush_triples g st t s) st)
    st
  pure (g.cfg.global_num_servers, st)

/-- The scan of `aggregate_data` by thread `tid` (dgraph.hpp 394-428) over the
partitions of the kvstore, each given by the triples its counter covers: the
lists `triple_pso[tid]` and `triple_pos[tid]` before they are sorted. -/
def aggregate_scan (g : DGraph) (tid : Nat) (partitions : List (List triple_t))
    (init : List triple_t × List triple_t) : List triple_t × List triple_t :=
  partitions.foldl
    (fun acc part => part.foldl
      (fun acc t =>
        -- out-edges
        let acc :=
          if (hash_mod g.cfg t.s g.cfg.global_num_servers : Int) = g.sid then
            if t.s % g.cfg.global_num_engines = tid then (acc.1 ++ [t], acc.2) else acc
          else acc
        -- in-edges
        if (hash_mod g.cfg t.o g.cfg.global_num_servers : Int) = g.sid then
          if t.o % g.cfg.global_num_engines = tid then (acc.1, acc.2 ++ [t]) else acc
        else acc)
      acc)
    init

/-- Modelled from the spec: the comparator `triple_sort_by_spo` of `type.hpp`, the order
by (s, p, o). -/
def triple_sort_by_spo (t1 t2 : triple_t) : Bool :=
  decide (t1.s < t2.s) || (decide (t1.s = t2.s) &&
    (decide (t1.p < t2.p) || (decide (t1.p = t2.p) && decide (t1.o < t2.o))))

/-- Modelled from the spec: the comparator `triple_sort_by_ops` of `type.hpp`, the order
by (o, p, s). -/
def triple_sort_by_ops (t1 t2 : triple_t) : Bool :=
  decide (t1.o < t2.o) || (decide (t1.o = t2.o) &&
    (decide (t1.p < t2.p) || (decide (t1.p = t2.p) && decide (t1.s < t2.s))))

/-- Modelled from the spec: the comparator `triple_sort_by_pso` of `type.hpp`, the
predicate-major order by (p, s, o). -/
def triple_sort_by_pso (t1 t2 : triple_t) : Bool :=
  decide (t1.p < t2.p) || (decide (t1.p = t2.p) &&
    (decide (t1.s < t2.s) || (decide (t1.s = t2.s) && decide (t1.o < t2.o))))

/-- Modelled from the spec: the comparator `triple_sort_by_pos` of `type.hpp`, the
predicate-major order by (p, o, s). -/
def triple_sort_by_pos (t1 t2 : triple_t) : Bool :=
  decide (t1.p < t2.p) || (decide (t1.p = t2.p) &&
    (decide (t1.o < t2.o) || (decide (t1.o = t2.o) && decide (t1.s < t2.s))))

/-- Insertion of a triple into a sorted list, behind the triples the comparator
puts before it. -/
def triple_insert (lt : triple_t → triple_t → Bool) (x : triple_t) :
    List triple_t → List triple_t
  | [] => [x]
  | y :: ys => if lt y x then y :: triple_insert lt x ys else x :: y :: ys

/-- The library call `sort(first, last, cmp)` on a vector of triples, as an
insertion sort.  The four comparators put any two different triples in a fixed
order, so every sorting algorithm returns the same vector. -/
def sort_triples (lt : triple_t → triple_t → Bool) : List triple_t → List triple_t
  | [] => []
  | x :: xs => triple_insert lt x (sort_triples lt xs)

/-- Loader function `DGraph::dedup_triples` (dgraph.hpp 123-137): the loop keeps the
vector and the write position `n`, the vector is cut to `n` at the end. -/
def dedup_triples (triples : List triple_t) : Option (List triple_t) :=
  if triples.length ≤ 1 then some triples
  else do
    let r ← (List.range' 1 (triples.length - 1)).foldlM
      (fun (st : List triple_t × Nat) i => do
        let a ← st.1[i]?
        let b ← st.1[i - 1]?
        if a.s = b.s ∧ a.p = b.p ∧ a.o = b.o then pure st
        else pure (st.1.set st.2 a, st.2 + 1))
      (triples, 1)
    pure (r.1.take r.2)

/-- The work of thread `tid` in `aggregate_data` (dgraph.hpp 394-438): scan, sort
and dedup; the lists `triple_pso[tid]` and `triple_pos[tid]` are empty when
the pass starts.  `VERSATILE` is the compile-time switch. -/
def aggregate_thread (g : DGraph) (VERSATILE : Bool) (partitions : List (List triple_t))
    (tid : Nat) : Option (List triple_t × List triple_t) := do
  let scanned := aggregate_scan g tid partitions ([], [])
  let pso := if VERSATILE then sort_triples triple_sort_by_spo scanned.1
             else sort_triples triple_sort_by_pso scanned.1
  let pos := if VERSATILE then sort_triples triple_sort_by_ops scanned.2
             else sort_triples triple_sort_by_pos scanned.2
  let pos ← dedup_triples pos
  let pso ← dedup_triples pso
  pure (pso, pos)

/-- Loader function `DGraph::aggregate_data` (dgraph.hpp 375-440): for every thread
`tid` below `global_num_engines` the pair `(triple_pso[tid], triple_pos[tid])`. -/
def aggregate_data (g : DGraph) (VERSATILE : Bool) (partitions : List (List triple_t)) :
    Option (List (List triple_t × List triple_t)) :=
  (List.range g.cfg.global_num_engines).mapM (aggregate_thread g VERSATILE partitions)

/-- The triples the server `g.sid` reads in the exchange-load: those of the files
`i` with `i % global_num_servers = sid`, in file order. -/
def own_triples (g : DGraph) (files : List (List triple_t)) : List triple_t :=
  ((List.range files.length).filter
    (fun i => decide (((i % g.cfg.global_num_servers : Nat) : Int) = g.sid))).flatMap
    (fun i => files.getD i [])

/-- The servers a triple is sent to: the owner of its subject and the owner of its
object. -/
def sent_to (cfg : Global) (k : Nat) (x : triple_t) : Bool :=
  decide (hash_mod cfg x.s cfg.global_num_servers = k)
    || decide (hash_mod cfg x.o cfg.global_num_servers = k)

/-- The adjacent-duplicate removal `dedup_triples` computes, triple by triple: a
triple equal to the last kept one is dropped. -/
def dedup_adjacent (l : List triple_t) : List triple_t :=
  l.foldl (fun acc x => if acc.getLast? = some x then acc else acc ++ [x]) []

/-- Two input files of the sample cluster: `(10,100,11)`, `(10,100,12)`, `(10,100,11)`
in file 0 and `(11,100,12)` in file 1. -/
def demo_files : List (List triple_t) :=
  [[{ s := 10, p := 100, o := 11 }, { s := 10, p := 100, o := 12 },
    { s := 10, p := 100, o := 11 }],
   [{ s := 11, p := 100, o := 12 }]]

/-! ## Sorting and deduplication of triples -/

/-- The comparator puts any two different triples in a fixed order: it is
asymmetric, `not after` is transitive, and only equal triples are unordered. -/
def strict_total (lt : triple_t → triple_t → Bool) : Prop :=
  (∀ a b, lt a b = true → lt b a = false) ∧
  (∀ a b c, lt b a = false → lt c b = false → lt c a = false) ∧
  (∀ a b, lt a b = false → lt b a = false → a = b)

/-- The test for the out-edges in the scan of thread `tid`: the subject belongs to
this server and to this thread. -/
def owns_out (g : DGraph) (tid : Nat) (t : triple_t) : Bool :=
  decide ((hash_mod g.cfg t.s g.cfg.global_num_servers : Int) = g.sid)
    && decide (t.s % g.cfg.global_num_engines = tid)

/-- The test for the in-edges in the scan of thread `tid`: the object belongs to
this server and to this thread. -/
def owns_in (g : DGraph) (tid : Nat) (t : triple_t) : Bool :=
  decide ((hash_mod g.cfg t.o g.cfg.global_num_servers : Int) = g.sid)
    && decide (t.o % g.cfg.global_num_engines = tid)

/-- The store ordering of the out-edge lists: (s, p, o) in a VERSATILE build,
predicate-major (p, s, o) otherwise. -/
def order_out (VERSATILE : Bool) : triple_t → triple_t → Bool :=
  if VERSATILE then triple_sort_by_spo else triple_sort_by_pso

/-- The store ordering of the in-edge lists: (o, p, s) in a VERSATILE build,
predicate-major (p, o, s) otherwise. -/
def order_in (VERSATILE : Bool) : triple_t → triple_t → Bool :=
  if VERSATILE then triple_sort_by_ops else triple_sort_by_pos

/-- The kvstore partitions of a server of the sample cluster: `(10,100,11)` staged
twice and `(10,100,12)` in partition 0, `(11,100,12)` and `(12,100,10)` in
partition 1. -/
def demo_partitions : List (List triple_t) :=
  [[{ s := 10, p := 100, o := 11 }, { s := 10, p := 100, o := 12 },
    { s := 10, p := 100, o := 11 }],
   [{ s := 11, p := 100, o := 12 }, { s := 12, p := 100, o := 10 }]]

/-- The triples bound for server `k` that the staging memory holds, measured by
`mu` (their number, or the number of copies of one triple): those written to
the slot and those still in the buffers of the `M` threads. -/
def staged_total (mu : List triple_t → Nat) (M : Nat) (st : Staging) (k : Nat) : Nat :=
  mu (st.kvs k) + ((List.range M).map (fun t => mu (st.buf t k))).sum

/-! ## Index parallelism 1 (`global_mt_threshold = 1`) -/

/-- Configuration with two servers, two engines per server and index parallelism 1. -/
def demo_cfg_stride : Global :=
  { demo_cfg with global_num_servers := 2, global_num_engines := 2, global_mt_threshold := 1 }

/-- The second engine (thread 2, engine index 1) of server 0 of `demo_cfg_stride`. -/
def demo_engine_stride : Engine :=
  { sid := 0, tid := 2, graph := demo_graph, cfg := demo_cfg_stride }

/-- The sub-query the force-dispatch branch of `demo_engine_stride` prepares for the
first engine of its own server. -/
def demo_stride_sub : SPARQLQuery :=
  { demo_index_req with force_dispatch := false, id := -1, pid := 7, tid := -1 }

/-! ## Sample data for the kernel with an unknown predicate -/

/-- A sample graph with a predicate list: vertex 10 has the one predicate 100 (read
under `PREDICATE_ID = 0`) and, under it, the neighbours 11 and 12. -/
def demo_graph_versatile : GStore :=
  { demo_graph with
    get_edges_global := fun _ v d p =>
      if v = 10 ∧ d = dir_t.OUT ∧ p = 0 then [100]
      else if v = 10 ∧ d = dir_t.OUT ∧ p = 100 then [11, 12]
      else [] }

/-- The engine of the examples with an unknown predicate. -/
def demo_engine_versatile : Engine :=
  { demo_engine with graph := demo_graph_versatile }

/-- A query at the pattern `(?x, ?p, OUT, ?y)` over the one row 10 bound to `?x`
(`?x = -1`, `?p = -2`, `?y = -3`). -/
def demo_req_versatile : SPARQLQuery :=
  { id := 44, step := 0
    pattern_group := .mk
      [{ subject := -1, predicate := -2, direction := dir_t.OUT, object := -3 }] [] [] []
    result := { nvars := 3, col_num := 1, v2c_map := [(-1, 0)], result_table := [10] } }

/-! ## What `dedup_triples` is to compute -/

/-- The triples of a list behind the triple `prev` that differ from their immediate
predecessor, in order. -/
def drop_after (prev : triple_t) : List triple_t → List triple_t
  | [] => []
  | x :: rest => if x = prev then drop_after x rest else x :: drop_after x rest

/-- Removal of exactly the triples equal (in s, p and o) to their immediate
predecessor: the first triple stays, every other one stays when it differs
from the triple right before it. -/
def drop_repeats : List triple_t → List triple_t
  | [] => []
  | a :: rest => a :: drop_after a rest

/-! ## Byte offsets of the staging area (dgraph.hpp 139-176, 252-264, 375-402) -/

/-- The offset `off` at which `flush_triples` writes its triples into the kvstore of
the destination, `exist` triples of this source being there already
(dgraph.hpp 161-163). -/
def flush_off (g : DGraph) (exist : Nat) : Option Nat := do
  let kvs_sz ← kvs_sz g g.cfg.global_num_servers
  pure ((kvs_sz + 8) * g.sid.toNat + 8 + exist * 3 * g.sizeof_sid)

/-- The number of bytes `sz` that `flush_triples` writes for `n` triples
(dgraph.hpp 164). -/
def flush_len (g : DGraph) (n : Nat) : Nat := n * 3 * g.sizeof_sid

/-- The offset at which the last loop of `load_data` writes the counter
`num_triples[s]` of this source into the kvstore of server `s`
(dgraph.hpp 257-258). -/
def counter_off (g : DGraph) : Option Nat := do
  let kvs_sz ← floor (g.kvstore_size / g.cfg.global_num_servers) g.sizeof_sid
  pure (kvs_sz * g.sid.toNat)

/-- The offset of `pn`, the counter of partition `id`, as `aggregate_data` reads it
from a kvstore split into `num_partitions` slots (dgraph.hpp 378-381, 397). -/
def partition_pn_off (g : DGraph) (num_partitions id : Nat) : Option Nat := do
  let kvs_sz ← kvs_sz g num_partitions
  pure ((kvs_sz + 8) * id)

/-- The offset of the cell `kvs[i * 3]` of partition `id`, the first cell of its
`i`-th triple, as `aggregate_data` reads it (dgraph.hpp 398-405). -/
def partition_triple_off (g : DGraph) (num_partitions id i : Nat) : Option Nat := do
  let pn ← partition_pn_off g num_partitions id
  pure (pn + 8 + i * 3 * g.sizeof_sid)

/-! ## Backpressure: `Engine::send_request` and `Engine::sweep_msgs`
(engine.hpp 147-165) -/

/-- The sending side of an engine: `pending_msgs`, the bundles the transport has
accepted so far, with their destinations and in the order of acceptance, and
the number of calls of `adaptor->send` made so far. -/
structure SendState where
  pending_msgs : List Message := []
  accepted : List Message := []
  calls : Nat := 0

/-- The transport call `adaptor->send(sid, tid, bundle)`; `ok k` tells whether the
`k`-th call of the run succeeds. -/
def adaptor_send (ok : Nat → Bool) (st : SendState) (m : Message) : Bool × SendState :=
  (ok st.calls,
   { st with
     calls := st.calls + 1
     accepted := if ok st.calls then st.accepted ++ [m] else st.accepted })

/-- Engine function `Engine::send_request` (engine.hpp 158-165). -/
def send_request (ok : Nat → Bool) (st : SendState) (bundle : SPARQLQuery)
    (dst_sid dst_tid : Int) : Bool × SendState :=
  let r := adaptor_send ok st { sid := dst_sid, tid := dst_tid, bundle := bundle }
  if r.1 then (true, r.2)
  else
    -- failed to send, then stash the msg to void deadlock
    (false, { r.2 with
      pending_msgs := r.2.pending_msgs ++ [{ sid := dst_sid, tid := dst_tid, bundle := bundle }] })

/-- The iterator loop of `sweep_msgs` (engine.hpp 151-155): `kept` are the messages
before the iterator, the list argument those from the iterator on. -/
def sweep_loop (ok : Nat → Bool) : List Message → List Message → SendState → SendState
  | [], kept, st => { st with pending_msgs := kept }
  | m :: rest, kept, st =>
    let r := adaptor_send ok st m
    if r.1 then sweep_loop ok rest kept r.2        -- it = pending_msgs.erase(it)
    else sweep_loop ok rest (kept ++ [m]) r.2      -- ++it

/-- Engine function `Engine::sweep_msgs` (engine.hpp 147-156). -/
def sweep_msgs (ok : Nat → Bool) (st : SendState) : SendState :=
  if st.pending_msgs.length = 0 then st
  else sweep_loop ok st.pending_msgs [] st

/-- A call made on the sending side of an engine. -/
inductive SendOp where
  | request (bundle : SPARQLQuery) (dst_sid dst_tid : Int)
  | sweep

/-- A sequence of `send_request` and `sweep_msgs` calls, run in order. -/
def run_send_ops (ok : Nat → Bool) (ops : List SendOp) (st : SendState) : SendState :=
  ops.foldl
    (fun st op =>
      match op with
      | .request bundle dst_sid dst_tid => (send_request ok st bundle dst_sid dst_tid).2
      | .sweep => sweep_msgs ok st)
    st

/-- The bundles handed to `send_request` in a sequence of calls, with their
destinations, in call order. -/
def handed (ops : List SendOp) : List Message :=
  ops.filterMap
    (fun op =>
      match op with
      | .request bundle dst_sid dst_tid =>
        some { sid := dst_sid, tid := dst_tid, bundle := bundle }
      | .sweep => none)

/-- The messages of a list with the positions counted from `k`, split by the
outcome `ok` gives for their position: the messages with outcome `b`. -/
def with_outcome (ok : Nat → Bool) (b : Bool) : Nat → List Message → List Message
  | _, [] => []
  | k, m :: rest =>
    if ok k = b then m :: with_outcome ok b (k + 1) rest else with_outcome ok b (k + 1) rest

/-! ## All-files-load (`DGraph::load_data_from_allfiles`, dgraph.hpp 271-316) and the
two load strategies side by side -/

/-- The test of the all-files-load: the subject or the object of the triple belongs
to this server. -/
def kept_by (g : DGraph) (t : triple_t) : Bool :=
  decide ((hash_mod g.cfg t.s g.cfg.global_num_servers : Int) = g.sid)
    || decide ((hash_mod g.cfg t.o g.cfg.global_num_servers : Int) = g.sid)

/-- The lambda of `load_data_from_allfiles` (dgraph.hpp 284-298) on the triples one
file holds: `slot` are the triples in the slot of the thread, `n` being their
number; `none` is the failed `ASSERT` on the space left. -/
def load_allfiles_file (g : DGraph) (kvs_sz : Nat) (file : List triple_t)
    (slot : List triple_t) : Option (List triple_t) :=
  file.foldlM
    (fun slot t =>
      let s_sid := hash_mod g.cfg t.s g.cfg.global_num_servers
      let o_sid := hash_mod g.cfg t.o g.cfg.global_num_servers
      if (s_sid : Int) = g.sid ∨ (o_sid : Int) = g.sid then
        -- ASSERT((n * 3 + 3) * sizeof(sid_t) <= kvs_sz)
        if (slot.length * 3 + 3) * g.sizeof_sid ≤ kvs_sz then some (slot ++ [t]) else none
      else some slot)
    slot

/-- Loader function `DGraph::load_data_from_allfiles` (dgraph.hpp 271-316) on the files
in sorted order: the returned number of partitions and the slots of the
kvstore, one per thread.  The files are taken one after the other, file `i`
by the thread `thread_of i`. -/
def load_data_from_allfiles (g : DGraph) (thread_of : Nat → Nat)
    (files : List (List triple_t)) (kvs : Nat → List triple_t) :
    Option (Nat × (Nat → List triple_t)) := do
  let kvs ← (List.range files.length).foldlM
    (fun (kvs : Nat → List triple_t) i => do
      let localtid := thread_of i
      let kvs_sz ← kvs_sz g g.cfg.global_num_engines
      let file ← files[i]?
      let slot ← load_allfiles_file g kvs_sz file (kvs localtid)
      pure (fun t => if t = localtid then slot else kvs t))
    kvs
  pure (g.cfg.global_num_engines, kvs)

/-- The loader of server `k` of a cluster whose servers share the configuration and
the memory sizes of `g`. -/
def cluster_loader (g : DGraph) (k : Nat) : DGraph :=
  { g with sid := (k : Int) }

/-- The partitions `aggregate_data` finds in the kvstore of server `k` after every
server `src` of the cluster has run the exchange-load: partition `src` holds
what server `src` wrote into its slot. -/
def exchange_partitions (g : DGraph) (thread_of : Nat → Nat) (files : List (List triple_t))
    (k : Nat) : Option (List (List triple_t)) :=
  (List.range g.cfg.global_num_servers).mapM
    (fun src => (load_data (cluster_loader g src) thread_of files Staging.empty).map
      (fun r => r.2.kvs k))

/-- The partitions `aggregate_data` finds in the kvstore of server `k` after that
server has run the all-files-load: one partition per thread. -/
def allfiles_partitions (g : DGraph) (thread_of : Nat → Nat) (files : List (List triple_t))
    (k : Nat) : Option (List (List triple_t)) :=
  (load_data_from_allfiles (cluster_loader g k) thread_of files (fun _ => [])).map
    (fun r => (List.range r.1).map r.2)

/-- The triples of the files that the thread `t` takes, in file order. -/
def thread_triples (thread_of : Nat → Nat) (files : List (List triple_t)) (t : Nat) :
    List triple_t :=
  ((List.range files.length).filter (fun i => decide (thread_of i = t))).flatMap
    (fun i => files.getD i [])

/-! ## Work stealing: `Engine::execute_sparql_reply` and `Engine::execute_optional`
(engine.hpp 1047-1078, 1282-1307) -/

/-- Modelled from the spec: the id coder of an engine (`Coder` of `coder.hpp`).  An
id carries the server and the thread of the engine whose coder assigned it;
`sid_of` and `tid_of` read them back, and `qid sid tid seq` is the id the
engine `(sid, tid)` assigns as its `seq`-th. -/
structure Coder where
  sid_of : Int → Int
  tid_of : Int → Int
  qid : Int → Int → Nat → Int

/-- The mutable members of an `Engine` that the reply path touches: its reply map,
its fast-path queue and the sequence number of its coder. -/
structure EngineCtx where
  rmap : Reply_Map := {}
  msg_fast_path : List SPARQLQuery := []
  seq : Nat := 0

/-- The index of an engine in the table `engines[]` (`own_id` of `Engine::run`). -/
def own_id (e : Engine) : Nat := (e.tid - e.cfg.global_num_proxies).toNat

/-- The index of the paired neighbour in `engines[]` (`nbr_id` of `Engine::run`). -/
def nbr_id (e : Engine) : Nat := (e.cfg.global_num_engines - 1) - own_id e

/-- Engine function `Engine::generate_optional_query` (engine.hpp 491-502): one
value-initialised sub-query per OPTIONAL group, filled in field by field. -/
def generate_optional_query (req : SPARQLQuery) : List SPARQLQuery :=
  req.pattern_group.optional.map (fun g =>
    let q : SPARQLQuery := {}
    let q := { q with pid := req.id }
    let q := { q with pattern_group := g }
    let q := { q with step := 0 }
    let q := { q with result := req.result }
    { q with result := { q.result with blind := false } })

/-- Engine function `Engine::execute_optional` (engine.hpp 1047-1078), run by the
engine `e`: `rmap`, `msg_fast_path`, `coder`, `sid` and `tid` are the members
of `e`, whose mutable part is the entry `own_id e` of the table.  The result is
the table and the `send_request` calls in program order.  IDs are
non-negative, so the subject converts to the unsigned argument of `hash_mod`
by `toNat`; a group without a first pattern aborts. -/
def execute_optional (coder : Coder) (e : Engine) (engines : List EngineCtx)
    (r : SPARQLQuery) : Option (List EngineCtx × List Message) := do
  let r := { r with optional_dispatched := true }
  let optional_reqs := generate_optional_query r
  let c ← engines[own_id e]?
  let engines := engines.set (own_id e)
    { c with rmap := c.rmap.put_parent_request r optional_reqs.length }
  (List.range optional_reqs.length).foldlM
    (fun (st : List EngineCtx × List Message) i => do
      let q ← optional_reqs[i]?
      let fork ← need_fork_join e q
      if fork then
        let c ← st.1[own_id e]?
        let q := { q with id := coder.qid e.sid e.tid c.seq }
        let sub_reqs ← generate_sub_query e q
        let engines := st.1.set (own_id e)
          { c with seq := c.seq + 1
                   rmap := c.rmap.put_parent_request q sub_reqs.length }
        (List.range sub_reqs.length).foldlM
          (fun (st2 : List EngineCtx × List Message) (j : Nat) => do
            let sub ← sub_reqs[j]?
            if (j : Int) ≠ e.sid then
              pure (st2.1, st2.2 ++ [{ sid := (j : Int), tid := e.tid, bundle := sub }])
            else do
              let c ← st2.1[own_id e]?
              pure (st2.1.set (own_id e)
                { c with msg_fast_path := c.msg_fast_path ++ [sub] }, st2.2))
          (engines, st.2)
      else do
        let p0 ← q.pattern_group.patterns[0]?
        let dst_sid := hash_mod e.cfg p0.subject.toNat e.cfg.global_num_servers
        if (dst_sid : Int) ≠ e.sid then
          pure (st.1, st.2 ++ [{ sid := (i : Int), tid := e.tid, bundle := q }])
        else do
          let c ← st.1[own_id e]?
          pure (st.1.set (own_id e)
            { c with msg_fast_path := c.msg_fast_path ++ [q] }, st.2))
    (engines, [])

/-- Engine function `Engine::execute_sparql_reply(r, engine)` (engine.hpp 1282-1307),
run by the engine `e` with the entry `engine` of the table as the `Engine *`
argument.  The result is the table and the `send_request` calls in program
order. -/
def execute_sparql_reply (ops : MergeOps) (env : FilterEnv) (coder : Coder) (e : Engine)
    (engines : List EngineCtx) (r : SPARQLQuery) (engine : Nat) :
    Option (List EngineCtx × List Message) := do
  let c ← engines[engine]?
  let rmap := c.rmap.put_reply ops r
  let ready := rmap.is_ready r.pid
  if ready.1 then
    let merged := ready.2.get_merged_reply r.pid
    let engines := engines.set engine { c with rmap := merged.2 }
    let reply := merged.1
    -- optional will be processed after union , and filter follows.
    let reply ←
      if reply.is_optional || (!reply.is_optional && reply.is_union) then filter env reply
      else some reply
    -- if all data has been merged and next will be sent back to proxy
    if coder.tid_of reply.pid < e.cfg.global_num_proxies then
      if reply.is_optional && !reply.optional_dispatched then
        execute_optional coder e engines reply
      else do
        let reply ← final_process env reply
        pure (engines,
          [{ sid := coder.sid_of reply.pid, tid := coder.tid_of reply.pid, bundle := reply }])
    else
      pure (engines,
        [{ sid := coder.sid_of reply.pid, tid := coder.tid_of reply.pid, bundle := reply }])
  else
    pure (engines.set engine { c with rmap := ready.2 }, [])

/-- A sample coder: the id is `sid * 10000 + tid * 100 + seq`. -/
def demo_coder : Coder where
  sid_of := fun id => id / 10000
  tid_of := fun id => (id / 100) % 100
  qid := fun sid tid seq => sid * 10000 + tid * 100 + seq

/-- The neighbour of the sample engine: thread 2 of server 0. -/
def demo_engine_nbr : Engine :=
  { demo_engine with tid := 2 }

/-- A query of the proxy thread 0 with two OPTIONAL groups, `(11, 100, OUT, ?y)` and
`(10, 100, OUT, ?y)`, not yet dispatched.  The sample engine (server 0, thread
1) gave it the id 121. -/
def demo_opt_parent : SPARQLQuery :=
  { id := 121, pid := 5, step := 1
    pattern_group := .mk [demo_pat1] []
      [.mk [{ subject := 11, predicate := 100, direction := dir_t.OUT, object := -2 }] [] [] [],
       .mk [{ subject := 10, predicate := 100, direction := dir_t.OUT, object := -2 }] [] [] []]
      []
    result := { nvars := 2, col_num := 1, v2c_map := [(-1, 0)] } }

/-- The one sub-reply the sample engine waits for: the rows 11 and 12. -/
def demo_opt_reply : SPARQLQuery :=
  { pid := 121, step := 1, pattern_group := .mk [demo_pat1] [] [] []
    result := { nvars := 2, col_num := 1, row_num := 2, v2c_map := [(-1, 0)],
                result_table := [11, 12] } }

/-- The table of the two engines of server 0: the sample engine (entry 0) has
registered the sample parent with one pending reply, its neighbour (entry 1)
holds nothing. -/
def demo_engines : List EngineCtx :=
  [{ rmap := ({} : Reply_Map).put_parent_request demo_opt_parent 1, seq := 22 }, {}]

/-- What a test observes of the table and the messages: per engine the keys of its
reply map with their counts and the parent ids of its fast-path queue, and per
message the destination and the parent id. -/
def observe (out : List EngineCtx × List Message) :
    List (List (Int × Int) × List Int) × List (Int × Int × Int) :=
  (out.1.map (fun c => (c.rmap.internal_item_map.map (fun kv => (kv.1, kv.2.count)),
                        c.msg_fast_path.map (fun q => q.pid))),
   out.2.map (fun m => (m.sid, m.tid, m.bundle.pid)))


/-! ## Co-run: `Engine::do_corun` (engine.hpp 563-684) -/

/-- Step 1 of `do_corun`: the values of the anchor column are inserted into
`unique_set`, row by row; the list holds the elements of the set in the order
of their first insertion.  `none` is the failed `assert(vid < 0)`, a missing
pattern or a read outside the table. -/
def corun_unique (req : SPARQLQuery) : Option (List sid_t) := do
  let pattern ← req.get_pattern req.corun_step
  let vid := pattern.subject
  if ¬ (vid < 0) then none
  else
    let col_idx := req.result.var2col vid
    (List.range req.result.get_row_num).foldlM
      (fun (unique_set : List sid_t) i => do
        let v ← req.result.get_row_col i col_idx
        pure (if v ∈ unique_set then unique_set else unique_set ++ [v]))
      []

/-- The lambda of `do_corun` (engine.hpp 584-596) with its captured state: the map
`sub_pvars` (its entries, newest first) and the vector `pvars_map`. -/
def corun_lambda (req_result : Result) (st : List (ssid_t × ssid_t) × List Int)
    (id : ssid_t) : ssid_t × (List (ssid_t × ssid_t) × List Int) :=
  if id < 0 then -- remap pattern variable
    match st.1.lookup id with
    | some new_id => (new_id, st)
    | none =>
      let new_id : ssid_t := -((st.1.length : Int) + 1) -- starts from -1
      (new_id, ((id, new_id) :: st.1, st.2 ++ [req_result.var2col id]))
  else (id, st)

/-- Step 2 of `do_corun` (engine.hpp 598-607): the patterns of the sub-request, the
map `sub_pvars` and the vector `pvars_map` after the loop over the steps
`corun_step` to `fetch_step - 1`. -/
def corun_patterns (req : SPARQLQuery) :
    Option (List Pattern × (List (ssid_t × ssid_t) × List Int)) :=
  (List.range (req.fetch_step - req.corun_step)).foldlM
    (fun (acc : List Pattern × (List (ssid_t × ssid_t) × List Int)) k => do
      let pattern ← req.get_pattern (req.corun_step + k)
      let s := corun_lambda req.result acc.2 pattern.subject
      let p := corun_lambda req.result s.2 pattern.predicate
      let o := corun_lambda req.result p.2 pattern.object
      pure (acc.1 ++ [{ subject := s.1, predicate := p.1, direction := pattern.direction,
                        object := o.1, pred_type := 0 }], o.2))
    ([], ([], []))

/-- The vector `pvars_map` of `do_corun` after step 2: the main-result column of
every variable of the co-run patterns, in the order of first use. -/
def corun_pvars_map (req : SPARQLQuery) : List Int :=
  ((corun_patterns req).map (fun st => st.2.2)).getD []

/-- Step 3 of `do_corun` (engine.hpp 609-627): the sub-request.  `unordered` stands
for the iteration order of `boost::unordered_set`: it is handed the elements in
insertion order and returns them in the order the iterator visits them.
Reading `sub_pvars[vid]` of a missing key gives the value-initialised 0. -/
def corun_sub_req (unordered : List sid_t → List sid_t) (req : SPARQLQuery) :
    Option SPARQLQuery := do
  let unique_set ← corun_unique req
  let pattern ← req.get_pattern req.corun_step
  let vid := pattern.subject
  let st ← corun_patterns req
  let sub_req : SPARQLQuery := {}
  let sub_req := { sub_req with pattern_group := .mk st.1 [] [] [] }
  let sub_result := { sub_req.result with nvars := st.2.2.length }
  let sub_result :=
    { sub_result with result_table := sub_result.result_table ++ unordered unique_set }
  let sub_result := { sub_result with col_num := 1 }
  let sub_result := sub_result.add_var2col ((st.2.1.lookup vid).getD 0) 0
  let sub_result := { sub_result with blind := false } -- must take back results
  pure { sub_req with result := sub_result }

/-- Step 4 of `do_corun` (engine.hpp 629-634),
`while (true) { execute_one_step(sub_req); if (sub_req.is_finished()) break; }`,
with `n` bounding the number of iterations; `fuel` is the bound handed to
`execute_one_step`. -/
def corun_loop (e : Engine) (VERSATILE : Bool) (start_from_index : SPARQLQuery → Bool)
    (fuel : Nat) : Nat → SPARQLQuery → Option SPARQLQuery
  | 0, _ => none
  | n + 1, sub_req => do
    let r ← execute_one_step e VERSATILE start_from_index fuel sub_req
    if r.2.is_finished then some r.2
    else corun_loop e VERSATILE start_from_index fuel n r.2

/-- The tuples of `n` cells of a flat table. -/
def tuples (n : Nat) (table : List sid_t) : List (List sid_t) :=
  (List.range (table.length / n)).map (fun i => (table.drop (n * i)).take n)

/-- The lexicographic order of tuples. -/
def tuple_le : List sid_t → List sid_t → Bool
  | [], _ => true
  | _ :: _, [] => false
  | a :: as, b :: bs => decide (a < b) || (decide (a = b) && tuple_le as bs)

/-- Modelled from the spec: `mytuple::qsort_tuple` of `mytuple.hpp`, which sorts the
flat table as tuples of `n` cells. -/
def qsort_tuple (n : Nat) (table : List sid_t) : List sid_t :=
  ((tuples n table).insertionSort (fun a b => tuple_le a b = true)).flatten

/-- Modelled from the spec: `mytuple::binary_search_tuple` of `mytuple.hpp`, the search
for the tuple `target` among the tuples of `n` cells of the sorted table. -/
def binary_search_tuple (n : Nat) (table : List sid_t) (target : List sid_t) : Bool :=
  decide (target ∈ tuples n table)

/-- The inner loop of the lookup (engine.hpp 647-648, 664-665),
`for (c < pvars_map.size()) tmp_vec[c] = req_result.get_row_col(i, pvars_map[c])`;
a write past the end of `tmp_vec` aborts. -/
def corun_fill (req_result : Result) (pvars_map : List Int) (i : Nat)
    (tmp_vec : List sid_t) : Option (List sid_t) :=
  (List.range pvars_map.length).foldlM
    (fun (tmp : List sid_t) c => do
      let col ← pvars_map[c]?
      let v ← req_result.get_row_col i col
      if c < tmp.length then pure (tmp.set c v) else none)
    tmp_vec

/-- The loop that fills `remote_set` (engine.hpp 656-659): one pair per row of the
sub-result, made of its columns 0 and 1. -/
def corun_remote_set (sub_result : Result) : Option (List (sid_t × sid_t)) :=
  (List.range sub_result.get_row_num).foldlM
    (fun (remote_set : List (sid_t × sid_t)) i => do
      let a ← sub_result.get_row_col i 0
      let b ← sub_result.get_row_col i 1
      pure (if (a, b) ∈ remote_set then remote_set else remote_set ++ [(a, b)]))
    []

/-- Step 5 of `do_corun` (engine.hpp 639-672): the new table of the main result.
`tmp_vec` is sized once and reused from row to row. -/
def corun_join (req_result : Result) (pvars_map : List Int) (sub_result : Result) :
    Option (List sid_t) :=
  if sub_result.get_col_num > 2 then do -- qsort
    let table := qsort_tuple sub_result.get_col_num sub_result.result_table
    let out ← (List.range req_result.get_row_num).foldlM
      (fun (st : List sid_t × List sid_t) i => do
        let tmp_vec ← corun_fill req_result pvars_map i st.1
        if binary_search_tuple sub_result.get_col_num table tmp_vec then
          (req_result.append_row_to i st.2).map (fun upd => (tmp_vec, upd))
        else pure (tmp_vec, st.2))
      (List.replicate sub_result.get_col_num 0, [])
    pure out.2
  else do -- hash join
    let remote_set ← corun_remote_set sub_result
    let out ← (List.range req_result.get_row_num).foldlM
      (fun (st : List sid_t × List sid_t) i => do
        let tmp_vec ← corun_fill req_result pvars_map i st.1
        let a ← tmp_vec[0]?
        let b ← tmp_vec[1]?
        if (a, b) ∈ remote_set then
          (req_result.append_row_to i st.2).map (fun upd => (tmp_vec, upd))
        else pure (tmp_vec, st.2))
      (List.replicate sub_result.get_col_num 0, [])
    pure out.2

/-- Engine function `Engine::do_corun` (engine.hpp 563-684).  `n` bounds the
iterations of the loop that runs the sub-request. -/
def do_corun (e : Engine) (VERSATILE : Bool) (start_from_index : SPARQLQuery → Bool)
    (unordered : List sid_t → List sid_t) (fuel n : Nat) (req : SPARQLQuery) :
    Option SPARQLQuery := do
  let sub_req ← corun_sub_req unordered req
  let sub_req ← corun_loop e VERSATILE start_from_index fuel n sub_req
  let updated ← corun_join req.result (corun_pvars_map req) sub_req.result
  pure { req with result := { req.result with result_table := updated },
                  step := req.fetch_step }

/-- The elements of a list in the order of their first occurrence. -/
def distinct_values (l : List sid_t) : List sid_t :=
  l.foldl (fun set v => if v ∈ set then set else set ++ [v]) []

/-- The tuple a row of the main result has in the given columns. -/
def corun_tuple (pvars_map : List Int) (row : List sid_t) : List sid_t :=
  pvars_map.map (fun c => row.getD c.toNat 0)

/-- A query whose co-run range is its second pattern `(?x, 100, OUT, ?y)`, with both
variables bound: the rows (11,12), (12,11) and (10,12). -/
def demo_corun_pair : SPARQLQuery :=
  { demo_req2 with corun_step := 1, fetch_step := 2 }

/-- A query whose co-run range is its second pattern `(?x, 100, OUT, 12)`, which
binds no new variable; `?x` is bound to the rows 10, 11 and 12. -/
def demo_corun_single : SPARQLQuery :=
  { id := 9, step := 1, corun_step := 1, fetch_step := 2
    pattern_group := .mk [demo_pat1, demo_pat3] [] [] []
    result := { nvars := 1, col_num := 1, v2c_map := [(-1, 0)], result_table := [10, 11, 12] } }

/-- A query with the same co-run range over the rows 11 and 12. -/
def demo_corun_single2 : SPARQLQuery :=
  { demo_corun_single with
    result := { nvars := 1, col_num := 1, v2c_map := [(-1, 0)], result_table := [11, 12] } }

/-- A query whose co-run range is the two patterns `(?x, 100, OUT, ?y)` and
`(?y, 100, OUT, ?z)`, with the three variables bound: the rows (10,11,12) and
(11,12,10). -/
def demo_corun_triple : SPARQLQuery :=
  { id := 9, step := 1, corun_step := 1, fetch_step := 3
    pattern_group := .mk [demo_pat1, demo_pat2,
      { subject := -2, predicate := 100, direction := dir_t.OUT, object := -3 }] [] [] []
    result := { nvars := 3, col_num := 3, v2c_map := [(-3, 2), (-2, 1), (-1, 0)],
                result_table := [10, 11, 12, 11, 12, 10] } }


/-! ## Auxiliary facts about the row-major table -/

theorem foldlM_push_eq {α : Type} (f : Nat → Option α) (g : Nat → α) (l : List Nat)
    (h : ∀ c ∈ l, f c = some (g c)) (upd : List α) :
    l.foldlM (fun upd c => (f c).map (fun v => upd ++ [v])) upd
      = some (upd ++ l.map g) := by
  induction l generalizing upd with
  | nil => simp
  | cons c l ih =>
    have hc : f c = some (g c) := h c (List.mem_cons_self _ _)
    have hl : ∀ c ∈ l, f c = some (g c) := fun c hc => h c (List.mem_cons_of_mem _ hc)
    simp [List.foldlM_cons, hc, ih hl]

theorem range_map_getElem_eq_take_drop {α : Type} (t : List α) (k n : Nat) (d : α)
    (h : k + n ≤ t.length) :
    (List.range n).map (fun c => t.getD (k + c) d) = (t.drop k).take n := by
  apply List.ext_getElem?
  intro j
  by_cases hj : j < n
  · have h1 : k + j < t.length := by omega
    simp [List.getElem?_take, hj, List.getElem?_range, List.getElem?_drop, h1,
      List.getD_eq_getElem?_getD]
  · have h2 : n ≤ j := by omega
    simp [List.getElem?_take, hj, h2]

theorem row_bound (r : Result) (i : Nat) (hi : i < r.get_row_num) :
    r.col_num * i + r.col_num ≤ r.result_table.length := by
  unfold Result.get_row_num at hi
  split at hi
  · omega
  · have h1 : i + 1 ≤ r.result_table.length / r.col_num := hi
    have h2 : 0 < r.col_num := by omega
    have h3 := (Nat.le_div_iff_mul_le h2).1 h1
    have h4 : r.col_num * i + r.col_num = (i + 1) * r.col_num := by ring
    omega

theorem get_row_col_some (r : Result) (i c : Nat) (hi : i < r.get_row_num)
    (hc : c < r.col_num) :
    r.get_row_col i (c : Int) = some (r.result_table.getD (r.col_num * i + c) 0) := by
  have hb := row_bound r i hi
  have h1 : r.col_num * i + c < r.result_table.length := by omega
  simp [Result.get_row_col, List.getD_eq_getElem?_getD, h1]

theorem append_row_to_eq (r : Result) (i : Nat) (hi : i < r.get_row_num)
    (upd : List sid_t) :
    r.append_row_to i upd
      = some (upd ++ r.row i) := by
  unfold Result.append_row_to Result.row
  rw [foldlM_push_eq (fun c => r.get_row_col i (c : Int))
    (fun c => r.result_table.getD (r.col_num * i + c) 0)]
  · rw [range_map_getElem_eq_take_drop _ _ _ _ (row_bound r i hi)]
  · intro c hc
    exact get_row_col_some r i c hi (List.mem_range.1 hc)

theorem row_length (r : Result) (i : Nat) (hi : i < r.get_row_num) :
    (r.row i).length = r.col_num := by
  have hb := row_bound r i hi
  simp [Result.row]
  omega

theorem row_getD (r : Result) (i c : Nat) (hi : i < r.get_row_num) (hc : c < r.col_num) :
    r.result_table.getD (r.col_num * i + c) 0 = (r.row i).getD c 0 := by
  have hb := row_bound r i hi
  simp [Result.row, List.getD_eq_getElem?_getD, List.getElem?_take, hc, List.getElem?_drop]

theorem get_row_col_row (r : Result) (i c : Nat) (hi : i < r.get_row_num)
    (hc : c < r.col_num) :
    r.get_row_col i (c : Int) = some ((r.row i).getD c 0) := by
  rw [get_row_col_some r i c hi hc, row_getD r i c hi hc]

theorem chunks_of_flatten (c : Nat) (L : List (List sid_t))
    (hL : ∀ x ∈ L, x.length = c) :
    (List.range L.length).map (fun i => (L.flatten.drop (c * i)).take c) = L := by
  induction L with
  | nil => simp
  | cons x L ih =>
    have hx : x.length = c := hL x (List.mem_cons_self _ _)
    have hL2 : ∀ y ∈ L, y.length = c := fun y hy => hL y (List.mem_cons_of_mem _ hy)
    rw [List.length_cons, List.range_succ_eq_map, List.map_cons, List.map_map]
    congr 1
    · simp [← hx]
    · conv_rhs => rw [← ih hL2]
      apply List.map_congr_left
      intro i _
      have h1 : c * (i + 1) = x.length + c * i := by rw [hx]; ring
      simp only [Function.comp, List.flatten_cons, Nat.succ_eq_add_one]
      rw [h1, List.drop_append]

theorem length_flatten_const (c : Nat) (L : List (List sid_t))
    (hL : ∀ x ∈ L, x.length = c) : L.flatten.length = L.length * c := by
  induction L with
  | nil => simp
  | cons x L ih =>
    have hx : x.length = c := hL x (List.mem_cons_self _ _)
    have hL2 : ∀ y ∈ L, y.length = c := fun y hy => hL y (List.mem_cons_of_mem _ hy)
    simp [ih hL2, hx]
    ring

theorem rows_of_flatten (r : Result) (c : Nat) (L : List (List sid_t)) (hc : 0 < c)
    (hL : ∀ x ∈ L, x.length = c) (h1 : r.col_num = c) (h2 : r.result_table = L.flatten) :
    r.rows = L := by
  have hn : r.get_row_num = L.length := by
    unfold Result.get_row_num
    rw [h1, h2, length_flatten_const c L hL]
    have : c ≠ 0 := by omega
    simp [this, Nat.mul_div_cancel _ hc]
  unfold Result.rows
  rw [hn]
  have : r.row = fun i => (L.flatten.drop (c * i)).take c := by
    funext i
    simp [Result.row, h1, h2]
  rw [this]
  exact chunks_of_flatten c L hL

/-! ## `known_to_unknown` -/

theorem foldlM_some_append {α β : Type} (g : β → List α) (l : List β) (acc : List α) :
    l.foldlM (fun acc v => some (acc ++ g v)) acc = some (acc ++ (l.map g).flatten) := by
  induction l generalizing acc with
  | nil => simp
  | cons v l ih => rw [List.foldlM_cons]; simp [ih]

theorem k2u_inner_eq (r : Result) (i : Nat) (hi : i < r.get_row_num) (res : List sid_t)
    (upd : List sid_t) :
    res.foldlM
        (fun upd2 v => do
          let upd3 ← r.append_row_to i upd2
          pure (upd3 ++ [v]))
        upd
      = some (upd ++ (res.map (fun n => r.row i ++ [n])).flatten) := by
  have hf : (fun (upd2 : List sid_t) (v : sid_t) => do
          let upd3 ← r.append_row_to i upd2
          pure (upd3 ++ [v]))
      = fun upd2 v => some (upd2 ++ (r.row i ++ [v])) := by
    funext upd2 v
    simp [append_row_to_eq r i hi]
  rw [hf]
  exact foldlM_some_append (fun n => r.row i ++ [n]) res upd

theorem k2u_outer_eq (e : Engine) (r : Result) (pat : Pattern) (k : Nat)
    (hk : k < r.col_num) (l : List Nat) (hl : ∀ i ∈ l, i < r.get_row_num)
    (upd : List sid_t) :
    l.foldlM
        (fun upd i => do
          let prev_id ← r.get_row_col i (k : Int)
          let res := e.graph.get_edges_global e.tid prev_id pat.direction pat.predicate
          res.foldlM
            (fun upd2 v => do
              let upd3 ← r.append_row_to i upd2
              pure (upd3 ++ [v]))
            upd)
        upd
      = some (upd ++ ((l.map r.row).flatMap (k2u_rows e pat k)).flatten) := by
  induction l generalizing upd with
  | nil => simp
  | cons i l ih =>
    have hi : i < r.get_row_num := hl i (List.mem_cons_self _ _)
    have hl2 : ∀ j ∈ l, j < r.get_row_num := fun j hj => hl j (List.mem_cons_of_mem _ hj)
    have h1 := k2u_inner_eq r i hi
    have h2 := ih hl2
    rw [List.foldlM_cons, get_row_col_row r i k hi hk]
    simp only [Option.bind_eq_bind, Option.some_bind, Option.pure_def] at h1 h2 ⊢
    rw [h1]
    simp only [Option.some_bind]
    rw [h2]
    simp [k2u_rows]

theorem rows_length (r : Result) : ∀ row ∈ r.rows, row.length = r.col_num := by
  intro row hrow
  simp only [Result.rows, List.mem_map, List.mem_range] at hrow
  obtain ⟨i, hi, rfl⟩ := hrow
  exact row_length r i hi

theorem known_to_unknown_eq (e : Engine) (req : SPARQLQuery) (pat : Pattern) (k : Nat)
    (hpat : req.get_current_pattern = some pat)
    (hs : req.result.var2col pat.subject = (k : Int))
    (hk : k < req.result.col_num) :
    known_to_unknown e req = some (k2u_out e req pat k) := by
  have hloop := k2u_outer_eq e req.result pat k hk
    (List.range req.result.get_row_num) (fun i hi => List.mem_range.1 hi) []
  simp only [known_to_unknown, hpat, hs, Option.bind_eq_bind, Option.some_bind,
    Option.pure_def] at hloop ⊢
  rw [hloop]
  simp [Result.set_col_num, Result.add_var2col, Result.get_col_num, Result.rows, k2u_out]

theorem k2u_out_rows (e : Engine) (req : SPARQLQuery) (pat : Pattern) (k : Nat) :
    (k2u_out e req pat k).result.rows = req.result.rows.flatMap (k2u_rows e pat k) := by
  apply rows_of_flatten _ (req.result.col_num + 1) _ (by omega)
  · intro x hx
    simp only [List.mem_flatMap, k2u_rows, List.mem_map] at hx
    obtain ⟨row, hrow, n, _, rfl⟩ := hx
    simp [rows_length req.result row hrow]
  · rfl
  · rfl

/-- C1. For a result with at least one column and a pattern whose subject variable
is bound to column `k`, `known_to_unknown` returns: the new table has one more
column, its rows are, for every input row in order and every neighbour `n` of
`edges(row[k], p, d)` in list order, the input row followed by `n` (so a row
without neighbours yields nothing), the object is mapped to the old column
count, and `step` has grown by one. -/
theorem known_to_unknown_spec (e : Engine) (req : SPARQLQuery) (pat : Pattern) (k : Nat)
    (hpat : req.get_current_pattern = some pat)
    (hs : req.result.var2col pat.subject = (k : Int))
    (hk : k < req.result.col_num) :
    ∃ out, known_to_unknown e req = some out
      ∧ out.result.col_num = req.result.col_num + 1
      ∧ out.result.rows = req.result.rows.flatMap (fun row =>
          (e.graph.get_edges_global e.tid (row.getD k 0) pat.direction pat.predicate).map
            (fun n => row ++ [n]))
      ∧ out.result.var2col pat.object = (req.result.col_num : Int)
      ∧ out.step = req.step + 1 := by
  refine ⟨_, known_to_unknown_eq e req pat k hpat hs hk, rfl, k2u_out_rows e req pat k,
    ?_, rfl⟩
  simp [Result.var2col, List.lookup, k2u_out]

/-- Witness of C1: with the triples (10,100,11), (10,100,12), (11,100,12) the rows
11 and 12 bound to `?x` become the single row (11,12). -/
theorem known_to_unknown_spec_witness :
    (known_to_unknown demo_engine demo_req1).map (fun q => q.result.rows) = some [[11, 12]]
    ∧ ∃ out, known_to_unknown demo_engine demo_req1 = some out
      ∧ out.result.col_num = demo_req1.result.col_num + 1
      ∧ out.result.rows = demo_req1.result.rows.flatMap (fun row =>
          (demo_engine.graph.get_edges_global demo_engine.tid (row.getD 0 0)
            demo_pat2.direction demo_pat2.predicate).map (fun n => row ++ [n]))
      ∧ out.result.var2col demo_pat2.object = (demo_req1.result.col_num : Int)
      ∧ out.step = demo_req1.step + 1 :=
  ⟨by decide, known_to_unknown_spec demo_engine demo_req1 demo_pat2 0 rfl rfl (by decide)⟩

/-! ## `const_to_unknown` -/

theorem push_all_eq (res upd : List sid_t) : push_all res upd = upd ++ res := by
  unfold push_all
  induction res generalizing upd with
  | nil => simp
  | cons v res ih => simp [ih]

/-- C2. For a query whose result has no column and a pattern with constant subject,
`const_to_unknown` leaves a one-column table whose rows are the values of
`edges(s, p, d)` in list order (none when the list is empty), maps the object
to column 0, sets the column count to 1 and raises `step` by one; a result with
a non-zero column count is rejected. -/
theorem const_to_unknown_spec (e : Engine) (req : SPARQLQuery) (pat : Pattern)
    (hpat : req.get_current_pattern = some pat) (_hs : 0 ≤ pat.subject) :
    (req.result.col_num = 0 →
      ∃ out, const_to_unknown e req = some out
        ∧ out.result.result_table =
            e.graph.get_edges_global e.tid pat.subject.toNat pat.direction pat.predicate
        ∧ out.result.rows =
            (e.graph.get_edges_global e.tid pat.subject.toNat pat.direction
              pat.predicate).map (fun n => [n])
        ∧ out.result.var2col pat.object = 0
        ∧ out.result.col_num = 1
        ∧ out.step = req.step + 1)
    ∧ (req.result.col_num ≠ 0 → const_to_unknown e req = none) := by
  constructor
  · intro h0
    refine ⟨{ req with
        result := { req.result with
          result_table :=
            e.graph.get_edges_global e.tid pat.subject.toNat pat.direction pat.predicate
          v2c_map := (pat.object, 0) :: req.result.v2c_map
          col_num := 1 }
        step := req.step + 1 }, ?_, rfl, ?_, ?_, rfl, rfl⟩
    · simp [const_to_unknown, hpat, Result.get_col_num, h0, push_all_eq,
        Result.set_col_num, Result.add_var2col]
    · apply rows_of_flatten _ 1 _ (by omega)
      · intro x hx
        simp only [List.mem_map] at hx
        obtain ⟨n, _, rfl⟩ := hx
        rfl
      · rfl
      · simp [List.flatten_eq_flatMap, List.flatMap_map]
    · simp [Result.var2col, List.lookup]
  · intro h0
    simp [const_to_unknown, hpat, Result.get_col_num, h0]

/-- Witness of C2: with the triples (10,100,11), (10,100,12) the pattern
`(10, 100, OUT, ?x)` gives the rows 11 and 12. -/
theorem const_to_unknown_spec_witness :
    (const_to_unknown demo_engine demo_req0).map (fun q => q.result.rows)
      = some [[11], [12]]
    ∧ ((demo_req0.result.col_num = 0 →
      ∃ out, const_to_unknown demo_engine demo_req0 = some out
        ∧ out.result.result_table =
            demo_engine.graph.get_edges_global demo_engine.tid demo_pat1.subject.toNat
              demo_pat1.direction demo_pat1.predicate
        ∧ out.result.rows =
            (demo_engine.graph.get_edges_global demo_engine.tid demo_pat1.subject.toNat
              demo_pat1.direction demo_pat1.predicate).map (fun n => [n])
        ∧ out.result.var2col demo_pat1.object = 0
        ∧ out.result.col_num = 1
        ∧ out.step = demo_req0.step + 1)
    ∧ (demo_req0.result.col_num ≠ 0 → const_to_unknown demo_engine demo_req0 = none)) :=
  ⟨by decide, const_to_unknown_spec demo_engine demo_req0 demo_pat1 rfl (by decide)⟩

/-! ## `known_to_known` and `known_to_const` -/

theorem scan_first_eq {σ : Type} (target : Int) (body : σ → Option σ) (res : List sid_t)
    (st : σ) :
    scan_first target body res st
      = if target ∈ res.map (fun (v : sid_t) => (v : Int)) then body st else some st := by
  induction res with
  | nil => simp [scan_first]
  | cons v res ih =>
    by_cases h : (v : Int) = target
    · simp [scan_first, h]
    · have h2 : ¬ target = (v : Int) := fun h3 => h h3.symm
      simp [scan_first, h, h2, ih]

theorem attr_row_bound (r : Result) (i : Nat) (hi : i < r.get_row_num)
    (hw : r.attr_parallel) :
    r.attr_col_num * i + r.attr_col_num ≤ r.attr_res_table.length := by
  unfold Result.attr_parallel at hw
  have h1 : r.attr_col_num * (i + 1) ≤ r.attr_col_num * r.get_row_num :=
    Nat.mul_le_mul_left _ hi
  have h2 : r.attr_col_num * (i + 1) = r.attr_col_num * i + r.attr_col_num := by ring
  omega

theorem append_attr_row_to_eq (r : Result) (i : Nat) (hi : i < r.get_row_num)
    (hw : r.attr_parallel) (upd : List attr_t) :
    r.append_attr_row_to i upd = some (upd ++ r.attr_row i) := by
  have hb := attr_row_bound r i hi hw
  unfold Result.append_attr_row_to Result.attr_row
  rw [foldlM_push_eq (fun c => r.get_attr_row_col i c)
    (fun c => r.attr_res_table.getD (r.attr_col_num * i + c) (attr_t.int 0))]
  · rw [range_map_getElem_eq_take_drop _ _ _ _ hb]
  · intro c hc
    have hc2 : c < r.attr_col_num := List.mem_range.1 hc
    have h1 : r.attr_col_num * i + c < r.attr_res_table.length := by omega
    simp [Result.get_attr_row_col, List.getD_eq_getElem?_getD, h1]

theorem keep_row_eq (e : Engine) (r : Result) (i : Nat) (hi : i < r.get_row_num)
    (hw : e.cfg.global_enable_vattr = true → r.attr_parallel)
    (st : List sid_t × List attr_t) :
    keep_row e r i st
      = some (st.1 ++ r.row i,
              st.2 ++ (if e.cfg.global_enable_vattr then r.attr_row i else [])) := by
  unfold keep_row
  by_cases hv : e.cfg.global_enable_vattr = true
  · simp [append_row_to_eq r i hi, hv, append_attr_row_to_eq r i hi (hw hv)]
  · simp [append_row_to_eq r i hi, hv]

theorem filter_loop_eq (e : Engine) (r : Result)
    (step : List sid_t × List attr_t → Nat → Option (List sid_t × List attr_t))
    (keep : Nat → Bool) (l : List Nat) (hl : ∀ i ∈ l, i < r.get_row_num)
    (hstep : ∀ i ∈ l, ∀ st, step st i = if keep i then keep_row e r i st else some st)
    (hw : e.cfg.global_enable_vattr = true → r.attr_parallel)
    (st : List sid_t × List attr_t) :
    l.foldlM step st
      = some (st.1 ++ ((l.filter keep).map r.row).flatten,
              st.2 ++ (if e.cfg.global_enable_vattr
                       then ((l.filter keep).map r.attr_row).flatten else [])) := by
  induction l generalizing st with
  | nil => simp
  | cons i l ih =>
    have hi : i < r.get_row_num := hl i (List.mem_cons_self _ _)
    have hl2 : ∀ j ∈ l, j < r.get_row_num := fun j hj => hl j (List.mem_cons_of_mem _ hj)
    have hs2 : ∀ j ∈ l, ∀ st, step st j = if keep j then keep_row e r j st else some st :=
      fun j hj => hstep j (List.mem_cons_of_mem _ hj)
    rw [List.foldlM_cons, hstep i (List.mem_cons_self _ _)]
    by_cases hk : keep i = true
    · simp only [hk, if_true, keep_row_eq e r i hi hw, Option.bind_eq_bind,
        Option.some_bind]
      rw [ih hl2 hs2]
      by_cases hv : e.cfg.global_enable_vattr = true
      · simp [hk, hv]
      · simp [hk, hv]
    · have hk2 : keep i = false := by simpa using hk
      simp only [hk2, Bool.false_eq_true, if_false, Option.bind_eq_bind, Option.some_bind]
      rw [ih hl2 hs2]
      simp [hk2]

theorem filter_rows_eq (r : Result) (p : List sid_t → Bool) :
    ((List.range r.get_row_num).filter (fun i => p (r.row i))).map r.row
      = r.rows.filter p := by
  unfold Result.rows
  rw [List.filter_map]
  rfl

theorem filter_out_rows (e : Engine) (req : SPARQLQuery) (p : List sid_t → Bool) (k : Nat)
    (hk : k < req.result.col_num) :
    (filter_out e req p).result.rows = req.result.rows.filter p := by
  apply rows_of_flatten (filter_out e req p).result req.result.col_num _ (by omega) _ rfl rfl
  intro x hx
  exact rows_length req.result x (List.mem_of_mem_filter hx)

theorem known_to_known_eq (e : Engine) (req : SPARQLQuery) (pat : Pattern) (k k2 : Nat)
    (hpat : req.get_current_pattern = some pat)
    (hs : req.result.var2col pat.subject = (k : Int)) (hk : k < req.result.col_num)
    (ho : req.result.var2col pat.object = (k2 : Int)) (hk2 : k2 < req.result.col_num)
    (hw : e.cfg.global_enable_vattr = true → req.result.attr_parallel) :
    known_to_known e req = some (filter_out e req (k2k_keep e pat k k2)) := by
  have hloop := filter_loop_eq e req.result
    (fun st i => do
      let prev_id ← req.result.get_row_col i (k : Int)
      let res := e.graph.get_edges_global e.tid prev_id pat.direction pat.predicate
      let end2 ← req.result.get_row_col i (k2 : Int)
      scan_first (end2 : Int) (keep_row e req.result i) res st)
    (fun i => k2k_keep e pat k k2 (req.result.row i))
    (List.range req.result.get_row_num) (fun i hi => List.mem_range.1 hi)
    (by
      intro i hi st
      have hi2 : i < req.result.get_row_num := List.mem_range.1 hi
      simp [get_row_col_row req.result i k hi2 hk, get_row_col_row req.result i k2 hi2 hk2,
        scan_first_eq, k2k_keep])
    hw ([], [])
  simp only [known_to_known, hpat, hs, ho, Option.bind_eq_bind, Option.some_bind,
    Option.pure_def] at hloop ⊢
  rw [hloop]
  by_cases hv : e.cfg.global_enable_vattr = true
  · simp [hv, filter_rows_eq req.result (k2k_keep e pat k k2), filter_out]
  · simp [hv, filter_rows_eq req.result (k2k_keep e pat k k2), filter_out]

/-- C3. For a pattern whose subject and object are both bound to columns (`k` and
`k2`), `known_to_known` returns exactly the input rows whose object value
occurs in `edges(row[k], p, d)`, in their original order and each once; the
column count and the variable-to-column map are unchanged and `step` grows by
one.  With vertex attributes enabled the attribute table has to run parallel
to the vertex table. -/
theorem known_to_known_spec (e : Engine) (req : SPARQLQuery) (pat : Pattern) (k k2 : Nat)
    (hpat : req.get_current_pattern = some pat)
    (hs : req.result.var2col pat.subject = (k : Int)) (hk : k < req.result.col_num)
    (ho : req.result.var2col pat.object = (k2 : Int)) (hk2 : k2 < req.result.col_num)
    (hw : e.cfg.global_enable_vattr = true → req.result.attr_parallel) :
    ∃ out, known_to_known e req = some out
      ∧ out.result.rows = req.result.rows.filter (fun row =>
          decide (row.getD k2 0 ∈
            e.graph.get_edges_global e.tid (row.getD k 0) pat.direction pat.predicate))
      ∧ out.result.col_num = req.result.col_num
      ∧ out.result.v2c_map = req.result.v2c_map
      ∧ out.step = req.step + 1 :=
  ⟨_, known_to_known_eq e req pat k k2 hpat hs hk ho hk2 hw,
    filter_out_rows e req (k2k_keep e pat k k2) k hk, rfl, rfl, rfl⟩

/-- Witness of C3: of the rows (11,12), (12,11), (10,12) the check `(?x,100,OUT,?y)`
keeps (11,12) and (10,12), here with vertex attributes enabled. -/
theorem known_to_known_spec_witness :
    (known_to_known demo_engine_vattr demo_req2a).map
        (fun q => (q.result.rows, q.result.attr_res_table))
      = some ([[11, 12], [10, 12]], [attr_t.int 25, attr_t.int 27])
    ∧ ∃ out, known_to_known demo_engine_vattr demo_req2a = some out
      ∧ out.result.rows = demo_req2a.result.rows.filter (fun row =>
          decide (row.getD 1 0 ∈
            demo_engine_vattr.graph.get_edges_global demo_engine_vattr.tid (row.getD 0 0)
              demo_pat2.direction demo_pat2.predicate))
      ∧ out.result.col_num = demo_req2a.result.col_num
      ∧ out.result.v2c_map = demo_req2a.result.v2c_map
      ∧ out.step = demo_req2a.step + 1 :=
  ⟨by decide, known_to_known_spec demo_engine_vattr demo_req2a demo_pat2 0 1 rfl rfl
    (by decide) rfl (by decide) (fun _ => by unfold Result.attr_parallel; decide)⟩

theorem mem_cast_iff (t : Int) (ht : 0 ≤ t) (res : List sid_t) :
    t ∈ res.map (fun (v : sid_t) => (v : Int)) ↔ t.toNat ∈ res := by
  constructor
  · intro h
    obtain ⟨v, hv, rfl⟩ := List.mem_map.1 h
    simpa using hv
  · intro h
    exact List.mem_map.2 ⟨t.toNat, h, Int.toNat_of_nonneg ht⟩

theorem known_to_const_eq (e : Engine) (req : SPARQLQuery) (pat : Pattern) (k : Nat)
    (hpat : req.get_current_pattern = some pat)
    (hs : req.result.var2col pat.subject = (k : Int)) (hk : k < req.result.col_num)
    (ho : 0 ≤ pat.object)
    (hw : e.cfg.global_enable_vattr = true → req.result.attr_parallel) :
    known_to_const e req = some (filter_out e req (k2c_keep e pat k)) := by
  have hloop := filter_loop_eq e req.result
    (fun st i => do
      let prev_id ← req.result.get_row_col i (k : Int)
      let res := e.graph.get_edges_global e.tid prev_id pat.direction pat.predicate
      scan_first pat.object (keep_row e req.result i) res st)
    (fun i => k2c_keep e pat k (req.result.row i))
    (List.range req.result.get_row_num) (fun i hi => List.mem_range.1 hi)
    (by
      intro i hi st
      have hi2 : i < req.result.get_row_num := List.mem_range.1 hi
      simp only [get_row_col_row req.result i k hi2 hk, scan_first_eq, k2c_keep,
        Option.bind_eq_bind, Option.some_bind, mem_cast_iff pat.object ho,
        decide_eq_true_eq])
    hw ([], [])
  simp only [known_to_const, hpat, hs, Option.bind_eq_bind, Option.some_bind,
    Option.pure_def] at hloop ⊢
  rw [hloop]
  by_cases hv : e.cfg.global_enable_vattr = true
  · simp [hv, filter_rows_eq req.result (k2c_keep e pat k), filter_out]
  · simp [hv, filter_rows_eq req.result (k2c_keep e pat k), filter_out]

/-- C4. For a pattern whose subject is bound to column `k` and whose object is a
constant, `known_to_const` returns exactly the input rows for which the object
occurs in `edges(row[k], p, d)`, in their original order and each at most once;
the column count and the variable-to-column map are unchanged and `step` grows
by one.  With vertex attributes enabled the attribute table has to run
parallel to the vertex table. -/
theorem known_to_const_spec (e : Engine) (req : SPARQLQuery) (pat : Pattern) (k : Nat)
    (hpat : req.get_current_pattern = some pat)
    (hs : req.result.var2col pat.subject = (k : Int)) (hk : k < req.result.col_num)
    (ho : 0 ≤ pat.object)
    (hw : e.cfg.global_enable_vattr = true → req.result.attr_parallel) :
    ∃ out, known_to_const e req = some out
      ∧ out.result.rows = req.result.rows.filter (fun row =>
          decide (pat.object.toNat ∈
            e.graph.get_edges_global e.tid (row.getD k 0) pat.direction pat.predicate))
      ∧ out.result.col_num = req.result.col_num
      ∧ out.result.v2c_map = req.result.v2c_map
      ∧ out.step = req.step + 1 :=
  ⟨_, known_to_const_eq e req pat k hpat hs hk ho hw,
    filter_out_rows e req (k2c_keep e pat k) k hk, rfl, rfl, rfl⟩

/-- Witness of C4: of the rows 10, 11, 12 the check `(?x,100,OUT,12)` keeps 10 and 11,
here with vertex attributes enabled. -/
theorem known_to_const_spec_witness :
    (known_to_const demo_engine_vattr demo_req3a).map
        (fun q => (q.result.rows, q.result.attr_res_table))
      = some ([[10], [11]], [attr_t.int 25, attr_t.int 26])
    ∧ ∃ out, known_to_const demo_engine_vattr demo_req3a = some out
      ∧ out.result.rows = demo_req3a.result.rows.filter (fun row =>
          decide (demo_pat3.object.toNat ∈
            demo_engine_vattr.graph.get_edges_global demo_engine_vattr.tid (row.getD 0 0)
              demo_pat3.direction demo_pat3.predicate))
      ∧ out.result.col_num = demo_req3a.result.col_num
      ∧ out.result.v2c_map = demo_req3a.result.v2c_map
      ∧ out.step = demo_req3a.step + 1 :=
  ⟨by decide, known_to_const_spec demo_engine_vattr demo_req3a demo_pat3 0 rfl rfl
    (by decide) (by decide) (fun _ => by unfold Result.attr_parallel; decide)⟩

/-! ## `generate_sub_query` -/

theorem set_map_range {α : Type} (S d : Nat) (f : Nat → α) (v : α) :
    ((List.range S).map f).set d v
      = (List.range S).map (fun j => if j = d then v else f j) := by
  apply List.ext_getElem?
  intro j
  rw [List.getElem?_set]
  by_cases hj : j < S
  · by_cases hd : d = j
    · subst hd
      simp [hj]
    · have hd2 : ¬ j = d := fun h => hd h.symm
      simp [hj, hd, hd2, List.getElem?_range]
  · have hn : ∀ g : Nat → α, ((List.range S).map g)[j]? = none :=
      fun g => List.getElem?_eq_none (by simp; omega)
    by_cases hd : d = j
    · subst hd
      simp [hj, hn]
    · simp [hd, hn]

theorem sub_loop_eq (e : Engine) (req : SPARQLQuery) (start : ssid_t) (k : Nat)
    (hk : k < req.result.col_num) (hS : 0 < e.cfg.global_num_servers)
    (l : List Nat) (hl : ∀ i ∈ l, i < req.result.get_row_num) (T : Nat → List sid_t) :
    l.foldlM
        (fun subs i => do
          let v ← req.result.get_row_col i (k : Int)
          let dst_sid := hash_mod e.cfg v e.cfg.global_num_servers
          let sub ← subs[dst_sid]?
          let tbl ← req.result.append_row_to i sub.result.result_table
          pure (subs.set dst_sid
            { sub with result := { sub.result with result_table := tbl } }))
        ((List.range e.cfg.global_num_servers).map (fun j => sub_query_with req start (T j)))
      = some ((List.range e.cfg.global_num_servers).map (fun j =>
          sub_query_with req start
            (T j ++ ((l.filter (fun i => decide (fork_dst e k (req.result.row i) = j))).map
              req.result.row).flatten))) := by
  induction l generalizing T with
  | nil => simp
  | cons i l ih =>
    have hi : i < req.result.get_row_num := hl i (List.mem_cons_self _ _)
    have hl2 : ∀ j ∈ l, j < req.result.get_row_num :=
      fun j hj => hl j (List.mem_cons_of_mem _ hj)
    have hd : hash_mod e.cfg ((req.result.row i).getD k 0) e.cfg.global_num_servers
        < e.cfg.global_num_servers := Nat.mod_lt _ hS
    have h2 := ih hl2
      (fun j => if j = fork_dst e k (req.result.row i) then T j ++ req.result.row i else T j)
    rw [List.foldlM_cons, get_row_col_row req.result i k hi hk]
    simp only [Option.bind_eq_bind, Option.some_bind, Option.pure_def] at h2 ⊢
    rw [List.getElem?_map, List.getElem?_range hd]
    simp only [Option.map_some', Option.some_bind]
    have hrow : (sub_query_with req start
        (T (hash_mod e.cfg ((req.result.row i).getD k 0) e.cfg.global_num_servers))).result.result_table
        = T (hash_mod e.cfg ((req.result.row i).getD k 0) e.cfg.global_num_servers) := rfl
    rw [hrow, append_row_to_eq req.result i hi]
    simp only [Option.some_bind]
    rw [set_map_range]
    have hfun : (fun j => if j = hash_mod e.cfg ((req.result.row i).getD k 0)
          e.cfg.global_num_servers
        then { sub_query_with req start
                (T (hash_mod e.cfg ((req.result.row i).getD k 0) e.cfg.global_num_servers)) with
              result := { (sub_query_with req start
                (T (hash_mod e.cfg ((req.result.row i).getD k 0)
                  e.cfg.global_num_servers))).result with
                result_table :=
                  T (hash_mod e.cfg ((req.result.row i).getD k 0) e.cfg.global_num_servers)
                    ++ req.result.row i } }
        else sub_query_with req start (T j))
        = fun j => sub_query_with req start
            (if j = fork_dst e k (req.result.row i) then T j ++ req.result.row i else T j) := by
      funext j
      by_cases hj : j = hash_mod e.cfg ((req.result.row i).getD k 0) e.cfg.global_num_servers
      · subst hj
        simp [fork_dst, sub_query_with]
      · unfold fork_dst
        rw [if_neg hj, if_neg hj]
    rw [hfun, h2]
    congr 1
    apply List.map_congr_left
    intro j _
    congr 1
    by_cases hj : j = fork_dst e k (req.result.row i)
    · subst hj
      simp
    · have hj2 : ¬ fork_dst e k (req.result.row i) = j := fun h => hj h.symm
      simp [hj, hj2]

theorem generate_sub_query_eq (e : Engine) (req : SPARQLQuery) (pat : Pattern) (k : Nat)
    (hpat : req.get_current_pattern = some pat)
    (hs : req.result.var2col pat.subject = (k : Int)) (hk : k < req.result.col_num)
    (hS : 0 < e.cfg.global_num_servers) :
    generate_sub_query e req = some ((List.range e.cfg.global_num_servers).map (fun j =>
      sub_query_with req pat.subject (fork_rows e k req.result j).flatten)) := by
  have hloop := sub_loop_eq e req pat.subject k hk hS (List.range req.result.get_row_num)
    (fun i hi => List.mem_range.1 hi) (fun _ => [])
  have hinit : List.replicate e.cfg.global_num_servers (sub_query_init req pat.subject)
      = (List.range e.cfg.global_num_servers).map (fun _ => sub_query_with req pat.subject []) := by
    apply List.ext_getElem?
    intro j
    by_cases hj : j < e.cfg.global_num_servers
    · simp [hj, List.getElem?_replicate, List.getElem?_range, sub_query_with, sub_query_init]
    · have : e.cfg.global_num_servers ≤ j := by omega
      simp [this, List.getElem?_replicate, hj]
  simp only [generate_sub_query, hpat, hs, Option.bind_eq_bind, Option.some_bind,
    Option.pure_def] at hloop ⊢
  rw [hinit, hloop]
  congr 1
  apply List.map_congr_left
  intro j _
  congr 1
  simp only [List.nil_append, fork_rows]
  rw [filter_rows_eq req.result (fun row => decide (fork_dst e k row = j))]

theorem flatMap_pick_none {β : Type} (S d : Nat) (a : List β) (h : S ≤ d) :
    (List.range S).flatMap (fun j => if d = j then a else []) = [] := by
  rw [List.flatMap_eq_nil_iff]
  intro j hj
  have : j < S := List.mem_range.1 hj
  have h2 : ¬ d = j := by omega
  simp [h2]

theorem flatMap_pick {β : Type} (S d : Nat) (a : List β) (h : d < S) :
    (List.range S).flatMap (fun j => if d = j then a else []) = a := by
  induction S with
  | zero => omega
  | succ S ih =>
    rw [List.range_succ, List.flatMap_append, List.flatMap_singleton]
    by_cases hd : d = S
    · rw [flatMap_pick_none S d a (by omega)]
      simp [hd]
    · rw [ih (by omega)]
      simp [hd]

theorem partition_flatMap_perm {α β : Type} (key : α → Nat) (S : Nat) (f : α → List β)
    (l : List α) (h : ∀ x ∈ l, key x < S) :
    ((List.range S).flatMap
      (fun j => (l.filter (fun x => decide (key x = j))).flatMap f)).Perm (l.flatMap f) := by
  induction l with
  | nil => simp
  | cons x l ih =>
    have hx : key x < S := h x (List.mem_cons_self _ _)
    have hl : ∀ y ∈ l, key y < S := fun y hy => h y (List.mem_cons_of_mem _ hy)
    have hfun : (fun j => ((x :: l).filter (fun y => decide (key y = j))).flatMap f)
        = fun j => (if key x = j then f x else [])
            ++ (l.filter (fun y => decide (key y = j))).flatMap f := by
      funext j
      by_cases hj : key x = j
      · simp [List.filter_cons, hj]
      · simp [List.filter_cons, hj]
    rw [hfun, List.flatMap_cons]
    refine (List.flatMap_append_perm _ _ _).symm.trans ?_
    rw [flatMap_pick S (key x) (f x) hx]
    exact List.Perm.append_left _ (ih hl)

theorem fork_dst_lt (e : Engine) (k : Nat) (row : List sid_t)
    (hS : 0 < e.cfg.global_num_servers) : fork_dst e k row < e.cfg.global_num_servers :=
  Nat.mod_lt _ hS

theorem sub_query_with_rows (req : SPARQLQuery) (start : ssid_t) (L : List (List sid_t))
    (hc : 0 < req.result.col_num) (hL : ∀ x ∈ L, x.length = req.result.col_num) :
    (sub_query_with req start L.flatten).result.rows = L :=
  rows_of_flatten _ req.result.col_num L hc hL rfl rfl

theorem fork_rows_length (e : Engine) (k : Nat) (r : Result) (j : Nat) :
    ∀ x ∈ fork_rows e k r j, x.length = r.col_num :=
  fun x hx => rows_length r x (List.mem_of_mem_filter hx)

/-- C6. For a query whose current pattern has its subject bound to column `k`, and
`S >= 1` servers, `generate_sub_query` returns exactly `S` sub-queries; the rows
of sub-query `j` are the rows of the parent whose subject value hashes to `j`,
in their original order, so every row lands in exactly one sub-query, unaltered,
and all sub-queries together hold the rows of the parent; every sub-query
carries the parent id as `pid`, the step, column count and variable map of the
parent, the subject variable as `local_var` and the parent priority plus one. -/
theorem generate_sub_query_spec (e : Engine) (req : SPARQLQuery) (pat : Pattern) (k : Nat)
    (hpat : req.get_current_pattern = some pat)
    (hs : req.result.var2col pat.subject = (k : Int)) (hk : k < req.result.col_num)
    (hS : 1 ≤ e.cfg.global_num_servers) :
    ∃ subs, generate_sub_query e req = some subs
      ∧ subs.length = e.cfg.global_num_servers
      ∧ (∀ j, j < e.cfg.global_num_servers → ∃ sub, subs[j]? = some sub
          ∧ sub.result.rows = req.result.rows.filter (fun row =>
              decide (hash_mod e.cfg (row.getD k 0) e.cfg.global_num_servers = j))
          ∧ sub.pid = req.id
          ∧ sub.step = req.step
          ∧ sub.result.col_num = req.result.col_num
          ∧ sub.result.v2c_map = req.result.v2c_map
          ∧ sub.local_var = pat.subject
          ∧ sub.priority = req.priority + 1)
      ∧ (∀ row ∈ req.result.rows,
          hash_mod e.cfg (row.getD k 0) e.cfg.global_num_servers < e.cfg.global_num_servers)
      ∧ (subs.flatMap (fun sub => sub.result.rows)).Perm req.result.rows := by
  have hc : 0 < req.result.col_num := by omega
  refine ⟨_, generate_sub_query_eq e req pat k hpat hs hk hS, by simp, ?_, ?_, ?_⟩
  · intro j hj
    refine ⟨sub_query_with req pat.subject (fork_rows e k req.result j).flatten, ?_, ?_,
      rfl, rfl, rfl, rfl, rfl, rfl⟩
    · rw [List.getElem?_map, List.getElem?_range hj]
      rfl
    · exact sub_query_with_rows req pat.subject _ hc (fork_rows_length e k req.result j)
  · intro row _
    exact Nat.mod_lt _ hS
  · rw [List.flatMap_map]
    have hfun : (fun j => (sub_query_with req pat.subject
          (fork_rows e k req.result j).flatten).result.rows)
        = fun j => (req.result.rows.filter
            (fun row => decide (fork_dst e k row = j))).flatMap (fun row => [row]) := by
      funext j
      rw [sub_query_with_rows req pat.subject _ hc (fork_rows_length e k req.result j)]
      simp [fork_rows]
    rw [hfun]
    have hp := partition_flatMap_perm (fork_dst e k) e.cfg.global_num_servers
      (fun row => [row]) req.result.rows (fun row _ => fork_dst_lt e k row hS)
    simpa using hp

/-- Witness of C6: on two servers with the identity hash the rows 11 and 12 go to
server 1 and server 0. -/
theorem generate_sub_query_spec_witness :
    (generate_sub_query demo_engine demo_req1).map
        (fun subs => subs.map (fun q => q.result.result_table)) = some [[12], [11]]
    ∧ ∃ subs, generate_sub_query demo_engine demo_req1 = some subs
      ∧ subs.length = demo_engine.cfg.global_num_servers
      ∧ (∀ j, j < demo_engine.cfg.global_num_servers → ∃ sub, subs[j]? = some sub
          ∧ sub.result.rows = demo_req1.result.rows.filter (fun row =>
              decide (hash_mod demo_engine.cfg (row.getD 0 0)
                demo_engine.cfg.global_num_servers = j))
          ∧ sub.pid = demo_req1.id
          ∧ sub.step = demo_req1.step
          ∧ sub.result.col_num = demo_req1.result.col_num
          ∧ sub.result.v2c_map = demo_req1.result.v2c_map
          ∧ sub.local_var = demo_pat2.subject
          ∧ sub.priority = demo_req1.priority + 1)
      ∧ (∀ row ∈ demo_req1.result.rows,
          hash_mod demo_engine.cfg (row.getD 0 0) demo_engine.cfg.global_num_servers
            < demo_engine.cfg.global_num_servers)
      ∧ (subs.flatMap (fun sub => sub.result.rows)).Perm demo_req1.result.rows :=
  ⟨by decide, generate_sub_query_spec demo_engine demo_req1 demo_pat2 0 rfl rfl (by decide)
    (by decide)⟩

/-! ## The reply map -/

theorem lookup_filter_ne (l : List (Int × Item)) (pid k : Int) (h : k ≠ pid) :
    (l.filter (fun kv => decide (kv.1 ≠ pid))).lookup k = l.lookup k := by
  induction l with
  | nil => rfl
  | cons kv l ih =>
    obtain ⟨a, b⟩ := kv
    by_cases ha : a = pid
    · have hk : (k == a) = false := by
        rw [beq_eq_false_iff_ne, ha]
        exact h
      rw [List.filter_cons_of_neg (by simp [ha]), List.lookup_cons, hk]
      exact ih
    · rw [List.filter_cons_of_pos (by simp [ha]), List.lookup_cons, List.lookup_cons, ih]

theorem lookup_filter_self (l : List (Int × Item)) (pid : Int) :
    (l.filter (fun kv => decide (kv.1 ≠ pid))).lookup pid = none := by
  induction l with
  | nil => rfl
  | cons kv l ih =>
    obtain ⟨a, b⟩ := kv
    by_cases ha : a = pid
    · rw [List.filter_cons_of_neg (by simp [ha])]
      exact ih
    · have hk : (pid == a) = false := by
        rw [beq_eq_false_iff_ne]
        exact fun h => ha h.symm
      rw [List.filter_cons_of_pos (by simp [ha]), List.lookup_cons, hk]
      exact ih

theorem find_store_same (m : Reply_Map) (pid : Int) (data : Item) :
    (m.store pid data).find pid = some data := by
  simp [Reply_Map.store, Reply_Map.find, List.lookup_cons]

theorem find_store_other (m : Reply_Map) (pid k : Int) (data : Item) (h : k ≠ pid) :
    (m.store pid data).find k = m.find k := by
  have hk : (k == pid) = false := by simpa using h
  simp only [Reply_Map.store, Reply_Map.find, Reply_Map.erase, List.lookup_cons, hk]
  exact lookup_filter_ne _ pid k h

theorem find_erase_same (m : Reply_Map) (pid : Int) : (m.erase pid).find pid = none :=
  lookup_filter_self _ pid

theorem find_erase_other (m : Reply_Map) (pid k : Int) (h : k ≠ pid) :
    (m.erase pid).find k = m.find k :=
  lookup_filter_ne _ pid k h

theorem item_at_of_find (m : Reply_Map) (pid : Int) (data : Item)
    (h : m.find pid = some data) : m.item_at pid = (data, m) := by
  simp [Reply_Map.item_at, h]

theorem find_item_at_other (m : Reply_Map) (pid k : Int) (h : k ≠ pid) :
    (m.item_at pid).2.find k = m.find k := by
  unfold Reply_Map.item_at
  cases hf : m.find pid with
  | none => exact find_store_other m pid k _ h
  | some data => rfl

theorem find_put_parent_request (m : Reply_Map) (r : SPARQLQuery) (cnt : Int) :
    ∃ data, (m.put_parent_request r cnt).find r.id = some data
      ∧ data.count = cnt ∧ data.parent_request = r := by
  unfold Reply_Map.put_parent_request
  by_cases h : (r.is_optional && r.optional_dispatched) = true
  · exact ⟨_, find_store_same _ _ _, by simp [h], by simp [h]⟩
  · exact ⟨_, find_store_same _ _ _, by simp [h], by simp [h]⟩

theorem count_put_reply_same (ops : MergeOps) (m : Reply_Map) (q : SPARQLQuery) (c : Int)
    (h : m.count_of q.pid = some c) :
    (m.put_reply ops q).count_of q.pid = some (c - 1) := by
  unfold Reply_Map.count_of at h
  cases hf : m.find q.pid with
  | none => simp [hf] at h
  | some data =>
    have hc : data.count = c := by simpa [hf] using h
    simp [Reply_Map.put_reply, Reply_Map.count_of, item_at_of_find m q.pid data hf,
      find_store_same, hc]

theorem count_put_reply_other (ops : MergeOps) (m : Reply_Map) (q : SPARQLQuery) (pid : Int)
    (h : q.pid ≠ pid) :
    (m.put_reply ops q).count_of pid = m.count_of pid := by
  have h2 : pid ≠ q.pid := fun h3 => h h3.symm
  simp only [Reply_Map.put_reply, Reply_Map.count_of]
  rw [find_store_other _ _ _ _ h2, find_item_at_other m q.pid pid h2]

theorem count_after_replies (ops : MergeOps) (pid : Int) (rs : List SPARQLQuery)
    (m : Reply_Map) (c : Int) (h : m.count_of pid = some c) :
    (rs.foldl (Reply_Map.put_reply ops) m).count_of pid
      = some (c - (replies_for pid rs : Int)) := by
  induction rs generalizing m c with
  | nil => simp [replies_for, h]
  | cons q rs ih =>
    rw [List.foldl_cons]
    by_cases hq : q.pid = pid
    · have h1 : (m.put_reply ops q).count_of pid = some (c - 1) := by
        have := count_put_reply_same ops m q c (by rw [hq]; exact h)
        rwa [hq] at this
      rw [ih _ _ h1]
      simp only [replies_for, List.filter_cons, hq, decide_True, if_true, List.length_cons]
      congr 1
      push_cast
      ring
    · have h1 : (m.put_reply ops q).count_of pid = some c := by
        rw [count_put_reply_other ops m q pid hq]
        exact h
      rw [ih _ _ h1]
      simp [replies_for, List.filter_cons, hq]

theorem is_ready_of_count (m : Reply_Map) (pid : Int) (c : Int)
    (h : m.count_of pid = some c) : (m.is_ready pid).1 = decide (c = 0) := by
  unfold Reply_Map.count_of at h
  cases hf : m.find pid with
  | none => simp [hf] at h
  | some data =>
    have hc : data.count = c := by simpa [hf] using h
    simp [Reply_Map.is_ready, item_at_of_find m pid data hf, hc]

/-- C9. After `put_parent_request(r, n)` and any sequence of `put_reply` calls, the
pending count stored for `r.id` is `n` minus the number of replies in the
sequence whose `pid` is `r.id`; replies addressed to other parents do not count;
and `is_ready(r.id)` holds exactly when that number equals `n`. -/
theorem reply_count_spec (ops : MergeOps) (m : Reply_Map) (r : SPARQLQuery) (n : Int)
    (rs : List SPARQLQuery) :
    (rs.foldl (Reply_Map.put_reply ops) (m.put_parent_request r n)).count_of r.id
        = some (n - (replies_for r.id rs : Int))
    ∧ (((rs.foldl (Reply_Map.put_reply ops) (m.put_parent_request r n)).is_ready r.id).1
        = true ↔ (replies_for r.id rs : Int) = n) := by
  have h0 : (m.put_parent_request r n).count_of r.id = some n := by
    obtain ⟨data, hf, hc, _⟩ := find_put_parent_request m r n
    simp [Reply_Map.count_of, hf, hc]
  have h1 := count_after_replies ops r.id rs _ n h0
  refine ⟨h1, ?_⟩
  rw [is_ready_of_count _ _ _ h1]
  simp only [decide_eq_true_eq]
  omega

/-- C10 (evaluation at a failing input). The sample parent is ready after its one
reply; the merged reply holds the attribute table `[25]` with one attribute
column, and `get_merged_reply` hands back the merged vertex table and the merged
attribute column count but the attribute table of the parent request, which is
empty; the entry is removed from the map. -/
theorem get_merged_reply_attr_table :
    (demo_rmap.is_ready 7).1 = true
    ∧ (demo_rmap.find 7).map (fun d => d.merged_reply.result.attr_res_table)
        = some [attr_t.int 25]
    ∧ (demo_rmap.get_merged_reply 7).1.result.result_table = [11]
    ∧ (demo_rmap.get_merged_reply 7).1.result.attr_col_num = 1
    ∧ (demo_rmap.get_merged_reply 7).1.result.attr_res_table = []
    ∧ ((demo_rmap.get_merged_reply 7).2.find 7).isNone = true := by
  decide

/-- C8 (evaluation at a failing input). With one server, index parallelism 2 and
three engines, the engine with index 2 dispatches two sub-queries (to the
engines 0 and 1 of its server, skipping nobody) but registers the pending count
`S * T - 1 = 1`. -/
theorem force_dispatch_count_mismatch :
    (force_dispatch_branch demo_engine_mt2 {} demo_index_req).2.map
        (fun msg => (msg.sid, msg.tid, msg.bundle.tid)) = [(0, 1, -1), (0, 2, -2)]
    ∧ (force_dispatch_branch demo_engine_mt2 {} demo_index_req).1.count_of 7 = some 1 := by
  decide

/-- C7 (evaluation at failing inputs). With two servers and index parallelism 1 the
dispatching engine sends nothing to its own server, so no slice covers the local
index list `[7]` of server 0 (server 1 enumerates its list once).  With one
server, parallelism 2 and the engine of index 2 dispatching, the two slices of
the local list `[7, 8]` are `[7, 8]` and `[8]`: position 1 is enumerated twice. -/
theorem index_slices_not_exactly_once :
    index_slices demo_engine_mt1 [7] 10 demo_index_req 0 = []
    ∧ index_slices demo_engine_mt1 [7] 10 demo_index_req 1 = [some [7]]
    ∧ index_slices demo_engine_mt2 [7, 8] 10 demo_index_req 0 = [some [7, 8], some [8]] := by
  decide

/-! ## Fork-join merge law -/

theorem filter_eq_flatMap_ite {α : Type} (p : α → Bool) (l : List α) :
    l.filter p = l.flatMap (fun x => if p x then [x] else []) := by
  induction l with
  | nil => rfl
  | cons x l ih =>
    by_cases hx : p x = true
    · simp [List.filter_cons, hx, ih]
    · simp [List.filter_cons, hx, ih]

theorem mapM_eq_some_map {α β : Type} (f : α → Option β) (g : α → β) (l : List α)
    (h : ∀ x ∈ l, f x = some (g x)) : l.mapM f = some (l.map g) := by
  induction l with
  | nil => rw [List.mapM_nil]; rfl
  | cons x l ih =>
    rw [List.mapM_cons, h x (List.mem_cons_self _ _),
      ih (fun y hy => h y (List.mem_cons_of_mem _ hy))]
    rfl

/-- The query the chosen kernel returns. -/
theorem run_kernel_rows (K : JoinKernel) (e : Engine) (q : SPARQLQuery) (pat : Pattern)
    (k k2 : Nat) (hpat : q.get_current_pattern = some pat)
    (hs : q.result.var2col pat.subject = (k : Int)) (hk : k < q.result.col_num)
    (hK : kernel_ready K q.result pat k2)
    (hw : e.cfg.global_enable_vattr = true → q.result.attr_parallel) :
    ∃ out, run_kernel K e q = some out
      ∧ out.result.rows = q.result.rows.flatMap (kernel_rows K e pat k k2)
      ∧ out.result.result_table = out.result.rows.flatten
      ∧ out.pid = q.pid
      ∧ out.result.blind = q.result.blind
      ∧ out.result.col_num = kernel_cols K q.result.col_num := by
  cases K with
  | known_to_unknown =>
    have h3 := k2u_out_rows e q pat k
    refine ⟨_, known_to_unknown_eq e q pat k hpat hs hk, h3, ?_, rfl, rfl, rfl⟩
    rw [h3]
    rfl
  | known_to_known =>
    obtain ⟨ho, hk2⟩ := hK
    have h3 := filter_out_rows e q (k2k_keep e pat k k2) k hk
    refine ⟨_, known_to_known_eq e q pat k k2 hpat hs hk ho hk2 hw, ?_, ?_, rfl, rfl, rfl⟩
    · rw [h3, filter_eq_flatMap_ite]
      rfl
    · rw [h3]
      rfl
  | known_to_const =>
    have h3 := filter_out_rows e q (k2c_keep e pat k) k hk
    refine ⟨_, known_to_const_eq e q pat k hpat hs hk hK hw, ?_, ?_, rfl, rfl, rfl⟩
    · rw [h3, filter_eq_flatMap_ite]
      rfl
    · rw [h3]
      rfl

theorem append_fold_table (arrived : List SPARQLQuery) (init : Result)
    (hb : ∀ q ∈ arrived, q.result.blind = false) :
    (arrived.foldl (fun acc q => acc.append_result q.result) init).result_table
      = init.result_table ++ arrived.flatMap (fun q => q.result.result_table) := by
  induction arrived generalizing init with
  | nil => simp
  | cons q rest ih =>
    have hq : q.result.blind = false := hb q (List.mem_cons_self _ _)
    rw [List.foldl_cons, ih _ (fun x hx => hb x (List.mem_cons_of_mem _ hx))]
    simp [Result.append_result, hq]

theorem append_fold_col_num (arrived : List SPARQLQuery) (init : Result) (c : Nat)
    (hne : arrived ≠ []) (hc : ∀ q ∈ arrived, q.result.col_num = c) :
    (arrived.foldl (fun acc q => acc.append_result q.result) init).col_num = c := by
  induction arrived generalizing init with
  | nil => exact absurd rfl hne
  | cons q rest ih =>
    rw [List.foldl_cons]
    cases rest with
    | nil =>
      have hq : q.result.col_num = c := hc q (List.mem_cons_self _ _)
      simp only [List.foldl_nil, Result.append_result]
      split <;> exact hq
    | cons q2 rest2 =>
      exact ih _ (by simp) (fun x hx => hc x (List.mem_cons_of_mem _ hx))

theorem put_reply_ordinary (ops : MergeOps) (m : Reply_Map) (q : SPARQLQuery) (data : Item)
    (hf : m.find q.pid = some data) (hu : data.parent_request.is_union = false)
    (ho : (data.parent_request.is_optional && data.parent_request.optional_dispatched)
      = false) :
    (m.put_reply ops q).find q.pid = some
      { data with
        count := data.count - 1
        merged_reply := { data.merged_reply with
          result := data.merged_reply.result.append_result q.result } } := by
  simp [Reply_Map.put_reply, item_at_of_find m q.pid data hf, find_store_same, hu, ho]

theorem merged_after_replies (ops : MergeOps) (pid : Int) (arrived : List SPARQLQuery)
    (hp : ∀ q ∈ arrived, q.pid = pid) (m : Reply_Map) (data : Item)
    (hf : m.find pid = some data) (hu : data.parent_request.is_union = false)
    (ho : (data.parent_request.is_optional && data.parent_request.optional_dispatched)
      = false) :
    ∃ data2, (arrived.foldl (Reply_Map.put_reply ops) m).find pid = some data2
      ∧ data2.parent_request = data.parent_request
      ∧ data2.merged_reply.result
          = arrived.foldl (fun acc q => acc.append_result q.result)
              data.merged_reply.result := by
  induction arrived generalizing m data with
  | nil => exact ⟨data, hf, rfl, rfl⟩
  | cons q rest ih =>
    have hq : q.pid = pid := hp q (List.mem_cons_self _ _)
    have h1 := put_reply_ordinary ops m q data (by rw [hq]; exact hf) hu ho
    rw [hq] at h1
    rw [List.foldl_cons]
    exact ih (fun x hx => hp x (List.mem_cons_of_mem _ hx)) _ _ h1 hu ho

theorem get_merged_reply_table (m : Reply_Map) (pid : Int) (data : Item)
    (hf : m.find pid = some data) :
    (m.get_merged_reply pid).1.result.col_num = data.merged_reply.result.col_num
    ∧ (m.get_merged_reply pid).1.result.result_table
        = data.merged_reply.result.result_table := by
  simp [Reply_Map.get_merged_reply, item_at_of_find m pid data hf]

theorem rows_congr (r1 r2 : Result) (hc : r1.col_num = r2.col_num)
    (ht : r1.result_table = r2.result_table) : r1.rows = r2.rows := by
  unfold Result.rows Result.get_row_num
  have : r1.row = r2.row := by
    funext i
    simp [Result.row, hc, ht]
  rw [this, hc, ht]

theorem flatMap_flatten_eq {α β : Type} (l : List α) (f : α → List (List β)) :
    l.flatMap (fun x => (f x).flatten) = (l.flatMap f).flatten := by
  induction l with
  | nil => rfl
  | cons x l ih => simp [List.flatMap_cons, ih]

theorem merge_replies_rows (ops : MergeOps) (rmap : Reply_Map) (req : SPARQLQuery)
    (arrived : List SPARQLQuery) (c : Nat) (hc0 : 0 < c) (hne : arrived ≠ [])
    (hu : req.is_union = false)
    (ho : (req.is_optional && req.optional_dispatched) = false)
    (hp : ∀ q ∈ arrived, q.pid = req.id)
    (hb : ∀ q ∈ arrived, q.result.blind = false)
    (hc : ∀ q ∈ arrived, q.result.col_num = c)
    (ht : ∀ q ∈ arrived, q.result.result_table = q.result.rows.flatten) :
    (merge_replies ops rmap req arrived).result.rows
      = arrived.flatMap (fun q => q.result.rows) := by
  have h0 : (rmap.put_parent_request req arrived.length).find req.id
      = some { count := arrived.length, parent_request := req } := by
    simp [Reply_Map.put_parent_request, ho, find_store_same]
  obtain ⟨data2, hf2, _, hm⟩ := merged_after_replies ops req.id arrived hp _ _ h0 hu ho
  obtain ⟨g1, g2⟩ := get_merged_reply_table _ req.id data2 hf2
  unfold merge_replies
  apply rows_of_flatten _ c _ hc0
  · intro x hx
    obtain ⟨q, hq, hxq⟩ := List.mem_flatMap.1 hx
    rw [rows_length q.result x hxq]
    exact hc q hq
  · rw [g1, hm]
    exact append_fold_col_num arrived _ c hne hc
  · rw [g2, hm, append_fold_table arrived _ hb, ← flatMap_flatten_eq]
    simp only [List.nil_append]
    exact List.flatMap_congr (fun q hq => ht q hq)

theorem sub_reply_spec (K : JoinKernel) (e : Engine) (req : SPARQLQuery) (pat : Pattern)
    (k k2 : Nat) (hpat : req.get_current_pattern = some pat)
    (hs : req.result.var2col pat.subject = (k : Int)) (hk : k < req.result.col_num)
    (hK : kernel_ready K req.result pat k2) (j : Nat) :
    ∃ out, run_kernel K e (sub_query_with req pat.subject (fork_rows e k req.result j).flatten)
        = some out
      ∧ out.result.rows = (fork_rows e k req.result j).flatMap (kernel_rows K e pat k k2)
      ∧ out.result.result_table = out.result.rows.flatten
      ∧ out.pid = req.id
      ∧ out.result.blind = req.result.blind
      ∧ out.result.col_num = kernel_cols K req.result.col_num := by
  have hK2 : kernel_ready K
      (sub_query_with req pat.subject (fork_rows e k req.result j).flatten).result pat k2 := by
    cases K with
    | known_to_unknown => exact hK
    | known_to_known => exact hK
    | known_to_const => exact hK
  have hw2 : e.cfg.global_enable_vattr = true →
      (sub_query_with req pat.subject
        (fork_rows e k req.result j).flatten).result.attr_parallel := by
    intro _
    simp [Result.attr_parallel, sub_query_with, sub_query_init]
  obtain ⟨out, h1, h2, h3, h4, h5, h6⟩ := run_kernel_rows K e
    (sub_query_with req pat.subject (fork_rows e k req.result j).flatten) pat k k2
    hpat hs hk hK2 hw2
  refine ⟨out, h1, ?_, h3, h4, h5, h6⟩
  rw [h2, sub_query_with_rows req pat.subject _ (by omega) (fork_rows_length e k req.result j)]

theorem kernel_cols_pos (K : JoinKernel) (c : Nat) (hc : 0 < c) : 0 < kernel_cols K c := by
  cases K <;> simp [kernel_cols] <;> omega

/-- C5 (amended). Fork-join merge law: for a non-blind result, `S >= 1` servers, a
pattern whose subject is bound to column `k`, and a parent that is neither a
UNION parent nor an OPTIONAL-dispatched one (so that the reply map appends):
`generate_sub_query` splits the rows, the chosen join kernel runs on each of the
`S` sub-queries, and delivering the `S` sub-replies to the reply map in any
arrival order yields a table whose rows are a permutation of the rows the
kernel gives on the unsplit table. -/
theorem fork_join_merge_law (ops : MergeOps) (K : JoinKernel) (e : Engine)
    (rmap : Reply_Map) (req : SPARQLQuery) (pat : Pattern) (k k2 : Nat)
    (hpat : req.get_current_pattern = some pat)
    (hs : req.result.var2col pat.subject = (k : Int)) (hk : k < req.result.col_num)
    (hS : 1 ≤ e.cfg.global_num_servers)
    (hK : kernel_ready K req.result pat k2)
    (hw : e.cfg.global_enable_vattr = true → req.result.attr_parallel)
    (hb : req.result.blind = false)
    (hu : req.is_union = false)
    (ho : (req.is_optional && req.optional_dispatched) = false) :
    ∃ out subs replies, run_kernel K e req = some out
      ∧ generate_sub_query e req = some subs
      ∧ subs.mapM (run_kernel K e) = some replies
      ∧ replies.length = e.cfg.global_num_servers
      ∧ ∀ arrived, arrived.Perm replies →
          (merge_replies ops rmap req arrived).result.rows.Perm out.result.rows := by
  obtain ⟨out, hout, hrows, _⟩ := run_kernel_rows K e req pat k k2 hpat hs hk hK hw
  have hsubs := generate_sub_query_eq e req pat k hpat hs hk hS
  have hspec := sub_reply_spec K e req pat k k2 hpat hs hk hK
  have hmap := mapM_eq_some_map (run_kernel K e) (fun q => (run_kernel K e q).getD q)
    ((List.range e.cfg.global_num_servers).map (fun j =>
      sub_query_with req pat.subject (fork_rows e k req.result j).flatten))
    (by
      intro x hx
      obtain ⟨j, _, rfl⟩ := List.mem_map.1 hx
      obtain ⟨o, h1, _⟩ := hspec j
      simp only [h1, Option.getD_some])
  refine ⟨out, _, _, hout, hsubs, hmap, by simp, ?_⟩
  intro arrived harr
  have hmem : ∀ q ∈ arrived, ∃ j, q.result.rows
        = (fork_rows e k req.result j).flatMap (kernel_rows K e pat k k2)
      ∧ q.result.result_table = q.result.rows.flatten
      ∧ q.pid = req.id
      ∧ q.result.blind = req.result.blind
      ∧ q.result.col_num = kernel_cols K req.result.col_num := by
    intro q hq
    have hq2 := harr.mem_iff.1 hq
    simp only [List.mem_map, List.mem_range] at hq2
    obtain ⟨x, ⟨j, _, rfl⟩, rfl⟩ := hq2
    obtain ⟨o, h1, h2, h3, h4, h5, h6⟩ := hspec j
    rw [h1]
    exact ⟨j, h2, h3, h4, h5, h6⟩
  have hne : arrived ≠ [] := by
    intro h
    have hl := harr.length_eq
    rw [h] at hl
    simp at hl
    omega
  have hmr := merge_replies_rows ops rmap req arrived (kernel_cols K req.result.col_num)
    (kernel_cols_pos K _ (by omega)) hne hu ho
    (fun q hq => by obtain ⟨j, _, _, h, _, _⟩ := hmem q hq; exact h)
    (fun q hq => by obtain ⟨j, _, _, _, h, _⟩ := hmem q hq; rw [h, hb])
    (fun q hq => by obtain ⟨j, _, _, _, _, h⟩ := hmem q hq; exact h)
    (fun q hq => by obtain ⟨j, _, h, _, _, _⟩ := hmem q hq; exact h)
  rw [hmr, hrows]
  refine (List.Perm.flatMap_right (fun q => q.result.rows) harr).trans ?_
  rw [List.flatMap_map, List.flatMap_map]
  have hfun : ∀ j ∈ List.range e.cfg.global_num_servers,
      ((run_kernel K e (sub_query_with req pat.subject
          (fork_rows e k req.result j).flatten)).getD
        (sub_query_with req pat.subject (fork_rows e k req.result j).flatten)).result.rows
      = (req.result.rows.filter (fun row => decide (fork_dst e k row = j))).flatMap
          (kernel_rows K e pat k k2) := by
    intro j _
    obtain ⟨o, h1, h2, _⟩ := hspec j
    rw [h1]
    exact h2
  rw [List.flatMap_congr hfun]
  exact partition_flatMap_perm (fork_dst e k) e.cfg.global_num_servers
    (kernel_rows K e pat k k2) req.result.rows (fun row _ => fork_dst_lt e k row hS)

/-- Witness of C5: the sample query after its first step (rows 11 and 12) on two
servers; the merged sub-replies give the single row (11,12), as the unsplit
kernel does. -/
theorem fork_join_merge_law_witness :
    ((generate_sub_query demo_engine_vattr demo_req1).bind
        (fun subs => subs.mapM (run_kernel JoinKernel.known_to_unknown demo_engine_vattr))).map
        (fun replies => (merge_replies demo_ops {} demo_req1 replies.reverse).result.rows)
      = some [[11, 12]]
    ∧ ∃ out subs replies,
      run_kernel JoinKernel.known_to_unknown demo_engine_vattr demo_req1 = some out
      ∧ generate_sub_query demo_engine_vattr demo_req1 = some subs
      ∧ subs.mapM (run_kernel JoinKernel.known_to_unknown demo_engine_vattr) = some replies
      ∧ replies.length = demo_engine_vattr.cfg.global_num_servers
      ∧ ∀ arrived, arrived.Perm replies →
          (merge_replies demo_ops {} demo_req1 arrived).result.rows.Perm out.result.rows :=
  ⟨by decide,
    fork_join_merge_law demo_ops JoinKernel.known_to_unknown demo_engine_vattr {} demo_req1
      demo_pat2 0 0 rfl rfl (by decide) (by decide) trivial
      (fun _ => by unfold Result.attr_parallel; decide) rfl (by decide) (by decide)⟩

/-- C5 (counterexample). For a blind result the law fails: the unsplit kernel turns
the rows 11 and 12 into the row (11,12), while the reply map discards the rows
of the blind sub-replies and hands back an empty table. -/
theorem fork_join_blind_counterexample :
    ¬ (∀ out replies,
        run_kernel JoinKernel.known_to_unknown demo_engine demo_req1_blind = some out →
        (generate_sub_query demo_engine demo_req1_blind).bind
          (fun subs => subs.mapM (run_kernel JoinKernel.known_to_unknown demo_engine))
          = some replies →
        (merge_replies demo_ops {} demo_req1_blind replies).result.rows.Perm
          out.result.rows) := by
  intro h
  have h1 : (run_kernel JoinKernel.known_to_unknown demo_engine demo_req1_blind).map
      (fun q => q.result.rows.length) = some 1 := by decide
  have h2 : ((generate_sub_query demo_engine demo_req1_blind).bind
      (fun subs => subs.mapM (run_kernel JoinKernel.known_to_unknown demo_engine))).map
      (fun replies => (merge_replies demo_ops {} demo_req1_blind replies).result.rows.length)
      = some 0 := by decide
  cases hrun : run_kernel JoinKernel.known_to_unknown demo_engine demo_req1_blind with
  | none => rw [hrun] at h1; simp at h1
  | some out =>
    cases hrep : (generate_sub_query demo_engine demo_req1_blind).bind
        (fun subs => subs.mapM (run_kernel JoinKernel.known_to_unknown demo_engine)) with
    | none => rw [hrep] at h2; simp at h2
    | some replies =>
      have hp := (h out replies hrun hrep).length_eq
      rw [hrun] at h1
      rw [hrep] at h2
      simp only [Option.map_some', Option.some.injEq] at h1 h2
      omega

/-! ## What `get_merged_reply` and the force-dispatch branch do in general -/

/-- For a registered parent, `get_merged_reply` takes the vertex table, the column
counts, the row count, the blind flag and the variable map from the merged reply,
keeps every other field of the parent request, the attribute table included, and
removes the entry. -/
theorem get_merged_reply_fields (m : Reply_Map) (pid : Int) (data : Item)
    (hf : m.find pid = some data) :
    (m.get_merged_reply pid).1 =
      { data.parent_request with
        result := { data.parent_request.result with
          col_num := data.merged_reply.result.col_num
          blind := data.merged_reply.result.blind
          row_num := data.merged_reply.result.row_num
          attr_col_num := data.merged_reply.result.attr_col_num
          v2c_map := data.merged_reply.result.v2c_map
          result_table := data.merged_reply.result.result_table } }
    ∧ (m.get_merged_reply pid).1.result.attr_res_table
        = data.parent_request.result.attr_res_table
    ∧ (m.get_merged_reply pid).2.find pid = none := by
  refine ⟨?_, ?_, ?_⟩
  · simp [Reply_Map.get_merged_reply, item_at_of_find m pid data hf]
  · simp [Reply_Map.get_merged_reply, item_at_of_find m pid data hf]
  · simp only [Reply_Map.get_merged_reply, item_at_of_find m pid data hf]
    exact find_erase_same m pid

theorem foldl_append_flatMap {α β : Type} (g : α → List β) (l : List α) (init : List β) :
    l.foldl (fun out x => out ++ g x) init = init ++ l.flatMap g := by
  induction l generalizing init with
  | nil => simp
  | cons x l ih => simp [List.foldl_cons, ih]

theorem force_dispatch_sent_eq (e : Engine) (rmap : Reply_Map) (r : SPARQLQuery) :
    (force_dispatch_branch e rmap r).2
      = (List.range e.cfg.global_num_servers).flatMap (fun i =>
          (List.range e.cfg.global_mt_threshold).flatMap (dispatch_cell e r i)) := by
  have hin : ∀ i : Nat, (fun (out2 : List Message) (j : Nat) =>
        match dispatch_tid e i j with
        | none => out2
        | some t =>
          out2 ++ [{ sid := i, tid := (e.cfg.global_num_proxies : Int) + j,
                     bundle := { { r with force_dispatch := false } with
                       id := -1, pid := r.id, tid := t } }])
      = fun out2 j => out2 ++ dispatch_cell e r i j := by
    intro i
    funext out2 j
    unfold dispatch_cell
    cases dispatch_tid e i j <;> simp
  simp only [force_dispatch_branch, hin, foldl_append_flatMap]
  simp

theorem sum_range_const (f : Nat → Nat) (a n : Nat) (ha : ∀ i, i < n → f i = a) :
    ((List.range n).map f).sum = n * a := by
  induction n with
  | zero => simp
  | succ n ih =>
    rw [List.range_succ, List.map_append, List.sum_append, ih (fun i hi => ha i (by omega))]
    simp [ha n (by omega)]
    ring

theorem sum_range_one_off (f : Nat → Nat) (a b n i0 : Nat) (h0 : i0 < n) (hb : f i0 = b)
    (ha : ∀ i, i < n → i ≠ i0 → f i = a) :
    ((List.range n).map f).sum + a = n * a + b := by
  induction n with
  | zero => omega
  | succ n ih =>
    rw [List.range_succ, List.map_append, List.sum_append]
    simp only [List.map_cons, List.map_nil, List.sum_cons, List.sum_nil, Nat.add_zero]
    by_cases hi : i0 = n
    · subst hi
      rw [sum_range_const f a i0 (fun i hi => ha i (by omega) (by omega)), hb]
      ring
    · have h1 := ih (by omega) (fun i hi2 hne => ha i (by omega) hne)
      have h2 : f n = a := ha n (by omega) (fun h => hi h.symm)
      rw [h2]
      have : (n + 1) * a = n * a + a := by ring
      omega

theorem dispatch_cell_length (e : Engine) (r : SPARQLQuery) (i j : Nat) :
    (dispatch_cell e r i j).length
      = if (i : Int) = e.sid ∧ (j : Int) + e.cfg.global_num_proxies = e.tid then 0 else 1 := by
  unfold dispatch_cell dispatch_tid
  by_cases h1 : (i : Int) = e.sid ∧ (j : Int) + e.cfg.global_num_proxies = e.tid
  · simp [h1]
  · rw [if_neg h1, if_neg h1]
    split_ifs <;> rfl

/-- When the dispatching engine is one of the `T` targeted engines of one of the `S`
servers, the force-dispatch branch sends `S * T - 1` sub-queries, which is the
pending count it registers. -/
theorem force_dispatch_in_range (e : Engine) (rmap : Reply_Map) (r : SPARQLQuery)
    (i0 t0 : Nat) (hsid : e.sid = (i0 : Int)) (hi0 : i0 < e.cfg.global_num_servers)
    (htid : e.tid = (e.cfg.global_num_proxies : Int) + t0)
    (ht0 : t0 < e.cfg.global_mt_threshold) :
    (force_dispatch_branch e rmap r).2.length + 1
        = e.cfg.global_num_servers * e.cfg.global_mt_threshold
    ∧ (force_dispatch_branch e rmap r).1.count_of r.id
        = some ((e.cfg.global_num_servers : Int) * e.cfg.global_mt_threshold - 1) := by
  constructor
  · rw [force_dispatch_sent_eq, List.length_flatMap]
    have hother : ∀ i, i < e.cfg.global_num_servers → i ≠ i0 →
        (List.length ∘ fun i => (List.range e.cfg.global_mt_threshold).flatMap
          (dispatch_cell e r i)) i = e.cfg.global_mt_threshold := by
      intro i _ hne
      simp only [Function.comp, List.length_flatMap]
      rw [sum_range_const _ 1 _ (fun j _ => by
        simp only [Function.comp, dispatch_cell_length]
        have : ¬ ((i : Int) = e.sid) := by rw [hsid]; exact_mod_cast hne
        simp [this])]
      ring
    have hself : (List.length ∘ fun i => (List.range e.cfg.global_mt_threshold).flatMap
          (dispatch_cell e r i)) i0 + 1 = e.cfg.global_mt_threshold := by
      simp only [Function.comp, List.length_flatMap]
      have := sum_range_one_off (List.length ∘ dispatch_cell e r i0) 1 0
        e.cfg.global_mt_threshold t0 ht0
        (by
          simp only [Function.comp, dispatch_cell_length]
          have : (i0 : Int) = e.sid ∧ (t0 : Int) + e.cfg.global_num_proxies = e.tid := by
            constructor
            · exact hsid.symm
            · rw [htid]; ring
          simp [this])
        (fun j _ hne => by
          simp only [Function.comp, dispatch_cell_length]
          have : ¬ ((j : Int) + e.cfg.global_num_proxies = e.tid) := by
            rw [htid]
            intro h
            apply hne
            have : (j : Int) = t0 := by linarith
            exact_mod_cast this
          simp [this])
      omega
    have hsum := sum_range_one_off
      (List.length ∘ fun i => (List.range e.cfg.global_mt_threshold).flatMap
        (dispatch_cell e r i))
      e.cfg.global_mt_threshold _ e.cfg.global_num_servers i0 hi0 rfl hother
    omega
  · obtain ⟨data, hf, hc, _⟩ := find_put_parent_request rmap r
      ((e.cfg.global_num_servers : Int) * e.cfg.global_mt_threshold - 1)
    simp [force_dispatch_branch, Reply_Map.count_of, hf, hc]

/-- When the dispatching engine has an index that is not below `T`, the skip test
never fires: the branch sends `S * T` sub-queries and still registers the
pending count `S * T - 1`. -/
theorem force_dispatch_out_of_range (e : Engine) (rmap : Reply_Map) (r : SPARQLQuery)
    (t0 : Nat) (htid : e.tid = (e.cfg.global_num_proxies : Int) + t0)
    (ht0 : e.cfg.global_mt_threshold ≤ t0) :
    (force_dispatch_branch e rmap r).2.length
        = e.cfg.global_num_servers * e.cfg.global_mt_threshold
    ∧ (force_dispatch_branch e rmap r).1.count_of r.id
        = some ((e.cfg.global_num_servers : Int) * e.cfg.global_mt_threshold - 1) := by
  constructor
  · rw [force_dispatch_sent_eq, List.length_flatMap]
    rw [sum_range_const _ e.cfg.global_mt_threshold _ (fun i _ => by
      simp only [Function.comp, List.length_flatMap]
      rw [sum_range_const _ 1 _ (fun j hj => by
        simp only [Function.comp, dispatch_cell_length]
        have : ¬ ((j : Int) + e.cfg.global_num_proxies = e.tid) := by
          rw [htid]
          intro h
          have : (j : Int) = t0 := by linarith
          have : j = t0 := by exact_mod_cast this
          omega
        simp [this])]
      ring)]
  · obtain ⟨data, hf, hc, _⟩ := find_put_parent_request rmap r
      ((e.cfg.global_num_servers : Int) * e.cfg.global_mt_threshold - 1)
    simp [force_dispatch_branch, Reply_Map.count_of, hf, hc]

/-! ## FILTER -/

theorem and_flags_get (v : List Bool) (q : Nat → Bool) (i : Nat) :
    (and_flags v q)[i]? = if i < v.length then some (v.getD i false && q i) else none := by
  unfold and_flags
  rw [List.getElem?_map]
  by_cases hi : i < v.length
  · rw [List.getElem?_range hi]
    simp [hi]
  · have h2 : (List.range v.length).length ≤ i := by simp; omega
    rw [List.getElem?_eq_none h2]
    simp [hi]

theorem getD_get (v : List Bool) (i : Nat) :
    v[i]? = if i < v.length then some (v.getD i false) else none := by
  by_cases hi : i < v.length
  · simp [hi, List.getD_eq_getElem?_getD, List.getElem?_eq_getElem hi]
  · have h2 : v.length ≤ i := by omega
    simp [hi, List.getElem?_eq_none h2]

theorem and_flags_length (v : List Bool) (q : Nat → Bool) : (and_flags v q).length = v.length := by
  simp [and_flags]

theorem and_flags_getD (v : List Bool) (q : Nat → Bool) (i : Nat) (hi : i < v.length) :
    (and_flags v q).getD i false = (v.getD i false && q i) := by
  rw [List.getD_eq_getElem?_getD, and_flags_get]
  simp [hi]

theorem and_flags_congr (v : List Bool) (q1 q2 : Nat → Bool)
    (h : ∀ i, i < v.length → q1 i = q2 i) : and_flags v q1 = and_flags v q2 := by
  unfold and_flags
  apply List.map_congr_left
  intro i hi
  rw [h i (List.mem_range.1 hi)]

theorem and_flags_true (v : List Bool) : and_flags v (fun _ => true) = v := by
  apply List.ext_getElem?
  intro i
  rw [and_flags_get, getD_get v i]
  simp

theorem and_flags_and (v : List Bool) (q1 q2 : Nat → Bool) :
    and_flags (and_flags v q1) q2 = and_flags v (fun i => q1 i && q2 i) := by
  apply List.ext_getElem?
  intro i
  rw [and_flags_get, and_flags_get, and_flags_length]
  by_cases hi : i < v.length
  · rw [if_pos hi, if_pos hi, and_flags_getD _ _ _ hi, Bool.and_assoc]
  · simp [hi]

theorem and_flags_replicate (n : Nat) (q : Nat → Bool) :
    and_flags (List.replicate n true) q = (List.range n).map q := by
  unfold and_flags
  simp only [List.length_replicate]
  apply List.map_congr_left
  intro i hi
  have hi2 : i < n := List.mem_range.1 hi
  simp [List.getD_eq_getElem?_getD, List.getElem?_replicate, hi2]

theorem and_flags_zipWith (v : List Bool) (s : List sid_t → Bool) (row : Nat → List sid_t) :
    and_flags v (fun i => s (row i))
      = List.zipWith (fun b x => b && s x) v ((List.range v.length).map row) := by
  apply List.ext_getElem?
  intro i
  rw [and_flags_get, List.getElem?_zipWith, getD_get v i, List.getElem?_map]
  by_cases hi : i < v.length
  · rw [List.getElem?_range hi]
    simp [hi]
  · simp [hi]

theorem flag_loop_upto (n : Nat) (fails : Nat → Option Bool) (p : Nat → Bool)
    (flags : List Bool) (hn : n ≤ flags.length)
    (hf : ∀ row, row < n → fails row = some (p row)) :
    flag_loop n fails flags
      = some (and_flags flags (fun i => !(decide (i < n) && p i))) := by
  induction n with
  | zero =>
    simp only [flag_loop, List.range_zero, List.foldlM_nil, Option.pure_def, Option.some.injEq]
    rw [← and_flags_true flags]
    rw [and_flags_and]
    apply and_flags_congr
    intro i _
    simp
  | succ n ih =>
    have ih2 := ih (by omega) (fun row hr => hf row (by omega))
    unfold flag_loop at ih2 ⊢
    rw [List.range_succ, List.foldlM_append, ih2]
    have hlt : n < flags.length := by omega
    have hget : (and_flags flags (fun i => !(decide (i < n) && p i)))[n]?
        = some (flags.getD n false) := by
      rw [and_flags_get]
      simp [hlt]
    simp only [Option.bind_eq_bind, Option.some_bind, List.foldlM_cons, List.foldlM_nil,
      Option.pure_def, hget, hf n (by omega)]
    have hfin : ∀ S : List Bool,
        (if flags.getD n false = true then
          some (if p n = true then S.set n false else S)
         else some S)
        = some (if (flags.getD n false && p n) = true then S.set n false else S) := by
      intro S
      cases flags.getD n false <;> cases p n <;> simp
    rw [hfin]
    simp only [Option.some_bind]
    congr 1
    apply List.ext_getElem?
    intro i
    by_cases hfp : (flags.getD n false && p n) = true
    · rw [if_pos hfp, List.getElem?_set, and_flags_get, and_flags_get, and_flags_length]
      simp only [Bool.and_eq_true] at hfp
      by_cases hin : n = i
      · subst hin
        simp [hlt, hfp.1, hfp.2]
      · by_cases hi : i < flags.length
        · have : decide (i < n + 1) = decide (i < n) := by
            have : (i < n + 1) ↔ (i < n) := by omega
            simp [this]
          simp [hin, hi, this]
        · simp [hin, hi]
    · rw [if_neg hfp, and_flags_get, and_flags_get]
      by_cases hi : i < flags.length
      · by_cases hin : n = i
        · subst hin
          simp only [hi, if_true, Option.some.injEq]
          cases hfl : flags.getD n false
          · simp
          · rw [hfl] at hfp
            have hp : p n = false := by simpa using hfp
            simp [hp]
        · have : decide (i < n + 1) = decide (i < n) := by
            have : (i < n + 1) ↔ (i < n) := by omega
            simp [this]
          simp [hi, this]
      · simp [hi]

theorem flag_loop_eq (fails : Nat → Option Bool) (p : Nat → Bool) (flags : List Bool)
    (hf : ∀ row, row < flags.length → fails row = some (p row)) :
    flag_loop flags.length fails flags = some (and_flags flags (fun i => !p i)) := by
  rw [flag_loop_upto flags.length fails p flags (le_refl _) hf]
  congr 1
  apply and_flags_congr
  intro i hi
  simp [hi]

theorem str_lt_total (a b : String) :
    str_lt b a = !(str_lt a b || decide (a = b)) := by
  unfold str_lt
  have h := lt_trichotomy a.toList b.toList
  have he : a = b ↔ a.toList = b.toList := by
    constructor
    · intro h; rw [h]
    · intro h; exact String.ext h
  rcases h with h | h | h
  · have h2 : ¬ b.toList < a.toList := lt_asymm h
    have h3 : ¬ a = b := fun e => lt_irrefl _ (he.1 e ▸ h)
    rw [decide_eq_true h, decide_eq_false h2, decide_eq_false h3]
    rfl
  · have h2 : ¬ b.toList < a.toList := by rw [h]; exact lt_irrefl _
    have h4 : ¬ a.toList < b.toList := by rw [h]; exact lt_irrefl _
    have h3 : a = b := he.2 h
    rw [decide_eq_true h3, decide_eq_false h2, decide_eq_false h4]
    rfl
  · have h2 : ¬ a.toList < b.toList := lt_asymm h
    have h3 : ¬ a = b := fun e => lt_irrefl _ (he.1 e ▸ h)
    rw [decide_eq_true h, decide_eq_false h2, decide_eq_false h3]
    rfl

theorem relational_fails_eq (t : FilterType) (s1 s2 : String) :
    relational_fails t s1 s2 = !rel_holds t s1 s2 := by
  cases t <;> simp only [relational_fails, rel_holds, Bool.not_true]
  · by_cases h : s1 = s2 <;> simp [h]
  · by_cases h : s1 = s2 <;> simp [h]
  · exact str_lt_total s1 s2
  · rw [str_lt_total s2 s1]
    have h : decide (s2 = s1) = decide (s1 = s2) := by
      by_cases h : s1 = s2
      · simp [h]
      · have h2 : ¬ s2 = s1 := fun e => h e.symm
        simp [h, h2]
    simp [h]

theorem valid_col_read (r : Result) (vid : ssid_t) (h : valid_col r vid = true) (i : Nat)
    (hi : i < r.get_row_num) :
    r.get_row_col i (r.var2col vid) = some (cell r vid (r.row i)) := by
  unfold valid_col at h
  obtain ⟨h0, h1⟩ := of_decide_eq_true h
  obtain ⟨n, hn⟩ := Int.eq_ofNat_of_zero_le h0
  unfold cell
  rw [hn] at h1 ⊢
  have hc : n < r.col_num := by omega
  rw [get_row_col_row r i n hi hc]
  simp

theorem get_str_eq (env : FilterEnv) (r : Result) (x : Filter) (h : arg_wf r x = true)
    (i : Nat) (hi : i < r.get_row_num) :
    get_str env r x i (if x.type = FilterType.Variable then r.var2col x.valueArg else -1)
      = some (arg_text env r x (r.row i)) := by
  unfold arg_wf at h
  unfold get_str arg_text
  cases ht : x.type <;> rw [ht] at h <;> simp at h ⊢
  rw [valid_col_read r _ h i hi]
  simp

theorem relational_filter_eq (env : FilterEnv) (r : Result) (t : FilterType)
    (x y : Filter) (a3 : Option Filter) (val : String) (va : ssid_t) (v : List Bool)
    (ht : t = .Equal ∨ t = .NotEqual ∨ t = .Less ∨ t = .LessOrEqual ∨ t = .Greater
      ∨ t = .GreaterOrEqual)
    (hx : arg_wf r x = true) (hy : arg_wf r y = true) (hv : v.length = r.get_row_num) :
    relational_filter env (.mk t (some x) (some y) a3 val va) r v
      = some (and_flags v (fun i =>
          rel_holds t (arg_text env r x (r.row i)) (arg_text env r y (r.row i)))) := by
  have hloop : flag_loop r.get_row_num
      (fun row => do
        let s1 ← get_str env r x row
          (if x.type = FilterType.Variable then r.var2col x.valueArg else -1)
        let s2 ← get_str env r y row
          (if y.type = FilterType.Variable then r.var2col y.valueArg else -1)
        pure (relational_fails t s1 s2)) v
      = some (and_flags v (fun i =>
          rel_holds t (arg_text env r x (r.row i)) (arg_text env r y (r.row i)))) := by
    rw [← hv]
    rw [flag_loop_eq _ (fun i =>
      relational_fails t (arg_text env r x (r.row i)) (arg_text env r y (r.row i)))]
    · congr 1
      apply and_flags_congr
      intro i _
      rw [relational_fails_eq]
      simp
    · intro row hrow
      rw [hv] at hrow
      simp [get_str_eq env r x hx row hrow, get_str_eq env r y hy row hrow]
  rcases ht with h | h | h | h | h | h <;> subst h <;>
    simpa [relational_filter, Filter.arg1, Filter.arg2, Filter.type] using hloop

theorem leaf_loop_eq (r : Result) (vid : ssid_t) (g : sid_t → Bool) (v : List Bool)
    (h : valid_col r vid = true) (hv : v.length = r.get_row_num) :
    flag_loop v.length
      (fun row => do
        let id ← r.get_row_col row (r.var2col vid)
        pure (g id)) v
      = some (and_flags v (fun i => !g (cell r vid (r.row i)))) := by
  apply flag_loop_eq
  intro row hrow
  rw [hv] at hrow
  simp [valid_col_read r vid h row hrow]

theorem or_merge_upto (n : Nat) (v s1 s2 : List Bool) (hn : n ≤ v.length)
    (h1 : s1.length = v.length) (h2 : s2.length = v.length) :
    (List.range n).foldlM
      (fun flags i => do
        let f ← flags[i]?
        let f1 ← s1[i]?
        let f2 ← s2[i]?
        pure (flags.set i (f && (f1 || f2))))
      v
      = some (and_flags v
          (fun i => !decide (i < n) || (s1.getD i false || s2.getD i false))) := by
  induction n with
  | zero =>
    simp only [List.range_zero, List.foldlM_nil, Option.pure_def, Option.some.injEq]
    rw [← and_flags_true v, and_flags_and]
    apply and_flags_congr
    intro i _
    simp
  | succ n ih =>
    have ih2 := ih (by omega)
    rw [List.range_succ, List.foldlM_append, ih2]
    have hlt : n < v.length := by omega
    have hget : (and_flags v
        (fun i => !decide (i < n) || (s1.getD i false || s2.getD i false)))[n]?
        = some (v.getD n false) := by
      rw [and_flags_get]
      simp [hlt]
    have hg1 : s1[n]? = some (s1.getD n false) := by
      rw [getD_get s1 n]; simp [h1, hlt]
    have hg2 : s2[n]? = some (s2.getD n false) := by
      rw [getD_get s2 n]; simp [h2, hlt]
    simp only [Option.bind_eq_bind, Option.some_bind, List.foldlM_cons, List.foldlM_nil,
      Option.pure_def, hget, hg1, hg2]
    congr 1
    apply List.ext_getElem?
    intro i
    rw [List.getElem?_set, and_flags_get, and_flags_get, and_flags_length]
    by_cases hin : n = i
    · subst hin
      simp [hlt]
    · by_cases hi : i < v.length
      · have : decide (i < n + 1) = decide (i < n) := by
          have : (i < n + 1) ↔ (i < n) := by omega
          simp [this]
        simp [hin, hi, this]
      · simp [hin, hi]

theorem or_merge_eq (v s1 s2 : List Bool)
    (h1 : s1.length = v.length) (h2 : s2.length = v.length) :
    or_merge v s1 s2
      = some (and_flags v (fun i => s1.getD i false || s2.getD i false)) := by
  unfold or_merge
  rw [or_merge_upto v.length v s1 s2 (le_refl _) h1 h2]
  congr 1
  apply and_flags_congr
  intro i hi
  simp [hi]

theorem general_filter_eq (env : FilterEnv) (r : Result) (f : Filter) :
    ∀ v : List Bool, filter_wf r f = true → v.length = r.get_row_num →
      general_filter env f r v = some (and_flags v (fun i => sat env r f (r.row i))) := by
  refine sat.induct env r
    (fun f _ => ∀ v : List Bool, filter_wf r f = true → v.length = r.get_row_num →
      general_filter env f r v = some (and_flags v (fun i => sat env r f (r.row i))))
    ?_ ?_ ?_ f []
  · intro a1 a2 a3 val va _ ih1 ih2 v hwf hv
    simp only [filter_wf, Bool.and_eq_true] at hwf
    simp only [general_filter, Option.bind_eq_bind]
    rw [ih1 v hwf.1 hv]
    simp only [Option.some_bind]
    rw [ih2 _ hwf.2 (by rw [and_flags_length, hv]), and_flags_and]
    congr 1
  · intro a1 a2 a3 val va _ ih1 ih2 v hwf hv
    simp only [filter_wf, Bool.and_eq_true] at hwf
    simp only [general_filter, Option.bind_eq_bind]
    rw [ih1 _ hwf.1 (by simp), ih2 _ hwf.2 (by simp)]
    simp only [Option.some_bind]
    rw [or_merge_eq _ _ _ (by rw [and_flags_length, List.length_replicate, hv])
      (by rw [and_flags_length, List.length_replicate, hv])]
    congr 1
    apply and_flags_congr
    intro i hi
    rw [hv] at hi
    rw [and_flags_getD _ _ _ (by simpa using hi), and_flags_getD _ _ _ (by simpa using hi)]
    simp [sat, List.getD_eq_getElem?_getD, List.getElem?_replicate, hi]
  · intro f _ hand hor v hwf hv
    obtain ⟨t, a1, a2, a3, val, va⟩ := f
    have hrel : ∀ t : FilterType, (t = .Equal ∨ t = .NotEqual ∨ t = .Less ∨ t = .LessOrEqual
        ∨ t = .Greater ∨ t = .GreaterOrEqual) →
        filter_wf r (.mk t a1 a2 a3 val va) = true →
        relational_filter env (.mk t a1 a2 a3 val va) r v
          = some (and_flags v (fun i => leaf_sat env r (.mk t a1 a2 a3 val va) (r.row i))) := by
      intro t ht hwf
      cases a1 with
      | none => rcases ht with h | h | h | h | h | h <;> subst h <;> simp [filter_wf] at hwf
      | some x =>
        cases a2 with
        | none => rcases ht with h | h | h | h | h | h <;> subst h <;> simp [filter_wf] at hwf
        | some y =>
          have hxy : arg_wf r x = true ∧ arg_wf r y = true := by
            rcases ht with h | h | h | h | h | h <;> subst h <;>
              simpa [filter_wf] using hwf
          rw [relational_filter_eq env r t x y a3 val va v ht hxy.1 hxy.2 hv]
          rcases ht with h | h | h | h | h | h <;> subst h <;>
            simp [leaf_sat, Filter.type, Filter.arg1, Filter.arg2]
    cases t
    case And =>
      cases a1 with
      | none => simp [filter_wf] at hwf
      | some x =>
        cases a2 with
        | none => simp [filter_wf] at hwf
        | some y => exact absurd rfl (hand x y a3 val va)
    case Or =>
      cases a1 with
      | none => simp [filter_wf] at hwf
      | some x =>
        cases a2 with
        | none => simp [filter_wf] at hwf
        | some y => exact absurd rfl (hor x y a3 val va)
    case Equal => simpa [general_filter, sat] using hrel _ (by simp) hwf
    case NotEqual => simpa [general_filter, sat] using hrel _ (by simp) hwf
    case Less => simpa [general_filter, sat] using hrel _ (by simp) hwf
    case LessOrEqual => simpa [general_filter, sat] using hrel _ (by simp) hwf
    case Greater => simpa [general_filter, sat] using hrel _ (by simp) hwf
    case GreaterOrEqual => simpa [general_filter, sat] using hrel _ (by simp) hwf
    case Builtin_bound =>
      cases a1 with
      | none => simp [filter_wf] at hwf
      | some x =>
        have hx : valid_col r x.valueArg = true := by simpa [filter_wf] using hwf
        have hl := leaf_loop_eq r x.valueArg (fun id => decide (id = env.BLANK_ID)) v hx hv
        simp only [general_filter, bound_filter, Filter.arg1, Option.bind_eq_bind,
          Option.some_bind] at hl ⊢
        rw [hl]
        simp [sat, leaf_sat, Filter.type, Filter.arg1]
    case Builtin_isiri =>
      cases a1 with
      | none => simp [filter_wf] at hwf
      | some x =>
        have hx : valid_col r x.valueArg = true := by simpa [filter_wf] using hwf
        have hl := leaf_loop_eq r x.valueArg
          (fun id => !env.regex_match (id_str env id) IRIref_str false) v hx hv
        simp only [general_filter, is_IRI_filter, Filter.arg1, Option.bind_eq_bind,
          Option.some_bind] at hl ⊢
        rw [hl]
        simp [sat, leaf_sat, Filter.type, Filter.arg1]
    case Builtin_isliteral =>
      cases a1 with
      | none => simp [filter_wf] at hwf
      | some x =>
        have hx : valid_col r x.valueArg = true := by simpa [filter_wf] using hwf
        have hl := leaf_loop_eq r x.valueArg
          (fun id => !env.regex_match (id_str env id) RDFLiteral_str false) v hx hv
        simp only [general_filter, is_literal_filter, Filter.arg1, Option.bind_eq_bind,
          Option.some_bind] at hl ⊢
        rw [hl]
        simp [sat, leaf_sat, Filter.type, Filter.arg1]
    case Builtin_regex =>
      cases a1 with
      | none => simp [filter_wf] at hwf
      | some x =>
        cases a2 with
        | none => simp [filter_wf] at hwf
        | some y =>
          have hx : valid_col r x.valueArg = true := by simpa [filter_wf] using hwf
          have hl := leaf_loop_eq r x.valueArg
            (fun id => !env.regex_match (strip_quotes (id_str env id)) y.value
              (regex_icase (.mk .Builtin_regex (some x) (some y) a3 val va))) v hx hv
          simp only [general_filter, regex_filter, Filter.arg1, Filter.arg2,
            Option.bind_eq_bind, Option.some_bind] at hl ⊢
          rw [hl]
          simp [sat, leaf_sat, Filter.type, Filter.arg1, Filter.arg2]
    case Variable =>
      simp [general_filter, sat, leaf_sat, Filter.type, and_flags_true]
    case Literal =>
      simp [general_filter, sat, leaf_sat, Filter.type, and_flags_true]

theorem filters_fold_eq (env : FilterEnv) (r : Result) (fs : List Filter) :
    ∀ v : List Bool, (∀ f ∈ fs, filter_wf r f = true) → v.length = r.get_row_num →
      fs.foldlM (fun flags f => general_filter env f r flags) v
        = some (and_flags v (fun i => fs.all (fun f => sat env r f (r.row i)))) := by
  induction fs with
  | nil =>
    intro v _ _
    simp [and_flags_true]
  | cons f fs ih =>
    intro v hwf hv
    have h1 : filter_wf r f = true := hwf f (List.mem_cons_self _ _)
    have h2 : ∀ g ∈ fs, filter_wf r g = true := fun g hg => hwf g (List.mem_cons_of_mem _ hg)
    rw [List.foldlM_cons, general_filter_eq env r f v h1 hv]
    simp only [Option.bind_eq_bind, Option.some_bind]
    rw [ih _ h2 (by rw [and_flags_length, hv]), and_flags_and]
    simp

theorem keep_loop_eq (r : Result) (flags : List Bool) (l : List Nat)
    (hl : ∀ i ∈ l, i < r.get_row_num) (hlen : flags.length = r.get_row_num)
    (acc : List sid_t) :
    l.foldlM
      (fun tbl row => do
        let flag ← flags[row]?
        if flag then r.append_row_to row tbl else pure tbl)
      acc
      = some (acc ++ ((l.filter (fun i => flags.getD i false)).map r.row).flatten) := by
  induction l generalizing acc with
  | nil => simp
  | cons i l ih =>
    have hi : i < r.get_row_num := hl i (List.mem_cons_self _ _)
    have hl2 : ∀ j ∈ l, j < r.get_row_num := fun j hj => hl j (List.mem_cons_of_mem _ hj)
    have hg : flags[i]? = some (flags.getD i false) := by
      rw [getD_get flags i]; simp [hlen, hi]
    rw [List.foldlM_cons]
    simp only [Option.bind_eq_bind, Option.pure_def] at ih ⊢
    rw [hg]
    simp only [Option.some_bind]
    cases hf : flags.getD i false
    · simp only [Bool.false_eq_true, if_false, Option.some_bind]
      rw [ih hl2, List.filter_cons_of_neg
        (by show ¬ flags.getD i false = true; rw [hf]; exact Bool.false_ne_true)]
    · simp only [if_true, append_row_to_eq r i hi, Option.some_bind]
      rw [ih hl2, List.filter_cons_of_pos (by exact hf)]
      simp

theorem keep_flagged_eq (r : Result) (p : List sid_t → Bool) :
    keep_flagged r (and_flags (List.replicate r.get_row_num true) (fun i => p (r.row i)))
      = some (r.rows.filter p).flatten := by
  unfold keep_flagged
  rw [keep_loop_eq r _ _ (fun i hi => List.mem_range.1 hi)
    (by rw [and_flags_length, List.length_replicate])]
  have hf : (List.range r.get_row_num).filter
      (fun i => (and_flags (List.replicate r.get_row_num true)
        (fun i => p (r.row i))).getD i false)
      = (List.range r.get_row_num).filter (fun i => p (r.row i)) := by
    apply List.filter_congr
    intro i hi
    have hi2 : i < r.get_row_num := List.mem_range.1 hi
    rw [and_flags_getD _ _ _ (by simpa using hi2)]
    simp [List.getD_eq_getElem?_getD, List.getElem?_replicate, hi2]
  rw [hf, filter_rows_eq]
  simp

theorem rows_zero_col (r : Result) (h : r.col_num = 0) : r.rows = [] := by
  simp [Result.rows, Result.get_row_num, h]

theorem filter_eq (env : FilterEnv) (q : SPARQLQuery)
    (hwf : ∀ f ∈ q.pattern_group.filters, filter_wf q.result f = true)
    (hne : q.pattern_group.filters ≠ []) :
    filter env q = some
      { q with result :=
        { q.result with
          result_table := (q.result.rows.filter (fun row =>
            q.pattern_group.filters.all (fun f => sat env q.result f row))).flatten
          row_num := (q.result.rows.filter (fun row =>
            q.pattern_group.filters.all (fun f => sat env q.result f row))).length } } := by
  have hlen : ¬ q.pattern_group.filters.length = 0 := by
    intro h
    exact hne (List.length_eq_zero.1 h)
  unfold filter
  rw [if_neg hlen]
  simp only [Option.bind_eq_bind, Option.pure_def]
  rw [filters_fold_eq env q.result _ _ hwf (by simp)]
  simp only [Option.some_bind]
  rw [keep_flagged_eq q.result
    (fun row => q.pattern_group.filters.all (fun f => sat env q.result f row))]
  simp only [Option.some_bind, Option.some.injEq]
  congr 2
  unfold Result.get_row_num
  by_cases hc : q.result.col_num = 0
  · simp [hc, rows_zero_col q.result hc]
  · have hpos : 0 < q.result.col_num := by omega
    simp only [hc, if_false]
    rw [length_flatten_const q.result.col_num _
      (fun x hx => rows_length q.result x (List.mem_of_mem_filter hx))]
    exact Nat.mul_div_cancel _ hpos

theorem and_flags_rows (r : Result) (v : List Bool) (s : List sid_t → Bool)
    (hv : v.length = r.get_row_num) :
    and_flags v (fun i => s (r.row i)) = List.zipWith (fun b row => b && s row) v r.rows := by
  rw [and_flags_zipWith, hv]
  rfl

theorem strip_quotes_quoted (s : String) : strip_quotes ("\"" ++ s ++ "\"") = s := by
  have hl : ("\"" ++ s ++ "\"").toList = '"' :: (s.toList ++ ['"']) := by
    simp [String.toList, String.data_append]
  unfold strip_quotes
  simp only [hl]
  have h1 : ('"' :: (s.toList ++ ['"'])).head? = some '"' := rfl
  have h2 : ('"' :: (s.toList ++ ['"'])).getLast? = some '"' := by
    rw [← List.cons_append, List.getLast?_append]
    simp
  rw [if_pos ⟨h1, h2⟩]
  have h3 : (List.drop 1 ('"' :: (s.toList ++ ['"']))).take
      (('"' :: (s.toList ++ ['"'])).length - 2) = s.toList := by
    simp [List.take_append_eq_append_take]
  rw [h3]
  cases s
  rfl

/-- C14. For each of the six comparators, with both arguments a literal or a
variable bound to a column and one flag per row, `relational_filter` returns, and
the flag of a row is set afterwards exactly when it was set before and
`str(arg1) op str(arg2)` holds for the row (`rel_holds`, lexicographic comparison
of strings), where `arg_text` reads a variable as the dictionary string of the
row's ID, the empty string for an ID without an entry, and a literal as its text
in double quotes; a flag that was cleared stays cleared. -/
theorem relational_filter_spec (env : FilterEnv) (r : Result) (t : FilterType)
    (x y : Filter) (a3 : Option Filter) (val : String) (va : ssid_t) (v : List Bool)
    (ht : t = .Equal ∨ t = .NotEqual ∨ t = .Less ∨ t = .LessOrEqual ∨ t = .Greater
      ∨ t = .GreaterOrEqual)
    (hx : arg_wf r x = true) (hy : arg_wf r y = true) (hv : v.length = r.get_row_num) :
    relational_filter env (.mk t (some x) (some y) a3 val va) r v
      = some (List.zipWith
          (fun b row => b && rel_holds t (arg_text env r x row) (arg_text env r y row))
          v r.rows) := by
  rw [relational_filter_eq env r t x y a3 val va v ht hx hy hv]
  rw [and_flags_rows r v
    (fun row => rel_holds t (arg_text env r x row) (arg_text env r y row)) hv]

/-- C14 (witness). The filter `?x < "B"` on the rows 10 (Alice), 11 (Bob) and 12
(no string) with the middle flag already cleared. -/
theorem relational_filter_spec_witness :
    arg_wf (demo_column [10, 11, 12]) (var_arg (-1)) = true
      ∧ arg_wf (demo_column [10, 11, 12]) (lit_arg "B") = true
      ∧ [true, false, true].length = (demo_column [10, 11, 12]).get_row_num
      ∧ relational_filter demo_fenv
          (.mk .Less (some (var_arg (-1))) (some (lit_arg "B")) none "" 0)
          (demo_column [10, 11, 12]) [true, false, true]
        = some (List.zipWith
            (fun b row => b && rel_holds .Less
              (arg_text demo_fenv (demo_column [10, 11, 12]) (var_arg (-1)) row)
              (arg_text demo_fenv (demo_column [10, 11, 12]) (lit_arg "B") row))
            [true, false, true] (demo_column [10, 11, 12]).rows) :=
  ⟨by decide, by decide, by decide,
    relational_filter_spec demo_fenv (demo_column [10, 11, 12]) .Less (var_arg (-1))
      (lit_arg "B") none "" 0 [true, false, true] (Or.inr (Or.inr (Or.inl rfl)))
      (by decide) (by decide) (by decide)⟩

/-- The comparison of C14 on the sample rows: `Alice` and `Bob` are not below `"B"`
(a double quote sorts before the letters), the empty string of the unknown ID 12
is. -/
theorem relational_filter_example :
    relational_filter demo_fenv
        (.mk .Less (some (var_arg (-1))) (some (lit_arg "B")) none "" 0)
        (demo_column [10, 11, 12]) [true, true, true]
      = some [false, false, true]
    ∧ relational_filter demo_fenv
        (.mk .Equal (some (var_arg (-1))) (some (lit_arg "foo")) none "" 0)
        (demo_column [20, 21, 12]) [true, true, true]
      = some [true, false, false] := by
  decide

/-- C15. With the variable of `regex` bound to a column, a pattern argument and one
flag per row, `regex_filter` returns, and the flag of a row is set afterwards
exactly when it was set before and the library matches the dictionary string of
the row's ID, stripped of its surrounding double quotes, against the pattern; the
match ignores case exactly when a third argument is present and its value is `i`;
and stripping turns a quoted text back into the text. -/
theorem regex_filter_spec (env : FilterEnv) (r : Result) (x p : Filter)
    (a3 : Option Filter) (val : String) (va : ssid_t) (v : List Bool)
    (hx : valid_col r x.valueArg = true) (hv : v.length = r.get_row_num) :
    regex_filter env (.mk .Builtin_regex (some x) (some p) a3 val va) r v
      = some (List.zipWith
          (fun b row => b && env.regex_match
            (strip_quotes (id_str env (cell r x.valueArg row))) p.value
            (regex_icase (.mk .Builtin_regex (some x) (some p) a3 val va)))
          v r.rows)
    ∧ (regex_icase (.mk .Builtin_regex (some x) (some p) a3 val va) = true
        ↔ ∃ f3, a3 = some f3 ∧ f3.value = "i")
    ∧ ∀ s : String, strip_quotes ("\"" ++ s ++ "\"") = s := by
  refine ⟨?_, ?_, strip_quotes_quoted⟩
  · have hl := leaf_loop_eq r x.valueArg
      (fun id => !env.regex_match (strip_quotes (id_str env id)) p.value
        (regex_icase (.mk .Builtin_regex (some x) (some p) a3 val va))) v hx hv
    simp only [regex_filter, Filter.arg1, Filter.arg2, Option.bind_eq_bind,
      Option.some_bind] at hl ⊢
    rw [hl]
    simp only [Bool.not_not]
    rw [and_flags_rows r v
      (fun row => env.regex_match (strip_quotes (id_str env (cell r x.valueArg row)))
        p.value (regex_icase (.mk .Builtin_regex (some x) (some p) a3 val va))) hv]
  · cases a3 with
    | none => simp [regex_icase, Filter.arg3]
    | some f3 => simp [regex_icase, Filter.arg3]

/-- C15 (witness). With the model of the library, `regex(?x, "foo", "i")` keeps the
literals `"foo"`, `"FOO"` and `"Foo"` and drops `"food"`. -/
theorem regex_filter_spec_witness :
    valid_col (demo_column [20, 21, 22, 23]) (var_arg (-1)).valueArg = true
      ∧ [true, true, true, true].length = (demo_column [20, 21, 22, 23]).get_row_num
      ∧ regex_filter demo_fenv (demo_regex_i "foo") (demo_column [20, 21, 22, 23])
          [true, true, true, true] = some [true, true, true, false] :=
  ⟨by decide, by decide,
    (regex_filter_spec demo_fenv (demo_column [20, 21, 22, 23]) (var_arg (-1))
      (lit_arg "foo") (some (lit_arg "i")) "" 0 [true, true, true, true]
      (by decide) (by decide)).1.trans (by decide)⟩

/-- The second half of the example of C15: without the flag the pattern `foo`
keeps only the literal `"foo"`; a flag other than `i` changes nothing. -/
theorem regex_filter_case_sensitive_example :
    regex_filter demo_fenv (demo_regex_plain "foo") (demo_column [20, 21, 22, 23])
        [true, true, true, true] = some [true, false, false, false]
    ∧ regex_filter demo_fenv
        (.mk .Builtin_regex (some (var_arg (-1))) (some (lit_arg "foo"))
          (some (lit_arg "s")) "" 0)
        (demo_column [20, 21, 22, 23]) [true, true, true, true]
      = some [true, false, false, false] := by
  decide

/-- C13. For every well-formed filter tree `f` (AND and OR with both arguments,
leaves with usable arguments), every result and every flag vector `v` with one
flag per row, `general_filter` returns, and flag `i` afterwards is
`v[i] AND sat(f, row i)`, where `sat` of an AND is the conjunction and `sat` of an
OR the disjunction of the `sat` of the two arguments; so no flag goes from
cleared to set. -/
theorem general_filter_spec (env : FilterEnv) (r : Result) (f : Filter) (v : List Bool)
    (hwf : filter_wf r f = true) (hv : v.length = r.get_row_num) :
    general_filter env f r v
      = some (List.zipWith (fun b row => b && sat env r f row) v r.rows)
    ∧ (∀ a b a3 val va row,
        sat env r (.mk .And (some a) (some b) a3 val va) row
          = (sat env r a row && sat env r b row))
    ∧ (∀ a b a3 val va row,
        sat env r (.mk .Or (some a) (some b) a3 val va) row
          = (sat env r a row || sat env r b row))
    ∧ ∀ s, general_filter env f r v = some s →
        ∀ i, v.getD i false = false → s.getD i false = false := by
  have hmain : general_filter env f r v
      = some (List.zipWith (fun b row => b && sat env r f row) v r.rows) := by
    rw [general_filter_eq env r f v hwf hv, and_flags_rows r v (fun row => sat env r f row) hv]
  refine ⟨hmain, ?_, ?_, ?_⟩
  · intro a b a3 val va row
    simp [sat]
  · intro a b a3 val va row
    simp [sat]
  · intro s hs i hi
    rw [general_filter_eq env r f v hwf hv] at hs
    have hs2 : s = and_flags v (fun i => sat env r f (r.row i)) := (Option.some.inj hs).symm
    rw [hs2]
    by_cases hlt : i < v.length
    · rw [and_flags_getD _ _ _ hlt, hi]
      rfl
    · rw [List.getD_eq_getElem?_getD, List.getElem?_eq_none (by rw [and_flags_length]; omega)]
      rfl

/-- The filter `regex(?x, "foo", "i") OR (?x = "food" AND bound(?x))` of the witness
of C13. -/
theorem general_filter_spec_witness :
    filter_wf (demo_column [20, 21, 22, 23])
        (.mk .Or (some (demo_regex_i "foo"))
          (some (.mk .And
            (some (.mk .Equal (some (var_arg (-1))) (some (lit_arg "food")) none "" 0))
            (some (.mk .Builtin_bound (some (var_arg (-1))) none none "" 0)) none "" 0))
          none "" 0) = true
      ∧ [true, false, true, true].length = (demo_column [20, 21, 22, 23]).get_row_num
      ∧ general_filter demo_fenv
          (.mk .Or (some (demo_regex_i "foo"))
            (some (.mk .And
              (some (.mk .Equal (some (var_arg (-1))) (some (lit_arg "food")) none "" 0))
              (some (.mk .Builtin_bound (some (var_arg (-1))) none none "" 0)) none "" 0))
            none "" 0)
          (demo_column [20, 21, 22, 23]) [true, false, true, true]
        = some [true, false, true, true] :=
  ⟨by decide, by decide,
    (general_filter_spec demo_fenv (demo_column [20, 21, 22, 23])
      (.mk .Or (some (demo_regex_i "foo"))
        (some (.mk .And
          (some (.mk .Equal (some (var_arg (-1))) (some (lit_arg "food")) none "" 0))
          (some (.mk .Builtin_bound (some (var_arg (-1))) none none "" 0)) none "" 0))
        none "" 0)
      [true, false, true, true] (by decide) (by decide)).1.trans (by decide)⟩

/-- C12. For a query all of whose filters are well formed: with an empty filter list
`filter` returns the query untouched; with at least one filter it returns, the
new table holds exactly the rows that satisfy every filter, in their original
order and with their cells unchanged, `row_num` is the number of rows kept, and
no other field of the query changes. -/
theorem filter_spec (env : FilterEnv) (q : SPARQLQuery)
    (hwf : ∀ f ∈ q.pattern_group.filters, filter_wf q.result f = true) :
    (q.pattern_group.filters = [] → filter env q = some q)
    ∧ (q.pattern_group.filters ≠ [] →
        ∃ out, filter env q = some out
          ∧ out.result.rows = q.result.rows.filter (fun row =>
              q.pattern_group.filters.all (fun f => sat env q.result f row))
          ∧ out.result.result_table = (q.result.rows.filter (fun row =>
              q.pattern_group.filters.all (fun f => sat env q.result f row))).flatten
          ∧ out.result.row_num = (q.result.rows.filter (fun row =>
              q.pattern_group.filters.all (fun f => sat env q.result f row))).length
          ∧ out = { q with result :=
              { q.result with result_table := out.result.result_table,
                              row_num := out.result.row_num } }) := by
  constructor
  · intro h
    simp [filter, h]
  · intro hne
    refine ⟨_, filter_eq env q hwf hne, ?_, rfl, rfl, rfl⟩
    by_cases hc : q.result.col_num = 0
    · rw [rows_zero_col q.result hc, List.filter_nil]
      exact rows_zero_col _ hc
    · exact rows_of_flatten _ q.result.col_num _ (by omega)
        (fun x hx => rows_length q.result x (List.mem_of_mem_filter hx)) rfl rfl

/-- C12 (witness). The filter `regex(?x, "foo", "i")` keeps the first three of the
rows 20, 21, 22, 23. -/
theorem filter_spec_witness :
    (∀ f ∈ (demo_filter_req [demo_regex_i "foo"] [20, 21, 22, 23]).pattern_group.filters,
        filter_wf (demo_filter_req [demo_regex_i "foo"] [20, 21, 22, 23]).result f = true)
      ∧ ∃ out, filter demo_fenv (demo_filter_req [demo_regex_i "foo"] [20, 21, 22, 23])
            = some out
          ∧ out.result.rows = [[20], [21], [22]]
          ∧ out.result.row_num = 3 :=
  ⟨by decide,
    ((filter_spec demo_fenv (demo_filter_req [demo_regex_i "foo"] [20, 21, 22, 23])
      (by decide)).2 (List.cons_ne_nil _ _)).imp
      (fun _ h => ⟨h.1, h.2.1.trans (by decide), h.2.2.2.1.trans (by decide)⟩)⟩

/-- C16. With 10 and 11 mapped to `Alice` and `Bob`, the filter
`regex(?x, "^Al", "i")` applied to the one-column result with the rows 10 and 11
leaves no row, where the scenario expects the row 10: `regex_filter` hands the
string to `regex_match`, which asks the pattern to match the whole string, so
the pattern anchored only at the start rejects `Alice` as well.  The same
holds when the dictionary stores the two names as quoted literals. -/
theorem regex_anchor_whole_string :
    demo_fenv.id2str 10 = some "Alice" ∧ demo_fenv.id2str 11 = some "Bob"
    ∧ (demo_filter_req [demo_regex_i "^Al"] [10, 11]).result.rows = [[10], [11]]
    ∧ (filter demo_fenv (demo_filter_req [demo_regex_i "^Al"] [10, 11])).map
        (fun q => (q.result.result_table, q.result.row_num)) = some ([], 0)
    ∧ (filter demo_fenv (demo_filter_req [demo_regex_i "^Al"] [30, 31])).map
        (fun q => (q.result.result_table, q.result.row_num)) = some ([], 0) := by
  decide

/-- A pattern that covers the whole string: `^Al.*` leaves exactly the row 10 of
the rows 10 (`Alice`) and 11 (`Bob`), with or without regard to case, and
`^al.*` does so with the flag `i` only. -/
theorem regex_whole_string_example :
    (filter demo_fenv (demo_filter_req [demo_regex_i "^Al.*"] [10, 11])).map
        (fun q => (q.result.result_table, q.result.row_num)) = some ([10], 1)
    ∧ (filter demo_fenv (demo_filter_req [demo_regex_i "^al.*"] [10, 11])).map
        (fun q => (q.result.result_table, q.result.row_num)) = some ([10], 1)
    ∧ (filter demo_fenv (demo_filter_req [demo_regex_plain "^al.*"] [10, 11])).map
        (fun q => (q.result.result_table, q.result.row_num)) = some ([], 0) := by
  decide

/-! ## The merge kind of the reply map -/

/-- C11. A parent that has a UNION group next to its OPTIONAL groups is
registered after its OPTIONAL groups were dispatched (`is_optional` and
`optional_dispatched` hold) and the merged reply starts as its seed result, yet
`put_reply` merges the reply of the OPTIONAL sub-query with `merge_union`, for
whatever merge operators: the test for a UNION parent comes first. -/
theorem put_reply_union_before_optional :
    demo_uo_parent.is_optional = true
    ∧ demo_uo_parent.optional_dispatched = true
    ∧ demo_uo_parent.is_union = true
    ∧ ((({} : Reply_Map).put_parent_request demo_uo_parent 1).find 21).map
        (fun d => d.merged_reply.result) = some demo_uo_parent.result
    ∧ ∀ ops : MergeOps,
        (((({} : Reply_Map).put_parent_request demo_uo_parent 1).put_reply ops
            demo_uo_reply).find 21).map (fun d => d.merged_reply.result)
          = some (ops.merge_union demo_uo_parent.result demo_uo_reply.result) := by
  refine ⟨by decide, rfl, by decide, by decide, ?_⟩
  intro ops
  rfl

/-! ## The final pass -/

theorem map_getD_range (l : List sid_t) :
    (List.range l.length).map (fun j => l.getD j 0) = l := by
  apply List.ext_getElem?
  intro i
  rw [List.getElem?_map]
  by_cases hi : i < l.length
  · rw [List.getElem?_range hi]
    simp [List.getD_eq_getElem?_getD, List.getElem?_eq_getElem hi]
  · have h2 : l.length ≤ i := by omega
    rw [List.getElem?_eq_none (by simpa using h2), List.getElem?_eq_none h2]
    rfl

theorem map_range_getD {α β : Type} (l : List α) (d : α) (f : α → β) :
    (List.range l.length).map (fun j => f (l.getD j d)) = l.map f := by
  apply List.ext_getElem?
  intro i
  rw [List.getElem?_map, List.getElem?_map]
  by_cases hi : i < l.length
  · rw [List.getElem?_range hi]
    simp [List.getD_eq_getElem?_getD, List.getElem?_eq_getElem hi]
  · have h2 : l.length ≤ i := by omega
    rw [List.getElem?_eq_none (by simpa using h2), List.getElem?_eq_none h2]
    rfl

theorem copy_table_eq (r : Result) : copy_table r = some (int_rows r) := by
  unfold copy_table int_rows Result.rows
  rw [List.map_map]
  apply mapM_eq_some_map
  intro i hi
  have hi2 : i < r.get_row_num := List.mem_range.1 hi
  rw [mapM_eq_some_map (fun (j : Nat) => (r.get_row_col i (j : Int)).map to_int)
    (fun j => to_int ((r.row i).getD j 0))]
  · congr 1
    have := map_range_getD (r.row i) 0 to_int
    rw [row_length r i hi2] at this
    exact this
  · intro j hj
    rw [get_row_col_row r i j hi2 (List.mem_range.1 hj)]
    rfl

theorem int_rows_length (r : Result) : ∀ x ∈ int_rows r, x.length = r.col_num := by
  intro x hx
  simp only [int_rows, List.mem_map] at hx
  obtain ⟨row, hrow, rfl⟩ := hx
  rw [List.length_map]
  exact rows_length r row hrow

theorem int_rows_length_eq (r : Result) : (int_rows r).length = r.get_row_num := by
  simp [int_rows, Result.rows]

theorem of_int_to_int (x : sid_t) : of_int (to_int x) = x % 2 ^ 32 := by
  unfold to_int of_int
  have e32 : (2 : Nat) ^ 32 = 4294967296 := by norm_num
  have e31 : (2 : Nat) ^ 31 = 2147483648 := by norm_num
  have i32 : (2 : Int) ^ 32 = 4294967296 := by norm_num
  rw [e32, e31, i32]
  have h1 : x % 4294967296 < 4294967296 := Nat.mod_lt _ (by norm_num)
  by_cases h : x % 4294967296 < 2147483648
  · rw [if_pos h]
    have h2 : (((x % 4294967296 : Nat) : Int) % 4294967296).toNat
        = (x % 4294967296 : Nat) := by omega
    exact h2
  · rw [if_neg h]
    have h2 : ((((x % 4294967296 : Nat) : Int) - 4294967296) % 4294967296).toNat
        = (x % 4294967296 : Nat) := by omega
    exact h2

theorem to_int_mod (x : sid_t) : to_int (x % 2 ^ 32) = to_int x := by
  unfold to_int
  rw [Nat.mod_mod]

theorem to_int_of_int (x : sid_t) : to_int (of_int (to_int x)) = to_int x := by
  rw [of_int_to_int, to_int_mod]

theorem to_int_small (x : sid_t) (h : x < 2 ^ 31) : to_int x = (x : Int) := by
  unfold to_int
  have h1 : x % 2 ^ 32 = x := Nat.mod_eq_of_lt (lt_trans h (by norm_num))
  rw [h1, if_pos h]

theorem cons_lt_cons_int (x y : Int) (l1 l2 : List Int) :
    (x :: l1 < y :: l2) ↔ (x < y ∨ (x = y ∧ l1 < l2)) := by
  constructor
  · intro h
    cases h with
    | cons h => exact Or.inr ⟨rfl, h⟩
    | rel h => exact Or.inl h
  · intro h
    rcases h with h | ⟨h1, h2⟩
    · exact List.Lex.rel h
    · subst h1
      exact List.Lex.cons h2

theorem cons_lt_cons_nat (x y : Nat) (l1 l2 : List Nat) :
    (x :: l1 < y :: l2) ↔ (x < y ∨ (x = y ∧ l1 < l2)) := by
  constructor
  · intro h
    cases h with
    | cons h => exact Or.inr ⟨rfl, h⟩
    | rel h => exact Or.inl h
  · intro h
    rcases h with h | ⟨h1, h2⟩
    · exact List.Lex.rel h
    · subst h1
      exact List.Lex.cons h2

theorem ReduceCmp_from_eq (a b : List Int) (m : Nat) :
    ∀ k, a.length = k + m → b.length = k + m →
      ReduceCmp_from a b (List.range' k m) = some (decide (a.drop k < b.drop k)) := by
  induction m with
  | zero =>
    intro k ha hb
    have h1 : a.drop k = [] := List.drop_eq_nil_of_le (by omega)
    have h2 : b.drop k = [] := List.drop_eq_nil_of_le (by omega)
    rw [h1, h2]
    simp [ReduceCmp_from]
  | succ m ih =>
    intro k ha hb
    have hka : k < a.length := by omega
    have hkb : k < b.length := by omega
    have h1 : a.drop k = a[k] :: a.drop (k + 1) := List.drop_eq_getElem_cons hka
    have h2 : b.drop k = b[k] :: b.drop (k + 1) := List.drop_eq_getElem_cons hkb
    have hlt : (a.drop k < b.drop k)
        ↔ (a[k] < b[k] ∨ (a[k] = b[k] ∧ a.drop (k + 1) < b.drop (k + 1))) := by
      rw [h1, h2]
      exact cons_lt_cons_int _ _ _ _
    simp only [List.range'_succ, ReduceCmp_from, List.getElem?_eq_getElem hka,
      List.getElem?_eq_getElem hkb, Option.bind_eq_bind, Option.some_bind, Option.pure_def]
    by_cases he : a[k] = b[k]
    · rw [if_pos he, ih (k + 1) (by omega) (by omega)]
      congr 1
      apply decide_eq_decide.2
      rw [hlt]
      constructor
      · intro h
        exact Or.inr ⟨he, h⟩
      · intro h
        rcases h with h | h
        · rw [he] at h
          exact absurd h (lt_irrefl _)
        · exact h.2
    · rw [if_neg he]
      congr 1
      apply decide_eq_decide.2
      rw [hlt]
      constructor
      · intro h
        exact Or.inl h
      · intro h
        rcases h with h | h
        · exact h
        · exact absurd h.1 he

theorem ReduceCmp_eq (c : Nat) (a b : List Int) (ha : a.length = c) (hb : b.length = c) :
    ReduceCmp c a b = some (decide (a < b)) := by
  unfold ReduceCmp
  rw [List.range_eq_range']
  have := ReduceCmp_from_eq a b c 0 (by omega) (by omega)
  simpa using this

theorem sort_insert_eq (c : Nat) (x : List Int) (hx : x.length = c)
    (l : List (List Int)) (hl : ∀ y ∈ l, y.length = c) :
    sort_insert (ReduceCmp c) x l = some (List.orderedInsert (fun a b => a ≤ b) x l) := by
  induction l with
  | nil => rfl
  | cons y ys ih =>
    have hy : y.length = c := hl y (List.mem_cons_self _ _)
    have hys : ∀ z ∈ ys, z.length = c := fun z hz => hl z (List.mem_cons_of_mem _ hz)
    simp only [sort_insert, ReduceCmp_eq c y x hy hx, Option.bind_eq_bind, Option.some_bind,
      List.orderedInsert, Option.pure_def, decide_eq_true_eq]
    by_cases h : y < x
    · rw [if_pos h, ih hys, if_neg (not_le.2 h)]
      rfl
    · rw [if_neg h, if_pos (not_lt.1 h)]

theorem std_sort_eq (c : Nat) (l : List (List Int)) (hl : ∀ y ∈ l, y.length = c) :
    std_sort (ReduceCmp c) l = some (l.insertionSort (fun a b => a ≤ b)) := by
  induction l with
  | nil => rfl
  | cons x xs ih =>
    have hx : x.length = c := hl x (List.mem_cons_self _ _)
    have hxs : ∀ z ∈ xs, z.length = c := fun z hz => hl z (List.mem_cons_of_mem _ hz)
    simp only [std_sort, ih hxs, Option.bind_eq_bind, Option.some_bind, List.insertionSort]
    apply sort_insert_eq c x hx
    intro y hy
    exact hxs y ((List.perm_insertionSort _ xs).mem_iff.1 hy)

theorem distinct_equal_eq (r : Result) (a b : List Int)
    (ha : a.length = r.col_num) (hb : b.length = r.col_num) (vs : List ssid_t)
    (hvs : ∀ v ∈ vs, valid_col r v = true) :
    distinct_equal r a b vs
      = some (vs.all (fun v => decide (int_cell r v a = int_cell r v b))) := by
  induction vs with
  | nil => rfl
  | cons v vs ih =>
    have hv := hvs v (List.mem_cons_self _ _)
    have hvs2 : ∀ w ∈ vs, valid_col r w = true := fun w hw => hvs w (List.mem_cons_of_mem _ hw)
    unfold valid_col at hv
    obtain ⟨h0, h1⟩ := of_decide_eq_true hv
    have hn : (r.var2col v).toNat < r.col_num := by omega
    have hca : (r.var2col v).toNat < a.length := by omega
    have hcb : (r.var2col v).toNat < b.length := by omega
    simp only [distinct_equal, if_neg (not_lt.2 h0), List.getElem?_eq_getElem hca,
      List.getElem?_eq_getElem hcb, Option.bind_eq_bind, Option.some_bind, Option.pure_def,
      List.all_cons, int_cell, List.getD_eq_getElem?_getD, Option.getD_some]
    by_cases he : a[(r.var2col v).toNat] = b[(r.var2col v).toNat]
    · simp only [he, ne_eq, not_true_eq_false, if_false, decide_True, Bool.true_and]
      rw [ih hvs2]
      simp [int_cell, List.getD_eq_getElem?_getD]
    · simp [he]

theorem set_length_append {α : Type} (P : List α) (x y : α) (Q : List α) :
    (P ++ x :: Q).set P.length y = P ++ y :: Q := by
  induction P with
  | nil => rfl
  | cons p P ih => simp [ih]

theorem get_length_append {α : Type} (P : List α) (x : α) (Q : List α) :
    (P ++ x :: Q)[P.length]? = some x := by
  induction P with
  | nil => simp
  | cons p P ih => simpa using ih

theorem distinct_loop_eq (r : Result) (eqf : List Int → List Int → Bool)
    (P : List Int → Prop)
    (heq : ∀ x y, P x → P y → distinct_equal r x y r.required_vars = some (eqf x y))
    (rest : List (List Int)) :
    ∀ (fuel : Nat) (pre : List (List Int)) (a : List Int) (mid : List (List Int)),
      (∀ x ∈ pre ++ a :: (mid ++ rest), P x) →
      rest.length + 1 ≤ fuel →
      ∃ junk,
        distinct_loop r (pre.length + 1 + mid.length + rest.length) fuel
            (pre ++ a :: (mid ++ rest)) pre.length (pre.length + 1 + mid.length)
          = some (pre ++ a :: (collapse_from eqf a rest ++ junk),
                  pre.length + (collapse_from eqf a rest).length) := by
  induction rest with
  | nil =>
    intro fuel pre a mid hP hf
    obtain ⟨f, rfl⟩ : ∃ f, fuel = f + 1 := ⟨fuel - 1, by omega⟩
    refine ⟨mid, ?_⟩
    simp [distinct_loop, collapse_from]
  | cons b rest ih =>
    intro fuel pre a mid hP hf
    obtain ⟨f, rfl⟩ : ∃ f, fuel = f + 1 := ⟨fuel - 1, by omega⟩
    have hf2 : rest.length + 1 ≤ f := by
      simp only [List.length_cons] at hf
      omega
    have hq : pre.length + 1 + mid.length
        < pre.length + 1 + mid.length + (b :: rest).length := by simp
    have hPa : P a := hP a (by simp)
    have hPb : P b := hP b (by simp)
    have hga : (pre ++ a :: (mid ++ b :: rest))[pre.length]? = some a :=
      get_length_append pre a _
    have hgb : (pre ++ a :: (mid ++ b :: rest))[pre.length + 1 + mid.length]? = some b := by
      have h1 : pre ++ a :: (mid ++ b :: rest) = (pre ++ a :: mid) ++ b :: rest := by simp
      have hl : pre.length + 1 + mid.length = (pre ++ a :: mid).length := by
        simp only [List.length_append, List.length_cons]
        omega
      rw [h1, hl]
      exact get_length_append _ b rest
    rw [distinct_loop, if_pos hq]
    simp only [hga, hgb, heq a b hPa hPb, Option.bind_eq_bind, Option.some_bind]
    by_cases he : eqf a b = true
    · rw [if_pos he]
      have hdec : pre ++ a :: (mid ++ b :: rest) = pre ++ a :: ((mid ++ [b]) ++ rest) := by
        simp
      obtain ⟨junk, hj⟩ := ih f pre a (mid ++ [b]) (by rw [← hdec]; exact hP) hf2
      refine ⟨junk, ?_⟩
      have hsz : pre.length + 1 + mid.length + (b :: rest).length
          = pre.length + 1 + (mid ++ [b]).length + rest.length := by
        simp only [List.length_append, List.length_cons, List.length_nil]
        omega
      have hq2 : pre.length + 1 + mid.length + 1 = pre.length + 1 + (mid ++ [b]).length := by
        simp only [List.length_append, List.length_cons, List.length_nil]
        omega
      rw [hsz, hdec, hq2, hj]
      simp [collapse_from, he]
    · rw [if_neg he]
      cases mid with
      | nil =>
        have hdec : pre ++ a :: ([] ++ b :: rest) = (pre ++ [a]) ++ b :: ([] ++ rest) := by simp
        have hP2 : ∀ x ∈ (pre ++ [a]) ++ b :: ([] ++ rest), P x := by
          rw [← hdec]; exact hP
        obtain ⟨junk, hj⟩ := ih f (pre ++ [a]) b [] hP2 hf2
        refine ⟨junk, ?_⟩
        have hp1 : pre.length + 1 = (pre ++ [a]).length := by simp
        have hgp : (pre ++ a :: ([] ++ b :: rest))[pre.length + 1]? = some b := by
          rw [hdec, hp1]
          exact get_length_append _ b _
        have hgq : (pre ++ a :: ([] ++ b :: rest))[pre.length + 1 + ([] : List (List Int)).length]?
            = some b := by
          simpa using hgp
        simp only [hgp, hgq, Option.some_bind]
        have hset : ((pre ++ a :: ([] ++ b :: rest)).set (pre.length + 1) b).set
            (pre.length + 1 + ([] : List (List Int)).length) b
            = (pre ++ [a]) ++ b :: ([] ++ rest) := by
          have h0 : pre.length + 1 + ([] : List (List Int)).length = pre.length + 1 := rfl
          rw [h0, hdec, hp1, set_length_append, set_length_append]
        rw [hset]
        have hsz : pre.length + 1 + ([] : List (List Int)).length + (b :: rest).length
            = (pre ++ [a]).length + 1 + ([] : List (List Int)).length + rest.length := by
          simp only [List.length_append, List.length_cons, List.length_nil]
          omega
        have hq2 : pre.length + 1 + ([] : List (List Int)).length + 1
            = (pre ++ [a]).length + 1 + ([] : List (List Int)).length := by
          simp only [List.length_append, List.length_cons, List.length_nil]
        rw [hsz, hq2, hp1, hj]
        simp [collapse_from, he]
        omega
      | cons m mid =>
        have hdec : pre ++ a :: ((m :: mid) ++ b :: rest)
            = (pre ++ [a]) ++ m :: (mid ++ b :: rest) := by simp
        have hp1 : pre.length + 1 = (pre ++ [a]).length := by simp
        have hgp : (pre ++ a :: ((m :: mid) ++ b :: rest))[pre.length + 1]? = some m := by
          rw [hdec, hp1]
          exact get_length_append _ m _
        simp only [hgp, hgb, Option.some_bind]
        have hset1 : (pre ++ a :: ((m :: mid) ++ b :: rest)).set (pre.length + 1) b
            = (pre ++ a :: b :: mid) ++ b :: rest := by
          rw [hdec, hp1, set_length_append]
          simp
        have hql : pre.length + 1 + (m :: mid).length = (pre ++ a :: b :: mid).length := by
          simp only [List.length_append, List.length_cons]
          omega
        have hset : ((pre ++ a :: ((m :: mid) ++ b :: rest)).set (pre.length + 1) b).set
            (pre.length + 1 + (m :: mid).length) m
            = (pre ++ [a]) ++ b :: ((mid ++ [m]) ++ rest) := by
          rw [hset1, hql, set_length_append]
          simp
        rw [hset]
        have hP2 : ∀ x ∈ (pre ++ [a]) ++ b :: ((mid ++ [m]) ++ rest), P x := by
          intro x hx
          apply hP
          simp only [List.mem_append, List.mem_cons, List.mem_singleton] at hx ⊢
          tauto
        obtain ⟨junk, hj⟩ := ih f (pre ++ [a]) b (mid ++ [m]) hP2 hf2
        refine ⟨junk, ?_⟩
        have hsz : pre.length + 1 + (m :: mid).length + (b :: rest).length
            = (pre ++ [a]).length + 1 + (mid ++ [m]).length + rest.length := by
          simp only [List.length_append, List.length_cons, List.length_nil]
          omega
        have hq2 : pre.length + 1 + (m :: mid).length + 1
            = (pre ++ [a]).length + 1 + (mid ++ [m]).length := by
          simp only [List.length_append, List.length_cons, List.length_nil]
          omega
        rw [hsz, hq2, hp1, hj]
        simp [collapse_from, he]
        omega

theorem write_run (p0 m : Nat) (hh : Nat → sid_t)
    (step : List sid_t → Nat → Option (List sid_t))
    (hstep : ∀ t j, j < m →
      step t j = if p0 + j < t.length then some (t.set (p0 + j) (hh j)) else none)
    (A C : List sid_t) (hA : A.length = p0) (hC : m ≤ C.length) :
    (List.range m).foldlM step (A ++ C)
      = some (A ++ (List.range m).map hh ++ C.drop m) := by
  induction m with
  | zero => simp
  | succ m ih =>
    have ih2 := ih (fun t j hj => hstep t j (by omega)) (by omega)
    rw [List.range_succ, List.foldlM_append, ih2]
    simp only [Option.bind_eq_bind, Option.some_bind, List.foldlM_cons, List.foldlM_nil]
    rw [hstep _ m (by omega)]
    have hm : m < C.length := by omega
    have hd : C.drop m = C[m] :: C.drop (m + 1) := List.drop_eq_getElem_cons hm
    have hl : p0 + m = (A ++ (List.range m).map hh).length := by simp [hA]
    have hlt : p0 + m < (A ++ (List.range m).map hh ++ C.drop m).length := by
      simp [hA]
      omega
    rw [if_pos hlt, hd, hl, set_length_append]
    simp

theorem fill_eq (c n : Nat) (h : Nat → Nat → sid_t)
    (step : Nat → List sid_t → Nat → Option (List sid_t))
    (hstep : ∀ i, i < n → ∀ t j, j < c →
      step i t j = if c * i + j < t.length then some (t.set (c * i + j) (h i j)) else none)
    (t : List sid_t) (ht : n * c ≤ t.length) :
    (List.range n).foldlM (fun t i => (List.range c).foldlM (step i) t) t
      = some (((List.range n).map (fun i => (List.range c).map (h i))).flatten
          ++ t.drop (n * c)) := by
  induction n with
  | zero => simp
  | succ n ih =>
    have hnc : n * c + c ≤ t.length := by
      have : (n + 1) * c = n * c + c := by ring
      omega
    have ih2 := ih (fun i hi => hstep i (by omega)) (by omega)
    rw [List.range_succ, List.foldlM_append, ih2]
    simp only [Option.bind_eq_bind, Option.some_bind, List.foldlM_cons, List.foldlM_nil]
    have hlen : ((List.range n).map (fun i => (List.range c).map (h i))).flatten.length
        = c * n := by
      rw [length_flatten_const c _ (by
        intro x hx
        simp only [List.mem_map] at hx
        obtain ⟨i, _, rfl⟩ := hx
        simp)]
      simp [Nat.mul_comm]
    rw [write_run (c * n) c (h n) (step n) (hstep n (by omega)) _ _ hlen
      (by simp; omega)]
    simp only [List.map_append, List.map_cons, List.map_nil, List.flatten_append,
      List.flatten_cons, List.flatten_nil, List.append_nil, List.drop_drop,
      List.append_assoc, Option.some.injEq]
    have hmul : (n + 1) * c = n * c + c := by ring
    rw [hmul]
    rfl

theorem map_rows_take (c n : Nat) (table : List (List Int)) (hn : n ≤ table.length)
    (hrow : ∀ x ∈ table.take n, x.length = c) :
    (List.range n).map
        (fun i => (List.range c).map (fun j => of_int ((table.getD i []).getD j 0)))
      = (table.take n).map (fun row => row.map of_int) := by
  apply List.ext_getElem?
  intro i
  rw [List.getElem?_map, List.getElem?_map, List.getElem?_take]
  by_cases hi : i < n
  · have hit : i < table.length := by omega
    rw [List.getElem?_range hi, if_pos hi, List.getElem?_eq_getElem hit]
    have hmem : table[i] ∈ table.take n := by
      rw [List.mem_iff_getElem?]
      exact ⟨i, by rw [List.getElem?_take, if_pos hi, List.getElem?_eq_getElem hit]⟩
    have hlen := hrow _ hmem
    simp only [Option.map_some', Option.some.injEq, List.getD_eq_getElem?_getD,
      List.getElem?_eq_getElem hit, Option.getD_some]
    have := map_range_getD table[i] 0 of_int
    rw [hlen] at this
    simpa [List.getD_eq_getElem?_getD] using this
  · rw [if_neg hi, List.getElem?_eq_none (by simp; omega)]
    rfl

theorem write_back_eq (r : Result) (table : List (List Int)) (new_size : Nat)
    (hn : new_size ≤ table.length)
    (hrow : ∀ x ∈ table.take new_size, x.length = r.col_num)
    (hsz : new_size * r.col_num ≤ r.result_table.length) :
    write_back r table new_size
      = some (((table.take new_size).map (fun row => row.map of_int)).flatten
          ++ r.result_table.drop (new_size * r.col_num)) := by
  unfold write_back
  rw [fill_eq r.col_num new_size (fun i j => of_int ((table.getD i []).getD j 0)) _ _ _ hsz]
  · rw [map_rows_take r.col_num new_size table hn hrow]
  · intro i hi t j hj
    have hit : i < table.length := by omega
    have hmem : table[i] ∈ table.take new_size := by
      rw [List.mem_iff_getElem?]
      exact ⟨i, by rw [List.getElem?_take, if_pos hi, List.getElem?_eq_getElem hit]⟩
    have hlen := hrow _ hmem
    have hj2 : j < table[i].length := by omega
    simp [List.getElem?_eq_getElem hit, List.getElem?_eq_getElem hj2,
      List.getD_eq_getElem?_getD]

theorem project_eq (r : Result) (hreq : ∀ v ∈ r.required_vars, valid_col r v = true) :
    project r = some
      { r with
        result_table :=
          (r.rows.map (fun row => r.required_vars.map (fun v => cell r v row))).flatten
        col_num := r.required_vars.length } := by
  unfold project
  simp only [Option.bind_eq_bind, Option.pure_def]
  rw [fill_eq r.required_vars.length r.get_row_num
    (fun i j => cell r (r.required_vars.getD j 0) (r.row i)) _ _ _ (by simp)]
  · simp only [Option.some_bind, Option.some.injEq]
    congr 1
    have hdrop : (List.replicate (r.get_row_num * r.required_vars.length) (0 : sid_t)).drop
        (r.get_row_num * r.required_vars.length) = [] := by
      apply List.drop_eq_nil_of_le
      simp
    rw [hdrop, List.append_nil]
    unfold Result.rows
    rw [List.map_map]
    congr 1
    apply List.map_congr_left
    intro i _
    exact map_range_getD r.required_vars 0 (fun v => cell r v (r.row i))
  · intro i hi t j hj
    have hj2 : r.required_vars[j]? = some (r.required_vars.getD j 0) := by
      simp [List.getD_eq_getElem?_getD, List.getElem?_eq_getElem hj]
    have hmem : r.required_vars.getD j 0 ∈ r.required_vars := by
      simp [List.getD_eq_getElem?_getD, List.getElem?_eq_getElem hj]
    simp only [hj2, Option.some_bind, valid_col_read r _ (hreq _ hmem) i hi,
      Nat.mul_comm i r.required_vars.length]

theorem collapse_from_sublist (eq : List Int → List Int → Bool) (l : List (List Int)) :
    ∀ a, (collapse_from eq a l).Sublist l := by
  induction l with
  | nil => intro a; exact List.Sublist.slnil
  | cons b l ih =>
    intro a
    unfold collapse_from
    split
    · exact (ih a).cons b
    · exact (ih b).cons₂ b

theorem collapse_from_chain (eq : List Int → List Int → Bool) (l : List (List Int)) :
    ∀ a, List.Chain (fun x y => eq x y = false) a (collapse_from eq a l) := by
  induction l with
  | nil => intro a; exact List.Chain.nil
  | cons b l ih =>
    intro a
    unfold collapse_from
    split
    · exact ih a
    · rename_i h
      exact List.Chain.cons (by simpa using h) (ih b)

theorem collapse_from_of_chain (eq : List Int → List Int → Bool) (l : List (List Int)) :
    ∀ a, List.Chain (fun x y => eq x y = false) a l → collapse_from eq a l = l := by
  induction l with
  | nil => intro a _; rfl
  | cons b l ih =>
    intro a h
    rw [List.chain_cons] at h
    unfold collapse_from
    rw [if_neg (by rw [h.1]; exact Bool.false_ne_true), ih b h.2]

theorem rows_flatten_append (r : Result) (c : Nat) (K : List (List sid_t)) (tail : List sid_t)
    (hc : 0 < c) (hK : ∀ x ∈ K, x.length = c) (ht : tail.length < c)
    (h1 : r.col_num = c) (h2 : r.result_table = K.flatten ++ tail) :
    r.get_row_num = K.length ∧ r.rows = K := by
  have hlen := length_flatten_const c K hK
  have hn : r.get_row_num = K.length := by
    unfold Result.get_row_num
    rw [h1, h2, List.length_append, hlen]
    have : c ≠ 0 := by omega
    rw [if_neg this, Nat.add_comm, Nat.add_mul_div_right _ _ hc, Nat.div_eq_of_lt ht]
    omega
  refine ⟨hn, ?_⟩
  unfold Result.rows
  rw [hn]
  conv_rhs => rw [← chunks_of_flatten c K hK]
  apply List.map_congr_left
  intro i hi
  have hi2 : i < K.length := List.mem_range.1 hi
  have hb : c * i + c ≤ K.flatten.length := by
    rw [hlen]
    have : c * i + c = (i + 1) * c := by ring
    rw [this]
    exact Nat.mul_le_mul_right c hi2
  unfold Result.row
  rw [h1, h2, List.drop_append_of_le_length (by omega),
    List.take_append_of_le_length (by rw [List.length_drop]; omega)]

theorem rows_getElem (r : Result) (i : Nat) :
    r.rows[i]? = if i < r.get_row_num then some (r.row i) else none := by
  unfold Result.rows
  rw [List.getElem?_map]
  by_cases hi : i < r.get_row_num
  · rw [List.getElem?_range hi, if_pos hi]
    rfl
  · rw [if_neg hi, List.getElem?_eq_none (by simp; omega)]
    rfl

theorem rows_drop (r r1 : Result) (k : Nat) (hc : 0 < r.col_num)
    (h1 : r1.col_num = r.col_num)
    (h2 : r1.result_table
      = r.result_table.drop (min (k * r.col_num) r.result_table.length)) :
    r1.rows = r.rows.drop k := by
  have hd : r1.result_table = r.result_table.drop (k * r.col_num) := by
    rw [h2]
    by_cases hle : k * r.col_num ≤ r.result_table.length
    · rw [Nat.min_eq_left hle]
    · rw [Nat.min_eq_right (by omega), List.drop_eq_nil_of_le (le_refl _),
        List.drop_eq_nil_of_le (by omega)]
  have hcne : r.col_num ≠ 0 := by omega
  have hn : r1.get_row_num = r.get_row_num - k := by
    unfold Result.get_row_num
    rw [h1, hd, if_neg hcne, if_neg hcne, List.length_drop]
    by_cases hle : k * r.col_num ≤ r.result_table.length
    · rw [Nat.mul_comm k, Nat.sub_mul_div _ _ _ (by rw [Nat.mul_comm]; exact hle)]
    · have h3 : r.result_table.length / r.col_num ≤ k := by
        apply Nat.le_of_lt_succ
        rw [Nat.div_lt_iff_lt_mul hc]
        have h5 : k.succ * r.col_num = k * r.col_num + r.col_num := Nat.succ_mul _ _
        omega
      have h4 : r.result_table.length - k * r.col_num = 0 := by omega
      rw [h4, Nat.zero_div]
      omega
  apply List.ext_getElem?
  intro i
  rw [rows_getElem, List.getElem?_drop, rows_getElem, hn]
  by_cases hi : i < r.get_row_num - k
  · rw [if_pos hi, if_pos (by omega)]
    congr 1
    unfold Result.row
    rw [h1, hd, List.drop_drop]
    congr 2
    ring
  · rw [if_neg hi, if_neg (by omega)]

theorem rows_take (r r1 : Result) (m : Nat) (hc : 0 < r.col_num)
    (h1 : r1.col_num = r.col_num)
    (h2 : r1.result_table
      = r.result_table.take (min (m * r.col_num) r.result_table.length)) :
    r1.rows = r.rows.take m := by
  have hcne : r.col_num ≠ 0 := by omega
  have hn : r1.get_row_num = min m r.get_row_num := by
    unfold Result.get_row_num
    rw [h1, h2, if_neg hcne, if_neg hcne, List.length_take, Nat.min_assoc, Nat.min_self]
    by_cases hle : m * r.col_num ≤ r.result_table.length
    · rw [Nat.min_eq_left hle, Nat.mul_div_cancel _ hc]
      have : m ≤ r.result_table.length / r.col_num := (Nat.le_div_iff_mul_le hc).2 hle
      omega
    · rw [Nat.min_eq_right (by omega)]
      have h3 : r.result_table.length / r.col_num ≤ m := by
        apply Nat.le_of_lt_succ
        rw [Nat.div_lt_iff_lt_mul hc]
        have h5 : m.succ * r.col_num = m * r.col_num + r.col_num := Nat.succ_mul _ _
        omega
      omega
  apply List.ext_getElem?
  intro i
  rw [rows_getElem, List.getElem?_take, rows_getElem, hn]
  by_cases hi : i < m
  · rw [if_pos hi]
    by_cases hi2 : i < r.get_row_num
    · rw [if_pos (by omega), if_pos hi2]
      congr 1
      have hb := row_bound r i hi2
      unfold Result.row
      rw [h1, h2]
      have hmc : r.col_num * i + r.col_num ≤ m * r.col_num := by
        have : r.col_num * i + r.col_num = (i + 1) * r.col_num := by ring
        rw [this]
        exact Nat.mul_le_mul_right _ hi
      rw [List.drop_take, List.take_take]
      congr 1
      omega
    · rw [if_neg (by omega), if_neg hi2]
  · rw [if_neg hi, if_neg (by omega)]

theorem collapse_sublist (eq : List Int → List Int → Bool) (l : List (List Int)) :
    (collapse eq l).Sublist l := by
  cases l with
  | nil => exact List.Sublist.slnil
  | cons a rest => exact (collapse_from_sublist eq rest a).cons₂ a


theorem collapse_idem (eq : List Int → List Int → Bool) (l : List (List Int)) :
    collapse eq (collapse eq l) = collapse eq l := by
  cases l with
  | nil => rfl
  | cons a rest =>
    simp only [collapse]
    rw [collapse_from_of_chain eq _ a (collapse_from_chain eq rest a)]

theorem table_tail_lt (r : Result) (hc : 0 < r.col_num) :
    (r.result_table.drop (r.get_row_num * r.col_num)).length < r.col_num := by
  have hcne : r.col_num ≠ 0 := by omega
  unfold Result.get_row_num
  rw [if_neg hcne, List.length_drop]
  have h1 := Nat.div_add_mod r.result_table.length r.col_num
  have h2 := Nat.mod_lt r.result_table.length hc
  have h3 : r.result_table.length / r.col_num * r.col_num
      = r.col_num * (r.result_table.length / r.col_num) := Nat.mul_comm _ _
  omega

theorem col_pos_of_rows (r : Result) (h : 0 < r.get_row_num) : 0 < r.col_num := by
  unfold Result.get_row_num at h
  split at h
  · omega
  · omega

theorem row_num_mul_le (r : Result) :
    r.get_row_num * r.col_num ≤ r.result_table.length := by
  unfold Result.get_row_num
  split
  · simp
  · exact Nat.div_mul_le_self _ _

theorem rows_length_eq (r : Result) : r.rows.length = r.get_row_num := by
  simp [Result.rows]

theorem distinct_block_eq (q : SPARQLQuery)
    (hreq : q.distinct = true → ∀ v ∈ q.result.required_vars, valid_col q.result v = true)
    (hrows : 0 < q.result.get_row_num) :
    ∃ K junk, distinct_block q (int_rows q.result) = some (K ++ junk, K.length)
      ∧ (∀ x ∈ K, x.length = q.result.col_num)
      ∧ K.length ≤ q.result.get_row_num
      ∧ K = (if q.distinct
             then collapse (proj_eq q.result) ((int_rows q.result).insertionSort (fun a b => a ≤ b))
             else int_rows q.result) := by
  by_cases hd : q.distinct = true
  · have hSlen : ((int_rows q.result).insertionSort (fun a b => a ≤ b)).length
        = q.result.get_row_num := by
      rw [List.length_insertionSort, int_rows_length_eq]
    have hSrow : ∀ x ∈ (int_rows q.result).insertionSort (fun a b => a ≤ b),
        x.length = q.result.col_num :=
      fun x hx => int_rows_length _ x ((List.perm_insertionSort _ _).mem_iff.1 hx)
    rw [if_pos hd]
    cases hS : (int_rows q.result).insertionSort (fun a b => a ≤ b) with
    | nil =>
      rw [hS] at hSlen
      simp at hSlen
      omega
    | cons a rest =>
      rw [hS] at hSlen hSrow
      simp only [List.length_cons] at hSlen
      obtain ⟨junk, hj⟩ := distinct_loop_eq q.result (proj_eq q.result)
        (fun x => x.length = q.result.col_num)
        (fun x y hx hy => distinct_equal_eq q.result x y hx hy _ (hreq hd)) rest
        (q.result.get_row_num + 1) [] a [] (by simpa using hSrow) (by omega)
      have hsize : ([] : List (List Int)).length + 1 + ([] : List (List Int)).length
          + rest.length = q.result.get_row_num := by
        simp only [List.length_nil]
        omega
      rw [hsize] at hj
      simp only [List.nil_append, List.length_nil, Nat.zero_add] at hj
      have hsub : (collapse_from (proj_eq q.result) a rest).Sublist rest :=
        collapse_from_sublist _ rest a
      refine ⟨a :: collapse_from (proj_eq q.result) a rest, junk, ?_, ?_, ?_, rfl⟩
      · unfold distinct_block
        simp only [hd, if_true, std_sort_eq _ _ (int_rows_length q.result), hS,
          Option.bind_eq_bind, Option.some_bind, hj, Option.pure_def]
        rfl
      · intro x hx
        apply hSrow
        rcases List.mem_cons.1 hx with h | h
        · rw [h]; exact List.mem_cons_self _ _
        · exact List.mem_cons_of_mem _ (hsub.subset h)
      · have := hsub.length_le
        simp only [List.length_cons]
        omega
  · refine ⟨int_rows q.result, [], ?_, int_rows_length q.result,
      by rw [int_rows_length_eq], ?_⟩
    · unfold distinct_block
      simp [hd, int_rows_length_eq]
    · rw [if_neg hd]

theorem Compare_loop_total (env : FilterEnv) (q : SPARQLQuery) (a b : List Int)
    (ha : a.length = q.result.col_num) (hb : b.length = q.result.col_num)
    (os : List Order) (hos : ∀ o ∈ os, valid_col q.result o.id = true) :
    ∃ k, Compare_loop env q a b os = some k := by
  induction os with
  | nil => exact ⟨0, rfl⟩
  | cons o os ih =>
    have hv := hos o (List.mem_cons_self _ _)
    unfold valid_col at hv
    obtain ⟨h0, h1⟩ := of_decide_eq_true hv
    have hca : (q.result.var2col o.id).toNat < a.length := by omega
    have hcb : (q.result.var2col o.id).toNat < b.length := by omega
    obtain ⟨k, hk⟩ := ih (fun o2 ho2 => hos o2 (List.mem_cons_of_mem _ ho2))
    simp only [Compare_loop, if_neg (not_lt.2 h0), List.getElem?_eq_getElem hca,
      List.getElem?_eq_getElem hcb, Option.bind_eq_bind, Option.some_bind, Option.map_some',
      Option.pure_def, hk]
    split <;> split <;> simp

theorem Compare_total (env : FilterEnv) (q : SPARQLQuery)
    (hord : ∀ o ∈ q.orders, valid_col q.result o.id = true) (a b : List Int)
    (ha : a.length = q.result.col_num) (hb : b.length = q.result.col_num) :
    ∃ v, Compare env q a b = some v := by
  obtain ⟨k, hk⟩ := Compare_loop_total env q a b ha hb q.orders hord
  exact ⟨decide (k < 0), by simp [Compare, hk]⟩

theorem sort_insert_total (cmp : List Int → List Int → Option Bool)
    (P : List Int → Prop) (hcmp : ∀ x y, P x → P y → ∃ v, cmp x y = some v)
    (x : List Int) (hx : P x) (l : List (List Int)) (hl : ∀ y ∈ l, P y) :
    ∃ s, sort_insert cmp x l = some s ∧ s.Perm (x :: l) := by
  induction l with
  | nil => exact ⟨[x], rfl, List.Perm.refl _⟩
  | cons y ys ih =>
    have hy : P y := hl y (List.mem_cons_self _ _)
    obtain ⟨v, hv⟩ := hcmp y x hy hx
    obtain ⟨s, hs, hp⟩ := ih (fun z hz => hl z (List.mem_cons_of_mem _ hz))
    cases v with
    | true =>
      refine ⟨y :: s, by simp [sort_insert, hv, hs], ?_⟩
      exact (hp.cons y).trans (List.Perm.swap x y ys)
    | false =>
      exact ⟨x :: y :: ys, by simp [sort_insert, hv], List.Perm.refl _⟩

theorem std_sort_total (cmp : List Int → List Int → Option Bool)
    (P : List Int → Prop) (hcmp : ∀ x y, P x → P y → ∃ v, cmp x y = some v)
    (l : List (List Int)) (hl : ∀ y ∈ l, P y) :
    ∃ s, std_sort cmp l = some s ∧ s.Perm l := by
  induction l with
  | nil => exact ⟨[], rfl, List.Perm.refl _⟩
  | cons x xs ih =>
    obtain ⟨s, hs, hp⟩ := ih (fun z hz => hl z (List.mem_cons_of_mem _ hz))
    obtain ⟨s2, hs2, hp2⟩ := sort_insert_total cmp P hcmp x (hl x (List.mem_cons_self _ _)) s
      (fun y hy => hl y (List.mem_cons_of_mem _ (hp.mem_iff.1 hy)))
    exact ⟨s2, by simp [std_sort, hs, hs2], hp2.trans (hp.cons x)⟩

theorem order_block_eq (env : FilterEnv) (q : SPARQLQuery)
    (hord : ∀ o ∈ q.orders, valid_col q.result o.id = true)
    (K junk : List (List Int)) (hK : ∀ x ∈ K, x.length = q.result.col_num) :
    ∃ K1, order_block env q (K ++ junk) K.length = some (K1 ++ junk)
      ∧ K1.Perm K ∧ (q.orders = [] → K1 = K) := by
  unfold order_block
  by_cases ho : q.orders.length > 0
  · rw [if_pos ho, List.take_left' rfl, List.drop_left' rfl]
    obtain ⟨s, hs, hp⟩ := std_sort_total (Compare env q)
      (fun x => x.length = q.result.col_num)
      (fun x y hx hy => Compare_total env q hord x y hx hy) K hK
    refine ⟨s, by simp [hs], hp, ?_⟩
    intro h
    rw [h] at ho
    simp at ho
  · rw [if_neg ho]
    exact ⟨K, rfl, List.Perm.refl _, fun _ => rfl⟩

theorem distinct_order_table_eq (env : FilterEnv) (q : SPARQLQuery)
    (hreq : q.distinct = true → ∀ v ∈ q.result.required_vars, valid_col q.result v = true)
    (hord : ∀ o ∈ q.orders, valid_col q.result o.id = true)
    (hrows : 0 < q.result.get_row_num) :
    ∃ K1, distinct_order_table env q
        = some ((K1.map (fun row => row.map of_int)).flatten
            ++ q.result.result_table.drop (q.result.get_row_num * q.result.col_num))
      ∧ (∀ x ∈ K1, x.length = q.result.col_num)
      ∧ K1.Perm (if q.distinct
          then collapse (proj_eq q.result) ((int_rows q.result).insertionSort (fun a b => a ≤ b))
          else int_rows q.result)
      ∧ (q.orders = [] → K1 = (if q.distinct
          then collapse (proj_eq q.result) ((int_rows q.result).insertionSort (fun a b => a ≤ b))
          else int_rows q.result)) := by
  obtain ⟨K, junk, hdb, hKrow, hKlen, hKdef⟩ := distinct_block_eq q hreq hrows
  obtain ⟨K1, hob, hperm, hK1⟩ := order_block_eq env q hord K junk hKrow
  rw [← hKdef]
  have hlen1 : K1.length = K.length := hperm.length_eq
  have hK1row : ∀ x ∈ K1, x.length = q.result.col_num :=
    fun x hx => hKrow x (hperm.mem_iff.1 hx)
  refine ⟨K1, ?_, hK1row, hperm, hK1⟩
  have hnc := row_num_mul_le q.result
  have hKc : K.length * q.result.col_num ≤ q.result.get_row_num * q.result.col_num :=
    Nat.mul_le_mul_right _ hKlen
  have htake : (K1 ++ junk).take K.length = K1 := List.take_left' hlen1
  unfold distinct_order_table
  simp only [copy_table_eq, Option.bind_eq_bind, Option.some_bind, hdb, hob]
  rw [write_back_eq q.result _ _ (by simp; omega) (by rw [htake]; exact hK1row) (by omega),
    htake]
  simp only [Option.some_bind, Option.pure_def, Option.some.injEq]
  have hfl : (K1.map (fun row => row.map of_int)).flatten.length
      = K.length * q.result.col_num := by
    rw [length_flatten_const q.result.col_num _ (by
      intro x hx
      simp only [List.mem_map] at hx
      obtain ⟨y, hy, rfl⟩ := hx
      rw [List.length_map]
      exact hK1row y hy), List.length_map, hlen1]
  split
  · rw [List.take_left' hfl, List.drop_append_eq_append_drop,
      List.drop_eq_nil_of_le (by omega), List.nil_append, List.drop_drop, hfl]
    congr 2
    omega
  · have hEq : K.length = q.result.get_row_num := by omega
    rw [hEq]

theorem distinct_order_by_eq (env : FilterEnv) (q : SPARQLQuery)
    (hreq : q.distinct = true → ∀ v ∈ q.result.required_vars, valid_col q.result v = true)
    (hord : ∀ o ∈ q.orders, valid_col q.result o.id = true)
    (hrows : 0 < q.result.get_row_num) :
    ∃ (K1 : List (List Int)) (mid : SPARQLQuery), distinct_order_by env q = some mid
      ∧ mid = { q with result := { q.result with result_table := mid.result.result_table } }
      ∧ mid.result.get_row_num = K1.length
      ∧ (∀ x ∈ K1, x.length = q.result.col_num)
      ∧ K1.Perm (if q.distinct
          then collapse (proj_eq q.result)
            ((int_rows q.result).insertionSort (fun a b => a ≤ b))
          else int_rows q.result)
      ∧ (q.orders = [] → K1 = (if q.distinct
          then collapse (proj_eq q.result)
            ((int_rows q.result).insertionSort (fun a b => a ≤ b))
          else int_rows q.result))
      ∧ (q.distinct = true ∨ q.orders.length > 0 →
          mid.result.rows = K1.map (fun row => row.map of_int)
          ∧ mid.result.result_table = (K1.map (fun row => row.map of_int)).flatten
            ++ q.result.result_table.drop (q.result.get_row_num * q.result.col_num)) := by
  have hc := col_pos_of_rows q.result hrows
  by_cases hcond : q.distinct = true ∨ q.orders.length > 0
  · obtain ⟨K1, hT, hKrow, hperm, hK1⟩ := distinct_order_table_eq env q hreq hord hrows
    have hKrow2 : ∀ x ∈ K1.map (fun row => row.map of_int), x.length = q.result.col_num := by
      intro x hx
      simp only [List.mem_map] at hx
      obtain ⟨y, hy, rfl⟩ := hx
      rw [List.length_map]
      exact hKrow y hy
    generalize hTdef : (K1.map (fun row => row.map of_int)).flatten
        ++ q.result.result_table.drop (q.result.get_row_num * q.result.col_num) = T at hT
    have hrf := rows_flatten_append ({ q.result with result_table := T } : Result)
      q.result.col_num (K1.map (fun row => row.map of_int)) _ hc hKrow2
      (table_tail_lt q.result hc) rfl hTdef.symm
    refine ⟨K1, { q with result := { q.result with result_table := T } }, ?_, rfl,
      by rw [hrf.1, List.length_map], hKrow, hperm, hK1, fun _ => ⟨hrf.2, hTdef.symm⟩⟩
    unfold distinct_order_by
    rw [if_pos hcond, hT]
    rfl
  · have hd : ¬ q.distinct = true := fun h => hcond (Or.inl h)
    have ho : q.orders = [] := by
      cases hq : q.orders with
      | nil => rfl
      | cons o os => exact absurd (Or.inr (by rw [hq]; simp)) hcond
    refine ⟨int_rows q.result, q, ?_, rfl, (int_rows_length_eq _).symm,
      int_rows_length q.result, ?_, ?_, fun h => absurd h hcond⟩
    · unfold distinct_order_by
      rw [if_neg hcond]
    · rw [if_neg hd]
    · intro _
      rw [if_neg hd]

theorem int_rows_fix (r : Result) :
    ∀ x ∈ int_rows r, x.map (fun v => to_int (of_int v)) = x := by
  intro x hx
  simp only [int_rows, List.mem_map] at hx
  obtain ⟨row, _, rfl⟩ := hx
  rw [List.map_map]
  apply List.map_congr_left
  intro v _
  exact to_int_of_int v

/-- C18. DISTINCT is idempotent: for a query with DISTINCT and no ORDER BY whose
projection variables are bound to columns and whose table has at least one row,
the DISTINCT block of `final_process` returns.  With `K` the rows of the input,
as the `int`s the block holds them in, sorted with `ReduceCmp` (so an ID from
2^31 on sorts as a negative number) and collapsed where adjacent rows agree on
the projected columns: the rows of the output are the rows of `K`, converted
back to IDs, the output holds the rows `K` when it is read as `int`s again, and
the block applied to its own output returns that output unchanged. -/
theorem distinct_idempotent (env : FilterEnv) (q : SPARQLQuery) (hd : q.distinct = true)
    (ho : q.orders = [])
    (hreq : ∀ v ∈ q.result.required_vars, valid_col q.result v = true)
    (hrows : 0 < q.result.get_row_num) :
    ∃ q1, distinct_order_by env q = some q1
      ∧ q1.result.rows
          = (collapse (proj_eq q.result)
              ((int_rows q.result).insertionSort (fun a b => a ≤ b))).map
                (fun row => row.map of_int)
      ∧ int_rows q1.result
          = collapse (proj_eq q.result)
              ((int_rows q.result).insertionSort (fun a b => a ≤ b))
      ∧ distinct_order_by env q1 = some q1 := by
  have hord : ∀ o ∈ q.orders, valid_col q.result o.id = true := by
    rw [ho]
    intro o h
    cases h
  obtain ⟨K1, q1, h1, hq1, hn1, _, _, hK1, ht1⟩ :=
    distinct_order_by_eq env q (fun _ => hreq) hord hrows
  have hK := hK1 ho
  rw [if_pos hd] at hK
  obtain ⟨hrows1, ht1⟩ := ht1 (Or.inl hd)
  rw [hK] at hrows1 hn1 ht1
  have hKsub : ∀ x ∈ collapse (proj_eq q.result)
      ((int_rows q.result).insertionSort (fun a b => a ≤ b)), x ∈ int_rows q.result :=
    fun x hx => (List.perm_insertionSort _ _).mem_iff.1 ((collapse_sublist _ _).subset hx)
  have hint : int_rows q1.result
      = collapse (proj_eq q.result)
          ((int_rows q.result).insertionSort (fun a b => a ≤ b)) := by
    unfold int_rows at hKsub ⊢
    rw [hrows1, List.map_map]
    conv_rhs => rw [← List.map_id (collapse (proj_eq q.result)
      ((List.map (fun row => List.map to_int row) q.result.rows).insertionSort
        (fun a b => a ≤ b)))]
    apply List.map_congr_left
    intro x hx
    have := int_rows_fix q.result x (hKsub x hx)
    simp only [Function.comp, List.map_map, id]
    exact this
  refine ⟨q1, h1, hrows1, hint, ?_⟩
  have hd1 : q1.distinct = true := by rw [hq1]; exact hd
  have ho1 : q1.orders = [] := by rw [hq1]; exact ho
  have hreq1 : ∀ v ∈ q1.result.required_vars, valid_col q1.result v = true := by
    rw [hq1]; exact hreq
  have hord1 : ∀ o ∈ q1.orders, valid_col q1.result o.id = true := by
    rw [ho1]
    intro o h
    cases h
  have hpe : proj_eq q1.result = proj_eq q.result := by rw [hq1]; rfl
  have hSpos : 0 < ((int_rows q.result).insertionSort (fun a b => a ≤ b)).length := by
    rw [List.length_insertionSort, int_rows_length_eq]
    exact hrows
  have hKpos : 0 < (collapse (proj_eq q.result)
      ((int_rows q.result).insertionSort (fun a b => a ≤ b))).length := by
    cases hS : (int_rows q.result).insertionSort (fun a b => a ≤ b) with
    | nil => rw [hS] at hSpos; simp at hSpos
    | cons a rest => simp [collapse]
  have hrows1' : 0 < q1.result.get_row_num := by rw [hn1]; exact hKpos
  obtain ⟨K2, q2, h2, hq2, _, _, _, hK2, ht2⟩ :=
    distinct_order_by_eq env q1 (fun _ => hreq1) hord1 hrows1'
  have hK2 := hK2 ho1
  rw [if_pos hd1] at hK2
  obtain ⟨_, ht2⟩ := ht2 (Or.inl hd1)
  have hsorted : (collapse (proj_eq q.result)
      ((int_rows q.result).insertionSort (fun a b => a ≤ b))).Sorted (fun a b => a ≤ b) :=
    (List.sorted_insertionSort (fun a b => a ≤ b) (int_rows q.result)).sublist
      (collapse_sublist _ _)
  have hKrow : ∀ x ∈ (collapse (proj_eq q.result)
      ((int_rows q.result).insertionSort (fun a b => a ≤ b))).map
        (fun row => row.map of_int), x.length = q.result.col_num := by
    intro x hx
    simp only [List.mem_map] at hx
    obtain ⟨y, hy, rfl⟩ := hx
    rw [List.length_map]
    exact int_rows_length _ y (hKsub y hy)
  have hc1 : q1.result.col_num = q.result.col_num := by rw [hq1]
  have hdrop : q1.result.result_table.drop (q1.result.get_row_num * q1.result.col_num)
      = q.result.result_table.drop (q.result.get_row_num * q.result.col_num) := by
    rw [hn1, hc1, ht1]
    exact List.drop_left' (by
      rw [length_flatten_const _ _ hKrow, List.length_map])
  rw [hK2, hpe, hint, hsorted.insertionSort_eq, collapse_idem, hdrop, ← ht1] at ht2
  rw [h2, hq2, ht2]

/-- C18 (witness). The rows (3,5), (1,5), (4294967295,6), (1,5) with DISTINCT on
`?y`, `?x`: the ID 4294967295 is the `int` -1 and sorts first, the second copy
of (1,5) is dropped. -/
theorem distinct_idempotent_witness :
    ∃ q1, distinct_order_by demo_fenv demo_distinct_dup = some q1
      ∧ q1.result.rows = [[4294967295, 6], [1, 5], [3, 5]]
      ∧ int_rows q1.result = [[-1, 6], [1, 5], [3, 5]]
      ∧ distinct_order_by demo_fenv q1 = some q1 := by
  obtain ⟨q1, h1, hrows, hint, h2⟩ :=
    distinct_idempotent demo_fenv demo_distinct_dup rfl rfl (by decide) (by decide)
  refine ⟨q1, h1, ?_, ?_, h2⟩
  · rw [hrows]
    decide
  · rw [hint]
    decide

theorem offset_rows (r : SPARQLQuery) (hc : 0 < r.result.col_num) :
    (offset_step r).result.rows = r.result.rows.drop r.offset.toNat
    ∧ offset_step r
        = { r with result :=
            { r.result with result_table := (offset_step r).result.result_table } } := by
  unfold offset_step
  by_cases h : r.offset > 0
  · rw [if_pos h]
    exact ⟨rows_drop r.result _ r.offset.toNat hc rfl rfl, rfl⟩
  · rw [if_neg h]
    have h0 : r.offset.toNat = 0 := by omega
    rw [h0]
    exact ⟨rfl, rfl⟩

theorem limit_rows (r : SPARQLQuery) (hc : 0 < r.result.col_num) :
    (limit_step r).result.rows
        = (if r.limit ≥ 0 then r.result.rows.take r.limit.toNat else r.result.rows)
    ∧ limit_step r
        = { r with result :=
            { r.result with result_table := (limit_step r).result.result_table } } := by
  unfold limit_step
  by_cases h : r.limit ≥ 0
  · rw [if_pos h, if_pos h]
    exact ⟨rows_take r.result _ r.limit.toNat hc rfl rfl, rfl⟩
  · rw [if_neg h, if_neg h]
    exact ⟨rfl, rfl⟩

/-- C20. For a non-blind query with at least one row whose projection and ORDER BY
variables are bound to columns: the DISTINCT and ORDER BY block returns the
ordered result `mid` (the input itself when there is neither DISTINCT nor ORDER
BY), `final_process` returns, and its table holds, in order and projected to
`required_vars`, exactly the rows of `mid` at the positions from `offset` on, cut
to the first `limit` of them when `limit ≥ 0` and not cut at all when `limit` is
negative; that is the empty table when `offset` is not below the number of rows
of `mid`. -/
theorem offset_limit_spec (env : FilterEnv) (q : SPARQLQuery)
    (hb : q.result.blind = false) (hrows : 0 < q.result.get_row_num)
    (hreq : ∀ v ∈ q.result.required_vars, valid_col q.result v = true)
    (hord : ∀ o ∈ q.orders, valid_col q.result o.id = true) :
    ∃ mid out, distinct_order_by env q = some mid
      ∧ (q.distinct = false → q.orders = [] → mid = q)
      ∧ final_process env q = some out
      ∧ out.result.result_table
          = ((if q.limit ≥ 0
              then (mid.result.rows.drop q.offset.toNat).take q.limit.toNat
              else mid.result.rows.drop q.offset.toNat).map
                (fun row => q.result.required_vars.map (fun v => cell q.result v row))).flatten
      ∧ out.result.col_num = q.result.required_vars.length
      ∧ (mid.result.rows.length ≤ q.offset.toNat → out.result.result_table = []) := by
  have hc := col_pos_of_rows q.result hrows
  have hne : ¬ (q.result.blind = true ∨ q.result.result_table.length = 0) := by
    intro h
    rcases h with h | h
    · rw [hb] at h; exact Bool.false_ne_true h
    · unfold Result.get_row_num at hrows
      rw [h] at hrows
      simp at hrows
  obtain ⟨K1, mid, hmid, hshape, _, _, _, _, _⟩ :=
    distinct_order_by_eq env q (fun _ => hreq) hord hrows
  have hplain : q.distinct = false → q.orders = [] → mid = q := by
    intro h1 h2
    have h3 : distinct_order_by env q = some q := by
      unfold distinct_order_by
      rw [if_neg]
      rw [h1, h2]
      simp
    rw [h3] at hmid
    exact (Option.some.inj hmid).symm
  have hcm : 0 < mid.result.col_num := by rw [hshape]; exact hc
  obtain ⟨ho1, ho2⟩ := offset_rows mid hcm
  have hco : 0 < (offset_step mid).result.col_num := by rw [ho2]; exact hcm
  obtain ⟨hl1, hl2⟩ := limit_rows (offset_step mid) hco
  have hreq2 : ∀ v ∈ (limit_step (offset_step mid)).result.required_vars,
      valid_col (limit_step (offset_step mid)).result v = true := by
    rw [hl2, ho2, hshape]
    exact hreq
  have hlim : (offset_step mid).limit = q.limit := by rw [ho2, hshape]
  have hreqv : (limit_step (offset_step mid)).result.required_vars
      = q.result.required_vars := by rw [hl2, ho2, hshape]
  have hcell : ∀ v row, cell (limit_step (offset_step mid)).result v row
      = cell q.result v row := by
    intro v row
    rw [hl2, ho2, hshape]
    rfl
  have hproj := project_eq (limit_step (offset_step mid)).result hreq2
  have htable : (((limit_step (offset_step mid)).result.rows.map
      (fun row => (limit_step (offset_step mid)).result.required_vars.map
        (fun v => cell (limit_step (offset_step mid)).result v row))).flatten)
      = ((if q.limit ≥ 0
          then (mid.result.rows.drop q.offset.toNat).take q.limit.toNat
          else mid.result.rows.drop q.offset.toNat).map
            (fun row => q.result.required_vars.map (fun v => cell q.result v row))).flatten := by
    rw [hl1, ho1, hlim, hreqv]
    simp only [hcell]
    have hoff : mid.offset = q.offset := by rw [hshape]
    rw [hoff]
  refine ⟨mid, { limit_step (offset_step mid) with
      result := { (limit_step (offset_step mid)).result with
        result_table := _
        col_num := (limit_step (offset_step mid)).result.required_vars.length } },
    hmid, hplain, ?_, htable, hreqv ▸ rfl, ?_⟩
  · unfold final_process
    rw [if_neg hne, hmid]
    simp only [Option.bind_eq_bind, Option.some_bind, hproj, Option.pure_def]
  · intro hle
    show ((limit_step (offset_step mid)).result.rows.map _).flatten = []
    rw [htable, List.drop_eq_nil_of_le hle]
    split <;> simp

/-- C20 (witness). The rows (3,5), (1,5), (2,6), (1,5) with DISTINCT, `OFFSET 1`
and `LIMIT 1`, projected to `?y`, `?x`. -/
theorem offset_limit_spec_witness :
    demo_slice_req.result.blind = false
      ∧ 0 < demo_slice_req.result.get_row_num
      ∧ (∀ v ∈ demo_slice_req.result.required_vars,
          valid_col demo_slice_req.result v = true)
      ∧ (∀ o ∈ demo_slice_req.orders, valid_col demo_slice_req.result o.id = true)
      ∧ ∃ mid out, distinct_order_by demo_fenv demo_slice_req = some mid
          ∧ (demo_slice_req.distinct = false → demo_slice_req.orders = []
              → mid = demo_slice_req)
          ∧ final_process demo_fenv demo_slice_req = some out
          ∧ out.result.result_table
              = ((if demo_slice_req.limit ≥ 0
                  then (mid.result.rows.drop demo_slice_req.offset.toNat).take
                    demo_slice_req.limit.toNat
                  else mid.result.rows.drop demo_slice_req.offset.toNat).map
                    (fun row => demo_slice_req.result.required_vars.map
                      (fun v => cell demo_slice_req.result v row))).flatten
          ∧ out.result.col_num = demo_slice_req.result.required_vars.length
          ∧ (mid.result.rows.length ≤ demo_slice_req.offset.toNat
              → out.result.result_table = []) :=
  ⟨rfl, by decide, by decide, by decide,
    offset_limit_spec demo_fenv demo_slice_req rfl (by decide) (by decide) (by decide)⟩

/-- The slices of C20 on sample rows: DISTINCT leaves (1,5), (2,6), (3,5), of which
`OFFSET 1 LIMIT 1` returns (2,6), projected to `?y`, `?x`; without DISTINCT the
four rows are sliced as they stand; a negative limit does not cut, and an offset
beyond the rows leaves the empty table. -/
theorem offset_limit_example :
    (final_process demo_fenv demo_slice_req).map
        (fun q => (q.result.result_table, q.result.col_num)) = some ([6, 2], 2)
    ∧ (final_process demo_fenv { demo_slice_req with distinct := false }).map
        (fun q => (q.result.result_table, q.result.col_num)) = some ([5, 1], 2)
    ∧ (final_process demo_fenv { demo_slice_req with distinct := false, limit := -1 }).map
        (fun q => (q.result.result_table, q.result.col_num)) = some ([5, 1, 6, 2, 5, 1], 2)
    ∧ (final_process demo_fenv { demo_slice_req with distinct := false, offset := 9 }).map
        (fun q => (q.result.result_table, q.result.col_num)) = some ([], 2) := by
  decide

/-- C17. With the columns `?x`, `?y`, the rows (1,5), (2,6), (3,5), DISTINCT and the
projection to `?y`, `final_process` returns the column 5, 6, 5: the value 5 occurs
twice.  The rows are sorted on all columns, so the two rows with `?y = 5` are not
adjacent when the collapse compares the projected column only.  On the single
column 11, 12, 12 the result is 11, 12. -/
theorem distinct_projection_duplicate :
    (final_process demo_fenv demo_distinct_req).map
        (fun q => (q.result.result_table, q.result.col_num)) = some ([5, 6, 5], 1)
    ∧ demo_distinct_req.result.rows = [[1, 5], [2, 6], [3, 5]]
    ∧ demo_distinct_req.result.required_vars = [-2]
    ∧ (demo_distinct_req.result.var2col (-2) = 1 ∧ demo_distinct_req.distinct = true
        ∧ demo_distinct_req.orders = [] ∧ demo_distinct_req.offset = 0
        ∧ demo_distinct_req.limit = -1 ∧ demo_distinct_req.result.blind = false)
    ∧ (final_process demo_fenv { demo_final_column [11, 12, 12] with distinct := true }).map
        (fun q => (q.result.result_table, q.result.col_num)) = some ([11, 12], 1) := by
  decide

/-- C19. With the dictionary holding `Bob` for 11, `Alice` for 10 and nothing for
12, and `ORDER BY ?x` ascending: the strings of the rows 12 and 11 are the empty
string and `Bob`, the empty string is the smaller one, yet `Compare` is false
for (12, 11) as well as for (11, 12), because `str_b` is read as empty when
`a[col]` has no entry.  The same holds for (12, 10), while `Compare` is true for
(10, 11): being unordered is not transitive, so `Compare` is no strict weak
order. -/
theorem Compare_absent_id :
    id_str demo_fenv 12 = "" ∧ id_str demo_fenv 11 = "Bob"
    ∧ str_lt "" "Bob" = true
    ∧ Compare demo_fenv demo_order_req [12] [11] = some false
    ∧ Compare demo_fenv demo_order_req [11] [12] = some false
    ∧ Compare demo_fenv demo_order_req [12] [10] = some false
    ∧ Compare demo_fenv demo_order_req [10] [12] = some false
    ∧ Compare demo_fenv demo_order_req [10] [11] = some true := by
  decide

/-! ## The projection of `final_process` -/

theorem final_process_eq (env : FilterEnv) (q : SPARQLQuery)
    (hb : q.result.blind = false) (hrows : 0 < q.result.get_row_num)
    (hreq : ∀ v ∈ q.result.required_vars, valid_col q.result v = true)
    (hord : ∀ o ∈ q.orders, valid_col q.result o.id = true) :
    ∃ pre, before_projection env q = some pre
      ∧ pre = { q with result := { q.result with result_table := pre.result.result_table } }
      ∧ final_process env q = some
          { pre with result := { pre.result with
              result_table := (pre.result.rows.map
                (fun row => q.result.required_vars.map (fun v => cell q.result v row))).flatten
              col_num := q.result.required_vars.length } } := by
  have hne : ¬ (q.result.blind = true ∨ q.result.result_table.length = 0) := by
    intro h
    rcases h with h | h
    · rw [hb] at h; exact Bool.false_ne_true h
    · unfold Result.get_row_num at hrows
      rw [h] at hrows
      simp at hrows
  obtain ⟨K1, mid, hmid, hshape, _, _, _, _, _⟩ :=
    distinct_order_by_eq env q (fun _ => hreq) hord hrows
  have hex : ∃ t, limit_step (offset_step mid)
      = { q with result := { q.result with result_table := t } } := by
    rw [hshape]
    unfold limit_step offset_step
    split <;> split <;> exact ⟨_, rfl⟩
  obtain ⟨t, ht⟩ := hex
  have hreq2 : ∀ v ∈ (limit_step (offset_step mid)).result.required_vars,
      valid_col (limit_step (offset_step mid)).result v = true := by
    rw [ht]
    exact hreq
  have hproj := project_eq (limit_step (offset_step mid)).result hreq2
  refine ⟨limit_step (offset_step mid), ?_, ?_, ?_⟩
  · unfold before_projection
    rw [hmid]
    rfl
  · rw [ht]
  · unfold final_process
    rw [if_neg hne, hmid]
    simp only [Option.bind_eq_bind, Option.some_bind, hproj, Option.pure_def]
    rw [ht]
    rfl

/-- C21. For a non-blind query with at least one row whose projection and ORDER BY
variables are bound to columns, with `pre` the query as it stands after DISTINCT,
ORDER BY, OFFSET and LIMIT: `final_process` returns, the column count is the
length of `required_vars`, the table is the concatenation of the rows of `pre`,
in order, each reduced to the cells of the projection variables, so cell `j` of
output row `i` is the value row `i` of `pre` held in the column of
`required_vars[j]`; with a non-empty projection list the number of rows is that
of `pre`, and nothing but the table and the column count changes. -/
theorem projection_spec (env : FilterEnv) (q : SPARQLQuery)
    (hb : q.result.blind = false) (hrows : 0 < q.result.get_row_num)
    (hreq : ∀ v ∈ q.result.required_vars, valid_col q.result v = true)
    (hord : ∀ o ∈ q.orders, valid_col q.result o.id = true) :
    ∃ pre out, before_projection env q = some pre
      ∧ final_process env q = some out
      ∧ out.result.col_num = q.result.required_vars.length
      ∧ out.result.result_table = (pre.result.rows.map
          (fun row => q.result.required_vars.map (fun v => cell q.result v row))).flatten
      ∧ (∀ i j, i < pre.result.get_row_num → j < q.result.required_vars.length →
          ∃ x, pre.result.get_row_col i
                (pre.result.var2col (q.result.required_vars.getD j 0)) = some x
            ∧ out.result.get_row_col i (j : Int) = some x)
      ∧ (q.result.required_vars ≠ [] → out.result.get_row_num = pre.result.get_row_num)
      ∧ out = { pre with result := { pre.result with
                  result_table := out.result.result_table
                  col_num := out.result.col_num } } := by
  obtain ⟨pre, hpre, hshape, hfin⟩ := final_process_eq env q hb hrows hreq hord
  have hL : ∀ x ∈ pre.result.rows.map
      (fun row => q.result.required_vars.map (fun v => cell q.result v row)),
      x.length = q.result.required_vars.length := by
    intro x hx
    obtain ⟨row, _, rfl⟩ := List.mem_map.1 hx
    simp
  generalize hout : ({ pre with result := { pre.result with
      result_table := (pre.result.rows.map
        (fun row => q.result.required_vars.map (fun v => cell q.result v row))).flatten
      col_num := q.result.required_vars.length } } : SPARQLQuery) = out at hfin
  have hcol : out.result.col_num = q.result.required_vars.length := by rw [← hout]
  have htab : out.result.result_table = (pre.result.rows.map
      (fun row => q.result.required_vars.map (fun v => cell q.result v row))).flatten := by
    rw [← hout]
  have hrowsout : 0 < q.result.required_vars.length →
      out.result.rows = pre.result.rows.map
        (fun row => q.result.required_vars.map (fun v => cell q.result v row)) :=
    fun hpos => rows_of_flatten out.result _ _ hpos hL hcol htab
  have hnum : 0 < q.result.required_vars.length →
      out.result.get_row_num = pre.result.get_row_num := by
    intro hpos
    rw [← rows_length_eq, hrowsout hpos, List.length_map, rows_length_eq]
  refine ⟨pre, out, hpre, hfin, hcol, htab, ?_, ?_, ?_⟩
  · intro i j hi hj
    have hpos : 0 < q.result.required_vars.length := by omega
    have hmem : q.result.required_vars.getD j 0 ∈ q.result.required_vars := by
      simp [List.getD_eq_getElem?_getD, List.getElem?_eq_getElem hj]
    have hv : valid_col pre.result (q.result.required_vars.getD j 0) = true := by
      rw [hshape]
      exact hreq _ hmem
    refine ⟨cell pre.result (q.result.required_vars.getD j 0) (pre.result.row i),
      valid_col_read pre.result _ hv i hi, ?_⟩
    have hio : i < out.result.get_row_num := by rw [hnum hpos]; exact hi
    rw [get_row_col_row out.result i j hio (by rw [hcol]; exact hj)]
    have h1 := rows_getElem out.result i
    rw [if_pos hio, hrowsout hpos, List.getElem?_map, rows_getElem, if_pos hi] at h1
    have h2 : out.result.row i = q.result.required_vars.map
        (fun v => cell q.result v (pre.result.row i)) := (Option.some.inj h1).symm
    rw [h2]
    have hcell : cell pre.result (q.result.required_vars.getD j 0) (pre.result.row i)
        = cell q.result (q.result.required_vars.getD j 0) (pre.result.row i) := by
      rw [hshape]
      rfl
    rw [hcell]
    simp [List.getD_eq_getElem?_getD, List.getElem?_map, List.getElem?_eq_getElem hj]
  · intro hne
    exact hnum (List.length_pos.2 hne)
  · rw [← hout]

/-- C21 (witness). The rows (3,5), (1,5), (2,6), (1,5) with DISTINCT, `OFFSET 1` and
`LIMIT 1`, projected to `?y`, `?x`. -/
theorem projection_spec_witness :
    demo_slice_req.result.blind = false
      ∧ 0 < demo_slice_req.result.get_row_num
      ∧ (∀ v ∈ demo_slice_req.result.required_vars,
          valid_col demo_slice_req.result v = true)
      ∧ (∀ o ∈ demo_slice_req.orders, valid_col demo_slice_req.result o.id = true)
      ∧ ∃ pre out, before_projection demo_fenv demo_slice_req = some pre
          ∧ final_process demo_fenv demo_slice_req = some out
          ∧ out.result.col_num = 2
          ∧ out.result.get_row_num = pre.result.get_row_num :=
  ⟨rfl, by decide, by decide, by decide,
    (projection_spec demo_fenv demo_slice_req rfl (by decide) (by decide) (by decide)).imp
      (fun _ h => h.imp (fun _ h2 => ⟨h2.1, h2.2.1, h2.2.2.1,
        h2.2.2.2.2.2.1 (by decide)⟩))⟩

/-- The projection of C21 on sample rows: the rows (3,5), (1,5), (2,6) projected to
`?y`, `?x` become (5,3), (5,1), (6,2); projected to `?y` alone they become 5, 5, 6;
the order of the rows is kept. -/
theorem projection_example :
    (final_process demo_fenv (demo_final_req [3, 5, 1, 5, 2, 6] [-2, -1])).map
        (fun q => (q.result.result_table, q.result.col_num)) = some ([5, 3, 5, 1, 6, 2], 2)
    ∧ (final_process demo_fenv (demo_final_req [3, 5, 1, 5, 2, 6] [-2])).map
        (fun q => (q.result.result_table, q.result.col_num)) = some ([5, 5, 6], 1) := by
  decide

/-! ## `need_fork_join` and the attribute kernels -/

theorem chunks_flatten_gen {α : Type} (c : Nat) (L : List (List α))
    (hL : ∀ x ∈ L, x.length = c) :
    (List.range L.length).map (fun i => (L.flatten.drop (c * i)).take c) = L := by
  induction L with
  | nil => simp
  | cons x L ih =>
    have hx : x.length = c := hL x (List.mem_cons_self _ _)
    have hL2 : ∀ y ∈ L, y.length = c := fun y hy => hL y (List.mem_cons_of_mem _ hy)
    rw [List.length_cons, List.range_succ_eq_map, List.map_cons, List.map_map]
    congr 1
    · simp [← hx]
    · conv_rhs => rw [← ih hL2]
      apply List.map_congr_left
      intro i _
      have h1 : c * (i + 1) = x.length + c * i := by rw [hx]; ring
      simp only [Function.comp, List.flatten_cons, Nat.succ_eq_add_one]
      rw [h1, List.drop_append]

theorem attr_row_length (r : Result) (i : Nat) (hi : i < r.get_row_num)
    (hw : r.attr_parallel) : (r.attr_row i).length = r.attr_col_num := by
  have hb := attr_row_bound r i hi hw
  simp [Result.attr_row]
  omega

theorem k2u_attr_loop_eq (e : Engine) (r : Result) (pat : Pattern) (k : Nat)
    (hs : r.var2col pat.subject = (k : Int)) (hk : k < r.col_num)
    (hw : r.attr_parallel) (l : List Nat) (hl : ∀ i ∈ l, i < r.get_row_num)
    (st : List sid_t × List attr_t × Int) :
    ∃ ty, l.foldlM (k2u_attr_step e r pat.subject pat.predicate pat.direction) st
      = some (st.1 ++ ((l.filter (fun i => (row_attr e pat k (r.row i)).isSome)).map
                        r.row).flatten,
              st.2.1 ++ ((l.filter (fun i => (row_attr e pat k (r.row i)).isSome)).map
                (fun i => r.attr_row i
                  ++ [(row_attr e pat k (r.row i)).getD attr_default])).flatten,
              ty) := by
  induction l generalizing st with
  | nil => exact ⟨st.2.2, by simp⟩
  | cons i l ih =>
    have hi : i < r.get_row_num := hl i (List.mem_cons_self _ _)
    have hl2 : ∀ j ∈ l, j < r.get_row_num := fun j hj => hl j (List.mem_cons_of_mem _ hj)
    rw [List.foldlM_cons]
    cases hv : row_attr e pat k (r.row i) with
    | none =>
      have hstep : k2u_attr_step e r pat.subject pat.predicate pat.direction st i
          = some st := by
        unfold k2u_attr_step
        unfold row_attr at hv
        rw [hs, get_row_col_row r i k hi hk]
        simp only [Option.bind_eq_bind, Option.some_bind, Option.pure_def]
        rw [hv]
      obtain ⟨ty, hty⟩ := ih hl2 st
      refine ⟨ty, ?_⟩
      rw [hstep]
      simp only [Option.bind_eq_bind, Option.some_bind]
      rw [hty]
      simp [hv]
    | some v =>
      have hstep : k2u_attr_step e r pat.subject pat.predicate pat.direction st i
          = some (st.1 ++ r.row i, st.2.1 ++ r.attr_row i ++ [v], attr_type_code v) := by
        unfold k2u_attr_step
        unfold row_attr at hv
        rw [hs, get_row_col_row r i k hi hk]
        simp only [Option.bind_eq_bind, Option.some_bind, Option.pure_def]
        rw [hv]
        simp [append_row_to_eq r i hi, append_attr_row_to_eq r i hi hw]
      obtain ⟨ty, hty⟩ := ih hl2
        (st.1 ++ r.row i, st.2.1 ++ r.attr_row i ++ [v], attr_type_code v)
      refine ⟨ty, ?_⟩
      rw [hstep]
      simp only [Option.bind_eq_bind, Option.some_bind]
      rw [hty]
      simp [hv]

theorem known_to_unknown_attr_eq (e : Engine) (req : SPARQLQuery) (pat : Pattern) (k : Nat)
    (hpat : req.get_current_pattern = some pat) (hd : pat.direction = dir_t.OUT)
    (hs : req.result.var2col pat.subject = (k : Int)) (hk : k < req.result.col_num)
    (hw : req.result.attr_parallel) :
    ∃ _ty : Int, known_to_unknown_attr e req
      = some { req with
          result := ({ req.result with
            attr_res_table :=
              (((List.range req.result.get_row_num).filter
                  (fun i => (row_attr e pat k (req.result.row i)).isSome)).map
                (fun i => req.result.attr_row i
                  ++ [(row_attr e pat k (req.result.row i)).getD attr_default])).flatten
            result_table :=
              (req.result.rows.filter (fun row => (row_attr e pat k row).isSome)).flatten
            attr_col_num := req.result.attr_col_num + 1 } : Result).add_var2col
              pat.object (req.result.attr_col_num : Int)
          step := req.step + 1 } := by
  obtain ⟨ty, hty⟩ := k2u_attr_loop_eq e req.result pat k hs hk hw
    (List.range req.result.get_row_num) (fun i hi => List.mem_range.1 hi) ([], [], 0)
  refine ⟨ty, ?_⟩
  simp only [known_to_unknown_attr, hpat, hd, Option.bind_eq_bind, Option.some_bind,
    Option.pure_def, ne_eq, not_true_eq_false, if_false] at hty ⊢
  rw [hty]
  simp only [Option.some_bind, List.nil_append]
  rw [filter_rows_eq req.result (fun row => (row_attr e pat k row).isSome)]
  rfl

theorem known_to_unknown_attr_fields (e : Engine) (req : SPARQLQuery) (pat : Pattern)
    (k : Nat)
    (hpat : req.get_current_pattern = some pat) (hd : pat.direction = dir_t.OUT)
    (hs : req.result.var2col pat.subject = (k : Int)) (hk : k < req.result.col_num)
    (hw : req.result.attr_parallel) :
    ∃ out, known_to_unknown_attr e req = some out ∧
      out.result.col_num = req.result.col_num ∧
      out.result.result_table
        = (req.result.rows.filter (fun row => (row_attr e pat k row).isSome)).flatten ∧
      out.result.attr_res_table
        = (((List.range req.result.get_row_num).filter
              (fun i => (row_attr e pat k (req.result.row i)).isSome)).map
            (fun i => req.result.attr_row i
              ++ [(row_attr e pat k (req.result.row i)).getD attr_default])).flatten ∧
      out.result.attr_col_num = req.result.attr_col_num + 1 ∧
      out.step = req.step + 1 ∧ out.pattern_group = req.pattern_group := by
  obtain ⟨_, h⟩ := known_to_unknown_attr_eq e req pat k hpat hd hs hk hw
  exact ⟨_, h, rfl, rfl, rfl, rfl, rfl, rfl⟩

/-- C25. For an attribute pattern whose subject is bound to the column `k` of a
table with a parallel attribute table, `known_to_unknown_attr` rejects every
direction other than OUT, and for OUT returns: the vertex rows are the input
rows whose subject value has a value for the attribute, in their order; the
attribute rows are the attribute rows of those same rows, each with the value
appended as a new last cell; the vertex column count is unchanged, the
attribute column count and `step` grow by one. -/
theorem known_to_unknown_attr_spec (e : Engine) (req : SPARQLQuery) (pat : Pattern) (k : Nat)
    (hpat : req.get_current_pattern = some pat)
    (hs : req.result.var2col pat.subject = (k : Int)) (hk : k < req.result.col_num)
    (hw : req.result.attr_parallel) :
    (pat.direction ≠ dir_t.OUT → known_to_unknown_attr e req = none) ∧
    (pat.direction = dir_t.OUT → ∃ out, known_to_unknown_attr e req = some out ∧
      out.result.rows = req.result.rows.filter (fun row => (row_attr e pat k row).isSome) ∧
      out.result.rows =
        ((List.range req.result.get_row_num).filter
          (fun i => (row_attr e pat k (req.result.row i)).isSome)).map req.result.row ∧
      out.result.attr_rows =
        ((List.range req.result.get_row_num).filter
          (fun i => (row_attr e pat k (req.result.row i)).isSome)).map
          (fun i => req.result.attr_row i ++ (row_attr e pat k (req.result.row i)).toList) ∧
      out.result.col_num = req.result.col_num ∧
      out.result.attr_col_num = req.result.attr_col_num + 1 ∧
      out.step = req.step + 1 ∧ out.pattern_group = req.pattern_group) := by
  constructor
  · intro hd
    simp [known_to_unknown_attr, hpat, hd]
  · intro hd
    obtain ⟨out, hout, hc, ht, hat, hac, hst, hpg⟩ :=
      known_to_unknown_attr_fields e req pat k hpat hd hs hk hw
    refine ⟨out, hout, ?_⟩
    generalize hkept : (List.range req.result.get_row_num).filter
      (fun i => (row_attr e pat k (req.result.row i)).isSome) = kept at hat ⊢
    have hmem : ∀ i ∈ kept, i < req.result.get_row_num ∧
        (row_attr e pat k (req.result.row i)).isSome = true := by
      intro i hi
      rw [← hkept] at hi
      have := List.mem_filter.1 hi
      exact ⟨List.mem_range.1 this.1, this.2⟩
    have hrows : out.result.rows
        = req.result.rows.filter (fun row => (row_attr e pat k row).isSome) := by
      apply rows_of_flatten out.result req.result.col_num _ (by omega) _ hc ht
      intro x hx
      exact rows_length req.result x (List.mem_of_mem_filter hx)
    have hfr := filter_rows_eq req.result (fun row => (row_attr e pat k row).isSome)
    simp only [hkept] at hfr
    refine ⟨hrows, ?_, ?_, hc, hac, hst, hpg⟩
    · rw [hrows, ← hfr]
    · have hn := rows_length_eq out.result
      rw [hrows, ← hfr, List.length_map] at hn
      unfold Result.attr_rows
      rw [← hn]
      have hL : ∀ x ∈ kept.map (fun i => req.result.attr_row i
            ++ [(row_attr e pat k (req.result.row i)).getD attr_default]),
          x.length = req.result.attr_col_num + 1 := by
        intro x hx
        obtain ⟨i, hi, rfl⟩ := List.mem_map.1 hx
        simp [attr_row_length req.result i (hmem i hi).1 hw]
      have hcf := chunks_flatten_gen (req.result.attr_col_num + 1) _ hL
      rw [List.length_map] at hcf
      have hval : kept.map (fun i => req.result.attr_row i
            ++ (row_attr e pat k (req.result.row i)).toList)
          = kept.map (fun i => req.result.attr_row i
            ++ [(row_attr e pat k (req.result.row i)).getD attr_default]) := by
        apply List.map_congr_left
        intro i hi
        have := (hmem i hi).2
        cases hv : row_attr e pat k (req.result.row i) with
        | none => rw [hv] at this; simp at this
        | some v => rfl
      rw [hval]
      have hrow : out.result.attr_row = fun i =>
          (((kept.map (fun i => req.result.attr_row i
            ++ [(row_attr e pat k (req.result.row i)).getD attr_default])).flatten.drop
              ((req.result.attr_col_num + 1) * i)).take (req.result.attr_col_num + 1)) := by
        funext i
        simp only [Result.attr_row, hat, hac]
      rw [hrow]
      exact hcf

theorem known_to_unknown_attr_spec_witness :
    ∃ out, known_to_unknown_attr demo_engine_attr demo_req_attr = some out ∧
      out.result.rows = [[11]] ∧ out.result.attr_rows = [[attr_t.int 25]] ∧
      out.result.attr_col_num = 1 ∧ out.step = 1 := by
  obtain ⟨out, h, h1, _, h3, _, h5, h6, _⟩ :=
    (known_to_unknown_attr_spec demo_engine_attr demo_req_attr demo_pat_attr 0 rfl
      (by decide) (by decide) (by unfold Result.attr_parallel; decide)).2 rfl
  refine ⟨out, h, ?_, ?_, h5, h6⟩
  · rw [h1]; decide
  · rw [h3]; decide

/-- The kernel run on the sample table: of the rows 11 and 12 only 11 has a value
for attribute 200, so the vertex table becomes `[11]` and the attribute table
`[25]`; with the direction IN the kernel stops. -/
theorem known_to_unknown_attr_example :
    (known_to_unknown_attr demo_engine_attr demo_req_attr).map
        (fun q => (q.result.result_table, q.result.attr_res_table, q.result.attr_col_num))
      = some ([11], [attr_t.int 25], 1) ∧
    (known_to_unknown_attr demo_engine_attr
      { demo_req_attr with
        pattern_group := .mk [{ demo_pat_attr with direction := dir_t.IN }] [] [] [] }).isNone
      = true := by
  decide

/-- C26. The kernel evaluated on a constant subject without a value: vertex 10 has
no value for attribute 200 in the sample graph, and `const_to_unknown_attr`
still leaves an attribute table of one row, holding the default value; for
vertex 11, which has the value 25, the table holds that value. -/
theorem const_to_unknown_attr_absent_value :
    demo_engine_attr.graph.get_vertex_attr_global demo_engine_attr.tid 10 dir_t.OUT 200
      = none ∧
    (const_to_unknown_attr demo_engine_attr (demo_req_cattr 10)).map
        (fun q => (q.result.attr_res_table, q.result.attr_col_num))
      = some ([attr_t.int 0], 1) ∧
    (const_to_unknown_attr demo_engine_attr (demo_req_cattr 11)).map
        (fun q => (q.result.attr_res_table, q.result.attr_col_num))
      = some ([attr_t.int 25], 1) := by
  decide

/-- Whatever the lookup reports, the attribute table `const_to_unknown_attr`
leaves has exactly one cell. -/
theorem const_to_unknown_attr_one_cell (e : Engine) (req out : SPARQLQuery)
    (h : const_to_unknown_attr e req = some out) :
    out.result.attr_res_table.length = 1 ∧ out.result.attr_col_num = 1 := by
  unfold const_to_unknown_attr at h
  cases hp : req.get_current_pattern with
  | none => simp [hp] at h
  | some pat =>
    simp only [hp, Option.bind_eq_bind, Option.some_bind, Option.pure_def] at h
    split at h
    · simp at h
    · simp only [Option.some_bind, Option.some.injEq] at h
      subst h
      exact ⟨rfl, rfl⟩

/-- C27, counterexample. With RDMA in use, a subject that is not the anchor and
exactly `rdma_threshold` rows (2 rows, threshold 2), `need_fork_join` answers
true although the row count does not exceed the threshold. -/
theorem need_fork_join_counterexample :
    need_fork_join demo_engine_attr demo_req_attr = some true ∧
    ¬ (demo_engine_attr.cfg.global_use_rdma = false ∨
        (demo_pat_attr.subject ≠ demo_req_attr.local_var ∧
          demo_req_attr.result.get_row_num > demo_engine_attr.cfg.global_rdma_threshold)) := by
  decide

/-- C27, amended. For a query with a current pattern, `need_fork_join` returns, and
its answer is true exactly when RDMA is disabled, or the subject of the current
pattern is not the `local_var` anchor and the number of result rows is at least
`rdma_threshold`. -/
theorem need_fork_join_amended (e : Engine) (req : SPARQLQuery) (pat : Pattern)
    (hpat : req.get_current_pattern = some pat) :
    need_fork_join e req
      = some (decide (e.cfg.global_use_rdma = false ∨
          (pat.subject ≠ req.local_var ∧
            e.cfg.global_rdma_threshold ≤ req.result.get_row_num))) := by
  unfold need_fork_join
  cases hr : e.cfg.global_use_rdma with
  | false => simp
  | true =>
    simp only [hpat, Option.bind_eq_bind, Option.some_bind, Option.pure_def]
    simp [ne_comm]

theorem need_fork_join_amended_witness :
    need_fork_join demo_engine_attr { demo_req_attr with local_var := -1 } = some false := by
  have h := need_fork_join_amended demo_engine_attr { demo_req_attr with local_var := -1 }
    demo_pat_attr rfl
  rw [h]
  decide

/-- With RDMA disabled the answer is true for every query, with or without a
current pattern. -/
theorem need_fork_join_no_rdma (e : Engine) (req : SPARQLQuery)
    (h : e.cfg.global_use_rdma = false) : need_fork_join e req = some true := by
  simp [need_fork_join, h]

/-! ## `execute_one_step` -/

theorem execute_one_step_known_pred (e : Engine) (V : Bool) (sfi : SPARQLQuery → Bool)
    (fuel : Nat) (req : SPARQLQuery) (pat : Pattern)
    (hfin : req.is_finished = false)
    (hidx : ¬ (req.step = 0 ∧ sfi req = true))
    (hpat : req.get_current_pattern = some pat)
    (hpred : 0 ≤ pat.predicate)
    (hattr : ¬ (e.cfg.global_enable_vattr = true ∧ pat.pred_type > 0)) :
    execute_one_step e V sfi fuel req
      = match req.result.variable_type pat.subject, req.result.variable_type pat.object with
        | .const_var, .const_var => none
        | .const_var, .known_var => none
        | .const_var, .unknown_var => (const_to_unknown e req).map (fun q => (true, q))
        | .known_var, .const_var => (known_to_const e req).map (fun q => (true, q))
        | .known_var, .known_var => (known_to_known e req).map (fun q => (true, q))
        | .known_var, .unknown_var => (known_to_unknown e req).map (fun q => (true, q))
        | .unknown_var, _ => none := by
  have hp2 : req.get_pattern req.step = some pat := hpat
  have hlt : ¬ pat.predicate < 0 := not_lt.2 hpred
  unfold execute_one_step
  rw [hfin]
  simp only [Bool.false_eq_true, if_false, if_neg hidx, hpat, Option.bind_eq_bind,
    Option.some_bind, if_neg hlt, hp2, if_neg hattr]

theorem variable_type_const (r : Result) (vid : ssid_t) :
    r.variable_type vid = var_type.const_var ↔ 0 ≤ vid := by
  unfold Result.variable_type
  by_cases h : vid ≥ 0
  · simp [h]
  · simp only [if_neg h]
    constructor
    · intro h2
      split at h2 <;> cases h2
    · intro h2
      exact absurd h2 h

theorem const_to_unknown_step (e : Engine) (req : SPARQLQuery) (pat : Pattern)
    (hpat : req.get_current_pattern = some pat) :
    (req.result.col_num ≠ 0 → const_to_unknown e req = none) ∧
    (req.result.col_num = 0 →
      ∃ out, const_to_unknown e req = some out ∧ out.step = req.step + 1) := by
  constructor
  · intro h
    simp [const_to_unknown, hpat, Result.get_col_num, h]
  · intro h
    simp [const_to_unknown, hpat, Result.get_col_num, h]

theorem valid_col_nat (r : Result) (vid : ssid_t) (h : valid_col r vid = true) :
    ∃ k : Nat, r.var2col vid = (k : Int) ∧ k < r.col_num := by
  unfold valid_col at h
  obtain ⟨h0, h1⟩ := of_decide_eq_true h
  obtain ⟨n, hn⟩ := Int.eq_ofNat_of_zero_le h0
  exact ⟨n, hn, by omega⟩

theorem map_flag_some (x : Option SPARQLQuery) (req out0 : SPARQLQuery)
    (hx : x = some out0) (hstep : out0.step = req.step + 1) :
    ¬ (x.map (fun q => (true, q)) = none) ∧
    ∀ out : Bool × SPARQLQuery, x.map (fun q => (true, q)) = some out →
      out.1 = true ∧ out.2.step = req.step + 1 := by
  subst hx
  refine ⟨by simp, ?_⟩
  intro out h
  simp only [Option.map_some', Option.some.injEq] at h
  subst h
  exact ⟨rfl, hstep⟩

/-- C24, amended. A finished query is returned unchanged with the flag false.  For
an unfinished query that does not start from an index at step 0, whose current
pattern has a non-negative predicate and is not treated as an attribute
pattern, and whose known variables are bound to existing columns (with an
attribute table parallel to the vertex table when attributes are enabled):
`execute_one_step` halts exactly when the subject is unknown, or the subject
is a constant and the object is a constant or a known variable, or the subject
is a constant, the object is unknown and the table already has columns; in
every other case it returns, and whatever it returns carries the flag true and
a step larger by one. -/
theorem execute_one_step_amended (e : Engine) (V : Bool) (sfi : SPARQLQuery → Bool)
    (fuel : Nat) (req : SPARQLQuery) :
    (req.is_finished = true → execute_one_step e V sfi fuel req = some (false, req)) ∧
    (∀ pat : Pattern, req.is_finished = false →
      ¬ (req.step = 0 ∧ sfi req = true) →
      req.get_current_pattern = some pat →
      0 ≤ pat.predicate →
      ¬ (e.cfg.global_enable_vattr = true ∧ pat.pred_type > 0) →
      (req.result.variable_type pat.subject = var_type.known_var →
        valid_col req.result pat.subject = true) →
      (req.result.variable_type pat.object = var_type.known_var →
        valid_col req.result pat.object = true) →
      (e.cfg.global_enable_vattr = true → req.result.attr_parallel) →
      (execute_one_step e V sfi fuel req = none ↔
        (req.result.variable_type pat.subject = var_type.unknown_var ∨
         (req.result.variable_type pat.subject = var_type.const_var ∧
           (req.result.variable_type pat.object = var_type.const_var ∨
            req.result.variable_type pat.object = var_type.known_var)) ∨
         (req.result.variable_type pat.subject = var_type.const_var ∧
           req.result.variable_type pat.object = var_type.unknown_var ∧
           req.result.col_num ≠ 0))) ∧
      (∀ out : Bool × SPARQLQuery, execute_one_step e V sfi fuel req = some out →
        out.1 = true ∧ out.2.step = req.step + 1)) := by
  constructor
  · intro h
    simp [execute_one_step, h]
  · intro pat hfin hidx hpat hpred hattr hvs hvo hw
    rw [execute_one_step_known_pred e V sfi fuel req pat hfin hidx hpat hpred hattr]
    cases hS : req.result.variable_type pat.subject with
    | unknown_var => simp
    | const_var =>
      cases hO : req.result.variable_type pat.object with
      | const_var => simp
      | known_var => simp
      | unknown_var =>
        have hc := const_to_unknown_step e req pat hpat
        by_cases h0 : req.result.col_num = 0
        · obtain ⟨out0, ho, hst⟩ := hc.2 h0
          have hm := map_flag_some _ req out0 ho hst
          exact ⟨⟨fun h => absurd h hm.1, fun h => by simp [h0] at h⟩, hm.2⟩
        · have hn := hc.1 h0
          simp [hn, h0]
    | known_var =>
      obtain ⟨k, hk1, hk2⟩ := valid_col_nat _ _ (hvs hS)
      cases hO : req.result.variable_type pat.object with
      | const_var =>
        have ho := (variable_type_const req.result pat.object).1 hO
        have hm := map_flag_some _ req _
          (known_to_const_eq e req pat k hpat hk1 hk2 ho hw) rfl
        exact ⟨⟨fun h => absurd h hm.1, fun h => by simp at h⟩, hm.2⟩
      | known_var =>
        obtain ⟨k2, hk3, hk4⟩ := valid_col_nat _ _ (hvo hO)
        have hm := map_flag_some _ req _
          (known_to_known_eq e req pat k k2 hpat hk1 hk2 hk3 hk4 hw) rfl
        exact ⟨⟨fun h => absurd h hm.1, fun h => by simp at h⟩, hm.2⟩
      | unknown_var =>
        have hm := map_flag_some _ req _
          (known_to_unknown_eq e req pat k hpat hk1 hk2) rfl
        exact ⟨⟨fun h => absurd h hm.1, fun h => by simp at h⟩, hm.2⟩

theorem execute_one_step_amended_witness :
    ¬ (execute_one_step demo_engine false (fun _ => false) 0 demo_req_late_known = none) ∧
    ∀ out : Bool × SPARQLQuery,
      execute_one_step demo_engine false (fun _ => false) 0 demo_req_late_known = some out →
      out.1 = true ∧ out.2.step = demo_req_late_known.step + 1 := by
  obtain ⟨hiff, hout⟩ :=
    (execute_one_step_amended demo_engine false (fun _ => false) 0 demo_req_late_known).2
      { subject := -1, predicate := 100, direction := dir_t.OUT, object := -5 }
      (by decide) (by decide) rfl (by decide) (by decide)
      (fun _ => by decide) (fun h => absurd h (by decide)) (fun h => absurd h (by decide))
  refine ⟨fun h => ?_, hout⟩
  have h2 := hiff.1 h
  revert h2
  decide

/-- C24, counterexample. The query is unfinished, at step 1, its current pattern
`(10, 100, OUT, ?y)` has a non-negative predicate and is no attribute pattern,
the subject is a constant and the object unknown: none of the cases in which
the claim lets the step halt.  The table already has a column, and the step
halts in `const_to_unknown`, whatever the build switch, the index test and the
fuel are. -/
theorem execute_one_step_counterexample :
    demo_req_late_const.is_finished = false ∧ demo_req_late_const.step ≠ 0 ∧
    demo_req_late_const.get_current_pattern
      = some { subject := 10, predicate := 100, direction := dir_t.OUT, object := -5 } ∧
    demo_req_late_const.result.variable_type 10 = var_type.const_var ∧
    demo_req_late_const.result.variable_type (-5) = var_type.unknown_var ∧
    ∀ (V : Bool) (sfi : SPARQLQuery → Bool) (fuel : Nat),
      execute_one_step demo_engine V sfi fuel demo_req_late_const = none := by
  refine ⟨by decide, by decide, by decide, by decide, by decide, ?_⟩
  intro V sfi fuel
  rfl

/-- The step on the same table with the known subject `?x`: `known_to_unknown`
runs, row 11 gains its neighbour 12, row 12 has none. -/
theorem execute_one_step_example :
    (execute_one_step demo_engine false (fun _ => false) 0 demo_req_late_known).map
        (fun out => (out.1, out.2.step, out.2.result.col_num, out.2.result.result_table))
      = some (true, 2, 2, [11, 12]) := by
  decide

/-! ## UNION dispatch -/

/-- C28. The UNION branch evaluated on the sample cluster (two servers, local server
0, engine thread 1): the parent is registered with the count 2, and
alternative 1, whose subject 10 is local, goes to the fast path.  Alternative
0 has the subject 11, owned by server 1, and its one `send_request` is
addressed to server 0, the index of the alternative, whatever
`start_from_index` answers. -/
theorem union_branch_destination :
    hash_mod demo_engine.cfg 11 demo_engine.cfg.global_num_servers = 1 ∧
    demo_engine.sid = 0 ∧
    ∀ sfi : SPARQLQuery → Bool,
      (union_branch demo_engine sfi {} demo_union_req).map
          (fun out => (out.1.count_of 50,
                       out.2.1.map (fun m => (m.sid, m.tid, m.bundle.pattern_group.patterns)),
                       out.2.2.map (fun q => q.pattern_group.patterns)))
        = some (some 2,
                [(0, 1, [{ subject := 11, predicate := 100, direction := dir_t.OUT,
                           object := -1 }])],
                [[{ subject := 10, predicate := 100, direction := dir_t.OUT,
                    object := -1 }]]) := by
  refine ⟨by decide, by decide, ?_⟩
  intro sfi
  with_unfolding_all rfl

/-! ## Attribute files -/

/-- C30. The attribute loader evaluated on a file with a record whose type field is
5.  The good record `8 20 1 3` alone gives one attribute triple.  With the bad
record `6 20 5` behind it the loader adds a second triple, for vertex 6, which
carries the value left over from the record before; with the bad record in
front, the triple for vertex 6 carries the default value. -/
theorem load_attr_bad_type :
    load_attr demo_dgraph demo_attr_good []
      = some [{ s := 8, a := 20, v := attr_t.int 3 }] ∧
    load_attr demo_dgraph (demo_attr_good ++ demo_attr_bad) []
      = some [{ s := 8, a := 20, v := attr_t.int 3 }, { s := 6, a := 20, v := attr_t.int 3 }] ∧
    load_attr demo_dgraph (demo_attr_bad ++ demo_attr_good) []
      = some [{ s := 6, a := 20, v := attr_t.int 0 }, { s := 8, a := 20, v := attr_t.int 3 }] ∧
    (load_attr_from_allfiles demo_dgraph (fun _ => 0) [demo_attr_good ++ demo_attr_bad]
        (fun _ => [])).map (fun sav => sav 0)
      = some [{ s := 8, a := 20, v := attr_t.int 3 },
              { s := 6, a := 20, v := attr_t.int 3 }] := by
  decide

/-! ## Incremental load -/

/-- C29. The incremental load evaluated on a directory that holds the one
dictionary-extension file `str_normal` and neither `id_` nor `attr_` files,
starting with an empty `id2id`: the call returns 0 and leaves the entry
`5 -> 100` in `id2id`.  With a data file in the directory the table is empty
at the return and the triple `5 20 6` has been inserted as `100 20 6`. -/
theorem dynamic_load_data_leaves_id2id :
    demo_dyn_state.id2id = [] ∧
    (dynamic_load_data demo_dgraph "/w/" (some demo_dir_mappings) demo_dyn_state).map
        (fun out => (out.1, out.2.id2id))
      = some (0, [(5, 100)]) ∧
    (dynamic_load_data demo_dgraph "/w/" (some demo_dir_data) demo_dyn_state).map
        (fun out => (out.1, out.2.id2id, out.2.inserted_out))
      = some (0, [], [{ s := 100, p := 20, o := 6 }]) := by
  decide

/-! ## Sorting and deduplication of triples -/

theorem triple_ext (a b : triple_t) (h1 : a.s = b.s) (h2 : a.p = b.p) (h3 : a.o = b.o) :
    a = b := by
  cases a; cases b; simp_all

theorem lex3_strict (f1 f2 f3 : triple_t → Nat)
    (hext : ∀ a b, f1 a = f1 b → f2 a = f2 b → f3 a = f3 b → a = b) :
    strict_total (fun t1 t2 =>
      decide (f1 t1 < f1 t2) || (decide (f1 t1 = f1 t2) &&
        (decide (f2 t1 < f2 t2) || (decide (f2 t1 = f2 t2) && decide (f3 t1 < f3 t2))))) := by
  refine ⟨?_, ?_, ?_⟩
  · intro a b h
    simp only [Bool.or_eq_true, Bool.and_eq_true, decide_eq_true_eq, Bool.or_eq_false_iff,
      Bool.and_eq_false_iff, decide_eq_false_iff_not] at h ⊢
    omega
  · intro a b c h1 h2
    simp only [Bool.or_eq_true, Bool.and_eq_true, decide_eq_true_eq, Bool.or_eq_false_iff,
      Bool.and_eq_false_iff, decide_eq_false_iff_not] at h1 h2 ⊢
    omega
  · intro a b h1 h2
    simp only [Bool.or_eq_true, Bool.and_eq_true, decide_eq_true_eq, Bool.or_eq_false_iff,
      Bool.and_eq_false_iff, decide_eq_false_iff_not] at h1 h2
    apply hext <;> omega

theorem triple_sort_by_spo_strict : strict_total triple_sort_by_spo :=
  lex3_strict (fun t => t.s) (fun t => t.p) (fun t => t.o)
    (fun a b h1 h2 h3 => triple_ext a b h1 h2 h3)

theorem triple_sort_by_ops_strict : strict_total triple_sort_by_ops :=
  lex3_strict (fun t => t.o) (fun t => t.p) (fun t => t.s)
    (fun a b h1 h2 h3 => triple_ext a b h3 h2 h1)

theorem triple_sort_by_pso_strict : strict_total triple_sort_by_pso :=
  lex3_strict (fun t => t.p) (fun t => t.s) (fun t => t.o)
    (fun a b h1 h2 h3 => triple_ext a b h2 h1 h3)

theorem triple_sort_by_pos_strict : strict_total triple_sort_by_pos :=
  lex3_strict (fun t => t.p) (fun t => t.o) (fun t => t.s)
    (fun a b h1 h2 h3 => triple_ext a b h3 h1 h2)

theorem triple_insert_perm (lt : triple_t → triple_t → Bool) (x : triple_t)
    (l : List triple_t) : (triple_insert lt x l).Perm (x :: l) := by
  induction l with
  | nil => exact List.Perm.refl _
  | cons y ys ih =>
    unfold triple_insert
    split
    · exact ((List.Perm.cons y ih).trans (List.Perm.swap x y ys))
    · exact List.Perm.refl _

theorem sort_triples_perm (lt : triple_t → triple_t → Bool) (l : List triple_t) :
    (sort_triples lt l).Perm l := by
  induction l with
  | nil => exact List.Perm.refl _
  | cons x xs ih =>
    unfold sort_triples
    exact (triple_insert_perm lt x _).trans (List.Perm.cons x ih)

theorem triple_insert_sorted (lt : triple_t → triple_t → Bool) (hlt : strict_total lt)
    (x : triple_t) (l : List triple_t)
    (hl : l.Pairwise (fun a b => lt b a = false)) :
    (triple_insert lt x l).Pairwise (fun a b => lt b a = false) := by
  induction l with
  | nil => simp [triple_insert]
  | cons y ys ih =>
    rw [List.pairwise_cons] at hl
    unfold triple_insert
    split
    · rename_i hyx
      rw [List.pairwise_cons]
      refine ⟨?_, ih hl.2⟩
      intro z hz
      rcases (List.mem_cons.1 ((triple_insert_perm lt x ys).subset hz)) with h | h
      · rw [h]; exact hlt.1 y x hyx
      · exact hl.1 z h
    · rename_i hyx
      have hyx2 : lt y x = false := by simpa using hyx
      rw [List.pairwise_cons, List.pairwise_cons]
      refine ⟨?_, hl.1, hl.2⟩
      intro z hz
      rcases List.mem_cons.1 hz with h | h
      · rw [h]; exact hyx2
      · exact hlt.2.1 x y z hyx2 (hl.1 z h)

theorem sort_triples_sorted (lt : triple_t → triple_t → Bool) (hlt : strict_total lt)
    (l : List triple_t) :
    (sort_triples lt l).Pairwise (fun a b => lt b a = false) := by
  induction l with
  | nil => simp [sort_triples]
  | cons x xs ih =>
    unfold sort_triples
    exact triple_insert_sorted lt hlt x _ ih

theorem dedup_adjacent_snoc (l : List triple_t) (x : triple_t) :
    dedup_adjacent (l ++ [x])
      = if (dedup_adjacent l).getLast? = some x then dedup_adjacent l
        else dedup_adjacent l ++ [x] := by
  simp [dedup_adjacent, List.foldl_append]

theorem dedup_adjacent_getLast (l : List triple_t) :
    (dedup_adjacent l).getLast? = l.getLast? := by
  induction l using List.reverseRecOn with
  | nil => rfl
  | append_singleton l x ih =>
    rw [dedup_adjacent_snoc]
    split
    · rename_i h
      rw [h]; simp
    · simp

theorem dedup_adjacent_mem (l : List triple_t) (x : triple_t) :
    x ∈ dedup_adjacent l ↔ x ∈ l := by
  induction l using List.reverseRecOn with
  | nil => simp [dedup_adjacent]
  | append_singleton l y ih =>
    rw [dedup_adjacent_snoc]
    split
    · rename_i h
      rw [dedup_adjacent_getLast] at h
      rw [ih, List.mem_append, List.mem_singleton]
      constructor
      · intro h1; exact Or.inl h1
      · intro h1
        rcases h1 with h1 | h1
        · exact h1
        · rw [h1]; exact List.mem_of_getLast?_eq_some h
    · rw [List.mem_append, List.mem_append, ih]

theorem sorted_le_last (lt : triple_t → triple_t → Bool) (hlt : strict_total lt)
    (l : List triple_t) (hl : l.Pairwise (fun a b => lt b a = false))
    (a y : triple_t) (ha : a ∈ l) (hy : l.getLast? = some y) : lt y a = false := by
  induction l using List.reverseRecOn with
  | nil => simp at ha
  | append_singleton l z _ =>
    rw [List.getLast?_concat, Option.some.injEq] at hy
    subst hy
    rw [List.pairwise_append] at hl
    rcases List.mem_append.1 ha with h | h
    · exact hl.2.2 a h z (List.mem_singleton_self _)
    · rw [List.mem_singleton.1 h]
      cases hzz : lt z z with
      | false => rfl
      | true => have := hlt.1 z z hzz; rw [hzz] at this; cases this

theorem dedup_adjacent_sorted (lt : triple_t → triple_t → Bool) (hlt : strict_total lt)
    (l : List triple_t) (hl : l.Pairwise (fun a b => lt b a = false)) :
    (dedup_adjacent l).Pairwise (fun a b => lt a b = true) := by
  induction l using List.reverseRecOn with
  | nil => simp [dedup_adjacent]
  | append_singleton l x ih =>
    rw [List.pairwise_append] at hl
    rw [dedup_adjacent_snoc]
    split
    · exact ih hl.1
    · rename_i hne
      rw [dedup_adjacent_getLast] at hne
      rw [List.pairwise_append]
      refine ⟨ih hl.1, List.pairwise_singleton _ _, ?_⟩
      intro a ha b hb
      rw [List.mem_singleton.1 hb]
      have ha2 : a ∈ l := (dedup_adjacent_mem l a).1 ha
      have h1 : lt x a = false := hl.2.2 a ha2 x (List.mem_singleton_self _)
      cases hax : lt a x with
      | true => rfl
      | false =>
        exfalso
        have heq : a = x := hlt.2.2 a x hax h1
        subst heq
        cases hlast : l.getLast? with
        | none =>
          rw [List.getLast?_eq_none_iff] at hlast
          rw [hlast] at ha2
          simp at ha2
        | some y =>
          have h2 : lt y a = false := sorted_le_last lt hlt l hl.1 a y ha2 hlast
          have h3 : lt a y = false :=
            hl.2.2 y (List.mem_of_getLast?_eq_some hlast) a (List.mem_singleton_self _)
          have : y = a := hlt.2.2 y a h2 h3
          rw [this] at hlast
          exact hne hlast

theorem pairwise_lt_nodup (lt : triple_t → triple_t → Bool) (hlt : strict_total lt)
    (l : List triple_t) (hl : l.Pairwise (fun a b => lt a b = true)) : l.Nodup := by
  unfold List.Nodup
  apply List.Pairwise.imp _ hl
  intro a b hab heq
  subst heq
  have := hlt.1 a a hab
  rw [hab] at this
  cases this


theorem take_set_self {α : Type} (l : List α) (n : Nat) (a : α) :
    (l.set n a).take n = l.take n := by
  induction l generalizing n with
  | nil => simp
  | cons x xs ih =>
    cases n with
    | zero => simp
    | succ n => simp [ih]

theorem dedup_loop_eq (orig : List triple_t) :
    ∀ (k i : Nat) (arr : List triple_t) (n : Nat),
      i + k = orig.length → 1 ≤ i →
      arr.length = orig.length → n ≤ i → 1 ≤ n →
      arr.take n = dedup_adjacent (orig.take i) →
      (∀ j, i - 1 ≤ j → arr[j]? = orig[j]?) →
      ∃ r, (List.range' i k).foldlM
          (fun (st : List triple_t × Nat) i => do
            let a ← st.1[i]?
            let b ← st.1[i - 1]?
            if a.s = b.s ∧ a.p = b.p ∧ a.o = b.o then pure st
            else pure (st.1.set st.2 a, st.2 + 1))
          (arr, n) = some r ∧ r.1.take r.2 = dedup_adjacent orig := by
  intro k
  induction k with
  | zero =>
    intro i arr n hik _ _ _ _ htake _
    refine ⟨(arr, n), rfl, ?_⟩
    have : i = orig.length := by omega
    rw [htake, this, List.take_length]
  | succ k ih =>
    intro i arr n hik hi hlen hn hn1 htake hget
    have hi2 : i < orig.length := by omega
    have h1 : arr[i]? = some orig[i] := by
      rw [hget i (by omega)]; exact List.getElem?_eq_getElem hi2
    have hi3 : i - 1 < orig.length := by omega
    have h2 : arr[i - 1]? = some orig[i - 1] := by
      rw [hget (i - 1) (by omega)]; exact List.getElem?_eq_getElem hi3
    have hlast : (orig.take i).getLast? = some orig[i - 1] := by
      rw [List.getLast?_take, if_neg (by omega), List.getElem?_eq_getElem hi3]
      rfl
    have hsucc : orig.take (i + 1) = orig.take i ++ [orig[i]] := by
      rw [List.take_succ, List.getElem?_eq_getElem hi2]
      rfl
    rw [List.range'_succ, List.foldlM_cons]
    simp only [h1, h2, Option.bind_eq_bind, Option.some_bind, Option.pure_def]
    by_cases heq : orig[i] = orig[i - 1]
    · have hc : orig[i].s = orig[i - 1].s ∧ orig[i].p = orig[i - 1].p
          ∧ orig[i].o = orig[i - 1].o := by rw [heq]; exact ⟨rfl, rfl, rfl⟩
      rw [if_pos hc]
      simp only [Option.some_bind]
      apply ih (i + 1) arr n (by omega) (by omega) hlen (by omega) hn1
      · rw [hsucc, dedup_adjacent_snoc, dedup_adjacent_getLast, hlast, heq, if_pos rfl]
        exact htake
      · intro j hj
        exact hget j (by omega)
    · have hc : ¬ (orig[i].s = orig[i - 1].s ∧ orig[i].p = orig[i - 1].p
          ∧ orig[i].o = orig[i - 1].o) := by
        intro h
        exact heq (triple_ext _ _ h.1 h.2.1 h.2.2)
      rw [if_neg hc]
      simp only [Option.some_bind]
      apply ih (i + 1) (arr.set n orig[i]) (n + 1) (by omega) (by omega)
        (by rw [List.length_set]; exact hlen) (by omega) (by omega)
      · have hn2 : n < arr.length := by omega
        rw [List.take_succ, take_set_self, List.getElem?_set, if_pos rfl, if_pos hn2, htake,
          hsucc, dedup_adjacent_snoc, dedup_adjacent_getLast, hlast,
          if_neg (by intro h; exact heq (Option.some.inj h).symm)]
        rfl
      · intro j hj
        rw [List.getElem?_set]
        by_cases hnj : n = j
        · have : j = i := by omega
          subst this
          rw [if_pos hnj, if_pos (by omega), List.getElem?_eq_getElem hi2]
        · rw [if_neg hnj]
          exact hget j (by omega)

theorem dedup_triples_eq (triples : List triple_t) :
    dedup_triples triples = some (dedup_adjacent triples) := by
  unfold dedup_triples
  by_cases h : triples.length ≤ 1
  · rw [if_pos h]
    match triples, h with
    | [], _ => rfl
    | [a], _ => rfl
    | _ :: _ :: _, h => simp at h
  · rw [if_neg h]
    match triples, h with
    | [], h => simp at h
    | a :: rest, h =>
      obtain ⟨r, hr, htake⟩ := dedup_loop_eq (a :: rest) ((a :: rest).length - 1) 1
        (a :: rest) 1 (by simp; omega) (by omega) rfl (by omega) (by omega)
        (by simp [dedup_adjacent]) (fun j _ => rfl)
      simp only [Option.bind_eq_bind, Option.pure_def] at hr ⊢
      rw [hr]
      simp only [Option.some_bind, htake]

/-! ## `aggregate_data` -/

theorem aggregate_part_eq (g : DGraph) (tid : Nat) (part : List triple_t)
    (acc : List triple_t × List triple_t) :
    part.foldl
      (fun acc t =>
        let acc :=
          if (hash_mod g.cfg t.s g.cfg.global_num_servers : Int) = g.sid then
            if t.s % g.cfg.global_num_engines = tid then (acc.1 ++ [t], acc.2) else acc
          else acc
        if (hash_mod g.cfg t.o g.cfg.global_num_servers : Int) = g.sid then
          if t.o % g.cfg.global_num_engines = tid then (acc.1, acc.2 ++ [t]) else acc
        else acc)
      acc
      = (acc.1 ++ part.filter (owns_out g tid), acc.2 ++ part.filter (owns_in g tid)) := by
  induction part generalizing acc with
  | nil => simp
  | cons t rest ih =>
    rw [List.foldl_cons, ih]
    by_cases h1 : (hash_mod g.cfg t.s g.cfg.global_num_servers : Int) = g.sid <;>
    by_cases h2 : t.s % g.cfg.global_num_engines = tid <;>
    by_cases h3 : (hash_mod g.cfg t.o g.cfg.global_num_servers : Int) = g.sid <;>
    by_cases h4 : t.o % g.cfg.global_num_engines = tid <;>
    simp [owns_out, owns_in, h1, h2, h3, h4]

theorem aggregate_scan_eq (g : DGraph) (tid : Nat) (partitions : List (List triple_t))
    (init : List triple_t × List triple_t) :
    aggregate_scan g tid partitions init
      = (init.1 ++ partitions.flatten.filter (owns_out g tid),
         init.2 ++ partitions.flatten.filter (owns_in g tid)) := by
  unfold aggregate_scan
  induction partitions generalizing init with
  | nil => simp
  | cons part rest ih =>
    rw [List.foldl_cons, aggregate_part_eq, ih]
    simp [List.filter_append]

theorem aggregate_thread_eq (g : DGraph) (V : Bool) (partitions : List (List triple_t))
    (tid : Nat) :
    aggregate_thread g V partitions tid
      = some (dedup_adjacent (sort_triples (order_out V)
                (partitions.flatten.filter (owns_out g tid))),
              dedup_adjacent (sort_triples (order_in V)
                (partitions.flatten.filter (owns_in g tid)))) := by
  unfold aggregate_thread
  simp only [aggregate_scan_eq, List.nil_append, dedup_triples_eq, Option.bind_eq_bind,
    Option.some_bind, Option.pure_def]
  cases V <;> rfl

theorem order_out_strict (V : Bool) : strict_total (order_out V) := by
  cases V
  · exact triple_sort_by_pso_strict
  · exact triple_sort_by_spo_strict

theorem order_in_strict (V : Bool) : strict_total (order_in V) := by
  cases V
  · exact triple_sort_by_pos_strict
  · exact triple_sort_by_ops_strict

theorem dedup_sort_count (lt : triple_t → triple_t → Bool) (hlt : strict_total lt)
    (l : List triple_t) (x : triple_t) :
    (dedup_adjacent (sort_triples lt l)).count x = if x ∈ l then 1 else 0 := by
  have hs := dedup_adjacent_sorted lt hlt _ (sort_triples_sorted lt hlt l)
  have hnd := pairwise_lt_nodup lt hlt _ hs
  have hmem : x ∈ dedup_adjacent (sort_triples lt l) ↔ x ∈ l := by
    rw [dedup_adjacent_mem]
    exact (sort_triples_perm lt l).mem_iff
  by_cases hx : x ∈ l
  · rw [if_pos hx]
    exact List.count_eq_one_of_mem hnd (hmem.2 hx)
  · rw [if_neg hx]
    exact List.count_eq_zero_of_not_mem (fun h => hx (hmem.1 h))

/-- C23. `aggregate_data` on a server with `M = global_num_engines` threads returns
a pair of lists for every thread `tid < M`.  A triple occurs in `triple_pso[tid]`
exactly once when it is staged in some partition, its subject belongs to this
server and `s % M = tid`, and not at all otherwise, however many times it is
staged; likewise for `triple_pos[tid]` with the object.  Both lists are
strictly increasing in the store ordering, so no two of their triples are
equal. -/
theorem aggregate_data_spec (g : DGraph) (V : Bool) (partitions : List (List triple_t)) :
    ∃ out, aggregate_data g V partitions = some out ∧
      out.length = g.cfg.global_num_engines ∧
      ∀ tid, tid < g.cfg.global_num_engines →
        ∃ pso pos, out[tid]? = some (pso, pos) ∧
          (∀ x, pso.count x =
            if x ∈ partitions.flatten
                ∧ (hash_mod g.cfg x.s g.cfg.global_num_servers : Int) = g.sid
                ∧ x.s % g.cfg.global_num_engines = tid then 1 else 0) ∧
          (∀ x, pos.count x =
            if x ∈ partitions.flatten
                ∧ (hash_mod g.cfg x.o g.cfg.global_num_servers : Int) = g.sid
                ∧ x.o % g.cfg.global_num_engines = tid then 1 else 0) ∧
          pso.Pairwise (fun a b => order_out V a b = true) ∧
          pos.Pairwise (fun a b => order_in V a b = true) := by
  have hmap := mapM_eq_some_map (aggregate_thread g V partitions)
    (fun tid => (dedup_adjacent (sort_triples (order_out V)
                (partitions.flatten.filter (owns_out g tid))),
              dedup_adjacent (sort_triples (order_in V)
                (partitions.flatten.filter (owns_in g tid)))))
    (List.range g.cfg.global_num_engines) (fun tid _ => aggregate_thread_eq g V partitions tid)
  refine ⟨_, hmap, by simp, ?_⟩
  intro tid htid
  refine ⟨dedup_adjacent (sort_triples (order_out V)
      (partitions.flatten.filter (owns_out g tid))),
    dedup_adjacent (sort_triples (order_in V)
      (partitions.flatten.filter (owns_in g tid))), ?_, ?_, ?_, ?_, ?_⟩
  · rw [List.getElem?_map, List.getElem?_range htid]
    rfl
  · intro x
    rw [dedup_sort_count _ (order_out_strict V)]
    apply if_congr _ rfl rfl
    rw [List.mem_filter]
    simp only [owns_out, Bool.and_eq_true, decide_eq_true_eq]
  · intro x
    rw [dedup_sort_count _ (order_in_strict V)]
    apply if_congr _ rfl rfl
    rw [List.mem_filter]
    simp only [owns_in, Bool.and_eq_true, decide_eq_true_eq]
  · exact dedup_adjacent_sorted _ (order_out_strict V) _
      (sort_triples_sorted _ (order_out_strict V) _)
  · exact dedup_adjacent_sorted _ (order_in_strict V) _
      (sort_triples_sorted _ (order_in_strict V) _)

theorem aggregate_data_spec_witness :
    ∃ out, aggregate_data demo_dgraph false demo_partitions = some out ∧
      out.length = 2 ∧
      ∃ pso pos, out[0]? = some (pso, pos) ∧
        pso.count { s := 10, p := 100, o := 11 } = 1 ∧
        pos.count { s := 10, p := 100, o := 11 } = 0 := by
  obtain ⟨out, h, hl, hall⟩ := aggregate_data_spec demo_dgraph false demo_partitions
  obtain ⟨pso, pos, hg, hc1, hc2, _, _⟩ := hall 0 (by decide)
  refine ⟨out, h, hl, pso, pos, hg, ?_, ?_⟩
  · rw [hc1]; decide
  · rw [hc2]; decide

/-- The aggregation of the sample partitions on server 0 with three threads:
`(10,100,11)`, staged twice, is filed once, in the out-edge list of thread
`10 % 3 = 1`; `(11,100,12)` is filed on its IN side only. -/
theorem aggregate_data_example :
    aggregate_data { demo_dgraph with cfg := { demo_cfg with global_num_engines := 3 } }
        false demo_partitions
      = some [([{ s := 12, p := 100, o := 10 }],
               [{ s := 10, p := 100, o := 12 }, { s := 11, p := 100, o := 12 }]),
              ([{ s := 10, p := 100, o := 11 }, { s := 10, p := 100, o := 12 }],
               [{ s := 12, p := 100, o := 10 }]),
              ([], [])] := by
  decide

/-! ## Exchange-load -/

theorem sum_range_update (f : Nat → Nat) (M tid v : Nat) (h : tid < M) :
    ((List.range M).map (fun t => if t = tid then v else f t)).sum + f tid
      = ((List.range M).map f).sum + v := by
  induction M with
  | zero => omega
  | succ M ih =>
    rw [List.range_succ, List.map_append, List.map_append, List.sum_append, List.sum_append]
    simp only [List.map_cons, List.map_nil, List.sum_cons, List.sum_nil, Nat.add_zero]
    by_cases hM : tid = M
    · subst hM
      have hsame : (List.range tid).map (fun t => if t = tid then v else f t)
          = (List.range tid).map f := by
        apply List.map_congr_left
        intro t ht
        have : t < tid := List.mem_range.1 ht
        rw [if_neg (by omega)]
      rw [hsame, if_pos rfl]
      omega
    · have := ih (by omega)
      rw [if_neg (fun h2 => hM h2.symm)]
      omega

theorem sum_range_ge (f : Nat → Nat) (M tid : Nat) (h : tid < M) :
    f tid ≤ ((List.range M).map f).sum := by
  have := sum_range_update f M tid 0 h
  omega

theorem staged_total_set_buf (mu : List triple_t → Nat) (M : Nat) (st : Staging)
    (tid dst : Nat) (l : List triple_t) (kvs : Nat → List triple_t) (htid : tid < M)
    (k : Nat) :
    staged_total mu M
        { buf := fun t d => if t = tid ∧ d = dst then l else st.buf t d, kvs := kvs } k
      + (if k = dst then mu (st.buf tid dst) else 0)
      = mu (kvs k) + ((List.range M).map (fun t => mu (st.buf t k))).sum
        + (if k = dst then mu l else 0) := by
  unfold staged_total
  by_cases hk : k = dst
  · subst hk
    simp only [and_true, if_true]
    have h1 : (fun t => mu (if t = tid then l else st.buf t k))
        = (fun t => if t = tid then mu l else mu (st.buf t k)) := by
      funext t
      split <;> rfl
    rw [h1]
    have h2 : ((List.range M).map (fun t => if t = tid then mu l else mu (st.buf t k))).sum
        + mu (st.buf tid k)
        = ((List.range M).map (fun t => mu (st.buf t k))).sum + mu l :=
      sum_range_update (fun t => mu (st.buf t k)) M tid (mu l) htid
    omega
  · have h1 : (fun t => mu (if t = tid ∧ k = dst then l else st.buf t k))
        = (fun t => mu (st.buf t k)) := by
      funext t
      rw [if_neg (fun h => hk h.2)]
    simp only [h1, if_neg hk]

theorem floor_pos (a n : Nat) (h : n ≠ 0) : floor a n = some (a - a % n) := by
  simp [floor, h]

theorem flush_triples_eq (g : DGraph) (st : Staging) (tid dst b c : Nat)
    (hb : buf_sz g = some b) (hc : kvs_sz g g.cfg.global_num_servers = some c)
    (htid : tid < g.cfg.global_num_engines)
    (hcap : staged_total List.length g.cfg.global_num_engines st dst * 3 * g.sizeof_sid ≤ c) :
    flush_triples g st tid dst
      = some { buf := fun t d => if t = tid ∧ d = dst then [] else st.buf t d
               kvs := fun d => if d = dst then st.kvs d ++ st.buf tid dst else st.kvs d } := by
  have hge := sum_range_ge (fun t => (st.buf t dst).length) g.cfg.global_num_engines tid htid
  have hle : ((st.kvs dst).length * 3 + (st.buf tid dst).length * 3) * g.sizeof_sid ≤ c := by
    unfold staged_total at hcap
    simp only at hge
    have h1 : (st.kvs dst).length * 3 + (st.buf tid dst).length * 3
        ≤ ((st.kvs dst).length + ((List.range g.cfg.global_num_engines).map
            (fun t => (st.buf t dst).length)).sum) * 3 := by omega
    exact le_trans (Nat.mul_le_mul_right _ h1) hcap
  unfold flush_triples
  simp only [hb, hc, Option.bind_eq_bind, Option.some_bind, Option.pure_def]
  rw [if_neg (by omega)]

theorem flush_triples_total (mu : List triple_t → Nat)
    (hmu : ∀ a b, mu (a ++ b) = mu a + mu b) (M : Nat) (st : Staging) (tid dst : Nat)
    (htid : tid < M) (k : Nat) :
    staged_total mu M
        { buf := fun t d => if t = tid ∧ d = dst then [] else st.buf t d
          kvs := fun d => if d = dst then st.kvs d ++ st.buf tid dst else st.kvs d } k
      = staged_total mu M st k := by
  have h0 : mu [] = 0 := by
    have := hmu [] []
    simp only [List.append_nil] at this
    omega
  have h := staged_total_set_buf mu M st tid dst []
    (fun d => if d = dst then st.kvs d ++ st.buf tid dst else st.kvs d) htid k
  by_cases hk : k = dst
  · subst hk
    simp only [if_true, hmu, h0] at h
    unfold staged_total at h ⊢
    omega
  · simp only [if_neg hk] at h
    unfold staged_total at h ⊢
    omega

theorem send_triple_eq (g : DGraph) (st : Staging) (tid dst b c : Nat) (s p o : sid_t)
    (hb : buf_sz g = some b) (hb3 : 3 * g.sizeof_sid ≤ b)
    (hc : kvs_sz g g.cfg.global_num_servers = some c)
    (htid : tid < g.cfg.global_num_engines)
    (hcap : staged_total List.length g.cfg.global_num_engines st dst * 3 * g.sizeof_sid ≤ c) :
    ∃ st2, send_triple g st tid dst s p o = some st2 ∧
      ∀ (mu : List triple_t → Nat), (∀ a b, mu (a ++ b) = mu a + mu b) → ∀ k,
        staged_total mu g.cfg.global_num_engines st2 k
          = staged_total mu g.cfg.global_num_engines st k
            + (if k = dst then mu [{ s := s, p := p, o := o }] else 0) := by
  have hadd : ∀ (st1 : Staging),
      (∀ (mu : List triple_t → Nat), (∀ a b, mu (a ++ b) = mu a + mu b) → ∀ k,
        staged_total mu g.cfg.global_num_engines st1 k
          = staged_total mu g.cfg.global_num_engines st k) →
      ∀ (mu : List triple_t → Nat), (∀ a b, mu (a ++ b) = mu a + mu b) → ∀ k,
        staged_total mu g.cfg.global_num_engines
          { st1 with
            buf := fun t d =>
              if t = tid ∧ d = dst then st1.buf t d ++ [{ s := s, p := p, o := o }]
              else st1.buf t d } k
          = staged_total mu g.cfg.global_num_engines st k
            + (if k = dst then mu [{ s := s, p := p, o := o }] else 0) := by
    intro st1 h1 mu hmu k
    have h := staged_total_set_buf mu g.cfg.global_num_engines st1 tid dst
      (st1.buf tid dst ++ [{ s := s, p := p, o := o }]) st1.kvs htid k
    have h2 := h1 mu hmu k
    have hfun : (fun t d => if t = tid ∧ d = dst
          then st1.buf t d ++ [{ s := s, p := p, o := o }] else st1.buf t d)
        = (fun t d => if t = tid ∧ d = dst
          then st1.buf tid dst ++ [{ s := s, p := p, o := o }] else st1.buf t d) := by
      funext t d
      by_cases htd : t = tid ∧ d = dst
      · rw [if_pos htd, if_pos htd, htd.1, htd.2]
      · rw [if_neg htd, if_neg htd]
    rw [hfun]
    by_cases hk : k = dst
    · subst hk
      simp only [if_true, hmu] at h ⊢
      unfold staged_total at h h2 ⊢
      omega
    · simp only [if_neg hk] at h ⊢
      unfold staged_total at h h2 ⊢
      omega
  unfold send_triple
  simp only [hb, Option.bind_eq_bind, Option.some_bind, Option.pure_def]
  by_cases hfull : ((st.buf tid dst).length * 3 + 3) * g.sizeof_sid > b
  · rw [if_pos hfull, flush_triples_eq g st tid dst b c hb hc htid hcap]
    simp only [Option.some_bind, and_self, if_true, List.length_nil, ne_eq,
      not_true_eq_false, if_false]
    rw [if_neg (by omega)]
    refine ⟨_, rfl, ?_⟩
    exact hadd _ (fun mu hmu k => flush_triples_total mu hmu _ st tid dst htid k)
  · rw [if_neg hfull]
    rw [if_neg hfull]
    refine ⟨_, rfl, ?_⟩
    exact hadd st (fun _ _ _ => rfl)

theorem mu_nil (mu : List triple_t → Nat) (hmu : ∀ a b, mu (a ++ b) = mu a + mu b) :
    mu [] = 0 := by
  have := hmu [] []
  simp only [List.append_nil] at this
  omega

theorem mu_filter_cons (mu : List triple_t → Nat) (hmu : ∀ a b, mu (a ++ b) = mu a + mu b)
    (p : triple_t → Bool) (x : triple_t) (rest : List triple_t) :
    mu ((x :: rest).filter p) = (if p x = true then mu [x] else 0) + mu (rest.filter p) := by
  by_cases h : p x = true
  · rw [List.filter_cons_of_pos h, if_pos h]
    exact hmu [x] _
  · rw [List.filter_cons_of_neg h, if_neg h, Nat.zero_add]

theorem load_data_step_eq (g : DGraph) (st : Staging) (tid b c : Nat) (x : triple_t)
    (hb : buf_sz g = some b) (hb3 : 3 * g.sizeof_sid ≤ b)
    (hc : kvs_sz g g.cfg.global_num_servers = some c)
    (htid : tid < g.cfg.global_num_engines)
    (hcap : ∀ k, staged_total List.length g.cfg.global_num_engines st k * 3 * g.sizeof_sid ≤ c) :
    ∃ st2,
      (if hash_mod g.cfg x.s g.cfg.global_num_servers
          = hash_mod g.cfg x.o g.cfg.global_num_servers then
        send_triple g st tid (hash_mod g.cfg x.s g.cfg.global_num_servers) x.s x.p x.o
      else
        (send_triple g st tid (hash_mod g.cfg x.s g.cfg.global_num_servers) x.s x.p x.o).bind
          (fun st => send_triple g st tid (hash_mod g.cfg x.o g.cfg.global_num_servers)
            x.s x.p x.o)) = some st2 ∧
      ∀ (mu : List triple_t → Nat), (∀ a b, mu (a ++ b) = mu a + mu b) → ∀ k,
        staged_total mu g.cfg.global_num_engines st2 k
          = staged_total mu g.cfg.global_num_engines st k
            + (if sent_to g.cfg k x = true then mu [x] else 0) := by
  obtain ⟨st1, h1, ht1⟩ := send_triple_eq g st tid
    (hash_mod g.cfg x.s g.cfg.global_num_servers) b c x.s x.p x.o hb hb3 hc htid (hcap _)
  by_cases hso : hash_mod g.cfg x.s g.cfg.global_num_servers
      = hash_mod g.cfg x.o g.cfg.global_num_servers
  · rw [if_pos hso]
    refine ⟨st1, h1, ?_⟩
    intro mu hmu k
    rw [ht1 mu hmu k]
    congr 1
    by_cases hk : k = hash_mod g.cfg x.s g.cfg.global_num_servers
    · have : sent_to g.cfg k x = true := by simp [sent_to, hk]
      rw [if_pos hk, if_pos this]
    · have : ¬ sent_to g.cfg k x = true := by
        simp only [sent_to, Bool.or_eq_true, decide_eq_true_eq, ← hso]
        intro h
        rcases h with h | h <;> exact hk h.symm
      rw [if_neg hk, if_neg this]
  · rw [if_neg hso, h1, Option.some_bind]
    have hlen := ht1 List.length (fun a b => List.length_append a b)
      (hash_mod g.cfg x.o g.cfg.global_num_servers)
    rw [if_neg (fun h => hso h.symm), Nat.add_zero] at hlen
    obtain ⟨st2, h2, ht2⟩ := send_triple_eq g st1 tid
      (hash_mod g.cfg x.o g.cfg.global_num_servers) b c x.s x.p x.o hb hb3 hc htid
      (by rw [hlen]; exact hcap _)
    refine ⟨st2, h2, ?_⟩
    intro mu hmu k
    rw [ht2 mu hmu k, ht1 mu hmu k, Nat.add_assoc]
    congr 1
    by_cases hk1 : k = hash_mod g.cfg x.s g.cfg.global_num_servers
    · have hk2 : ¬ k = hash_mod g.cfg x.o g.cfg.global_num_servers := by
        rw [hk1]; exact hso
      have : sent_to g.cfg k x = true := by simp [sent_to, hk1]
      rw [if_pos hk1, if_neg hk2, if_pos this]
      rfl
    · by_cases hk2 : k = hash_mod g.cfg x.o g.cfg.global_num_servers
      · have : sent_to g.cfg k x = true := by simp [sent_to, hk2]
        rw [if_neg hk1, if_pos hk2, if_pos this]
        simp
      · have : ¬ sent_to g.cfg k x = true := by
          simp only [sent_to, Bool.or_eq_true, decide_eq_true_eq]
          intro h
          rcases h with h | h
          · exact hk1 h.symm
          · exact hk2 h.symm
        rw [if_neg hk1, if_neg hk2, if_neg this]

theorem load_data_file_eq (g : DGraph) (tid b c : Nat)
    (hb : buf_sz g = some b) (hb3 : 3 * g.sizeof_sid ≤ b)
    (hc : kvs_sz g g.cfg.global_num_servers = some c)
    (htid : tid < g.cfg.global_num_engines) (file : List triple_t) :
    ∀ (st : Staging),
      (∀ k, (staged_total List.length g.cfg.global_num_engines st k
          + (file.filter (sent_to g.cfg k)).length) * 3 * g.sizeof_sid ≤ c) →
      ∃ st2, load_data_file g tid file st = some st2 ∧
        ∀ (mu : List triple_t → Nat), (∀ a b, mu (a ++ b) = mu a + mu b) → ∀ k,
          staged_total mu g.cfg.global_num_engines st2 k
            = staged_total mu g.cfg.global_num_engines st k
              + mu (file.filter (sent_to g.cfg k)) := by
  induction file with
  | nil =>
    intro st _
    refine ⟨st, rfl, ?_⟩
    intro mu hmu k
    rw [List.filter_nil, mu_nil mu hmu, Nat.add_zero]
  | cons x rest ih =>
    intro st hcap
    have hcap1 : ∀ k, staged_total List.length g.cfg.global_num_engines st k * 3
        * g.sizeof_sid ≤ c := by
      intro k
      refine le_trans ?_ (hcap k)
      apply Nat.mul_le_mul_right
      omega
    obtain ⟨st1, h1, ht1⟩ := load_data_step_eq g st tid b c x hb hb3 hc htid hcap1
    have hcap2 : ∀ k, (staged_total List.length g.cfg.global_num_engines st1 k
          + (rest.filter (sent_to g.cfg k)).length) * 3 * g.sizeof_sid ≤ c := by
      intro k
      have h := ht1 List.length (fun a b => List.length_append a b) k
      have h3 := mu_filter_cons List.length (fun a b => List.length_append a b)
        (sent_to g.cfg k) x rest
      have h4 := hcap k
      rw [h3] at h4
      rw [h]
      have : staged_total List.length g.cfg.global_num_engines st k
          + (if sent_to g.cfg k x = true then [x].length else 0)
          + (rest.filter (sent_to g.cfg k)).length
          = staged_total List.length g.cfg.global_num_engines st k
          + ((if sent_to g.cfg k x = true then [x].length else 0)
          + (rest.filter (sent_to g.cfg k)).length) := by omega
      rw [this]
      exact h4
    obtain ⟨st2, h2, ht2⟩ := ih st1 hcap2
    refine ⟨st2, ?_, ?_⟩
    · unfold load_data_file at h2 ⊢
      rw [List.foldlM_cons]
      simp only [Option.bind_eq_bind] at h1 h2 ⊢
      rw [h1, Option.some_bind]
      exact h2
    · intro mu hmu k
      rw [ht2 mu hmu k, ht1 mu hmu k, mu_filter_cons mu hmu, Nat.add_assoc]

theorem load_files_eq (g : DGraph) (thread_of : Nat → Nat) (files : List (List triple_t))
    (b c : Nat) (hb : buf_sz g = some b) (hb3 : 3 * g.sizeof_sid ≤ b)
    (hc : kvs_sz g g.cfg.global_num_servers = some c)
    (hth : ∀ i, thread_of i < g.cfg.global_num_engines) (l : List Nat)
    (hl : ∀ i ∈ l, i < files.length) :
    ∀ (st : Staging),
      (∀ k, (staged_total List.length g.cfg.global_num_engines st k
          + (((l.filter (fun i =>
                decide (((i % g.cfg.global_num_servers : Nat) : Int) = g.sid))).flatMap
              (fun i => files.getD i [])).filter (sent_to g.cfg k)).length)
            * 3 * g.sizeof_sid ≤ c) →
      ∃ st2, l.foldlM
          (fun st i =>
            if ((i % g.cfg.global_num_servers : Nat) : Int) ≠ g.sid then pure st
            else do
              let file ← files[i]?
              load_data_file g (thread_of i) file st)
          st = some st2 ∧
        ∀ (mu : List triple_t → Nat), (∀ a b, mu (a ++ b) = mu a + mu b) → ∀ k,
          staged_total mu g.cfg.global_num_engines st2 k
            = staged_total mu g.cfg.global_num_engines st k
              + mu (((l.filter (fun i =>
                  decide (((i % g.cfg.global_num_servers : Nat) : Int) = g.sid))).flatMap
                (fun i => files.getD i [])).filter (sent_to g.cfg k)) := by
  induction l with
  | nil =>
    intro st _
    refine ⟨st, rfl, ?_⟩
    intro mu hmu k
    simp [mu_nil mu hmu]
  | cons i l ih =>
    intro st hcap
    have hi : i < files.length := hl i (List.mem_cons_self _ _)
    have hl2 : ∀ j ∈ l, j < files.length := fun j hj => hl j (List.mem_cons_of_mem _ hj)
    rw [List.foldlM_cons]
    by_cases hown : ((i % g.cfg.global_num_servers : Nat) : Int) = g.sid
    · have hfilt : (i :: l).filter (fun i =>
            decide (((i % g.cfg.global_num_servers : Nat) : Int) = g.sid))
          = i :: l.filter (fun i =>
            decide (((i % g.cfg.global_num_servers : Nat) : Int) = g.sid)) :=
        List.filter_cons_of_pos (by simpa using hown)
      have hget : files.getD i [] = files[i] := by
        rw [List.getD_eq_getElem?_getD, List.getElem?_eq_getElem hi]; rfl
      rw [hfilt, List.flatMap_cons, hget] at hcap
      simp only [List.filter_append, List.length_append] at hcap
      obtain ⟨st1, h1, ht1⟩ := load_data_file_eq g (thread_of i) b c hb hb3 hc (hth i)
        files[i] st (by
          intro k
          refine le_trans ?_ (hcap k)
          apply Nat.mul_le_mul_right
          omega)
      obtain ⟨st2, h2, ht2⟩ := ih hl2 st1 (by
        intro k
        rw [ht1 List.length (fun a b => List.length_append a b) k]
        refine le_trans ?_ (hcap k)
        apply Nat.mul_le_mul_right
        omega)
      refine ⟨st2, ?_, ?_⟩
      · simp only [ne_eq, hown, not_true_eq_false, if_false, List.getElem?_eq_getElem hi,
          Option.bind_eq_bind, Option.some_bind, h1]
        exact h2
      · intro mu hmu k
        rw [hfilt, List.flatMap_cons, hget, List.filter_append, hmu, ht2 mu hmu k,
          ht1 mu hmu k, Nat.add_assoc]
    · have hfilt : (i :: l).filter (fun i =>
            decide (((i % g.cfg.global_num_servers : Nat) : Int) = g.sid))
          = l.filter (fun i =>
            decide (((i % g.cfg.global_num_servers : Nat) : Int) = g.sid)) :=
        List.filter_cons_of_neg (by simpa using hown)
      rw [hfilt] at hcap ⊢
      obtain ⟨st2, h2, ht2⟩ := ih hl2 st hcap
      refine ⟨st2, ?_, ht2⟩
      simp only [ne_eq, hown, not_false_eq_true, if_true, Option.pure_def, Option.bind_eq_bind,
        Option.some_bind]
      exact h2

theorem flush_inner_eq (g : DGraph) (b c s : Nat)
    (hb : buf_sz g = some b) (hc : kvs_sz g g.cfg.global_num_servers = some c)
    (lt : List Nat) (hlt : ∀ t ∈ lt, t < g.cfg.global_num_engines) :
    ∀ (st : Staging),
      (∀ k, staged_total List.length g.cfg.global_num_engines st k * 3 * g.sizeof_sid ≤ c) →
      ∃ st2, lt.foldlM (fun st t => flush_triples g st t s) st = some st2 ∧
        (∀ (mu : List triple_t → Nat), (∀ a b, mu (a ++ b) = mu a + mu b) → ∀ k,
          staged_total mu g.cfg.global_num_engines st2 k
            = staged_total mu g.cfg.global_num_engines st k) ∧
        (∀ t d, st.buf t d = [] → st2.buf t d = []) ∧
        (∀ t ∈ lt, st2.buf t s = []) := by
  induction lt with
  | nil =>
    intro st _
    exact ⟨st, rfl, fun _ _ _ => rfl, fun _ _ h => h, fun t ht => by simp at ht⟩
  | cons t lt ih =>
    intro st hcap
    have ht : t < g.cfg.global_num_engines := hlt t (List.mem_cons_self _ _)
    have hlt2 : ∀ u ∈ lt, u < g.cfg.global_num_engines :=
      fun u hu => hlt u (List.mem_cons_of_mem _ hu)
    have h1 := flush_triples_eq g st t s b c hb hc ht (hcap s)
    obtain ⟨st2, h2, htot, hemp, hall⟩ := ih hlt2 _ (by
      intro k
      rw [flush_triples_total List.length (fun a b => List.length_append a b) _ st t s ht k]
      exact hcap k)
    refine ⟨st2, ?_, ?_, ?_, ?_⟩
    · rw [List.foldlM_cons, h1]
      exact h2
    · intro mu hmu k
      rw [htot mu hmu k, flush_triples_total mu hmu _ st t s ht k]
    · intro u d hud
      apply hemp
      show (if u = t ∧ d = s then [] else st.buf u d) = []
      split
      · rfl
      · exact hud
    · intro u hu
      rcases List.mem_cons.1 hu with h | h
      · apply hemp
        show (if u = t ∧ s = s then [] else st.buf u s) = []
        rw [if_pos ⟨h, rfl⟩]
      · exact hall u h

theorem flush_outer_eq (g : DGraph) (b c : Nat)
    (hb : buf_sz g = some b) (hc : kvs_sz g g.cfg.global_num_servers = some c)
    (ls : List Nat) :
    ∀ (st : Staging),
      (∀ k, staged_total List.length g.cfg.global_num_engines st k * 3 * g.sizeof_sid ≤ c) →
      ∃ st2, ls.foldlM
          (fun st s => (List.range g.cfg.global_num_engines).foldlM
            (fun st t => flush_triples g st t s) st) st = some st2 ∧
        (∀ (mu : List triple_t → Nat), (∀ a b, mu (a ++ b) = mu a + mu b) → ∀ k,
          staged_total mu g.cfg.global_num_engines st2 k
            = staged_total mu g.cfg.global_num_engines st k) ∧
        (∀ t d, st.buf t d = [] → st2.buf t d = []) ∧
        (∀ s ∈ ls, ∀ t, t < g.cfg.global_num_engines → st2.buf t s = []) := by
  induction ls with
  | nil =>
    intro st _
    exact ⟨st, rfl, fun _ _ _ => rfl, fun _ _ h => h, fun s hs => by simp at hs⟩
  | cons s ls ih =>
    intro st hcap
    obtain ⟨st1, h1, htot1, hemp1, hall1⟩ := flush_inner_eq g b c s hb hc
      (List.range g.cfg.global_num_engines) (fun t ht => List.mem_range.1 ht) st hcap
    obtain ⟨st2, h2, htot2, hemp2, hall2⟩ := ih st1 (by
      intro k
      rw [htot1 List.length (fun a b => List.length_append a b) k]
      exact hcap k)
    refine ⟨st2, ?_, ?_, ?_, ?_⟩
    · rw [List.foldlM_cons, h1]
      exact h2
    · intro mu hmu k
      rw [htot2 mu hmu k, htot1 mu hmu k]
    · intro t d h
      exact hemp2 t d (hemp1 t d h)
    · intro s2 hs2 t ht
      rcases List.mem_cons.1 hs2 with h | h
      · rw [h]
        exact hemp2 t s (hall1 t (List.mem_range.2 ht))
      · exact hall2 s2 h t ht

theorem sum_map_zero (l : List Nat) (f : Nat → Nat) (h : ∀ t ∈ l, f t = 0) :
    (l.map f).sum = 0 := by
  induction l with
  | nil => rfl
  | cons t l ih =>
    rw [List.map_cons, List.sum_cons, h t (List.mem_cons_self _ _),
      ih (fun u hu => h u (List.mem_cons_of_mem _ hu))]

theorem load_data_eq (g : DGraph) (thread_of : Nat → Nat) (files : List (List triple_t))
    (b c : Nat) (hb : buf_sz g = some b) (hb3 : 3 * g.sizeof_sid ≤ b)
    (hc : kvs_sz g g.cfg.global_num_servers = some c)
    (hth : ∀ i, thread_of i < g.cfg.global_num_engines)
    (hcap : ∀ k, ((own_triples g files).filter (sent_to g.cfg k)).length * 3
      * g.sizeof_sid ≤ c) :
    ∃ st, load_data g thread_of files Staging.empty = some (g.cfg.global_num_servers, st) ∧
      (∀ k, k < g.cfg.global_num_servers → ∀ t, t < g.cfg.global_num_engines →
        st.buf t k = []) ∧
      (∀ k, k < g.cfg.global_num_servers →
        ∀ (mu : List triple_t → Nat), (∀ a b, mu (a ++ b) = mu a + mu b) →
          mu (st.kvs k) = mu ((own_triples g files).filter (sent_to g.cfg k))) := by
  have hempty : ∀ (mu : List triple_t → Nat), (∀ a b, mu (a ++ b) = mu a + mu b) → ∀ k,
      staged_total mu g.cfg.global_num_engines Staging.empty k = 0 := by
    intro mu hmu k
    unfold staged_total Staging.empty
    simp only [mu_nil mu hmu, Nat.zero_add]
    exact sum_map_zero _ _ (fun _ _ => rfl)
  obtain ⟨st1, h1, ht1⟩ := load_files_eq g thread_of files b c hb hb3 hc hth
    (List.range files.length) (fun i hi => List.mem_range.1 hi) Staging.empty (by
      intro k
      rw [hempty List.length (fun a b => List.length_append a b) k, Nat.zero_add]
      exact hcap k)
  obtain ⟨st2, h2, ht2, _, hall⟩ := flush_outer_eq g b c hb hc
    (List.range g.cfg.global_num_servers) st1 (by
      intro k
      rw [ht1 List.length (fun a b => List.length_append a b) k,
        hempty List.length (fun a b => List.length_append a b) k, Nat.zero_add]
      exact hcap k)
  refine ⟨st2, ?_, ?_, ?_⟩
  · unfold load_data
    simp only [Option.bind_eq_bind, Option.pure_def] at h1 h2 ⊢
    rw [h1, Option.some_bind, h2, Option.some_bind]
  · intro k hk t ht
    exact hall k (List.mem_range.2 hk) t ht
  · intro k hk mu hmu
    have h3 := ht2 mu hmu k
    rw [ht1 mu hmu k, hempty mu hmu k, Nat.zero_add] at h3
    have h4 : ((List.range g.cfg.global_num_engines).map
        (fun t => mu (st2.buf t k))).sum = 0 := by
      apply sum_map_zero
      intro t ht
      rw [hall k (List.mem_range.2 hk) t (List.mem_range.1 ht)]
      exact mu_nil mu hmu
    unfold staged_total at h3
    rw [h4, Nat.add_zero] at h3
    exact h3

theorem aggregate_data_eq (g : DGraph) (V : Bool) (partitions : List (List triple_t)) :
    aggregate_data g V partitions
      = some ((List.range g.cfg.global_num_engines).map (fun tid =>
          (dedup_adjacent (sort_triples (order_out V)
              (partitions.flatten.filter (owns_out g tid))),
           dedup_adjacent (sort_triples (order_in V)
              (partitions.flatten.filter (owns_in g tid)))))) :=
  mapM_eq_some_map (aggregate_thread g V partitions) _
    (List.range g.cfg.global_num_engines) (fun tid _ => aggregate_thread_eq g V partitions tid)

theorem dedup_sort_mem (lt : triple_t → triple_t → Bool) (l : List triple_t) (x : triple_t) :
    x ∈ dedup_adjacent (sort_triples lt l) ↔ x ∈ l := by
  rw [dedup_adjacent_mem]
  exact (sort_triples_perm lt l).mem_iff

/-- C22. Exchange-load on one server, with buffer pieces that hold at least one
triple and kvstore slots that hold the triples bound for them: `load_data`
returns, every buffer piece is empty afterwards, and the slot for server `k`
holds exactly the triples the server read whose subject or object hashes to
`k`: as a triple is read, one copy goes to the owner of its subject and, when
that is another server, one more to the owner of its object, and none to any
other server.  `aggregate_data` on a server with at least one thread files a
staged triple in some out-edge list exactly when the server owns its subject,
and in some in-edge list exactly when it owns its object. -/
theorem partition_complete (g : DGraph) (thread_of : Nat → Nat)
    (files : List (List triple_t)) (b c : Nat)
    (hb : buf_sz g = some b) (hb3 : 3 * g.sizeof_sid ≤ b)
    (hc : kvs_sz g g.cfg.global_num_servers = some c)
    (hth : ∀ i, thread_of i < g.cfg.global_num_engines)
    (hcap : ∀ k, ((own_triples g files).filter (sent_to g.cfg k)).length * 3
      * g.sizeof_sid ≤ c) :
    (∃ st, load_data g thread_of files Staging.empty = some (g.cfg.global_num_servers, st) ∧
      (∀ k, k < g.cfg.global_num_servers → ∀ t, t < g.cfg.global_num_engines →
        st.buf t k = []) ∧
      (∀ k, k < g.cfg.global_num_servers →
        (st.kvs k).Perm ((own_triples g files).filter (sent_to g.cfg k))) ∧
      (∀ k, k < g.cfg.global_num_servers → ∀ x,
        (st.kvs k).count x =
          if hash_mod g.cfg x.s g.cfg.global_num_servers = k
              ∨ hash_mod g.cfg x.o g.cfg.global_num_servers = k
          then (own_triples g files).count x else 0)) ∧
    (∀ (V : Bool) (partitions : List (List triple_t)),
      ∃ out, aggregate_data g V partitions = some out ∧
        ∀ x ∈ partitions.flatten,
          ((∃ p ∈ out, x ∈ p.1)
            ↔ (hash_mod g.cfg x.s g.cfg.global_num_servers : Int) = g.sid) ∧
          ((∃ p ∈ out, x ∈ p.2)
            ↔ (hash_mod g.cfg x.o g.cfg.global_num_servers : Int) = g.sid)) := by
  constructor
  · obtain ⟨st, h, hbuf, hmu⟩ := load_data_eq g thread_of files b c hb hb3 hc hth hcap
    have hcount : ∀ k, k < g.cfg.global_num_servers → ∀ x,
        (st.kvs k).count x = ((own_triples g files).filter (sent_to g.cfg k)).count x :=
      fun k hk x => hmu k hk (List.count x) (fun a b => List.count_append x a b)
    refine ⟨st, h, hbuf, ?_, ?_⟩
    · intro k hk
      rw [List.perm_iff_count]
      exact hcount k hk
    · intro k hk x
      rw [hcount k hk x]
      by_cases hx : sent_to g.cfg k x = true
      · have hx2 := hx
        simp only [sent_to, Bool.or_eq_true, decide_eq_true_eq] at hx2
        rw [if_pos hx2, List.count_filter hx]
      · have hx2 := hx
        simp only [sent_to, Bool.or_eq_true, decide_eq_true_eq] at hx2
        rw [if_neg hx2]
        exact List.count_eq_zero_of_not_mem (fun h => hx (List.mem_filter.1 h).2)
  · intro V partitions
    have hM : 0 < g.cfg.global_num_engines := lt_of_le_of_lt (Nat.zero_le _) (hth 0)
    refine ⟨_, aggregate_data_eq g V partitions, ?_⟩
    intro x hx
    constructor
    · constructor
      · rintro ⟨p, hp, hxp⟩
        obtain ⟨tid, _, rfl⟩ := List.mem_map.1 hp
        have := (dedup_sort_mem _ _ x).1 hxp
        have h2 := (List.mem_filter.1 this).2
        simp only [owns_out, Bool.and_eq_true, decide_eq_true_eq] at h2
        exact h2.1
      · intro hs
        refine ⟨_, List.mem_map.2 ⟨x.s % g.cfg.global_num_engines,
          List.mem_range.2 (Nat.mod_lt _ hM), rfl⟩, ?_⟩
        apply (dedup_sort_mem _ _ x).2
        apply List.mem_filter.2
        refine ⟨hx, ?_⟩
        simp only [owns_out, Bool.and_eq_true, decide_eq_true_eq]
        exact ⟨hs, trivial⟩
    · constructor
      · rintro ⟨p, hp, hxp⟩
        obtain ⟨tid, _, rfl⟩ := List.mem_map.1 hp
        have := (dedup_sort_mem _ _ x).1 hxp
        have h2 := (List.mem_filter.1 this).2
        simp only [owns_in, Bool.and_eq_true, decide_eq_true_eq] at h2
        exact h2.1
      · intro hs
        refine ⟨_, List.mem_map.2 ⟨x.o % g.cfg.global_num_engines,
          List.mem_range.2 (Nat.mod_lt _ hM), rfl⟩, ?_⟩
        apply (dedup_sort_mem _ _ x).2
        apply List.mem_filter.2
        refine ⟨hx, ?_⟩
        simp only [owns_in, Bool.and_eq_true, decide_eq_true_eq]
        exact ⟨hs, trivial⟩

theorem partition_complete_witness :
    ∃ st, load_data demo_dgraph (fun _ => 0) demo_files Staging.empty = some (2, st) ∧
      (st.kvs 0).Perm [{ s := 10, p := 100, o := 11 }, { s := 10, p := 100, o := 12 },
        { s := 10, p := 100, o := 11 }] ∧
      (st.kvs 1).count { s := 10, p := 100, o := 12 } = 0 := by
  obtain ⟨⟨st, h, _, hperm, hcount⟩, _⟩ :=
    partition_complete demo_dgraph (fun _ => 0) demo_files 56 120 (by decide) (by decide)
      (by decide) (fun _ => (by decide : (0 : Nat) < 2))
      (fun k => le_trans
        (Nat.mul_le_mul_right _ (Nat.mul_le_mul_right _ (List.length_filter_le _ _)))
        (by decide))
  refine ⟨st, h, ?_, ?_⟩
  · exact hperm 0 (by decide)
  · rw [hcount 1 (by decide)]
    decide

/-- The exchange-load of server 0 of the sample cluster: it reads file 0, a buffer
piece holds two triples, and at the return the slot for server 0 holds the
three triples with subject 10 and the slot for server 1 the two copies of
`(10,100,11)`. -/
theorem load_data_example :
    (load_data demo_dgraph (fun _ => 0) demo_files Staging.empty).map
        (fun r => (r.1, r.2.kvs 0, r.2.kvs 1, r.2.buf 0 0, r.2.buf 0 1))
      = some (2,
          [{ s := 10, p := 100, o := 11 }, { s := 10, p := 100, o := 12 },
           { s := 10, p := 100, o := 11 }],
          [{ s := 10, p := 100, o := 11 }, { s := 10, p := 100, o := 11 }],
          [], []) := by
  decide


theorem read_attr_value_length (type : Int) (v : attr_t) (file : List Token) :
    (read_attr_value type v file).2.1.length ≤ file.length := by
  unfold read_attr_value
  split
  · split
    · split <;> simp
    · simp
  · split
    · split
      · split <;> simp
      · simp
    · split
      · split
        · split <;> simp
        · simp
      · simp

theorem load_attr_loop_total (g : DGraph) :
    ∀ (fuel : Nat) (file : List Token) (v : attr_t) (sav : List triple_attr_t),
      file.length < fuel → ∃ r, load_attr_loop g fuel file v sav = some r := by
  intro fuel
  induction fuel with
  | zero => intro file v sav h; omega
  | succ fuel ih =>
    intro file v sav h
    unfold load_attr_loop
    split
    · rename_i ts ta tt rest
      split
      · rename_i s a type _ _ _
        dsimp only
        by_cases hgood : (read_attr_value type v rest).2.2 = true
        · rw [if_pos hgood]
          apply ih
          have := read_attr_value_length type v rest
          simp only [List.length_cons] at h
          omega
        · rw [if_neg hgood]
          exact ⟨_, rfl⟩
      · exact ⟨_, rfl⟩
    · exact ⟨_, rfl⟩

/-- The lambda `load_attr` returns on every file: the bound on the passes of its
loop is never reached. -/
theorem load_attr_total (g : DGraph) (file : List Token) (sav : List triple_attr_t) :
    ∃ r, load_attr g file sav = some r :=
  load_attr_loop_total g _ file attr_default sav (Nat.lt_succ_self _)

/-! ## Termination of the index loop -/

theorem index_loop_stride_zero (res : List sid_t) :
    ∀ (fuel k : Nat) (upd : List sid_t), k < res.length →
      index_loop res 0 fuel k upd = none := by
  intro fuel
  induction fuel with
  | zero => intro k upd _; rfl
  | succ fuel ih =>
    intro k upd hk
    unfold index_loop
    rw [List.getElem?_eq_getElem hk]
    exact ih k _ hk

theorem index_loop_stride_pos (res : List sid_t) (stride : Nat) (hs : 0 < stride) :
    ∀ (fuel k : Nat) (upd : List sid_t), res.length - k < fuel →
      ∃ out, index_loop res stride fuel k upd = some out := by
  intro fuel
  induction fuel with
  | zero =>
    intro k upd h
    omega
  | succ fuel ih =>
    intro k upd h
    unfold index_loop
    cases hget : res[k]? with
    | none => exact ⟨upd, rfl⟩
    | some v =>
      have hk : k < res.length := by
        by_contra hn
        rw [List.getElem?_eq_none (by omega)] at hget
        cases hget
      exact ih (k + stride) _ (by omega)

theorem index_to_unknown_no_end (e : Engine) (fuel : Nat) (req : SPARQLQuery) (pat : Pattern)
    (hpat : req.get_current_pattern = some pat)
    (hT : e.cfg.global_mt_threshold = 1) (htid : req.tid < 0)
    (hlen : (-req.tid - 1).toNat
      < (e.graph.get_index_edges_local e.tid pat.subject pat.direction).length) :
    index_to_unknown e fuel req = none := by
  unfold index_to_unknown
  simp only [hpat, Option.bind_eq_bind, Option.some_bind, if_pos htid]
  split
  · rfl
  · split
    · rfl
    · rw [hT, index_loop_stride_zero _ fuel _ [] hlen]
      rfl

/-- C40. With two servers and index parallelism 1, the force-dispatch branch run by
the second engine of server 0 sends the first engine of that server a
sub-query with `tid = -1`.  For that value `index_to_unknown` starts at 0 and
adds `global_mt_threshold - 1 = 0` to its loop variable: on the non-empty
local index list `[7]` the loop never ends, whatever bound is put on the
number of its passes. -/
theorem index_to_unknown_stride_zero :
    (force_dispatch_branch demo_engine_stride {} demo_index_req).2.map
        (fun msg => (msg.sid, msg.tid, msg.bundle.tid)) = [(0, 1, -1), (1, 1, 0)] ∧
    ∀ fuel : Nat,
      ((force_dispatch_branch demo_engine_stride {} demo_index_req).2.head?.map
        (fun msg =>
          (index_to_unknown (receive_engine demo_engine_stride [7] msg) fuel msg.bundle).isNone))
        = some true ∧
      index_loop [7] (demo_cfg_stride.global_mt_threshold - 1) fuel 0 [] = none := by
  refine ⟨by decide, ?_⟩
  intro fuel
  have hm : (force_dispatch_branch demo_engine_stride {} demo_index_req).2.head?
      = some { sid := 0, tid := 1, bundle := demo_stride_sub } := by
    with_unfolding_all rfl
  refine ⟨?_, index_loop_stride_zero [7] fuel 0 [] (by decide)⟩
  rw [hm, Option.map_some']
  rw [index_to_unknown_no_end _ fuel demo_stride_sub
    { subject := 300, predicate := 1, direction := dir_t.IN, object := -1 }
    rfl rfl (by decide) (by decide)]
  rfl

/-! ## `known_unknown_unknown` -/

/-- Whenever `known_unknown_unknown` returns on a table of `c` columns, the new
table has `c + 2` columns and the map sends the object variable to column
`c + 3` and a predicate variable different from it to column `c + 2`. -/
theorem known_unknown_unknown_v2c (e : Engine) (req out : SPARQLQuery) (pat : Pattern)
    (hpat : req.get_current_pattern = some pat)
    (h : known_unknown_unknown e req = some out) :
    out.result.col_num = req.result.col_num + 2 ∧
    out.result.var2col pat.object = (req.result.col_num : Int) + 3 ∧
    (pat.predicate ≠ pat.object →
      out.result.var2col pat.predicate = (req.result.col_num : Int) + 2) ∧
    out.step = req.step + 1 := by
  unfold known_unknown_unknown at h
  simp only [hpat, Option.bind_eq_bind, Option.some_bind, Option.pure_def] at h
  cases hl : (List.range req.result.get_row_num).foldlM
      (fun upd i => do
        let prev_id ← req.result.get_row_col i (req.result.var2col pat.subject)
        let tpids := e.graph.get_edges_global e.tid prev_id pat.direction e.cfg.PREDICATE_ID
        tpids.foldlM
          (fun upd2 (p : sid_t) =>
            (e.graph.get_edges_global e.tid prev_id pat.direction (p : Int)).foldlM
              (fun upd3 v => do
                let upd4 ← req.result.append_row_to i upd3
                pure ((upd4 ++ [p]) ++ [v]))
              upd2)
          upd)
      [] with
  | none =>
    simp only [Option.bind_eq_bind, Option.pure_def] at hl
    rw [hl] at h
    simp at h
  | some tbl =>
    simp only [Option.bind_eq_bind, Option.pure_def] at hl
    rw [hl] at h
    simp only [Option.some_bind, Option.some.injEq] at h
    subst h
    refine ⟨rfl, ?_, ?_, rfl⟩
    · simp [Result.var2col, Result.add_var2col, Result.set_col_num, Result.get_col_num,
        List.lookup]
      ring
    · intro hne
      have hne2 : (pat.predicate == pat.object) = false := by simpa using hne
      simp [Result.var2col, Result.add_var2col, Result.set_col_num, Result.get_col_num,
        List.lookup, hne2]

/-- C34. The kernel evaluated on the one-column table with the row 10 and the
pattern `(?x, ?p, OUT, ?y)`: the new table has the rows (10, 100, 11) and
(10, 100, 12) in 3 columns, and the map sends `?p` to column 3 and `?y` to
column 4, not to the columns 1 and 2 in which their values stand.  Reading
`?y` in row 0 returns 100, the predicate of row 1, and reading it in row 1
leaves the table. -/
theorem known_unknown_unknown_columns :
    (known_unknown_unknown demo_engine_versatile demo_req_versatile).map
        (fun q => (q.result.col_num, q.result.result_table,
                   q.result.var2col (-2), q.result.var2col (-3), q.step))
      = some (3, [10, 100, 11, 10, 100, 12], 3, 4, 1) ∧
    (known_unknown_unknown demo_engine_versatile demo_req_versatile).map
        (fun q => (q.result.get_row_col 0 (q.result.var2col (-3)),
                   q.result.get_row_col 1 (q.result.var2col (-3)),
                   q.result.get_row_col 0 2))
      = some (some 100, none, some 11) := by
  decide

/-! ## `dedup_triples` -/

theorem dedup_fold_eq (l : List triple_t) :
    ∀ (acc : List triple_t) (prev : triple_t), acc.getLast? = some prev →
      l.foldl (fun acc x => if acc.getLast? = some x then acc else acc ++ [x]) acc
        = acc ++ drop_after prev l := by
  induction l with
  | nil => intro acc prev _; simp [drop_after]
  | cons x rest ih =>
    intro acc prev h
    rw [List.foldl_cons, h]
    unfold drop_after
    by_cases hx : x = prev
    · subst hx
      rw [if_pos rfl, if_pos rfl]
      exact ih acc x h
    · rw [if_neg (fun h2 => hx (Option.some.inj h2).symm), if_neg hx,
        ih (acc ++ [x]) x (List.getLast?_concat _)]
      simp

theorem dedup_adjacent_eq (l : List triple_t) : dedup_adjacent l = drop_repeats l := by
  cases l with
  | nil => rfl
  | cons a rest =>
    unfold dedup_adjacent drop_repeats
    rw [List.foldl_cons]
    exact dedup_fold_eq rest [a] a rfl

theorem drop_after_chain (l : List triple_t) :
    ∀ a, List.Chain (fun x y => x ≠ y) a (drop_after a l) := by
  induction l with
  | nil => intro a; exact List.Chain.nil
  | cons b l ih =>
    intro a
    unfold drop_after
    split
    · rename_i h
      rw [h]
      exact ih a
    · rename_i h
      exact List.Chain.cons (fun h2 => h h2.symm) (ih b)

theorem drop_after_of_chain (l : List triple_t) :
    ∀ a, List.Chain (fun x y => x ≠ y) a l → drop_after a l = l := by
  induction l with
  | nil => intro a _; rfl
  | cons b l ih =>
    intro a h
    rw [List.chain_cons] at h
    unfold drop_after
    rw [if_neg (fun h2 => h.1 h2.symm), ih b h.2]

theorem drop_repeats_idem (l : List triple_t) :
    drop_repeats (drop_repeats l) = drop_repeats l := by
  cases l with
  | nil => rfl
  | cons a rest =>
    simp only [drop_repeats]
    rw [drop_after_of_chain _ a (drop_after_chain rest a)]

/-- C35. On every list of triples `dedup_triples` returns, and what it returns is
the list without the triples equal to their immediate predecessor, the others
in their order.  On a list sorted by a comparator that orders any two
different triples, the result is strictly increasing, holds no triple twice
and has the triples of the input; and `dedup_triples` applied to its own
result returns it unchanged. -/
theorem dedup_triples_spec (triples : List triple_t) :
    dedup_triples triples = some (drop_repeats triples) ∧
    dedup_triples (drop_repeats triples) = some (drop_repeats triples) ∧
    (∀ x, x ∈ drop_repeats triples ↔ x ∈ triples) ∧
    (drop_repeats triples).Sublist triples ∧
    (∀ lt : triple_t → triple_t → Bool, strict_total lt →
      triples.Pairwise (fun a b => lt b a = false) →
      (drop_repeats triples).Pairwise (fun a b => lt a b = true) ∧
      (drop_repeats triples).Pairwise (fun a b => lt b a = false) ∧
      (drop_repeats triples).Nodup) := by
  refine ⟨?_, ?_, ?_, ?_, ?_⟩
  · rw [dedup_triples_eq, dedup_adjacent_eq]
  · rw [dedup_triples_eq, dedup_adjacent_eq, drop_repeats_idem]
  · intro x
    rw [← dedup_adjacent_eq]
    exact dedup_adjacent_mem triples x
  · cases triples with
    | nil => exact List.Sublist.slnil
    | cons a rest =>
      have hsub : ∀ (l : List triple_t) (p : triple_t), (drop_after p l).Sublist l := by
        intro l
        induction l with
        | nil => intro p; exact List.Sublist.slnil
        | cons b l ih =>
          intro p
          unfold drop_after
          split
          · exact (ih b).cons b
          · exact (ih b).cons₂ b
      exact (hsub rest a).cons₂ a
  · intro lt hlt hs
    have h1 := dedup_adjacent_sorted lt hlt triples hs
    rw [dedup_adjacent_eq] at h1
    refine ⟨h1, ?_, pairwise_lt_nodup lt hlt _ h1⟩
    exact List.Pairwise.imp (fun {a b} hab => hlt.1 a b hab) h1

theorem dedup_triples_spec_witness :
    dedup_triples [{ s := 10, p := 100, o := 11 }, { s := 10, p := 100, o := 11 },
        { s := 10, p := 100, o := 12 }]
      = some [{ s := 10, p := 100, o := 11 }, { s := 10, p := 100, o := 12 }] ∧
    (drop_repeats [{ s := 10, p := 100, o := 11 }, { s := 10, p := 100, o := 11 },
        { s := 10, p := 100, o := 12 }]).Nodup := by
  have h := dedup_triples_spec [{ s := 10, p := 100, o := 11 }, { s := 10, p := 100, o := 11 },
    { s := 10, p := 100, o := 12 }]
  refine ⟨h.1.trans (by decide), ?_⟩
  exact (h.2.2.2.2 triple_sort_by_pso triple_sort_by_pso_strict (by decide)).2.2

/-- On a list that is not sorted only neighbours are compared: the two copies of
`(10,100,11)` around `(10,100,12)` both stay. -/
theorem dedup_triples_example :
    dedup_triples [{ s := 10, p := 100, o := 11 }, { s := 10, p := 100, o := 12 },
        { s := 10, p := 100, o := 11 }, { s := 10, p := 100, o := 11 }]
      = some [{ s := 10, p := 100, o := 11 }, { s := 10, p := 100, o := 12 },
              { s := 10, p := 100, o := 11 }] := by
  decide

/-! ## The layout of the staging area -/

theorem sub_u64_eq (a b : Nat) (ha : a < 2 ^ 64) (hb : b ≤ a) : sub_u64 a b = a - b := by
  unfold sub_u64
  have h1 : a + 2 ^ 64 - b = (a - b) + 2 ^ 64 := by omega
  rw [h1, Nat.add_mod_right, Nat.mod_eq_of_lt (by omega)]

theorem mod_sub_eight (x w : Nat) (hw : w ∣ 8) (hx : 8 ≤ x) : (x - 8) % w = x % w := by
  obtain ⟨q, hq⟩ := hw
  have h1 : x = (x - 8) + w * q := by omega
  conv_rhs => rw [h1]
  rw [Nat.add_mul_mod_self_left]

/-- C38. For a kvstore of `K < 2^64` bytes split among `S` servers with
`K / S >= 8` (so `S >= 1`), an ID width `w = sizeof(sid_t)` that divides 8 and a source with
a non-negative server ID: the slot size `kvs_sz` is defined, the offset at
which `load_data` writes the counter of this source is the offset
`(kvs_sz + 8) * sid` at which `aggregate_data` reads the counter of partition
`sid`, and whenever the space check of `flush_triples` passes for `n` new
triples behind `exist` old ones, the bytes written start where
`aggregate_data` reads triple number `exist` of the partition, behind the
8-byte counter, and end inside the slot. -/
theorem staging_layout (g : DGraph) (hK : g.kvstore_size < 2 ^ 64)
    (h8 : 8 ≤ g.kvstore_size / g.cfg.global_num_servers) (hw : g.sizeof_sid ∣ 8) :
    ∃ c, kvs_sz g g.cfg.global_num_servers = some c ∧
      counter_off g = some ((c + 8) * g.sid.toNat) ∧
      partition_pn_off g g.cfg.global_num_servers g.sid.toNat
        = some ((c + 8) * g.sid.toNat) ∧
      ∀ exist n : Nat, (exist * 3 + n * 3) * g.sizeof_sid ≤ c →
        ∃ off, flush_off g exist = some off ∧
          partition_triple_off g g.cfg.global_num_servers g.sid.toNat exist = some off ∧
          (c + 8) * g.sid.toNat + 8 ≤ off ∧
          off + flush_len g n ≤ (c + 8) * (g.sid.toNat + 1) := by
  have hw0 : g.sizeof_sid ≠ 0 := by
    intro h0
    rw [h0] at hw
    have := Nat.eq_zero_of_zero_dvd hw
    omega
  have hX : g.kvstore_size / g.cfg.global_num_servers < 2 ^ 64 :=
    lt_of_le_of_lt (Nat.div_le_self _ _) hK
  have hmod := mod_sub_eight (g.kvstore_size / g.cfg.global_num_servers) g.sizeof_sid hw h8
  have hle : (g.kvstore_size / g.cfg.global_num_servers - 8) % g.sizeof_sid
      ≤ g.kvstore_size / g.cfg.global_num_servers - 8 := Nat.mod_le _ _
  have hle2 : g.kvstore_size / g.cfg.global_num_servers % g.sizeof_sid
      ≤ g.kvstore_size / g.cfg.global_num_servers := Nat.mod_le _ _
  obtain ⟨c, hcdef⟩ : ∃ c, c = g.kvstore_size / g.cfg.global_num_servers - 8
      - (g.kvstore_size / g.cfg.global_num_servers - 8) % g.sizeof_sid := ⟨_, rfl⟩
  have hc : kvs_sz g g.cfg.global_num_servers = some c := by
    unfold kvs_sz
    rw [sub_u64_eq _ _ hX h8, floor_pos _ _ hw0, hcdef]
  refine ⟨c, hc, ?_, ?_, ?_⟩
  · unfold counter_off
    rw [floor_pos _ _ hw0]
    simp only [Option.bind_eq_bind, Option.some_bind, Option.pure_def]
    have : g.kvstore_size / g.cfg.global_num_servers
        - g.kvstore_size / g.cfg.global_num_servers % g.sizeof_sid = c + 8 := by omega
    rw [this]
  · unfold partition_pn_off
    rw [hc]
    rfl
  · intro exist n hfit
    refine ⟨(c + 8) * g.sid.toNat + 8 + exist * 3 * g.sizeof_sid, ?_, ?_, ?_, ?_⟩
    · unfold flush_off
      rw [hc]
      rfl
    · unfold partition_triple_off partition_pn_off
      rw [hc]
      rfl
    · omega
    · unfold flush_len
      have h1 : exist * 3 * g.sizeof_sid + n * 3 * g.sizeof_sid
          = (exist * 3 + n * 3) * g.sizeof_sid := by ring
      have h2 : (c + 8) * (g.sid.toNat + 1) = (c + 8) * g.sid.toNat + (c + 8) := by ring
      rw [h2]
      omega

theorem staging_layout_witness :
    ∃ c, kvs_sz { demo_dgraph with sid := 1 } 2 = some c ∧
      counter_off { demo_dgraph with sid := 1 } = some ((c + 8) * 1) ∧
      ∃ off, flush_off { demo_dgraph with sid := 1 } 2 = some off ∧
        off + flush_len { demo_dgraph with sid := 1 } 3 ≤ (c + 8) * 2 := by
  obtain ⟨c, hc, hcnt, _, hfl⟩ := staging_layout { demo_dgraph with sid := 1 }
    (by decide) (by decide) (by decide)
  have hc2 : c = 120 := by
    have h : kvs_sz { demo_dgraph with sid := 1 } 2 = some 120 := by decide
    have h2 := hc.symm.trans h
    exact Option.some.inj h2
  subst hc2
  obtain ⟨off, h1, _, _, h4⟩ := hfl 2 3 (by decide)
  exact ⟨120, hc, hcnt, off, h1, h4⟩

/-- The layout of the sample loader (256 bytes of kvstore, two servers, 8-byte
IDs): slots of 120 bytes behind 8-byte counters, the counter of source 1 at
offset 128 for its writer and its reader, and its third triple at offset 184.
With 4-byte IDs and 268 bytes the offsets agree as well; with an ID width of 3
bytes, which does not divide 8, the writer of the counter uses offset 132 and
the reader 134. -/
theorem staging_layout_example :
    (kvs_sz { demo_dgraph with sid := 1 } 2, counter_off { demo_dgraph with sid := 1 },
      partition_pn_off { demo_dgraph with sid := 1 } 2 1,
      flush_off { demo_dgraph with sid := 1 } 2)
      = (some 120, some 128, some 128, some 184) ∧
    (counter_off { demo_dgraph with sid := 1, kvstore_size := 268, sizeof_sid := 4 },
      partition_pn_off { demo_dgraph with sid := 1, kvstore_size := 268, sizeof_sid := 4 } 2 1)
      = (some 132, some 132) ∧
    (counter_off { demo_dgraph with sid := 1, kvstore_size := 268, sizeof_sid := 3 },
      partition_pn_off { demo_dgraph with sid := 1, kvstore_size := 268, sizeof_sid := 3 } 2 1)
      = (some 132, some 134) := by
  decide

/-! ## `filter` applied twice -/

theorem sat_congr (env : FilterEnv) (r1 r2 : Result)
    (h : ∀ v row, cell r1 v row = cell r2 v row) (f : Filter) (row : List sid_t) :
    sat env r1 f row = sat env r2 f row := by
  refine sat.induct env r1 (fun f row => sat env r1 f row = sat env r2 f row) ?_ ?_ ?_ f row
  · intro a1 a2 a3 val va row ih1 ih2
    simp only [sat, ih1, ih2]
  · intro a1 a2 a3 val va row ih1 ih2
    simp only [sat, ih1, ih2]
  · intro f row hand hor
    obtain ⟨t, a1, a2, a3, val, va⟩ := f
    cases a1 with
    | none => cases t <;> simp [sat, leaf_sat, Filter.type, Filter.arg1, Filter.arg2]
    | some x =>
      cases a2 with
      | none =>
        cases t <;> simp [sat, leaf_sat, Filter.type, Filter.arg1, Filter.arg2, h]
      | some y =>
        cases t
        case And => exact absurd rfl (hand x y a3 val va)
        case Or => exact absurd rfl (hor x y a3 val va)
        all_goals simp [sat, leaf_sat, Filter.type, Filter.arg1, Filter.arg2, h, arg_text]

theorem filter_wf_congr (env : FilterEnv) (r1 r2 : Result)
    (h : ∀ v, valid_col r1 v = valid_col r2 v) (f : Filter) :
    filter_wf r1 f = filter_wf r2 f := by
  refine sat.induct env r1 (fun f _ => filter_wf r1 f = filter_wf r2 f) ?_ ?_ ?_ f []
  · intro a1 a2 a3 val va _ ih1 ih2
    simp only [filter_wf, ih1, ih2]
  · intro a1 a2 a3 val va _ ih1 ih2
    simp only [filter_wf, ih1, ih2]
  · intro f _ hand hor
    obtain ⟨t, a1, a2, a3, val, va⟩ := f
    cases a1 with
    | none => cases t <;> simp [filter_wf]
    | some x =>
      cases a2 with
      | none => cases t <;> simp [filter_wf, h]
      | some y =>
        cases t
        case And => exact absurd rfl (hand x y a3 val va)
        case Or => exact absurd rfl (hor x y a3 val va)
        all_goals simp [filter_wf, h, arg_wf]

/-- C37. For a query all of whose filters are well formed, `filter` returns, and
`filter` applied to what it returned returns the same query again: no row is
removed by the second pass, and no other field changes. -/
theorem filter_idempotent (env : FilterEnv) (q : SPARQLQuery)
    (hwf : ∀ f ∈ q.pattern_group.filters, filter_wf q.result f = true) :
    ∃ out, filter env q = some out ∧ filter env out = some out ∧
      (∀ f ∈ out.pattern_group.filters, filter_wf out.result f = true) ∧
      out.result.rows = q.result.rows.filter (fun row =>
        q.pattern_group.filters.all (fun f => sat env q.result f row)) := by
  by_cases hne : q.pattern_group.filters = []
  · have h1 : filter env q = some q := by simp [filter, hne]
    refine ⟨q, h1, h1, hwf, ?_⟩
    rw [hne]
    simp
  · have h1 := filter_eq env q hwf hne
    generalize hT : (q.result.rows.filter (fun row =>
      q.pattern_group.filters.all (fun f => sat env q.result f row))) = K at h1
    have hwf2 : ∀ f ∈ q.pattern_group.filters,
        filter_wf ({ q.result with result_table := K.flatten, row_num := K.length } : Result) f
          = true := by
      intro f hf
      exact (filter_wf_congr env
        ({ q.result with result_table := K.flatten, row_num := K.length } : Result)
        q.result (fun _ => rfl) f).trans (hwf f hf)
    have hrows : ({ q.result with result_table := K.flatten, row_num := K.length }
        : Result).rows = K := by
      by_cases hc : q.result.col_num = 0
      · have hK : K = [] := by
          rw [← hT, rows_zero_col q.result hc, List.filter_nil]
        rw [hK]
        exact rows_zero_col
          ({ q.result with result_table := ([] : List (List sid_t)).flatten,
                           row_num := ([] : List (List sid_t)).length } : Result) hc
      · apply rows_of_flatten
          ({ q.result with result_table := K.flatten, row_num := K.length } : Result)
          q.result.col_num K (by omega) _ rfl rfl
        intro x hx
        rw [← hT] at hx
        exact rows_length q.result x (List.mem_of_mem_filter hx)
    have h2 := filter_eq env
      { q with result := { q.result with result_table := K.flatten, row_num := K.length } }
      hwf2 hne
    refine ⟨_, h1, ?_, hwf2, hrows⟩
    rw [h2]
    have hsat : ∀ row, q.pattern_group.filters.all (fun f =>
          sat env ({ q.result with result_table := K.flatten, row_num := K.length } : Result)
            f row)
        = q.pattern_group.filters.all (fun f => sat env q.result f row) := by
      intro row
      congr 1
      funext f
      exact sat_congr env
        ({ q.result with result_table := K.flatten, row_num := K.length } : Result)
        q.result (fun _ _ => rfl) f row
    have hKK : K.filter (fun row => q.pattern_group.filters.all (fun f =>
        sat env q.result f row)) = K := by
      rw [← hT, List.filter_filter]
      congr 1
      funext row
      simp
    simp only [hrows, hsat, hKK]

theorem filter_idempotent_witness :
    ∃ out, filter demo_fenv (demo_filter_req [demo_regex_i "foo"] [20, 21, 22, 23]) = some out ∧
      filter demo_fenv out = some out ∧ out.result.rows = [[20], [21], [22]] := by
  obtain ⟨out, h1, h2, _, h4⟩ := filter_idempotent demo_fenv
    (demo_filter_req [demo_regex_i "foo"] [20, 21, 22, 23]) (by decide)
  exact ⟨out, h1, h2, h4.trans (by decide)⟩

/-! ## Backpressure -/

theorem sweep_loop_eq (ok : Nat → Bool) (l : List Message) :
    ∀ (kept : List Message) (st : SendState),
      sweep_loop ok l kept st
        = { pending_msgs := kept ++ with_outcome ok false st.calls l
            accepted := st.accepted ++ with_outcome ok true st.calls l
            calls := st.calls + l.length } := by
  induction l with
  | nil => intro kept st; simp [sweep_loop, with_outcome]
  | cons m rest ih =>
    intro kept st
    unfold sweep_loop
    cases hk : ok st.calls with
    | true =>
      simp only [adaptor_send, hk, if_true]
      rw [ih]
      simp [with_outcome, hk, Nat.add_assoc, Nat.add_comm 1]
    | false =>
      simp only [adaptor_send, hk, Bool.false_eq_true, if_false]
      rw [ih]
      simp [with_outcome, hk, Nat.add_assoc, Nat.add_comm 1]

theorem sweep_msgs_eq (ok : Nat → Bool) (st : SendState) :
    sweep_msgs ok st
      = { pending_msgs := with_outcome ok false st.calls st.pending_msgs
          accepted := st.accepted ++ with_outcome ok true st.calls st.pending_msgs
          calls := st.calls + st.pending_msgs.length } := by
  unfold sweep_msgs
  by_cases h : st.pending_msgs.length = 0
  · rw [if_pos h]
    have : st.pending_msgs = [] := List.length_eq_zero.1 h
    obtain ⟨p, a, c⟩ := st
    simp only at this
    subst this
    simp [with_outcome]
  · rw [if_neg h, sweep_loop_eq]
    simp

theorem with_outcome_perm (ok : Nat → Bool) (l : List Message) :
    ∀ k, (with_outcome ok true k l ++ with_outcome ok false k l).Perm l := by
  induction l with
  | nil => intro k; exact List.Perm.refl _
  | cons m rest ih =>
    intro k
    unfold with_outcome
    cases hk : ok k with
    | true =>
      simp only [if_true, Bool.true_eq_false, if_false, List.cons_append]
      exact List.Perm.cons m (ih (k + 1))
    | false =>
      simp only [if_true, Bool.false_eq_true, if_false]
      exact (List.perm_middle).trans (List.Perm.cons m (ih (k + 1)))

theorem with_outcome_sublist (ok : Nat → Bool) (b : Bool) (l : List Message) :
    ∀ k, (with_outcome ok b k l).Sublist l := by
  induction l with
  | nil => intro k; exact List.Sublist.slnil
  | cons m rest ih =>
    intro k
    unfold with_outcome
    split
    · exact (ih (k + 1)).cons₂ m
    · exact (ih (k + 1)).cons m

theorem sweep_msgs_perm (ok : Nat → Bool) (st : SendState) :
    ((sweep_msgs ok st).accepted ++ (sweep_msgs ok st).pending_msgs).Perm
      (st.accepted ++ st.pending_msgs) := by
  rw [sweep_msgs_eq]
  simp only [List.append_assoc]
  exact List.Perm.append_left _ (with_outcome_perm ok st.pending_msgs st.calls)

theorem send_request_perm (ok : Nat → Bool) (st : SendState) (bundle : SPARQLQuery)
    (dst_sid dst_tid : Int) :
    ((send_request ok st bundle dst_sid dst_tid).2.accepted
        ++ (send_request ok st bundle dst_sid dst_tid).2.pending_msgs).Perm
      ((st.accepted ++ st.pending_msgs)
        ++ [{ sid := dst_sid, tid := dst_tid, bundle := bundle }]) := by
  unfold send_request adaptor_send
  cases hk : ok st.calls with
  | true =>
    simp only [if_true, List.append_assoc]
    exact List.Perm.append_left _ List.perm_append_comm
  | false =>
    simp only [Bool.false_eq_true, if_false, List.append_assoc]
    exact List.Perm.refl _

theorem handed_append (ops : List SendOp) (op : SendOp) :
    handed (ops ++ [op]) = handed ops ++ handed [op] := by
  simp [handed, List.filterMap_append]

theorem run_send_ops_perm (ok : Nat → Bool) (ops : List SendOp) :
    ∀ st : SendState,
      ((run_send_ops ok ops st).accepted ++ (run_send_ops ok ops st).pending_msgs).Perm
        ((st.accepted ++ st.pending_msgs) ++ handed ops) := by
  induction ops with
  | nil => intro st; simp [run_send_ops, handed]
  | cons op ops ih =>
    intro st
    have hrun : run_send_ops ok (op :: ops) st
        = run_send_ops ok ops
            (match op with
             | .request bundle dst_sid dst_tid => (send_request ok st bundle dst_sid dst_tid).2
             | .sweep => sweep_msgs ok st) := by
      simp [run_send_ops]
    rw [hrun]
    refine (ih _).trans ?_
    cases op with
    | request bundle dst_sid dst_tid =>
      have h := send_request_perm ok st bundle dst_sid dst_tid
      simp only [handed, List.filterMap_cons]
      exact (List.Perm.append_right _ h).trans (by simp)
    | sweep =>
      have h := sweep_msgs_perm ok st
      simp only [handed, List.filterMap_cons]
      exact List.Perm.append_right _ h

/-- C31. Whatever the outcomes `ok` of the transport calls are: after any sequence
of `send_request` and `sweep_msgs` calls, started with nothing pending, the
accepted bundles together with `pending_msgs` are, as a multiset, exactly the
bundles handed to `send_request`, each with its destination.  `send_request`
answers with the outcome of its one transport call, and `sweep_msgs` retries
the pending messages in order, the `i`-th one by the `i`-th call it makes: it
keeps those whose retry fails, in their order, and moves the others to the
accepted ones. -/
theorem no_bundle_dropped (ok : Nat → Bool) (ops : List SendOp) :
    ((run_send_ops ok ops {}).accepted ++ (run_send_ops ok ops {}).pending_msgs).Perm
      (handed ops) ∧
    (∀ (st : SendState) (bundle : SPARQLQuery) (dst_sid dst_tid : Int),
      (send_request ok st bundle dst_sid dst_tid).1 = ok st.calls) ∧
    (∀ st : SendState,
      (sweep_msgs ok st).pending_msgs = with_outcome ok false st.calls st.pending_msgs ∧
      (sweep_msgs ok st).accepted
        = st.accepted ++ with_outcome ok true st.calls st.pending_msgs ∧
      (sweep_msgs ok st).pending_msgs.Sublist st.pending_msgs ∧
      ((sweep_msgs ok st).pending_msgs ++ with_outcome ok true st.calls st.pending_msgs).Perm
        st.pending_msgs) := by
  refine ⟨?_, ?_, ?_⟩
  · have h := run_send_ops_perm ok ops {}
    simpa using h
  · intro st bundle dst_sid dst_tid
    unfold send_request adaptor_send
    cases ok st.calls <;> rfl
  · intro st
    rw [sweep_msgs_eq]
    refine ⟨rfl, rfl, with_outcome_sublist ok false _ _, ?_⟩
    exact List.perm_append_comm.trans (with_outcome_perm ok st.pending_msgs st.calls)

/-- Two requests whose sends fail, then a sweep in which the first retry succeeds
and the second fails: the bundle for (1, 2) is accepted, the bundle for (3, 4)
is still pending. -/
theorem send_sweep_example :
    ((run_send_ops (fun k => decide (k = 2))
        [SendOp.request demo_req0 1 2, SendOp.request demo_req0 3 4, SendOp.sweep] {}).accepted.map
        (fun m => (m.sid, m.tid)),
     (run_send_ops (fun k => decide (k = 2))
        [SendOp.request demo_req0 1 2, SendOp.request demo_req0 3 4, SendOp.sweep] {}).pending_msgs.map
        (fun m => (m.sid, m.tid)))
      = ([(1, 2)], [(3, 4)]) := by
  decide

/-! ## The two load strategies -/

theorem load_allfiles_file_eq (g : DGraph) (c : Nat) (file : List triple_t) :
    ∀ slot : List triple_t,
      (slot.length + (file.filter (kept_by g)).length) * 3 * g.sizeof_sid ≤ c →
      load_allfiles_file g c file slot = some (slot ++ file.filter (kept_by g)) := by
  unfold load_allfiles_file
  induction file with
  | nil => intro slot _; simp
  | cons x rest ih =>
    intro slot hcap
    rw [List.foldlM_cons]
    by_cases hk : kept_by g x = true
    · have hk2 := hk
      simp only [kept_by, Bool.or_eq_true, decide_eq_true_eq] at hk2
      rw [List.filter_cons_of_pos hk] at hcap ⊢
      simp only [List.length_cons] at hcap
      have hfit : (slot.length * 3 + 3) * g.sizeof_sid ≤ c := by
        refine le_trans ?_ hcap
        have : slot.length * 3 + 3 ≤ (slot.length + ((rest.filter (kept_by g)).length + 1)) * 3 := by
          omega
        exact Nat.mul_le_mul_right _ this
      simp only [if_pos hk2, if_pos hfit, Option.bind_eq_bind, Option.some_bind]
      rw [ih (slot ++ [x]) (by
        rw [List.length_append, List.length_singleton]
        refine le_trans ?_ hcap
        apply Nat.mul_le_mul_right
        omega)]
      simp
    · have hk2 := hk
      simp only [kept_by, Bool.or_eq_true, decide_eq_true_eq] at hk2
      rw [List.filter_cons_of_neg hk] at hcap ⊢
      simp only [if_neg hk2, Option.bind_eq_bind, Option.some_bind]
      exact ih slot hcap

theorem load_allfiles_loop_eq (g : DGraph) (thread_of : Nat → Nat)
    (files : List (List triple_t)) (c : Nat)
    (hc : kvs_sz g g.cfg.global_num_engines = some c) (l : List Nat)
    (hl : ∀ i ∈ l, i < files.length) :
    ∀ kvs : Nat → List triple_t,
      (∀ t, ((kvs t).length
          + (((l.filter (fun i => decide (thread_of i = t))).flatMap
              (fun i => files.getD i [])).filter (kept_by g)).length)
            * 3 * g.sizeof_sid ≤ c) →
      ∃ kvs2, l.foldlM
          (fun (kvs : Nat → List triple_t) i => do
            let localtid := thread_of i
            let kvs_sz ← kvs_sz g g.cfg.global_num_engines
            let file ← files[i]?
            let slot ← load_allfiles_file g kvs_sz file (kvs localtid)
            pure (fun t => if t = localtid then slot else kvs t))
          kvs = some kvs2 ∧
        ∀ t, kvs2 t = kvs t
          ++ ((l.filter (fun i => decide (thread_of i = t))).flatMap
              (fun i => files.getD i [])).filter (kept_by g) := by
  induction l with
  | nil =>
    intro kvs _
    exact ⟨kvs, rfl, fun t => by simp⟩
  | cons i l ih =>
    intro kvs hcap
    have hi : i < files.length := hl i (List.mem_cons_self _ _)
    have hl2 : ∀ j ∈ l, j < files.length := fun j hj => hl j (List.mem_cons_of_mem _ hj)
    have hget : files.getD i [] = files[i] := by
      rw [List.getD_eq_getElem?_getD, List.getElem?_eq_getElem hi]; rfl
    have hsplit : ∀ t, ((i :: l).filter (fun i => decide (thread_of i = t))).flatMap
          (fun i => files.getD i [])
        = (if thread_of i = t then files[i] else [])
          ++ (l.filter (fun i => decide (thread_of i = t))).flatMap
            (fun i => files.getD i []) := by
      intro t
      by_cases ht : thread_of i = t
      · rw [List.filter_cons_of_pos (by simpa using ht), List.flatMap_cons, hget, if_pos ht]
      · rw [List.filter_cons_of_neg (by simpa using ht), if_neg ht, List.nil_append]
    have hcap1 := hcap (thread_of i)
    rw [hsplit, if_pos rfl, List.filter_append, List.length_append] at hcap1
    have hfile := load_allfiles_file_eq g c files[i] (kvs (thread_of i)) (by
      refine le_trans ?_ hcap1
      apply Nat.mul_le_mul_right
      omega)
    obtain ⟨kvs2, h2, hk2⟩ := ih hl2
      (fun t => if t = thread_of i then kvs (thread_of i) ++ files[i].filter (kept_by g)
        else kvs t) (by
      intro t
      beta_reduce
      have hcapt := hcap t
      rw [hsplit] at hcapt
      by_cases ht : t = thread_of i
      · subst ht
        rw [if_pos rfl, List.filter_append, List.length_append] at hcapt
        rw [if_pos rfl, List.length_append]
        refine le_trans ?_ hcapt
        apply Nat.mul_le_mul_right
        omega
      · rw [if_neg (fun h => ht h.symm), List.nil_append] at hcapt
        rw [if_neg ht]
        exact hcapt)
    refine ⟨kvs2, ?_, ?_⟩
    · rw [List.foldlM_cons]
      simp only [hc, Option.bind_eq_bind, Option.some_bind, Option.pure_def] at h2 ⊢
      rw [List.getElem?_eq_getElem hi, Option.some_bind, hfile, Option.some_bind]
      exact h2
    · intro t
      rw [hk2 t, hsplit]
      by_cases ht : t = thread_of i
      · subst ht
        rw [if_pos rfl, if_pos rfl, List.filter_append, List.append_assoc]
      · rw [if_neg ht, if_neg (fun h => ht h.symm), List.nil_append]

theorem load_data_from_allfiles_eq (g : DGraph) (thread_of : Nat → Nat)
    (files : List (List triple_t)) (c : Nat)
    (hc : kvs_sz g g.cfg.global_num_engines = some c)
    (hcap : ∀ t, ((thread_triples thread_of files t).filter (kept_by g)).length
      * 3 * g.sizeof_sid ≤ c) :
    load_data_from_allfiles g thread_of files (fun _ => [])
      = some (g.cfg.global_num_engines,
          fun t => (thread_triples thread_of files t).filter (kept_by g)) := by
  obtain ⟨kvs2, h2, hk2⟩ := load_allfiles_loop_eq g thread_of files c hc
    (List.range files.length) (fun i hi => List.mem_range.1 hi) (fun _ => []) (by
      intro t
      rw [List.length_nil, Nat.zero_add]
      exact hcap t)
  unfold load_data_from_allfiles
  simp only [Option.bind_eq_bind, Option.pure_def] at h2 ⊢
  rw [h2, Option.some_bind]
  congr 2
  funext t
  rw [hk2 t, List.nil_append]
  rfl

theorem flatten_eq_flatMap_range {α : Type} (L : List (List α)) :
    L.flatten = (List.range L.length).flatMap (fun i => L.getD i []) := by
  induction L with
  | nil => rfl
  | cons x L ih =>
    rw [List.length_cons, List.range_succ_eq_map, List.flatMap_cons, List.flatten_cons]
    congr 1
    rw [ih, List.flatMap_map]
    rfl

theorem sort_triples_perm_eq (lt : triple_t → triple_t → Bool) (hlt : strict_total lt)
    (l1 l2 : List triple_t) (h : l1.Perm l2) : sort_triples lt l1 = sort_triples lt l2 := by
  haveI : IsAntisymm triple_t (fun a b => lt b a = false) :=
    ⟨fun a b h1 h2 => hlt.2.2 a b h2 h1⟩
  apply List.eq_of_perm_of_sorted _ (sort_triples_sorted lt hlt l1)
    (sort_triples_sorted lt hlt l2)
  exact (sort_triples_perm lt l1).trans (h.trans (sort_triples_perm lt l2).symm)

theorem aggregate_data_perm (g : DGraph) (V : Bool) (p1 p2 : List (List triple_t))
    (h : p1.flatten.Perm p2.flatten) : aggregate_data g V p1 = aggregate_data g V p2 := by
  rw [aggregate_data_eq, aggregate_data_eq]
  congr 1
  apply List.map_congr_left
  intro tid _
  rw [sort_triples_perm_eq _ (order_out_strict V) _ _ (h.filter (owns_out g tid)),
    sort_triples_perm_eq _ (order_in_strict V) _ _ (h.filter (owns_in g tid))]

theorem kept_by_cluster (g : DGraph) (k : Nat) :
    kept_by (cluster_loader g k) = sent_to g.cfg k := by
  funext x
  simp [kept_by, sent_to, cluster_loader]

theorem own_triples_cluster (g : DGraph) (files : List (List triple_t)) (src : Nat) :
    own_triples (cluster_loader g src) files
      = ((List.range files.length).filter
          (fun i => decide (i % g.cfg.global_num_servers = src))).flatMap
          (fun i => files.getD i []) := by
  unfold own_triples cluster_loader
  congr 2
  funext i
  simp
  norm_cast

theorem allfiles_partitions_eq (g : DGraph) (thread_of : Nat → Nat)
    (files : List (List triple_t)) (k c : Nat)
    (hc : kvs_sz g g.cfg.global_num_engines = some c)
    (hth : ∀ i, thread_of i < g.cfg.global_num_engines)
    (hcap : ∀ t, ((thread_triples thread_of files t).filter (sent_to g.cfg k)).length
      * 3 * g.sizeof_sid ≤ c) :
    ∃ pa, allfiles_partitions g thread_of files k = some pa ∧
      pa.length = g.cfg.global_num_engines ∧
      pa.flatten.Perm (files.flatten.filter (sent_to g.cfg k)) := by
  have h := load_data_from_allfiles_eq (cluster_loader g k) thread_of files c hc (by
    intro t
    rw [kept_by_cluster]
    exact hcap t)
  refine ⟨(List.range g.cfg.global_num_engines).map
      (fun t => (thread_triples thread_of files t).filter (sent_to g.cfg k)), ?_, ?_, ?_⟩
  · unfold allfiles_partitions
    rw [h, kept_by_cluster]
    rfl
  · simp
  · rw [← List.flatMap_def, flatten_eq_flatMap_range files]
    have hp := partition_flatMap_perm thread_of g.cfg.global_num_engines
      (fun i => files.getD i []) (List.range files.length) (fun i _ => hth i)
    have hp2 := hp.filter (sent_to g.cfg k)
    rw [List.filter_flatMap] at hp2
    exact hp2

theorem exchange_partitions_eq (g : DGraph) (thread_of : Nat → Nat)
    (files : List (List triple_t)) (k b c : Nat)
    (hS : 0 < g.cfg.global_num_servers) (hk : k < g.cfg.global_num_servers)
    (hb : buf_sz g = some b) (hb3 : 3 * g.sizeof_sid ≤ b)
    (hc : kvs_sz g g.cfg.global_num_servers = some c)
    (hth : ∀ i, thread_of i < g.cfg.global_num_engines)
    (hcap : ∀ src, src < g.cfg.global_num_servers →
      ∀ j, ((own_triples (cluster_loader g src) files).filter
        (sent_to g.cfg j)).length * 3 * g.sizeof_sid ≤ c) :
    ∃ px, exchange_partitions g thread_of files k = some px ∧
      px.length = g.cfg.global_num_servers ∧
      px.flatten.Perm (files.flatten.filter (sent_to g.cfg k)) := by
  have hsrc : ∀ src, src < g.cfg.global_num_servers → ∃ part,
      (load_data (cluster_loader g src) thread_of files Staging.empty).map
        (fun r : Nat × Staging => r.2.kvs k) = some part ∧
      part.Perm ((own_triples (cluster_loader g src) files).filter (sent_to g.cfg k)) := by
    intro src hlt
    obtain ⟨st, hst, _, hmu⟩ := load_data_eq (cluster_loader g src) thread_of files b c
      hb hb3 hc hth (hcap src hlt)
    refine ⟨st.kvs k, by rw [hst]; rfl, ?_⟩
    rw [List.perm_iff_count]
    intro x
    exact hmu k hk (List.count x) (fun a b => List.count_append x a b)
  have hmap := mapM_eq_some_map
    (fun src => (load_data (cluster_loader g src) thread_of files Staging.empty).map
      (fun r : Nat × Staging => r.2.kvs k))
    (fun src => ((load_data (cluster_loader g src) thread_of files Staging.empty).map
      (fun r : Nat × Staging => r.2.kvs k)).getD [])
    (List.range g.cfg.global_num_servers) (by
      intro src hmem
      obtain ⟨part, hp, _⟩ := hsrc src (List.mem_range.1 hmem)
      beta_reduce
      rw [hp]
      rfl)
  refine ⟨(List.range g.cfg.global_num_servers).map
    (fun src => ((load_data (cluster_loader g src) thread_of files Staging.empty).map
      (fun r : Nat × Staging => r.2.kvs k)).getD []), hmap, by simp, ?_⟩
  rw [← List.flatMap_def, flatten_eq_flatMap_range files]
  have h1 : ((List.range g.cfg.global_num_servers).flatMap
      (fun src => ((load_data (cluster_loader g src) thread_of files Staging.empty).map
        (fun r : Nat × Staging => r.2.kvs k)).getD [])).Perm
      ((List.range g.cfg.global_num_servers).flatMap
        (fun src => (own_triples (cluster_loader g src) files).filter (sent_to g.cfg k))) := by
    apply List.Perm.flatMap_left
    intro src hmem
    obtain ⟨part, hp, hperm⟩ := hsrc src (List.mem_range.1 hmem)
    rw [hp]
    exact hperm
  refine h1.trans ?_
  have hp := partition_flatMap_perm (fun i => i % g.cfg.global_num_servers)
    g.cfg.global_num_servers (fun i => files.getD i []) (List.range files.length)
    (fun i _ => Nat.mod_lt _ hS)
  have hp2 := hp.filter (sent_to g.cfg k)
  rw [List.filter_flatMap] at hp2
  have hfun : (fun src => (own_triples (cluster_loader g src) files).filter (sent_to g.cfg k))
      = (fun src => (((List.range files.length).filter
          (fun i => decide (i % g.cfg.global_num_servers = src))).flatMap
          (fun i => files.getD i [])).filter (sent_to g.cfg k)) := by
    funext src
    rw [own_triples_cluster]
  rw [hfun]
  exact hp2


/-- Claim C36.  Run on the same files of a cluster of `S` servers with `M`
threads each, the exchange-load (every server reads the files `i % S == sid`
and writes the copies for server `k` into its slot of the kvstore of `k`) and
the all-files-load (server `k` reads every file and keeps the triples whose
subject or object it owns, one kvstore slot per thread) both return, when no
staging region overflows, and leave on every server `k` partitions that hold
the same multiset of triples: the triples of the files whose subject or object
hashes to `k`, each as often as the files have it.  `aggregate_data` therefore
builds the same out-edge and in-edge lists on server `k` from either load. -/
theorem load_strategies_agree (g : DGraph) (thread_x thread_a : Nat → Nat)
    (files : List (List triple_t)) (k b cx ca : Nat)
    (hS : 0 < g.cfg.global_num_servers) (hk : k < g.cfg.global_num_servers)
    (hb : buf_sz g = some b) (hb3 : 3 * g.sizeof_sid ≤ b)
    (hcx : kvs_sz g g.cfg.global_num_servers = some cx)
    (hthx : ∀ i, thread_x i < g.cfg.global_num_engines)
    (hcapx : ∀ src, src < g.cfg.global_num_servers →
      ∀ j, ((own_triples (cluster_loader g src) files).filter
        (sent_to g.cfg j)).length * 3 * g.sizeof_sid ≤ cx)
    (hca : kvs_sz g g.cfg.global_num_engines = some ca)
    (htha : ∀ i, thread_a i < g.cfg.global_num_engines)
    (hcapa : ∀ t, ((thread_triples thread_a files t).filter (sent_to g.cfg k)).length
      * 3 * g.sizeof_sid ≤ ca) :
    ∃ px pa, exchange_partitions g thread_x files k = some px ∧
      allfiles_partitions g thread_a files k = some pa ∧
      px.length = g.cfg.global_num_servers ∧
      pa.length = g.cfg.global_num_engines ∧
      px.flatten.Perm (files.flatten.filter (sent_to g.cfg k)) ∧
      pa.flatten.Perm (files.flatten.filter (sent_to g.cfg k)) ∧
      px.flatten.Perm pa.flatten ∧
      ∀ V, aggregate_data (cluster_loader g k) V px
        = aggregate_data (cluster_loader g k) V pa := by
  obtain ⟨px, hx, hxl, hxp⟩ := exchange_partitions_eq g thread_x files k b cx hS hk hb hb3
    hcx hthx hcapx
  obtain ⟨pa, ha, hal, hap⟩ := allfiles_partitions_eq g thread_a files k ca hca htha hcapa
  exact ⟨px, pa, hx, ha, hxl, hal, hxp, hap, hxp.trans hap.symm,
    fun V => aggregate_data_perm _ V px pa (hxp.trans hap.symm)⟩

theorem load_strategies_agree_witness :
    ∃ px pa, exchange_partitions demo_dgraph (fun _ => 0) demo_files 0 = some px ∧
      allfiles_partitions demo_dgraph (fun i => i % 2) demo_files 0 = some pa ∧
      px.flatten.Perm pa.flatten ∧
      ∀ V, aggregate_data (cluster_loader demo_dgraph 0) V px
        = aggregate_data (cluster_loader demo_dgraph 0) V pa := by
  obtain ⟨px, pa, hx, ha, _, _, _, _, hp, hagg⟩ :=
    load_strategies_agree demo_dgraph (fun _ => 0) (fun i => i % 2) demo_files 0 56 120 120
      (by decide) (by decide) (by decide) (by decide) (by decide)
      (fun _ => (by decide : (0 : Nat) < 2))
      (fun src hsrc j => le_trans
        (Nat.mul_le_mul_right _ (Nat.mul_le_mul_right _ (List.length_filter_le _ _)))
        (by
          have h2 : src < 2 := hsrc
          interval_cases src <;> decide))
      (by decide) (fun i => Nat.mod_lt i (by decide : 0 < 2))
      (fun t => le_trans
        (Nat.mul_le_mul_right _ (Nat.mul_le_mul_right _ (List.length_filter_le _ _)))
        (by
          by_cases h0 : t = 0
          · subst h0; decide
          · by_cases h1 : t = 1
            · subst h1; decide
            · have : thread_triples (fun i => i % 2) demo_files t = [] := by
                unfold thread_triples
                have hf : (List.range demo_files.length).filter
                    (fun i => decide ((fun i => i % 2) i = t)) = [] := by
                  rw [List.filter_eq_nil_iff]
                  intro i hi
                  have hi2 : i < 2 := List.mem_range.1 hi
                  simp only [decide_eq_true_eq]
                  omega
                rw [hf]
                rfl
              rw [this]
              decide))
  exact ⟨px, pa, hx, ha, hp, hagg⟩

/-- The two loads of the sample cluster, seen from server 0: the exchange-load
leaves one partition per server, the all-files-load one per thread; the
partitions differ, their triples do not. -/
theorem load_strategies_example :
    exchange_partitions demo_dgraph (fun _ => 0) demo_files 0
      = some [[{ s := 10, p := 100, o := 11 }, { s := 10, p := 100, o := 12 },
          { s := 10, p := 100, o := 11 }], [{ s := 11, p := 100, o := 12 }]] ∧
    allfiles_partitions demo_dgraph (fun _ => 0) demo_files 0
      = some [[{ s := 10, p := 100, o := 11 }, { s := 10, p := 100, o := 12 },
          { s := 10, p := 100, o := 11 }, { s := 11, p := 100, o := 12 }], []] := by
  constructor <;> decide


/-! ## Work stealing -/

/-- C32. The sample reply to the parent 121 of the sample engine E (server 0,
thread 1, table entry 0), executed by its neighbour N (thread 2, table entry 1)
on behalf of E.  The reply is merged in the reply map of E and the parent is
ready; its two OPTIONAL groups are then dispatched by N: the parent 121 is
registered with the count 2 in the reply map of N, not of E, the local child
goes to the fast path of N and the other one is sent with the thread of N.
Both children carry the parent id 121, which `tid_of` decodes to thread 1: their
replies are addressed to E.  When E executes the same reply itself the parent
is registered in its own map.  After the stolen execution a reply of a child
finds no parent in the map of E, whoever executes it: the map gets a fresh
entry with the count -1, nothing is sent, and the parent stays in the map of N
with the count 2. -/
theorem stolen_reply_optional :
    own_id demo_engine = 0 ∧ own_id demo_engine_nbr = 1 ∧ nbr_id demo_engine_nbr = 0 ∧
    demo_coder.sid_of 121 = 0 ∧ demo_coder.tid_of 121 = 1 ∧
    (execute_sparql_reply demo_ops demo_fenv demo_coder demo_engine_nbr demo_engines
        demo_opt_reply 0).map observe
      = some ([([], []), ([(121, 2)], [121])], [(0, 2, 121)]) ∧
    (execute_sparql_reply demo_ops demo_fenv demo_coder demo_engine demo_engines
        demo_opt_reply 0).map observe
      = some ([([(121, 2)], [121]), ([], [])], [(0, 1, 121)]) ∧
    ((execute_sparql_reply demo_ops demo_fenv demo_coder demo_engine_nbr demo_engines
        demo_opt_reply 0).bind
      (fun out => execute_sparql_reply demo_ops demo_fenv demo_coder demo_engine out.1
        { demo_opt_reply with id := 201 } 0)).map observe
      = some ([([(121, -1)], []), ([(121, 2)], [121])], []) ∧
    ((execute_sparql_reply demo_ops demo_fenv demo_coder demo_engine_nbr demo_engines
        demo_opt_reply 0).bind
      (fun out => execute_sparql_reply demo_ops demo_fenv demo_coder demo_engine_nbr out.1
        { demo_opt_reply with id := 201 } 0)).map observe
      = some ([([(121, -1)], []), ([(121, 2)], [121])], []) := by
  refine ⟨by decide, by decide, by decide, by decide, by decide, ?_, ?_, ?_, ?_⟩ <;> decide


/-! ## Co-run -/

theorem foldlM_range_some {σ : Type} (f : σ → Nat → Option σ) (n : Nat) (init : σ)
    (h : ∀ st k, k < n → ∃ st2, f st k = some st2) :
    ∃ out, (List.range n).foldlM f init = some out := by
  induction n with
  | zero => exact ⟨init, rfl⟩
  | succ n ih =>
    obtain ⟨mid, hmid⟩ := ih (fun st k hk => h st k (by omega))
    obtain ⟨out, hout⟩ := h mid n (by omega)
    refine ⟨out, ?_⟩
    rw [List.range_succ, List.foldlM_append, hmid]
    simp [hout]

theorem corun_patterns_some (req : SPARQLQuery)
    (hpat : req.fetch_step ≤ req.pattern_group.patterns.length) :
    ∃ st, corun_patterns req = some st := by
  unfold corun_patterns
  apply foldlM_range_some
  intro st k hk
  have hlt : req.corun_step + k < req.pattern_group.patterns.length := by omega
  simp [SPARQLQuery.get_pattern, List.getElem?_eq_getElem hlt]

theorem distinct_values_fold (l acc : List sid_t) :
    (∀ v, v ∈ l.foldl (fun set v => if v ∈ set then set else set ++ [v]) acc
      ↔ v ∈ acc ∨ v ∈ l) ∧
    (acc.Nodup → (l.foldl (fun set v => if v ∈ set then set else set ++ [v]) acc).Nodup) := by
  induction l generalizing acc with
  | nil => simp
  | cons x l ih =>
    rw [List.foldl_cons]
    by_cases hx : x ∈ acc
    · rw [if_pos hx]
      refine ⟨fun v => ?_, (ih acc).2⟩
      rw [(ih acc).1 v, List.mem_cons]
      constructor
      · rintro (h | h)
        · exact Or.inl h
        · exact Or.inr (Or.inr h)
      · rintro (h | h | h)
        · exact Or.inl h
        · exact Or.inl (h ▸ hx)
        · exact Or.inr h
    · rw [if_neg hx]
      refine ⟨fun v => ?_, fun hnd => (ih (acc ++ [x])).2 ?_⟩
      · rw [(ih (acc ++ [x])).1 v, List.mem_append, List.mem_singleton, List.mem_cons]
        tauto
      · rw [List.nodup_append]
        refine ⟨hnd, List.nodup_singleton x, ?_⟩
        intro a ha hb
        rw [List.mem_singleton] at hb
        exact hx (hb ▸ ha)

theorem distinct_values_mem (l : List sid_t) (v : sid_t) : v ∈ distinct_values l ↔ v ∈ l := by
  unfold distinct_values
  rw [(distinct_values_fold l []).1 v]
  simp

theorem distinct_values_nodup (l : List sid_t) : (distinct_values l).Nodup :=
  (distinct_values_fold l []).2 List.nodup_nil

theorem corun_unique_loop (r : Result) (k : Nat) (hk : k < r.col_num) (l : List Nat)
    (hl : ∀ i ∈ l, i < r.get_row_num) (acc : List sid_t) :
    l.foldlM
      (fun (unique_set : List sid_t) i => do
        let v ← r.get_row_col i (k : Int)
        pure (if v ∈ unique_set then unique_set else unique_set ++ [v]))
      acc
      = some ((l.map (fun i => (r.row i).getD k 0)).foldl
          (fun set v => if v ∈ set then set else set ++ [v]) acc) := by
  induction l generalizing acc with
  | nil => rfl
  | cons i l ih =>
    rw [List.foldlM_cons, get_row_col_row r i k (hl i (List.mem_cons_self _ _)) hk]
    simp only [Option.bind_eq_bind, Option.some_bind, Option.pure_def, List.map_cons,
      List.foldl_cons]
    exact ih (fun j hj => hl j (List.mem_cons_of_mem _ hj)) _

theorem corun_unique_eq (req : SPARQLQuery) (pat : Pattern) (k : Nat)
    (hp : req.get_pattern req.corun_step = some pat) (hvid : pat.subject < 0)
    (hcol : req.result.var2col pat.subject = (k : Int)) (hk : k < req.result.col_num) :
    corun_unique req
      = some (distinct_values (req.result.rows.map (fun row => row.getD k 0))) := by
  unfold corun_unique
  rw [hp]
  simp only [Option.bind_eq_bind, Option.some_bind, not_lt]
  rw [if_neg (not_le.2 hvid), hcol]
  have h := corun_unique_loop req.result k hk (List.range req.result.get_row_num)
    (fun i hi => List.mem_range.1 hi) []
  simp only [Option.bind_eq_bind, Option.pure_def] at h ⊢
  rw [h]
  unfold distinct_values Result.rows
  rw [List.map_map]
  rfl

theorem corun_fill_prefix (r : Result) (pvars_map : List Int) (i : Nat)
    (hi : i < r.get_row_num)
    (hb : ∀ c ∈ pvars_map, 0 ≤ c ∧ c < (r.col_num : Int))
    (tmp : List sid_t) (m : Nat) (hm : m ≤ pvars_map.length) (hmt : m ≤ tmp.length) :
    ∃ out, (List.range m).foldlM
        (fun (tmp : List sid_t) c => do
          let col ← pvars_map[c]?
          let v ← r.get_row_col i col
          if c < tmp.length then pure (tmp.set c v) else none)
        tmp = some out ∧
      out.length = tmp.length ∧
      (∀ c, c < m → out[c]? = (corun_tuple pvars_map (r.row i))[c]?) ∧
      (∀ c, m ≤ c → out[c]? = tmp[c]?) := by
  induction m with
  | zero => exact ⟨tmp, rfl, rfl, fun c hc => absurd hc (by omega), fun c _ => rfl⟩
  | succ m ih =>
    obtain ⟨mid, hmid, hlen, hlo, hhi⟩ := ih (by omega) (by omega)
    have hmlt : m < pvars_map.length := by omega
    obtain ⟨h0, h1⟩ := hb pvars_map[m] (List.getElem_mem hmlt)
    obtain ⟨k, hk⟩ := Int.eq_ofNat_of_zero_le h0
    have hkc : k < r.col_num := by omega
    refine ⟨mid.set m ((r.row i).getD k 0), ?_, ?_, ?_, ?_⟩
    · rw [List.range_succ, List.foldlM_append, hmid]
      simp only [Option.bind_eq_bind, Option.some_bind, List.foldlM_cons, List.foldlM_nil,
        List.getElem?_eq_getElem hmlt, hk, get_row_col_row r i k hi hkc, Option.pure_def]
      rw [if_pos (by omega)]
      rfl
    · rw [List.length_set, hlen]
    · intro c hc
      by_cases hcm : c = m
      · subst hcm
        rw [List.getElem?_set_self (by omega)]
        unfold corun_tuple
        rw [List.getElem?_map, List.getElem?_eq_getElem hmlt, hk]
        rfl
      · rw [List.getElem?_set_ne (fun h => hcm h.symm)]
        exact hlo c (by omega)
    · intro c hc
      rw [List.getElem?_set_ne (by omega)]
      exact hhi c (by omega)

theorem corun_fill_eq (r : Result) (pvars_map : List Int) (i : Nat)
    (hi : i < r.get_row_num)
    (hb : ∀ c ∈ pvars_map, 0 ≤ c ∧ c < (r.col_num : Int))
    (tmp : List sid_t) (hlen : tmp.length = pvars_map.length) :
    corun_fill r pvars_map i tmp = some (corun_tuple pvars_map (r.row i)) := by
  obtain ⟨out, hout, hl, hlo, _⟩ :=
    corun_fill_prefix r pvars_map i hi hb tmp pvars_map.length (le_refl _) (by omega)
  unfold corun_fill
  rw [hout]
  congr 1
  apply List.ext_getElem?
  intro c
  by_cases hc : c < pvars_map.length
  · exact hlo c hc
  · rw [List.getElem?_eq_none (by omega), List.getElem?_eq_none]
    simp [corun_tuple]
    omega

theorem corun_rows_loop (r : Result) (n : Nat) (test : List sid_t → Bool)
    (F : List sid_t × List sid_t → Nat → Option (List sid_t × List sid_t))
    (hF : ∀ tmp upd i, i < r.get_row_num → tmp.length = n →
      ∃ tmp2, tmp2.length = n ∧
        F (tmp, upd) i = some (tmp2, if test (r.row i) then upd ++ r.row i else upd))
    (l : List Nat) (hl : ∀ i ∈ l, i < r.get_row_num) (tmp upd : List sid_t)
    (ht : tmp.length = n) :
    ∃ tmp2, tmp2.length = n ∧
      l.foldlM F (tmp, upd) = some (tmp2, upd ++ ((l.map r.row).filter test).flatten) := by
  induction l generalizing tmp upd with
  | nil => exact ⟨tmp, ht, by simp⟩
  | cons i l ih =>
    obtain ⟨t1, ht1, hstep⟩ := hF tmp upd i (hl i (List.mem_cons_self _ _)) ht
    obtain ⟨t2, ht2, hrest⟩ := ih (fun j hj => hl j (List.mem_cons_of_mem _ hj)) t1
      (if test (r.row i) then upd ++ r.row i else upd) ht1
    refine ⟨t2, ht2, ?_⟩
    rw [List.foldlM_cons, hstep]
    simp only [Option.bind_eq_bind, Option.some_bind]
    rw [hrest]
    congr 2
    by_cases htest : test (r.row i) = true
    · simp [htest, List.filter_cons]
    · simp [htest, List.filter_cons]


theorem tuples_eq_rows (r : Result) (h : r.col_num ≠ 0) :
    tuples r.col_num r.result_table = r.rows := by
  unfold tuples Result.rows Result.get_row_num
  rw [if_neg h]
  rfl

theorem tuples_length (n : Nat) (hn : 0 < n) (table : List sid_t) :
    ∀ x ∈ tuples n table, x.length = n := by
  intro x hx
  simp only [tuples, List.mem_map, List.mem_range] at hx
  obtain ⟨i, hi, rfl⟩ := hx
  have h1 : i + 1 ≤ table.length / n := hi
  have h3 := (Nat.le_div_iff_mul_le hn).1 h1
  have h4 : (i + 1) * n = n * i + n := by ring
  simp only [List.length_take, List.length_drop]
  omega

theorem tuples_flatten (n : Nat) (hn : 0 < n) (L : List (List sid_t))
    (hL : ∀ x ∈ L, x.length = n) : tuples n L.flatten = L := by
  unfold tuples
  rw [length_flatten_const n L hL, Nat.mul_div_cancel _ hn]
  exact chunks_of_flatten n L hL

theorem binary_search_qsort (n : Nat) (hn : 0 < n) (table target : List sid_t) :
    binary_search_tuple n (qsort_tuple n table) target
      = decide (target ∈ tuples n table) := by
  unfold binary_search_tuple qsort_tuple
  rw [tuples_flatten n hn]
  · congr 1
    exact propext (List.perm_insertionSort _ _).mem_iff
  · intro x hx
    exact tuples_length n hn table x ((List.perm_insertionSort _ _).mem_iff.1 hx)

theorem corun_remote_loop (r : Result) (h2 : r.col_num = 2) (l : List Nat)
    (hl : ∀ i ∈ l, i < r.get_row_num) (acc : List (sid_t × sid_t)) :
    ∃ out, l.foldlM
        (fun (remote_set : List (sid_t × sid_t)) i => do
          let a ← r.get_row_col i 0
          let b ← r.get_row_col i 1
          pure (if (a, b) ∈ remote_set then remote_set else remote_set ++ [(a, b)]))
        acc = some out ∧
      ∀ p, p ∈ out ↔ p ∈ acc ∨ ∃ i ∈ l, p = ((r.row i).getD 0 0, (r.row i).getD 1 0) := by
  induction l generalizing acc with
  | nil => exact ⟨acc, rfl, by simp⟩
  | cons i l ih =>
    have hi := hl i (List.mem_cons_self _ _)
    have ha := get_row_col_row r i 0 hi (by omega)
    have hb := get_row_col_row r i 1 hi (by omega)
    simp only [Nat.cast_zero, Nat.cast_one] at ha hb
    obtain ⟨out, hout, hmem⟩ := ih (fun j hj => hl j (List.mem_cons_of_mem _ hj))
      (if ((r.row i).getD 0 0, (r.row i).getD 1 0) ∈ acc then acc
       else acc ++ [((r.row i).getD 0 0, (r.row i).getD 1 0)])
    refine ⟨out, ?_, ?_⟩
    · rw [List.foldlM_cons, ha, hb]
      simp only [Option.bind_eq_bind, Option.some_bind, Option.pure_def]
      exact hout
    · intro p
      rw [hmem p]
      by_cases hin : ((r.row i).getD 0 0, (r.row i).getD 1 0) ∈ acc
      · rw [if_pos hin]
        simp only [List.mem_cons, exists_eq_or_imp]
        constructor
        · rintro (h | h)
          · exact Or.inl h
          · exact Or.inr (Or.inr h)
        · rintro (h | h | h)
          · exact Or.inl h
          · exact Or.inl (h ▸ hin)
          · exact Or.inr h
      · rw [if_neg hin]
        simp only [List.mem_append, List.mem_singleton, List.mem_cons, exists_eq_or_imp]
        tauto

theorem pair_of_length_two (x : List sid_t) (h : x.length = 2) :
    x = [x.getD 0 0, x.getD 1 0] := by
  match x, h with
  | [a, b], _ => rfl

theorem corun_remote_set_eq (r : Result) (h2 : r.col_num = 2) :
    ∃ out, corun_remote_set r = some out ∧
      ∀ a b, (a, b) ∈ out ↔ [a, b] ∈ r.rows := by
  obtain ⟨out, hout, hmem⟩ := corun_remote_loop r h2 (List.range r.get_row_num)
    (fun i hi => List.mem_range.1 hi) []
  refine ⟨out, hout, ?_⟩
  intro a b
  rw [hmem (a, b)]
  simp only [List.not_mem_nil, false_or, List.mem_range, Result.rows, List.mem_map]
  constructor
  · rintro ⟨i, hi, hp⟩
    refine ⟨i, hi, ?_⟩
    have hlen : (r.row i).length = 2 := by rw [row_length r i hi, h2]
    rw [pair_of_length_two (r.row i) hlen]
    simp only [Prod.mk.injEq] at hp
    rw [hp.1, hp.2]
  · rintro ⟨i, hi, hp⟩
    refine ⟨i, hi, ?_⟩
    rw [hp]
    rfl

theorem corun_join_eq (r : Result) (pvars_map : List Int) (sub : Result)
    (hb : ∀ c ∈ pvars_map, 0 ≤ c ∧ c < (r.col_num : Int))
    (hcols : sub.col_num = pvars_map.length) (h2 : 2 ≤ sub.col_num) :
    corun_join r pvars_map sub
      = some (r.rows.filter
          (fun row => decide (corun_tuple pvars_map row ∈ sub.rows))).flatten := by
  unfold corun_join
  by_cases hgt : sub.get_col_num > 2
  · rw [if_pos hgt]
    have hn : 0 < sub.col_num := by omega
    obtain ⟨tmp2, _, hloop⟩ := corun_rows_loop r sub.col_num
      (fun row => decide (corun_tuple pvars_map row ∈ sub.rows))
      (fun (st : List sid_t × List sid_t) i => do
        let tmp_vec ← corun_fill r pvars_map i st.1
        if binary_search_tuple sub.get_col_num
            (qsort_tuple sub.get_col_num sub.result_table) tmp_vec then
          (r.append_row_to i st.2).map (fun upd => (tmp_vec, upd))
        else pure (tmp_vec, st.2))
      (by
        intro tmp upd i hi ht
        refine ⟨corun_tuple pvars_map (r.row i), by simp [corun_tuple, hcols], ?_⟩
        simp only [Option.bind_eq_bind, Option.pure_def]
        rw [corun_fill_eq r pvars_map i hi hb tmp (by omega), Option.some_bind]
        unfold Result.get_col_num
        rw [binary_search_qsort sub.col_num hn, tuples_eq_rows sub (by omega),
          append_row_to_eq r i hi]
        by_cases hin : corun_tuple pvars_map (r.row i) ∈ sub.rows
        · simp [hin]
        · simp [hin])
      (List.range r.get_row_num) (fun i hi => List.mem_range.1 hi)
      (List.replicate sub.col_num 0) [] (by simp)
    simp only [Option.bind_eq_bind, Option.pure_def] at hloop ⊢
    unfold Result.get_col_num at hloop ⊢
    rw [hloop]
    simp [Result.rows]
  · rw [if_neg hgt]
    have hc2 : sub.col_num = 2 := by
      unfold Result.get_col_num at hgt
      omega
    obtain ⟨rs, hrs, hmem⟩ := corun_remote_set_eq sub hc2
    obtain ⟨tmp2, _, hloop⟩ := corun_rows_loop r sub.col_num
      (fun row => decide (corun_tuple pvars_map row ∈ sub.rows))
      (fun (st : List sid_t × List sid_t) i => do
        let tmp_vec ← corun_fill r pvars_map i st.1
        let a ← tmp_vec[0]?
        let b ← tmp_vec[1]?
        if (a, b) ∈ rs then
          (r.append_row_to i st.2).map (fun upd => (tmp_vec, upd))
        else pure (tmp_vec, st.2))
      (by
        intro tmp upd i hi ht
        have hlen : (corun_tuple pvars_map (r.row i)).length = 2 := by
          simp [corun_tuple]
          omega
        refine ⟨corun_tuple pvars_map (r.row i), by omega, ?_⟩
        simp only [Option.bind_eq_bind, Option.pure_def]
        rw [corun_fill_eq r pvars_map i hi hb tmp (by omega), Option.some_bind]
        have hpair := pair_of_length_two _ hlen
        have h0 : (corun_tuple pvars_map (r.row i))[0]?
            = some ((corun_tuple pvars_map (r.row i)).getD 0 0) := by
          rw [List.getD_eq_getElem?_getD, List.getElem?_eq_getElem (by omega)]
          rfl
        have h1 : (corun_tuple pvars_map (r.row i))[1]?
            = some ((corun_tuple pvars_map (r.row i)).getD 1 0) := by
          rw [List.getD_eq_getElem?_getD, List.getElem?_eq_getElem (by omega)]
          rfl
        rw [h0, Option.some_bind, h1, Option.some_bind, append_row_to_eq r i hi]
        have hiff := hmem ((corun_tuple pvars_map (r.row i)).getD 0 0)
          ((corun_tuple pvars_map (r.row i)).getD 1 0)
        rw [← hpair] at hiff
        by_cases hin : corun_tuple pvars_map (r.row i) ∈ sub.rows
        · simp only [decide_eq_true_eq, if_pos hin, if_pos (hiff.2 hin), Option.map_some']
        · have hnot : ¬ ((corun_tuple pvars_map (r.row i)).getD 0 0,
              (corun_tuple pvars_map (r.row i)).getD 1 0) ∈ rs := fun h => hin (hiff.1 h)
          simp only [decide_eq_true_eq, if_neg hin, if_neg hnot])
      (List.range r.get_row_num) (fun i hi => List.mem_range.1 hi)
      (List.replicate sub.col_num 0) [] (by simp)
    rw [hrs]
    simp only [Option.bind_eq_bind, Option.some_bind, Option.pure_def] at hloop ⊢
    unfold Result.get_col_num
    rw [hloop]
    simp [Result.rows]


/-- The semi-join of `do_corun` for two and more co-run variables, relative to the
run of the sub-query.  Take a query whose co-run range starts at a pattern with
a variable subject bound to column `k`, whose co-run variables are all bound to
columns of the main result, and suppose the run of the sub-query returns `sub`
within the bound on its iterations, with one column per co-run variable, at
least two.  Then `do_corun` returns: the sub-query was seeded with a single
column that holds the values of the anchor column, each once; the step is
`fetch_step`; the column count and the variable map are those of the input; and
the rows are the input rows, in their order, whose tuple in the columns of the
co-run variables is a row of `sub`. -/
theorem do_corun_semijoin (e : Engine) (VERSATILE : Bool) (sfi : SPARQLQuery → Bool)
    (unordered : List sid_t → List sid_t) (fuel n : Nat) (req : SPARQLQuery)
    (pat : Pattern) (k : Nat) (sub : SPARQLQuery)
    (hpat : req.fetch_step ≤ req.pattern_group.patterns.length)
    (hp : req.get_pattern req.corun_step = some pat) (hvid : pat.subject < 0)
    (hcol : req.result.var2col pat.subject = (k : Int)) (hk : k < req.result.col_num)
    (hb : ∀ c ∈ corun_pvars_map req, 0 ≤ c ∧ c < (req.result.col_num : Int))
    (hperm : ∀ l, (unordered l).Perm l)
    (hsub : (corun_sub_req unordered req).bind (corun_loop e VERSATILE sfi fuel n) = some sub)
    (hcols : sub.result.col_num = (corun_pvars_map req).length)
    (h2 : 2 ≤ sub.result.col_num) :
    ∃ sub_req out,
      corun_sub_req unordered req = some sub_req ∧
      corun_loop e VERSATILE sfi fuel n sub_req = some sub ∧
      sub_req.result.col_num = 1 ∧
      sub_req.result.result_table.Nodup ∧
      (∀ v, v ∈ sub_req.result.result_table
        ↔ v ∈ req.result.rows.map (fun row => row.getD k 0)) ∧
      do_corun e VERSATILE sfi unordered fuel n req = some out ∧
      out.step = req.fetch_step ∧
      out.result.col_num = req.result.col_num ∧
      out.result.v2c_map = req.result.v2c_map ∧
      out.result.rows = req.result.rows.filter
        (fun row => decide (corun_tuple (corun_pvars_map req) row ∈ sub.result.rows)) := by
  obtain ⟨st, hst⟩ := corun_patterns_some req hpat
  have hu := corun_unique_eq req pat k hp hvid hcol hk
  obtain ⟨sub_req, hsr, htab, hc1⟩ : ∃ sub_req, corun_sub_req unordered req = some sub_req ∧
      sub_req.result.result_table
        = unordered (distinct_values (req.result.rows.map (fun row => row.getD k 0))) ∧
      sub_req.result.col_num = 1 := by
    simp only [corun_sub_req, hu, hp, hst, Option.bind_eq_bind, Option.some_bind,
      Option.pure_def]
    exact ⟨_, rfl, rfl, rfl⟩
  rw [hsr, Option.some_bind] at hsub
  have hjoin := corun_join_eq req.result (corun_pvars_map req) sub.result hb hcols h2
  refine ⟨sub_req,
    { req with result := { req.result with
        result_table := (req.result.rows.filter
          (fun row => decide (corun_tuple (corun_pvars_map req) row
            ∈ sub.result.rows))).flatten },
               step := req.fetch_step },
    hsr, hsub, hc1, ?_, ?_, ?_, rfl, rfl, rfl, ?_⟩
  · rw [htab]
    exact (hperm _).nodup_iff.2 (distinct_values_nodup _)
  · intro v
    rw [htab, (hperm _).mem_iff, distinct_values_mem]
  · unfold do_corun
    rw [hsr]
    simp only [Option.bind_eq_bind, Option.some_bind, Option.pure_def]
    rw [hsub, Option.some_bind, hjoin]
    rfl
  · exact rows_of_flatten
      ({ req.result with result_table := (req.result.rows.filter (fun row => decide (corun_tuple (corun_pvars_map req) row ∈ sub.result.rows))).flatten } : Result)
      req.result.col_num
      (req.result.rows.filter
        (fun row => decide (corun_tuple (corun_pvars_map req) row ∈ sub.result.rows)))
      (by omega)
      (fun x hx => rows_length req.result x (List.mem_of_mem_filter hx)) rfl rfl

/-- The semi-join on the sample query with the co-run range `(?x, 100, OUT, ?y)`: of
the rows (11,12), (12,11), (10,12) the first and the last are edges of the
sample graph and stay. -/
theorem do_corun_semijoin_example :
    ∃ out, do_corun demo_engine false (fun _ => false) id 2 2 demo_corun_pair = some out ∧
      out.step = 2 ∧ out.result.col_num = 2 ∧
      out.result.rows = [[11, 12], [10, 12]] := by
  obtain ⟨_, out, _, _, _, _, _, hout, hstep, hcn, _, hrows⟩ :=
    do_corun_semijoin demo_engine false (fun _ => false) id 2 2 demo_corun_pair demo_pat2 0
      (((corun_sub_req id demo_corun_pair).bind
        (corun_loop demo_engine false (fun _ => false) 2 2)).getD {})
      (by decide) (by decide) (by decide) (by decide) (by decide) (by decide)
      (fun l => List.Perm.refl l) (by rfl) (by decide) (by decide)
  refine ⟨out, hout, hstep, hcn, ?_⟩
  rw [hrows]
  decide

/-- C33. The sample query over the rows 10, 11 and 12 has the co-run range
`(?x, 100, OUT, 12)`: `corun_step < fetch_step`, and the one co-run variable `?x`
is bound to column 0 of the main result.  The sub-query is seeded with the
distinct values 10, 11, 12 of the anchor column, runs locally and returns the
single column with the rows 10 and 11, so the rows 10 and 11 of the main result
are the ones whose value occurs in it.  `do_corun` does not leave them: with a
sub-result of one column it takes the join on pairs and stops on a read
outside its tables. -/
theorem do_corun_one_variable :
    demo_corun_single.corun_step < demo_corun_single.fetch_step ∧
    demo_corun_single.get_pattern demo_corun_single.corun_step = some demo_pat3 ∧
    valid_col demo_corun_single.result demo_pat3.subject = true ∧
    corun_pvars_map demo_corun_single = [0] ∧
    (corun_sub_req id demo_corun_single).map
      (fun q => (q.result.col_num, q.result.result_table)) = some (1, [10, 11, 12]) ∧
    ((corun_sub_req id demo_corun_single).bind
        (corun_loop demo_engine false (fun _ => false) 2 2)).map
      (fun q => (q.result.col_num, q.result.rows)) = some (1, [[10], [11]]) ∧
    demo_corun_single.result.rows.filter
      (fun row => decide (corun_tuple [0] row ∈ [[10], [11]])) = [[10], [11]] ∧
    (do_corun demo_engine false (fun _ => false) id 2 2 demo_corun_single).isNone = true := by
  refine ⟨by decide, by decide, by decide, by decide, by decide, by decide, by decide,
    by decide⟩

/-- The co-run over three variables on the sample graph: the sub-query returns the
one row (10,11,12), the sorted search is used, and of the rows (10,11,12) and
(11,12,10) the first one stays. -/
theorem do_corun_example :
    (do_corun demo_engine false (fun _ => false) id 2 2 demo_corun_triple).map
      (fun q => (q.step, q.result.col_num, q.result.result_table))
      = some (3, 3, [10, 11, 12]) := by
  decide

/-- C39. The sample query over the rows 11 and 12 with the co-run range
`(?x, 100, OUT, 12)`, which binds no new variable.  The sub-query has the one
column of `?x` and returns the single row 11 in a result of one column.  The
column count is not above 2, so `do_corun` takes the hash join: for row 0 of
the sub-result it reads the columns 0 and 1, and column 1 is outside the
table; the lookup tuple is sized to the one column and is read at the indices 0
and 1 as well.  The join and with it `do_corun` stop there. -/
theorem do_corun_single_column :
    corun_pvars_map demo_corun_single2 = [0] ∧
    ((corun_sub_req id demo_corun_single2).bind
        (corun_loop demo_engine false (fun _ => false) 2 2)).map
      (fun q => (q.result.get_col_num, q.result.get_row_num, q.result.result_table))
      = some (1, 1, [11]) ∧
    (({ col_num := 1, result_table := [11] } : Result).get_row_col 0 0 = some 11 ∧
     ({ col_num := 1, result_table := [11] } : Result).get_row_col 0 1 = none) ∧
    corun_remote_set { col_num := 1, result_table := [11] } = none ∧
    (corun_fill demo_corun_single2.result [0] 0 (List.replicate 1 0) = some [11] ∧
     ([11] : List sid_t)[1]? = none) ∧
    corun_join demo_corun_single2.result [0] { col_num := 1, result_table := [11] } = none ∧
    corun_join demo_corun_single2.result [0] { col_num := 1, result_table := [] } = none ∧
    (do_corun demo_engine false (fun _ => false) id 2 2 demo_corun_single2).isNone = true := by
  refine ⟨by decide, by decide, ⟨by decide, by decide⟩, by decide, ⟨by decide, by decide⟩,
    by decide, by decide, by decide⟩

end Wukong
